import Mathlib

/-!
The ubond packet bonding engine.

A shallow embedding of the TCP substream (`socks.c`), the reorder buffer
(`reorder.c`) and the loss / resend code (`ubond.c`).

Conventions.
* Machine integers are `Nat`, reduced with an explicit `%` where the C type
  wraps (`uint16_t` fields: `% 65536`, `uint64_t`: `% 2 ^ 64`).
* A tail queue is a `List`, index 0 being the queue head
  (`UBOND_TAILQ_INSERT_HEAD` is `::`, `UBOND_TAILQ_INSERT_TAIL` appends).
* Pointers to packets are modelled by the packet value; a pointer to a stream
  is modelled by the stream's `preset_flow_id` (assigned once per allocation).
  A packet that the code links in two queues (`sent` and `send_buffer`, `sent`
  and `hpsend_buffer`, a queue and the resend ring) is one value in each. The
  fields `data_seq`, `type`, `flow_id`, `len` and `data` are written before the
  packet is queued and never again, so both values agree on them. A field
  written through one link afterwards (`ack_seq` by `stamp`; `tun_seq`,
  `sent_loss` and `sending` by `ubond_rtun_send`) changes in that queue only:
  the value in the other queue keeps the old content, where the code would
  show the new one.
* Logging, libev event feeding and the byte accounting of
  `ubond_buffer_write` (`bandwidthdata`) leave no trace in the model.
-/

namespace Ubond

/-! ## Data model -/

/-- Packet types of `pkt.h` (the header is not part of the sources, only the
names used by the code are); `UNKNOWN` stands for any other wire value. -/
inductive pkt_type where
  | UBOND_PKT_AUTH
  | UBOND_PKT_AUTH_OK
  | UBOND_PKT_KEEPALIVE
  | UBOND_PKT_DATA
  | UBOND_PKT_DATA_RESEND
  | UBOND_PKT_DISCONNECT
  | UBOND_PKT_RESEND
  | UBOND_PKT_TCP_OPEN
  | UBOND_PKT_TCP_CLOSE
  | UBOND_PKT_TCP_DATA
  | UBOND_PKT_TCP_ACK
  | UNKNOWN (code : Nat)
  deriving DecidableEq, Repr

open pkt_type

/-- Wire part of a packet (`ubond_proto_t`, reached as `pkt->p`). The
timestamp fields are left out. -/
structure ubond_proto_t where
  type : pkt_type
  len : Nat
  flow_id : Nat
  data_seq : Nat
  tun_seq : Nat
  ack_seq : Nat
  data : List Nat
  sent_loss : Nat := 0
  deriving DecidableEq, Repr

/-- Packet buffer (`ubond_pkt_t`): the wire part and the bookkeeping fields the
code reads or writes. -/
structure ubond_pkt_t where
  p : ubond_proto_t
  stream : Option Nat
  sent : Nat
  sending : Bool
  last_sent : Nat
  usecnt : Nat
  deriving DecidableEq, Repr

/-- TCP substream (`stream_t`). The three watcher fields record whether the
libev watcher is active. -/
structure stream_t where
  preset_flow_id : Nat
  fd : Nat
  flow_id : Nat
  data_seq : Nat
  sending : Nat
  seq_to_ack : Nat
  next_seq : Nat
  stall : Bool
  sent : List ubond_pkt_t
  received : List ubond_pkt_t
  draining : List ubond_pkt_t
  io_read : Bool
  io_write : Bool
  resend_timer : Bool
  deriving DecidableEq, Repr

/-- Process globals used by the stream and tunnel code. The `float`
`max_size_outoforder` is the exact ratio `moo_num / moo_den`; `now64` is
`ubond_timestamp64(ev_now())` and `fullrtt64` is `fullrtt() * 1000`. -/
structure env_t where
  send_buffer : List ubond_pkt_t
  send_buffer_max : Nat
  hpsend_buffer : List ubond_pkt_t
  hpsend_buffer_max : Nat
  paused : Bool
  moo_num : Nat
  moo_den : Nat
  out_resends : Nat
  now64 : Nat
  fullrtt64 : Nat
  deriving DecidableEq, Repr

/-- The list of active streams together with the globals. -/
structure world_t where
  active : List stream_t
  env : env_t
  deriving DecidableEq, Repr

def TCP_MAX_OUTSTANDING : Nat := 1024

/-! ## socks.c -/

/-- The cast `(int16_t) x` of an `int` value. -/
def int16_t (x : Int) : Int := (x + 32768) % 65536 - 32768

/-- Source `aolderb(a, b)`: `((int16_t)(b - a)) > 0`. -/
def aolderb (a b : Nat) : Bool := decide (0 < int16_t ((b : Int) - (a : Int)))

/-- Source `aoldereqb(a, b)`: `((int16_t)(b - a)) >= 0`. -/
def aoldereqb (a b : Nat) : Bool := decide (0 ≤ int16_t ((b : Int) - (a : Int)))

/-- Source `ubond_pkt_get`: a buffer from the pool, owner pointers cleared. The stale
contents of a recycled buffer are modelled as zero. -/
def ubond_pkt_get : ubond_pkt_t :=
  { p := { type := UBOND_PKT_AUTH, len := 0, flow_id := 0, data_seq := 0, tun_seq := 0,
           ack_seq := 0, data := [] },
    stream := none, sent := 0, sending := false, last_sent := 0, usecnt := 0 }

/-- Source `ubond_buffer_write`: `UBOND_TAILQ_INSERT_HEAD`. -/
def ubond_buffer_write (buffer : List ubond_pkt_t) (p : ubond_pkt_t) : List ubond_pkt_t :=
  p :: buffer

/-- Source `ubond_pkt_list_is_full`. -/
def ubond_pkt_list_is_full (buffer : List ubond_pkt_t) (max_size : Nat) : Bool :=
  decide (max_size ≤ buffer.length)

/-- The test `n > max_size_outoforder`. -/
def gt_moo (e : env_t) (n : Nat) : Bool := decide (e.moo_num < n * e.moo_den)

/-- The test `n > (max_size_outoforder * 2)`. -/
def gt_moo2 (e : env_t) (n : Nat) : Bool := decide (2 * e.moo_num < n * e.moo_den)

/-- Source `ubond_stream_get`: a fresh stream for socket `fd`. `preset` is the identity
the allocation carries (`preset_flow_id`). -/
def ubond_stream_get (preset fd : Nat) : stream_t :=
  { preset_flow_id := preset, fd := fd, flow_id := 0, data_seq := 0, sending := 0,
    seq_to_ack := 0, next_seq := 0, stall := false, sent := [], received := [],
    draining := [], io_read := false, io_write := false, resend_timer := false }

/-- Source `ubond_stream_close`, the part acting on the stream itself: watchers
stopped, the three queues released. Removal from `active` is done by the caller
of the model (see `ubond_stream_write`). -/
def ubond_stream_close (s : stream_t) : stream_t :=
  { s with io_read := false, io_write := false, sent := [], received := [], draining := [] }

/-- The loop of `stamp`: walking `send_buffer` from its tail, the first packet
of type TCP_DATA or TCP_ACK gets `ack_seq`. The argument is the buffer in
reverse (tail first); the result is again in reverse, `none` when the loop ends
without a hit. -/
def stamp_scan (ack : Nat) : List ubond_pkt_t → Option (List ubond_pkt_t)
  | [] => none
  | l :: rest =>
    if l.p.type = UBOND_PKT_TCP_DATA ∨ l.p.type = UBOND_PKT_TCP_ACK then
      some ({ l with p := { l.p with ack_seq := ack } } :: rest)
    else
      (stamp_scan ack rest).map (fun r => l :: r)

/-- The first half of `resend`: retransmit the head of `sent` when the list is
longer than twice `max_size_outoforder` and the head is idle for more than a
full round trip. -/
def resend_head (s : stream_t) (e : env_t) : stream_t × env_t :=
  if gt_moo2 e s.sent.length then
    match s.sent with
    | [] => (s, e)
    | l :: rest =>
      if !l.sending ∧ e.fullrtt64 < (e.now64 + 2 ^ 64 - l.last_sent) % 2 ^ 64 then
        let l1 := { l with last_sent := e.now64, sending := true, usecnt := l.usecnt + 1 }
        ({ s with sent := l1 :: rest, sending := s.sending + 1 },
         { e with hpsend_buffer := ubond_buffer_write e.hpsend_buffer l1 })
      else (s, e)
  else (s, e)

/-- Source `resend`, with the call to `stamp` passed in. -/
def resend_with (stampK : stream_t → env_t → stream_t × env_t) (s : stream_t) (e : env_t) :
    stream_t × env_t :=
  if ubond_pkt_list_is_full e.hpsend_buffer e.hpsend_buffer_max then (s, e)
  else
    let r := resend_head s e
    if gt_moo r.2 r.1.received.length then stampK r.1 r.2 else r

/-- Source `send_pkt_tun`, with the call to `stamp` (reached through `resend`) passed
in. The code links the one packet both in `s->sent` and in `send_buffer`; here
each queue gets the value `pkt1`. What `stamp` later writes to the `ack_seq` of
the packet in `send_buffer` does not show in `sent`, so of a packet in `sent`
only `data_seq`, `type`, `flow_id`, `len` and `data` are those of the code. -/
def send_pkt_tun_with (stampK : stream_t → env_t → stream_t × env_t) (s : stream_t) (e : env_t)
    (pkt : ubond_pkt_t) (type : pkt_type) : stream_t × env_t :=
  let seq := if type = UBOND_PKT_TCP_ACK then 0 else s.data_seq
  let s1 := if type = UBOND_PKT_TCP_ACK then s else { s with data_seq := (s.data_seq + 1) % 65536 }
  let pkt1 : ubond_pkt_t :=
    { pkt with
      stream := some s.preset_flow_id,
      p := { pkt.p with data_seq := seq, flow_id := s.flow_id, type := type,
                        ack_seq := s.seq_to_ack },
      sending := true }
  let s2 := { s1 with sending := s1.sending + 1 }
  let s3 :=
    if type = UBOND_PKT_TCP_ACK then s2
    else
      let s2a := { s2 with sent := s2.sent ++ [pkt1] }
      if TCP_MAX_OUTSTANDING ≤ s2a.sent.length then { s2a with io_read := false } else s2a
  let e1 := { e with send_buffer := ubond_buffer_write e.send_buffer pkt1 }
  let r := resend_with stampK s3 e1
  ({ r.1 with resend_timer := true }, r.2)

/-- Source `stamp`, the recursion `stamp → send_pkt_tun → resend → stamp` unfolded
`fuel` levels deep. Two levels are always enough (`stampF_fuel`): the inner
call finds the TCP_ACK just queued. The packet stamped in `send_buffer` may be
linked in the `sent` list of a stream as well (of `s` or of another stream);
the write to its `ack_seq` is made in `send_buffer` only, and the stream is
returned with its `sent` list as it was. -/
def stampF : Nat → stream_t → env_t → stream_t × env_t
  | 0, s, e => (s, e)
  | fuel + 1, s, e =>
    if s.stall then (s, e)
    else
      match stamp_scan s.seq_to_ack e.send_buffer.reverse with
      | some r => (s, { e with send_buffer := r.reverse })
      | none =>
        send_pkt_tun_with (stampF fuel) s e { ubond_pkt_get with p := { ubond_pkt_get.p with len := 0 } }
          UBOND_PKT_TCP_ACK

/-- Source `stamp`. -/
def stamp (s : stream_t) (e : env_t) : stream_t × env_t := stampF 2 s e

/-- Source `resend`. -/
def resend (s : stream_t) (e : env_t) : stream_t × env_t := resend_with stamp s e

/-- Source `send_pkt_tun`. -/
def send_pkt_tun (s : stream_t) (e : env_t) (pkt : ubond_pkt_t) (type : pkt_type) :
    stream_t × env_t :=
  send_pkt_tun_with stamp s e pkt type

/-- How the loop over `sent` in `ubond_stream_write` ended. -/
inductive ack_exit where
  | emptied
  | closed
  | matched
  | stopped
  deriving DecidableEq, Repr

/-- The loop "check off the things from the sent queue": heads of `sent` whose
`data_seq` is older than or equal to `ack_seq` are removed, until the list is
empty (`emptied`), a TCP_CLOSE was removed (`closed`), the packet carrying
exactly `ack_seq` was removed (`matched`), or the head is not acknowledged
(`stopped`). Returns the remaining list, the number `acks` of removed packets
and the exit. -/
def ack_sent (ack_seq : Nat) : List ubond_pkt_t → Nat → List ubond_pkt_t × Nat × ack_exit
  | [], acks => ([], acks, ack_exit.emptied)
  | l :: rest, acks =>
    if aoldereqb l.p.data_seq ack_seq then
      if l.p.type = UBOND_PKT_TCP_CLOSE then (rest, acks + 1, ack_exit.closed)
      else if l.p.data_seq = ack_seq then (rest, acks + 1, ack_exit.matched)
      else ack_sent ack_seq rest (acks + 1)
    else (l :: rest, acks, ack_exit.stopped)

/-- The `UBOND_TAILQ_FOREACH_REVERSE` loop over `received`. `rev` holds the
elements not yet visited, nearest to the tail first; `after` holds the visited
ones in queue order. `none`: a packet with the same `data_seq` is queued
(replicated packet). Otherwise the new queue: on `break` the packet goes before
`TAILQ_NEXT(l)`, i.e. right after `l`; when the loop runs off the head `l` is
NULL and the packet is appended. -/
def received_scan (pkt : ubond_pkt_t) :
    List ubond_pkt_t → List ubond_pkt_t → Option (List ubond_pkt_t)
  | [], after => some (after ++ [pkt])
  | l :: rev, after =>
    if pkt.p.data_seq = l.p.data_seq then none
    else if aolderb l.p.data_seq pkt.p.data_seq then some (rev.reverse ++ l :: pkt :: after)
    else received_scan pkt rev (l :: after)

/-- The step "now insert in the received queue": `none` when the packet is dropped as an
unnecessary resend, else the queue with the packet inserted. -/
def received_insert (next_seq : Nat) (pkt : ubond_pkt_t) (received : List ubond_pkt_t) :
    Option (List ubond_pkt_t) :=
  if aolderb pkt.p.data_seq next_seq then none
  else
    match received with
    | [] => some [pkt]
    | l :: rest =>
      if pkt.p.data_seq = l.p.data_seq then none
      else if !aolderb pkt.p.data_seq l.p.data_seq then received_scan pkt (l :: rest).reverse []
      else some (pkt :: l :: rest)

/-- The drain loop: while the head of `received` carries `next_seq` it is
removed, `seq_to_ack` and `next_seq` advance, and the packet is appended to
`draining` when it has a payload. A TCP_CLOSE closes the stream and leaves the
loop. The list argument is `s.received`; the result carries the count `drained`
and whether the stream was closed. -/
def drain (s : stream_t) (drained : Nat) : List ubond_pkt_t → stream_t × Nat × Bool
  | [] => ({ s with received := [] }, drained, false)
  | l :: rest =>
    if l.p.data_seq = s.next_seq then
      let s1 := { s with received := rest, seq_to_ack := l.p.data_seq,
                         next_seq := (l.p.data_seq + 1) % 65536 }
      if l.p.type = UBOND_PKT_TCP_CLOSE then (ubond_stream_close s1, drained + 1, true)
      else if 0 < l.p.len then
        drain { s1 with draining := s1.draining ++ [{ l with sent := 0 }] } (drained + 1) rest
      else drain s1 drained rest
    else ({ s with received := l :: rest }, drained, false)

/-- The tail of `ubond_stream_write`, from the comment "drain" on. -/
def stream_write_drain (s : stream_t) (e : env_t) (closed : Bool) : stream_t × env_t × Bool :=
  let d := drain s 0 s.received
  let s1 := if d.2.1 ≠ 0 then { d.1 with io_write := true } else d.1
  let s2 := if 1000 < s1.draining.length then { s1 with stall := true } else s1
  let r := if d.2.1 ≠ 0 ∨ gt_moo e s2.received.length then stamp s2 e else (s2, e)
  (r.1, r.2, closed || d.2.2)

/-- The head of `ubond_stream_write`, up to the restart of the read watcher:
the loop over `sent` for the acknowledged sequence number `ack_seq`, with
`ubond_stream_close` when a TCP_CLOSE was acknowledged and `resend` when the
head of `sent` is not acknowledged. The result carries whether the stream was
closed. -/
def stream_write_acks (s : stream_t) (e : env_t) (ack_seq : Nat) : stream_t × env_t × Bool :=
  let a := ack_sent ack_seq s.sent 0
  let s1 := { s with sent := a.1 }
  let r1 : stream_t × env_t × Bool :=
    match a.2.2 with
    | ack_exit.closed => (ubond_stream_close s1, e, true)
    | ack_exit.stopped =>
      if a.2.1 = 0 then ((resend s1 e).1, (resend s1 e).2, false) else (s1, e, false)
    | _ => (s1, e, false)
  let s2 :=
    if r1.1.sent.length < TCP_MAX_OUTSTANDING ∧ !r1.2.1.paused then { r1.1 with io_read := true }
    else r1.1
  (s2, r1.2.1, r1.2.2)

/-- The middle of `ubond_stream_write` for a packet that is not a TCP_ACK: the
packet is dropped as an unnecessary resend (`stamp`, then `return`), or queued
in `received`, after which the queue is drained. -/
def stream_write_rx (s : stream_t) (e : env_t) (closed : Bool) (pkt : ubond_pkt_t) :
    stream_t × env_t × Bool :=
  match received_insert s.next_seq pkt s.received with
  | none => ((stamp s e).1, (stamp s e).2, closed)
  | some q => stream_write_drain { s with received := q } e closed

/-- The body of `ubond_stream_write` once `find` has returned the stream `s`.
The result carries the stream, the globals and whether `ubond_stream_close` ran
(the code goes on using the released stream after a close in the first loop,
and so does the model). -/
def stream_write_body (s : stream_t) (e : env_t) (pkt0 : ubond_pkt_t) :
    stream_t × env_t × Bool :=
  let pkt := { pkt0 with stream := some s.preset_flow_id }
  let r := stream_write_acks s e pkt.p.ack_seq
  if pkt.p.type ≠ UBOND_PKT_TCP_ACK then stream_write_rx r.1 r.2.1 r.2.2 pkt
  else stream_write_drain r.1 r.2.1 r.2.2

/-- Source `find`: the position in `active` of the first stream with the packet's
flow id; NULL for flow id 0. -/
def find_flow : List stream_t → Nat → Option Nat
  | [], _ => none
  | l :: rest, f => if l.flow_id = f then some 0 else (find_flow rest f).map (fun i => i + 1)

/-- Source `find`. -/
def find (active : List stream_t) (pkt : ubond_pkt_t) : Option Nat :=
  if pkt.p.flow_id = 0 then none else find_flow active pkt.p.flow_id

/-- Source `ubond_stream_write`: packets of no active stream are released; otherwise
the body runs on the stream found, which is written back, or unlinked from
`active` when it was closed (`UBOND_TAILQ_REMOVE(&active, s)`). -/
def ubond_stream_write (w : world_t) (pkt : ubond_pkt_t) : world_t :=
  match find w.active pkt with
  | none => w
  | some i =>
    match w.active.get? i with
    | none => w
    | some s =>
      let r := stream_write_body s w.env pkt
      { active := if r.2.2 then w.active.eraseIdx i else w.active.set i r.1, env := r.2.1 }

/-! ## reorder.c -/

def MAX_REORDERBUF : Nat := 1024

def MIN_REORDERBUF : Nat := 20

/-- The reorder buffer (`struct ubond_reorder_buffer`); `buffer i = none` is a
NULL slot. -/
structure ubond_reorder_buffer where
  next : Nat
  buffer : Nat → Option ubond_pkt_t
  size : Int
  waiting_since : Nat

/-- The reorder buffer together with the packets handed to
`ubond_rtun_inject_tuntap` so far, oldest first. -/
structure reorder_state where
  rb : ubond_reorder_buffer
  tuntap : List ubond_pkt_t

/-- Source `ubond_reorder_reset`: the buffer zeroed by `memset`. -/
def ubond_reorder_reset : ubond_reorder_buffer :=
  { next := 0, buffer := fun _ => none, size := 0, waiting_since := 0 }

/-- Source `max_size()`: `max_size_outoforder` clamped to
`[MIN_REORDERBUF, MAX_REORDERBUF]` and truncated to `int`. -/
def max_size (e : env_t) : Int :=
  if e.moo_num < MIN_REORDERBUF * e.moo_den then MIN_REORDERBUF
  else if MAX_REORDERBUF * e.moo_den < e.moo_num then MAX_REORDERBUF
  else ((e.moo_num / e.moo_den : Nat) : Int)

/-- The loop condition of `deliver`. -/
def deliver_cond (ms : Int) (rb : ubond_reorder_buffer) : Bool :=
  (decide (rb.size ≠ 0) && (rb.buffer rb.next).isSome) || decide (ms ≤ rb.size)

/-- One pass through the body of the loop of `deliver`. -/
def deliver_step (st : reorder_state) : reorder_state :=
  { rb := { st.rb with buffer := Function.update st.rb.buffer st.rb.next none,
                       next := (st.rb.next + 1) % MAX_REORDERBUF,
                       size := st.rb.size - 1 },
    tuntap := match st.rb.buffer st.rb.next with
              | some pkt => st.tuntap ++ [pkt]
              | none => st.tuntap }

/-- The loop of `deliver`, at most `fuel` passes. -/
def deliver_loop (ms : Int) : Nat → reorder_state → reorder_state
  | 0, st => st
  | fuel + 1, st => if deliver_cond ms st.rb then deliver_loop ms fuel (deliver_step st) else st

/-- A bound on the number of passes of `deliver`: every pass either empties one
of the `MAX_REORDERBUF` slots or lowers a `size` that is at least
`max_size()`. -/
def deliver_fuel (ms : Int) (rb : ubond_reorder_buffer) : Nat :=
  MAX_REORDERBUF + (rb.size - ms + 1).toNat

/-- Source `deliver`. -/
def deliver (e : env_t) (st : reorder_state) : reorder_state :=
  deliver_loop (max_size e) (deliver_fuel (max_size e) st.rb) st

/-- Source `ubond_reorder_insert`; `now` is `ev_now()`. `none` is the `fatalx` exit
taken for a packet with a flow id. -/
def ubond_reorder_insert (e : env_t) (now : Nat) (st : reorder_state) (pkt : ubond_pkt_t) :
    Option reorder_state :=
  if pkt.p.flow_id ≠ 0 then none
  else if pkt.p.data_seq = 0 then some { st with tuntap := st.tuntap ++ [pkt] }
  else if (st.rb.buffer (pkt.p.data_seq % MAX_REORDERBUF)).isSome then
    some { st with tuntap := st.tuntap ++ [pkt] }
  else
    let st1 : reorder_state :=
      { st with rb := { st.rb with
          buffer := Function.update st.rb.buffer (pkt.p.data_seq % MAX_REORDERBUF) (some pkt),
          size := st.rb.size + 1 } }
    let st2 := deliver e st1
    some { st2 with rb := { st2.rb with waiting_since := if st2.rb.size ≠ 0 then now else 0 } }

/-- A run of `ubond_reorder_insert` over the packets of a list, in order. -/
def reorder_insert_all (e : env_t) (now : Nat) :
    reorder_state → List ubond_pkt_t → Option reorder_state
  | st, [] => some st
  | st, pkt :: rest =>
    match ubond_reorder_insert e now st pkt with
    | none => none
    | some st1 => reorder_insert_all e now st1 rest

/-! ## ubond.c -/

/-- Tunnel states, in the order of the enumeration (`status >= UBOND_AUTHOK`
holds for `UBOND_AUTHOK` and `UBOND_LOSSY`). -/
inductive tun_status where
  | UBOND_DISCONNECTED
  | UBOND_AUTHSENT
  | UBOND_AUTHOK
  | UBOND_LOSSY
  deriving DecidableEq, Repr

open tun_status

/-- The test `status >= UBOND_AUTHOK`. -/
def status_ge_authok (st : tun_status) : Bool :=
  match st with
  | UBOND_AUTHOK => true
  | UBOND_LOSSY => true
  | _ => false

/-- The fields of `ubond_tunnel_t` used by the loss and resend code.
`old_pkts i = none` is a NULL ring slot. The `ev_tstamp` field `last_activity`
(seconds) and the `double` field `srtt_av` (milliseconds) are modelled by
rationals. -/
structure ubond_tunnel_t where
  id : Nat
  status : tun_status
  seq : Nat
  seq_last : Nat
  seq_vect : Nat
  loss : Int
  sent_loss : Nat
  old_pkts : Nat → Option ubond_pkt_t
  last_activity : ℚ := 0
  srtt_av : ℚ := 0

/-- Source `count_1s` on a `uint64_t`. -/
def count_1s (b : Nat) : Nat :=
  let b1 := (b + 2 ^ 64 - ((b >>> 1) &&& 0x5555555555555555)) % 2 ^ 64
  let b2 := (((b1 >>> 2) &&& 0x3333333333333333) + (b1 &&& 0x3333333333333333)) % 2 ^ 64
  let b3 := (((b2 >>> 4) + b2) % 2 ^ 64) &&& 0x0F0F0F0F0F0F0F0F
  let b4 := (b3 * 0x0101010101010101) % 2 ^ 64
  b4 >>> 56

/-- The cast `(int64_t) x` of an unsigned 64-bit value. -/
def int64_t (x : Nat) : Int := ((x : Int) + 2 ^ 63) % 2 ^ 64 - 2 ^ 63

/-- The cast `(uint64_t) x` of a signed value. -/
def uint64_t (x : Int) : Nat := (x % 2 ^ 64).toNat

/-- The shift `x >> k` on an `int64_t`: arithmetic, that is the floor of
`x / 2 ^ k`. -/
def sar (x : Int) (k : Nat) : Int := x / 2 ^ k

/-- The shift `x << k` on a `uint64_t`. For `k >= 64` C leaves the result
undefined; the model takes the mathematical shift, truncated. -/
def shl64 (x k : Nat) : Nat := (x <<< k) % 2 ^ 64

/-- The payload of a RESEND request (`struct resend_data`): the letters R and S
and three 16-bit fields in network byte order. -/
def resend_payload (seqn tun_id len : Nat) : List Nat :=
  [82, 83, seqn / 256 % 256, seqn % 256, tun_id / 256 % 256, tun_id % 256,
   len / 256 % 256, len % 256]

/-- A RESEND request as read by the receiver (`be16toh` applied). -/
structure resend_data where
  seqn : Nat
  tun_id : Nat
  len : Nat
  deriving DecidableEq, Repr

/-- Source `ubond_rtun_request_resend`. -/
def ubond_rtun_request_resend (loss_tun : ubond_tunnel_t) (e : env_t) (tun_seqn len : Nat) :
    env_t :=
  let pkt : ubond_pkt_t :=
    { ubond_pkt_get with
      p := { ubond_pkt_get.p with data := resend_payload tun_seqn loss_tun.id len, len := 8,
                                  type := UBOND_PKT_RESEND } }
  { e with out_resends := (e.out_resends + len) % 2 ^ 64,
           hpsend_buffer := ubond_buffer_write e.hpsend_buffer pkt }

/-- Source `ubond_loss_update`. -/
def ubond_loss_update (tun : ubond_tunnel_t) (e : env_t) (seq : Nat) : ubond_tunnel_t × env_t :=
  if tun.seq_last + 64 ≤ seq then
    ({ tun with seq_vect := 2 ^ 64 - 1, seq_last := seq, loss := 0 }, e)
  else
    let vect :=
      if tun.seq_last < seq then (shl64 tun.seq_vect (seq - tun.seq_last) ||| 1) % 2 ^ 64
      else (tun.seq_vect ||| shl64 1 (tun.seq_last - seq)) % 2 ^ 64
    let v : Int := int64_t (vect ||| 0x8000000000000000)
    let tun1 := { tun with seq_vect := vect, loss := 64 - (count_1s (uint64_t (sar v 2)) : Int),
                           seq_last := seq }
    if vect &&& 8 ≠ 0 then
      (tun1, ubond_rtun_request_resend tun1 e ((seq + 65536 - 3) % 65536) 1)
    else (tun1, e)

/-- Source `is_tcp`: a DATA or DATA_RESEND packet whose payload byte 9 (the IP
protocol number) is 6. -/
def is_tcp (pkt : ubond_pkt_t) : Bool :=
  (decide (pkt.p.type = UBOND_PKT_DATA) || decide (pkt.p.type = UBOND_PKT_DATA_RESEND))
    && decide (pkt.p.data.get? 9 = some 6)

/-- Source `ubond_find_tun`: the position in `rtuns` of the first tunnel with this
id. -/
def ubond_find_tun : List ubond_tunnel_t → Nat → Option Nat
  | [], _ => none
  | t :: rest, id => if t.id = id then some 0 else (ubond_find_tun rest id).map (fun i => i + 1)

/-- One pass through the body of the loop of `ubond_rtun_resend`, for the
sequence number `seqn`. `R` is `RESENDBUFSIZE` (defined in a header that is not
part of the sources). -/
def resend_step (R : Nat) (seqn : Nat) (st : ubond_tunnel_t × env_t) : ubond_tunnel_t × env_t :=
  match st.1.old_pkts (seqn % R) with
  | some old_pkt =>
    if old_pkt.p.tun_seq = seqn then
      if old_pkt.p.type ≠ UBOND_PKT_DATA ∨ is_tcp old_pkt then
        let queued : ubond_pkt_t :=
          if old_pkt.p.type = UBOND_PKT_DATA then
            { old_pkt with p := { old_pkt.p with type := UBOND_PKT_DATA_RESEND } }
          else old_pkt
        ({ st.1 with old_pkts := Function.update st.1.old_pkts (seqn % R) none },
         { st.2 with hpsend_buffer := ubond_buffer_write st.2.hpsend_buffer queued })
      else st
    else st
  | none => st

/-- The loop `for (int i = 0; i < len; i++)` of `ubond_rtun_resend`: `n` passes
are left, the next one has index `i`. -/
def resend_loop (R : Nat) (seqn_base : Nat) :
    Nat → Nat → ubond_tunnel_t × env_t → ubond_tunnel_t × env_t
  | 0, _, st => st
  | n + 1, i, st => resend_loop R seqn_base n (i + 1) (resend_step R ((seqn_base + i) % 65536) st)

/-- Source `ubond_rtun_resend` on the tunnel found by `ubond_find_tun`. -/
def rtun_resend_tun (R : Nat) (loss_tun : ubond_tunnel_t) (e : env_t) (d : resend_data) :
    ubond_tunnel_t × env_t :=
  let t1 :=
    if R / 4 < d.len ∧ status_ge_authok loss_tun.status then
      { loss_tun with status := UBOND_LOSSY, sent_loss := 100 }
    else loss_tun
  resend_loop R d.seqn d.len 0 (t1, e)

/-- Source `ubond_rtun_resend`. -/
def ubond_rtun_resend (R : Nat) (rtuns : List ubond_tunnel_t) (e : env_t) (d : resend_data) :
    List ubond_tunnel_t × env_t :=
  match ubond_find_tun rtuns d.tun_id with
  | none => (rtuns, e)
  | some i =>
    match rtuns.get? i with
    | none => (rtuns, e)
    | some loss_tun =>
      let r := rtun_resend_tun R loss_tun e d
      (rtuns.set i r.1, r.2)

/-- What `ubond_rtun_read` does with a validated packet. -/
inductive rtun_action where
  | reorder_insert
  | keepalive
  | disconnect
  | resend
  | socks_init
  | stream_write
  | send_auth
  | nothing
  | unknown_release
  | auth_challenge
  | ignore_release
  deriving DecidableEq, Repr

/-- The dispatch at the end of `ubond_rtun_read`: the `switch` on the packet
type for an authenticated tunnel, the challenge handling otherwise. -/
def rtun_dispatch (status : tun_status) (type : pkt_type) : rtun_action :=
  if status_ge_authok status then
    match type with
    | UBOND_PKT_DATA => rtun_action.reorder_insert
    | UBOND_PKT_DATA_RESEND => rtun_action.reorder_insert
    | UBOND_PKT_KEEPALIVE => rtun_action.keepalive
    | UBOND_PKT_DISCONNECT => rtun_action.disconnect
    | UBOND_PKT_RESEND => rtun_action.resend
    | UBOND_PKT_TCP_OPEN => rtun_action.socks_init
    | UBOND_PKT_TCP_CLOSE => rtun_action.stream_write
    | UBOND_PKT_TCP_DATA => rtun_action.stream_write
    | UBOND_PKT_AUTH => rtun_action.send_auth
    | UBOND_PKT_AUTH_OK => rtun_action.nothing
    | _ => rtun_action.unknown_release
  else if type = UBOND_PKT_AUTH ∨ type = UBOND_PKT_AUTH_OK then rtun_action.auth_challenge
  else rtun_action.ignore_release

/-- The effect of `ubond_rtun_read` on the TCP substreams for one validated
packet: only the `stream_write` action touches them. -/
def rtun_read_streams (status : tun_status) (w : world_t) (pkt : ubond_pkt_t) : world_t :=
  match rtun_dispatch status pkt.p.type with
  | rtun_action.stream_write => ubond_stream_write w pkt
  | _ => w

/-! ## ubond.c: sending, validation and the periodic check -/

/-- The constant `LOSS_TOLERENCE` (`50.0`). -/
def LOSS_TOLERENCE : Nat := 50

/-- Source `ubond_rtun_status_down`, on the fields of the model: the tunnel is marked
disconnected, its loss is set to 64 and a resend of `RESENDBUFSIZE` packets
from `seq_last` on is requested (both arguments are `uint16_t`). The queues
`sbuf` and `hpsbuf` of the tunnel, the scripts and the weights are not part of
the model. `R` is `RESENDBUFSIZE`. -/
def ubond_rtun_status_down (R : Nat) (t : ubond_tunnel_t) (e : env_t) : ubond_tunnel_t × env_t :=
  let t1 := { t with status := UBOND_DISCONNECTED, loss := 64 }
  (t1, ubond_rtun_request_resend t1 e (t1.seq_last % 65536) (R % 65536))

/-- What `sendto` returned in `ubond_rtun_send`: the number of bytes written, or
`-1` with `errno` being `EAGAIN` / `EWOULDBLOCK` (`again`) or another error
(`failed`). -/
inductive sendto_result where
  | written (ret : Nat)
  | again
  | failed
  deriving DecidableEq, Repr

/-- Source `ubond_rtun_send`. `R` is `RESENDBUFSIZE`; the counter `tun->seq` is an unsigned
integer of `seq_bits` bits (its declaration is in a header that is not part of
the sources). The packet is reached through a pointer, so the ring slot shows
every write the function makes to it (`tun_seq`, `sent_loss`, and `sending`
cleared by `tcp_sent`). The counter `sending` of the owning stream, the
timestamps and the byte counters are not part of the model. Returns the
tunnel, the globals and the value `ret`. -/
def ubond_rtun_send (R seq_bits : Nat) (tun : ubond_tunnel_t) (e : env_t) (pkt : ubond_pkt_t)
    (res : sendto_result) : ubond_tunnel_t × env_t × Int :=
  let pkt1 : ubond_pkt_t :=
    { pkt with p := { pkt.p with tun_seq := tun.seq % 65536, sent_loss := tun.loss.toNat } }
  let tun1 := { tun with seq := (tun.seq + 1) % 2 ^ seq_bits }
  match res with
  | sendto_result.written ret =>
    let pkt2 := if pkt1.stream.isSome then { pkt1 with sending := false } else pkt1
    ({ tun1 with old_pkts := Function.update tun.old_pkts (tun.seq % R) (some pkt2) }, e, ret)
  | sendto_result.again =>
    let tun2 := { tun1 with old_pkts := Function.update tun.old_pkts (tun.seq % R) (some pkt1) }
    ((ubond_rtun_status_down R tun2 e).1, (ubond_rtun_status_down R tun2 e).2, -1)
  | sendto_result.failed =>
    let tun2 := { tun1 with old_pkts := Function.update tun.old_pkts (tun.seq % R) (some pkt1) }
    if pkt.p.type ≠ UBOND_PKT_AUTH then
      ((ubond_rtun_status_down R tun2 e).1, (ubond_rtun_status_down R tun2 e).2, -1)
    else (tun2, e, -1)

/-- Source `ubond_protocol_read`. `wire_len` is `pkt->len`, the length `recvfrom`
returned; `hdr` is `PKTHDRSIZ(pkt->p)`, `pkt_size` is `sizeof(*pkt)` and
`data_size` is `sizeof(proto->data)` (the three come from headers that are not
part of the sources). Returns the value `ret` (0, or -1 at `fail`), the tunnel
and the globals. The counter `pkts_cnt`, the weights and the round trip
bookkeeping are not part of the model. -/
def ubond_protocol_read (hdr pkt_size data_size : Nat) (tun : ubond_tunnel_t) (e : env_t)
    (wire_len : Nat) (pkt : ubond_pkt_t) : Int × ubond_tunnel_t × env_t :=
  if pkt_size < wire_len ∨ wire_len < hdr then (-1, tun, e)
  else if data_size < pkt.p.len then (-1, tun, e)
  else
    let r := ubond_loss_update tun e pkt.p.tun_seq
    (0, { r.1 with sent_loss := pkt.p.sent_loss }, r.2)

/-- How one pass of the loop of `ubond_rtun_read` ends for a datagram that was
read (`len > 0`): in `fatalx` because `tun->addrinfo` is NULL, in the `return`
taken for a foreign sender on an authenticated tunnel, or in the dispatch. -/
inductive rtun_read_exit where
  | fatal_addrinfo
  | rejected
  | dispatched (a : rtun_action)
  deriving DecidableEq, Repr

/-- One pass of the loop of `ubond_rtun_read` for a datagram of `wire_len > 0` bytes
that `recvfrom` has stored in `pkt`. `addrinfo` tells whether `tun->addrinfo`
is set, `addr_match` whether the sender address is the one of the tunnel. A
packet that fails `ubond_protocol_read` is released, after which the code goes
on with it (the `break` and the `return` after the release are commented
out). -/
def ubond_rtun_read_pkt (R hdr pkt_size data_size : Nat) (addrinfo addr_match : Bool)
    (tun : ubond_tunnel_t) (e : env_t) (wire_len : Nat) (pkt : ubond_pkt_t) :
    ubond_tunnel_t × env_t × rtun_read_exit :=
  let v := ubond_protocol_read hdr pkt_size data_size tun e wire_len pkt
  if !addrinfo then (v.2.1, v.2.2, rtun_read_exit.fatal_addrinfo)
  else if !addr_match ∧ status_ge_authok v.2.1.status then
    ((ubond_rtun_status_down R v.2.1 v.2.2).1, (ubond_rtun_status_down R v.2.1 v.2.2).2,
     rtun_read_exit.rejected)
  else
    (v.2.1, v.2.2, rtun_read_exit.dispatched (rtun_dispatch v.2.1.status pkt.p.type))

/-! ## ubond.c: shift counts of the loss vector -/

/-- The shift count that `ubond_loss_update` applies to a 64-bit value for the
incoming `seq`: none in the reconnect branch, `seq - seq_last` in
`tun->seq_vect <<= seq - tun->seq_last`, and `seq_last - seq` in
`1ull << (tun->seq_last - seq)`. -/
def loss_shift_count (tun : ubond_tunnel_t) (seq : Nat) : Option Nat :=
  if tun.seq_last + 64 ≤ seq then none
  else if tun.seq_last < seq then some (seq - tun.seq_last)
  else some (tun.seq_last - seq)

/-! ## socks.c: the resend timer and the read watchers -/

/-- Source `resend_timer`, the callback of the per-stream timer: the timer is stopped
when `sent` is empty, then `resend` runs. The new period `fullrtt()` of the
timer is not part of the model. -/
def resend_timer (s : stream_t) (e : env_t) : stream_t × env_t :=
  resend (if s.sent.length = 0 then { s with resend_timer := false } else s) e

/-- Source `activate_streams`. `watermark` is `ubond_pkt_list_is_full_watermark` (it is
defined in a header that is not part of the sources). -/
def activate_streams (watermark : List ubond_pkt_t → Bool) (w : world_t) : world_t :=
  if w.env.paused = false ∨ watermark w.env.send_buffer = true then w
  else
    { active := w.active.map
        (fun l => if l.sent.length < TCP_MAX_OUTSTANDING then { l with io_read := true } else l),
      env := { w.env with paused := false } }

/-! ## reorder.c: the timeout tick -/

/-- The constant `REORDER_TIMEOUT` (`0.1`, in seconds). -/
def REORDER_TIMEOUT : ℚ := 1 / 10

/-- The loop "skip" of `ubond_reorder_tick`: the cursor advances while the slot
under it is empty. At most `fuel` tests of the loop condition are made; `none`
when they are used up with the loop still running. -/
def tick_skip : Nat → ubond_reorder_buffer → Option ubond_reorder_buffer
  | 0, _ => none
  | fuel + 1, rb =>
    if (rb.buffer rb.next).isNone then
      tick_skip fuel { rb with next := (rb.next + 1) % MAX_REORDERBUF }
    else some rb

/-- Source `ubond_reorder_tick`; `now` is `ev_now()`. `none` when the skip loop does not
end within `MAX_REORDERBUF` tests. -/
def ubond_reorder_tick (e : env_t) (now : Nat) (st : reorder_state) : Option reorder_state :=
  if st.rb.size ≠ 0 ∧ st.rb.waiting_since ≠ 0
      ∧ REORDER_TIMEOUT < (now : ℚ) - (st.rb.waiting_since : ℚ) then
    match tick_skip MAX_REORDERBUF st.rb with
    | none => none
    | some rb1 => some (deliver e { st with rb := rb1 })
  else some st

/-- The states of the reorder buffer reachable from `ubond_reorder_reset` by calls of
`ubond_reorder_insert` and `ubond_reorder_tick` that return, for any clock values and
any value of `max_size_outoforder` (a ratio with a non-zero denominator) at
each call. -/
inductive reorder_reachable : reorder_state → Prop where
  | reset (out : List ubond_pkt_t) : reorder_reachable { rb := ubond_reorder_reset, tuntap := out }
  | insert (e : env_t) (now : Nat) (st st1 : reorder_state) (pkt : ubond_pkt_t) :
      reorder_reachable st → 0 < e.moo_den → ubond_reorder_insert e now st pkt = some st1 →
      reorder_reachable st1
  | tick (e : env_t) (now : Nat) (st st1 : reorder_state) :
      reorder_reachable st → 0 < e.moo_den → ubond_reorder_tick e now st = some st1 →
      reorder_reachable st1

/-! ## ubond.c: the receive path into the reorder buffer -/

/-- How one pass of the loop of `ubond_rtun_read` ends for a datagram that was
read (`len > 0`), the call of `ubond_reorder_insert` included: in
`fatalx("tun->addrinfo is NULL!")`; in the `return` taken for a foreign sender
on an authenticated tunnel; in `fatalx("Can not re-order TCP stream")` inside
`ubond_reorder_insert`; with `ubond_reorder_insert` returned and the reorder
buffer in state `st1`; or in a branch of the dispatch that does not call the
reorder buffer. -/
inductive rtun_read_end where
  | fatal_addrinfo
  | rejected
  | fatal_reorder
  | inserted (st1 : reorder_state)
  | other (a : rtun_action)

/-- One pass of the loop of `ubond_rtun_read`, as `ubond_rtun_read_pkt`, followed into the
`case UBOND_PKT_DATA: case UBOND_PKT_DATA_RESEND:` of the `switch`:
`ubond_rtun_tick(tun)` records `ev_now()` (`now`) in `last_activity`, then
`ubond_reorder_insert(tun, pkt)` runs on the reorder buffer `st`. -/
def ubond_rtun_read_data (R hdr pkt_size data_size : Nat) (addrinfo addr_match : Bool)
    (tun : ubond_tunnel_t) (e : env_t) (wire_len : Nat) (pkt : ubond_pkt_t) (now : Nat)
    (st : reorder_state) : ubond_tunnel_t × env_t × rtun_read_end :=
  let r := ubond_rtun_read_pkt R hdr pkt_size data_size addrinfo addr_match tun e wire_len pkt
  match r.2.2 with
  | rtun_read_exit.fatal_addrinfo => (r.1, r.2.1, rtun_read_end.fatal_addrinfo)
  | rtun_read_exit.rejected => (r.1, r.2.1, rtun_read_end.rejected)
  | rtun_read_exit.dispatched rtun_action.reorder_insert =>
    match ubond_reorder_insert r.2.1 now st pkt with
    | none => ({ r.1 with last_activity := (now : ℚ) }, r.2.1, rtun_read_end.fatal_reorder)
    | some st1 => ({ r.1 with last_activity := (now : ℚ) }, r.2.1, rtun_read_end.inserted st1)
  | rtun_read_exit.dispatched a => (r.1, r.2.1, rtun_read_end.other a)

/-! ## ubond.c: status and scheduling -/

/-- The tunnel `ubond_tunnel_t` with the fields read and written by the status and
scheduling code. `quota` and `fallback_only` are integers used as flags,
`permitted` is signed, `bandwidth_max` is an integer; the `double` fields
(`weight`, `srtt`, `srtt_min`, `bytes_per_sec`, the period of `send_timer`) are
modelled by rationals (every finite value of the type is one). The header that
declares the fields is not part of the sources: the types are those the uses
in `ubond.c` point to. -/
structure sched_tunnel_t extends ubond_tunnel_t where
  quota : Nat := 0
  permitted : Int := 0
  fallback_only : Nat := 0
  bandwidth_max : Nat := 0
  weight : ℚ := 0
  srtt : ℚ := 0
  srtt_min : ℚ := 0
  srtt_reductions : Nat := 0
  bytes_per_sec : ℚ := 0
  send_timer_repeat : ℚ := 0
  sbuf : List ubond_pkt_t := []
  hpsbuf : List ubond_pkt_t := []

/-- The fields of `ubond_status` used by the scheduling code. -/
structure ubond_status_s where
  fallback_mode : Nat
  connected : Nat
  deriving DecidableEq, Repr

/-- The constant `BANDWIDTHCALCTIME` (`0.1`). -/
def BANDWIDTHCALCTIME : ℚ := 1 / 10

/-- The loop of `ubond_update_status` over `rtuns`, on the locals `fb` and
`connected`. -/
def update_status_scan : List sched_tunnel_t → Nat × Nat → Nat × Nat
  | [], acc => acc
  | t :: rest, acc =>
    if t.status = UBOND_AUTHOK then
      update_status_scan rest (if t.fallback_only = 0 then 0 else acc.1, acc.2 + 1)
    else update_status_scan rest acc

/-- Source `ubond_update_status`; `fallback_available` is
`ubond_options.fallback_available`. -/
def ubond_update_status (fallback_available : Nat) (rtuns : List sched_tunnel_t)
    (st : ubond_status_s) : ubond_status_s :=
  let r := update_status_scan rtuns (fallback_available, 0)
  if st.fallback_mode ≠ r.1 ∨ st.connected ≠ r.2 then { fallback_mode := r.1, connected := r.2 }
  else st

/-- The choice of the packet in `ubond_rtun_choose`: the tail of `hpsend_buffer` when
it is not empty and the loss reported for the tunnel is at most a quarter of
`LOSS_TOLERENCE`, else the tail of `send_buffer`, else nothing. -/
def rtun_choose_pop (rtun : sched_tunnel_t) (e : env_t) : Option ubond_pkt_t × env_t :=
  if e.hpsend_buffer ≠ [] ∧ (rtun.sent_loss : ℚ) ≤ (LOSS_TOLERENCE : ℚ) / 4 then
    (e.hpsend_buffer.getLast?, { e with hpsend_buffer := e.hpsend_buffer.dropLast })
  else if e.send_buffer ≠ [] then
    (e.send_buffer.getLast?, { e with send_buffer := e.send_buffer.dropLast })
  else (none, e)

/-- Source `ubond_rtun_choose` for the tunnel at position `i` of `rtuns`. `mtu` is
`DEFAULT_MTU`; `filters` is `ubond_filters_choose` (it answers `none` when the
program is built without `HAVE_FILTERS` or no filter applies, else the position
of the tunnel the filter names). The watcher of the TUN device is not part of
the model. -/
def ubond_rtun_choose (mtu : Nat) (watermark : List ubond_pkt_t → Bool)
    (filters : ubond_pkt_t → Option Nat) (st : ubond_status_s) (rtuns : List sched_tunnel_t)
    (i : Nat) (w : world_t) : List sched_tunnel_t × world_t :=
  match rtuns.get? i with
  | none => (rtuns, w)
  | some rtun =>
    if rtun.status ≠ UBOND_AUTHOK then (rtuns, w)
    else if rtun.quota ≠ 0 ∧ rtun.permitted < (mtu : Int) * 2 then (rtuns, w)
    else if st.fallback_mode ≠ rtun.fallback_only then (rtuns, w)
    else
      match (rtun_choose_pop rtun w.env).1 with
      | none => (rtuns, w)
      | some spkt =>
        let w1 := activate_streams watermark { w with env := (rtun_choose_pop rtun w.env).2 }
        match filters spkt with
        | some j =>
          match rtuns.get? j with
          | some frtun => (rtuns.set j { frtun with hpsbuf := spkt :: frtun.hpsbuf }, w1)
          | none => (rtuns, w1)
        | none => (rtuns.set i { rtun with sbuf := spkt :: rtun.sbuf }, w1)

/-- The test `t->quota == 0 || t->permitted > (t->bandwidth_max * 128 *
BANDWIDTHCALCTIME)` of `ubond_rtun_recalc_weight`. -/
def recalc_quota_ok (t : sched_tunnel_t) : Bool :=
  decide (t.quota = 0)
    || decide ((t.bandwidth_max : ℚ) * 128 * BANDWIDTHCALCTIME < (t.permitted : ℚ))

/-- The test of the first and second loop of `ubond_rtun_recalc_weight`: the tunnel
takes part in the allocation. -/
def recalc_active (fallback_mode : Nat) (t : sched_tunnel_t) : Bool :=
  recalc_quota_ok t && decide (t.status = UBOND_AUTHOK) && decide (fallback_mode = t.fallback_only)

/-- The first loop of `ubond_rtun_recalc_weight` ("reset all tunnels"), on one tunnel. -/
def recalc_reset (fallback_mode : Nat) (bwneeded : ℚ) (t : sched_tunnel_t) : sched_tunnel_t :=
  if recalc_active fallback_mode t then { t with weight := bwneeded / 50 }
  else { t with weight := 0 }

/-- The local `total` after the first loop of `ubond_rtun_recalc_weight`. -/
def recalc_total (fallback_mode : Nat) : List sched_tunnel_t → ℚ
  | [] => 0
  | t :: rest =>
    (if recalc_active fallback_mode t then (t.bandwidth_max : ℚ) else 0)
      + recalc_total fallback_mode rest

/-- The local `part` of `ubond_rtun_recalc_weight` for one tunnel, with the new value of
`srtt_reductions`: the loss factor, floored at 0.2, then the round trip factor,
floored at 0.2 again. -/
def loss_part (t : sched_tunnel_t) : ℚ × Nat :=
  let lt : ℚ := (LOSS_TOLERENCE : ℚ) / 2
  let p1 : ℚ × Nat :=
    if lt ≤ (t.sent_loss : ℚ) then
      if 1 - ((t.sent_loss : ℚ) - lt) / lt ≤ 1 / 5 then (1 / 5, t.srtt_reductions + 1)
      else (1 - ((t.sent_loss : ℚ) - lt) / lt, t.srtt_reductions)
    else (1, t.srtt_reductions)
  if t.srtt_min * 2 < t.srtt then
    (if p1.1 * (t.srtt_min * 2 / t.srtt) ≤ 1 / 5 then 1 / 5 else p1.1 * (t.srtt_min * 2 / t.srtt),
     p1.2)
  else p1

/-- The second loop of `ubond_rtun_recalc_weight`, carrying the locals `bwneeded` and
`bwavailable`, in exact arithmetic: no operation rounds. The code computes on
values of type `double`; `recalc_alloc_fl` below follows it one rounded
operation at a time, and the two agree wherever every intermediate result is a
value of the type. -/
def recalc_alloc (fallback_mode : Nat) :
    List sched_tunnel_t → ℚ → ℚ → List sched_tunnel_t
  | [], _, _ => []
  | t :: rest, bwneeded, bwavailable =>
    if recalc_active fallback_mode t then
      let part := (loss_part t).1
      let bm : ℚ := (t.bandwidth_max : ℚ)
      let t1 := { t with srtt_reductions := (loss_part t).2 }
      let bw := bwneeded - bwavailable
      if 0 < bw then
        if t.quota ≠ 0 ∧ bw < bm * part then
          { t1 with weight := bw * part }
            :: recalc_alloc fallback_mode rest bwneeded (bwavailable + bw * part)
        else if bm * part < bw then
          { t1 with weight := bm * part }
            :: recalc_alloc fallback_mode rest (bwneeded + bm * (1 - part))
                (bwavailable + bm * part)
        else
          { t1 with weight := bw * part }
            :: recalc_alloc fallback_mode rest (bwneeded + bw * (1 - part))
                (bwavailable + bw * part)
      else t1 :: recalc_alloc fallback_mode rest bwneeded bwavailable
    else t :: recalc_alloc fallback_mode rest bwneeded bwavailable

/-- The third loop of `ubond_rtun_recalc_weight`, on one tunnel. `mtu` is `DEFAULT_MTU`,
`half_timeout` is the value of `UBOND_IO_TIMEOUT_DEFAULT / 2` (both come from
headers that are not part of the sources). -/
def recalc_rate (mtu : Nat) (half_timeout : ℚ) (t : sched_tunnel_t) : sched_tunnel_t :=
  if 0 < t.weight then { t with bytes_per_sec := t.weight * 128 }
  else { t with bytes_per_sec := ((mtu * 2 : Nat) : ℚ), send_timer_repeat := half_timeout }

/-- The local `bwneeded` of `ubond_rtun_recalc_weight` when the second loop starts.
`bandwidth` is the global of that name, `send_len` is `send_buffer.length`. -/
def recalc_demand (bandwidth : ℚ) (st : ubond_status_s) (send_len : Nat)
    (rtuns : List sched_tunnel_t) : ℚ :=
  let bw0 : ℚ := if bandwidth * 2 < 1000 then 1000 else bandwidth * 2
  let total := recalc_total st.fallback_mode rtuns
  let bw1 := if bw0 < total / 4 then total / 4 else bw0
  if rtuns.length * 2 < send_len then total else bw1

/-- Source `ubond_rtun_recalc_weight`, in exact arithmetic. With the rounding of the type
`double` after every operation the function is
`ubond_rtun_recalc_weight_fl to_double`, below. -/
def ubond_rtun_recalc_weight (mtu : Nat) (half_timeout bandwidth : ℚ) (st : ubond_status_s)
    (send_len : Nat) (rtuns : List sched_tunnel_t) : List sched_tunnel_t :=
  let bw0 : ℚ := if bandwidth * 2 < 1000 then 1000 else bandwidth * 2
  let l1 := rtuns.map (recalc_reset st.fallback_mode bw0)
  (recalc_alloc st.fallback_mode l1 (recalc_demand bandwidth st send_len rtuns) 0).map
    (recalc_rate mtu half_timeout)

/-! ## The type `double` -/

/-- The quotient `n / d` rounded to the nearest integer, a tie going to the even
neighbour. -/
def div_nearest_even (n d : Nat) : Nat :=
  if 2 * (n % d) < d then n / d
  else if d < 2 * (n % d) then n / d + 1
  else if (n / d) % 2 = 0 then n / d else n / d + 1

/-- The number of times `n` can be halved before it drops below 2, at most
`fuel` times. -/
def log2_steps : Nat → Nat → Nat
  | 0, _ => 0
  | fuel + 1, n => if 2 ≤ n then log2_steps fuel (n / 2) + 1 else 0

/-- The position of the leading bit of `n`: the `e` with `2 ^ e ≤ n < 2 ^ (e + 1)`
for a positive `n` (fewer than `n` halvings are needed). -/
def floor_log2 (n : Nat) : Nat := log2_steps n n

/-- The binary exponent of the quotient `n / d` of two positive integers: the
integer `e` with `2 ^ e ≤ n / d < 2 ^ (e + 1)`. The difference `k` of the
positions of the leading bits is `e` or `e + 1`. -/
def bin_exp (n d : Nat) : Int :=
  let k : Int := (floor_log2 n : Int) - (floor_log2 d : Int)
  if 0 ≤ k then (if d * 2 ^ k.toNat ≤ n then k else k - 1)
  else (if d ≤ n * 2 ^ (-k).toNat then k else k - 1)

/-- The value of type `double` (IEEE 754 binary64) nearest to the positive
quotient `n / d`, a tie going to the even significand: a multiple of
`2 ^ (e - 52)`, where `e` is the binary exponent of `n / d`, and of
`2 ^ (-1074)` below the normal range. -/
def to_double_abs (n d : Nat) : ℚ :=
  let s : Int := 52 - max (bin_exp n d) (-1022)
  if 0 ≤ s then
    ((div_nearest_even (n * 2 ^ s.toNat) d : Nat) : ℚ) / ((2 ^ s.toNat : Nat) : ℚ)
  else
    ((div_nearest_even n (d * 2 ^ (-s).toNat) : Nat) : ℚ) * ((2 ^ (-s).toNat : Nat) : ℚ)

/-- The rounding that ends every operation on values of type `double`, and the
conversion of an integer to `double`: the exact result `q` is replaced by the
nearest value of the type (round to nearest, ties to even). A result beyond
the largest finite `double` is an infinity on the machine; here the exponent
has no upper bound. -/
def to_double (q : ℚ) : ℚ :=
  if q = 0 then 0
  else if 0 < q then to_double_abs q.num.natAbs q.den
  else - to_double_abs q.num.natAbs q.den

/-! ## ubond.c: the weights, operation by operation

The functions of this section follow `ubond_rtun_recalc_weight` one arithmetic
operation at a time. `rnd` is the rounding applied to the exact result of each
operation on `double` values and to each conversion of an integer variable:
`to_double` on the machine, the identity in exact arithmetic (which gives the
functions `recalc_alloc`, `ubond_rtun_recalc_weight` above). Every operation is
rounded on its own (no fused multiply-add). The integer constants of the code
(1, 2, 4, 50, 128, 1000 and `LOSS_TOLERENCE / 2.0 = 25`) are values of the
type; the constants `0.2` and `BANDWIDTHCALCTIME` are rounded. -/

/-- The test `t->quota == 0 || t->permitted > (t->bandwidth_max * 128 *
BANDWIDTHCALCTIME)`: the integer product (taken without wrap) is converted and
multiplied by the constant `0.1`, and `permitted` is converted for the
comparison. -/
def recalc_quota_ok_fl (rnd : ℚ → ℚ) (t : sched_tunnel_t) : Bool :=
  decide (t.quota = 0)
    || decide (rnd (rnd ((t.bandwidth_max * 128 : Nat) : ℚ) * rnd BANDWIDTHCALCTIME)
        < rnd (t.permitted : ℚ))

/-- The test of the first and second loop: the tunnel takes part in the
allocation. -/
def recalc_active_fl (rnd : ℚ → ℚ) (fallback_mode : Nat) (t : sched_tunnel_t) : Bool :=
  recalc_quota_ok_fl rnd t && decide (t.status = UBOND_AUTHOK)
    && decide (fallback_mode = t.fallback_only)

/-- The first loop ("reset all tunnels"), on one tunnel: `t->weight = bwneeded /
50` or `t->weight = 0`. -/
def recalc_reset_fl (rnd : ℚ → ℚ) (fallback_mode : Nat) (bwneeded : ℚ) (t : sched_tunnel_t) :
    sched_tunnel_t :=
  if recalc_active_fl rnd fallback_mode t then { t with weight := rnd (bwneeded / 50) }
  else { t with weight := 0 }

/-- The local `total` of the first loop: `total += t->bandwidth_max` for each
tunnel that takes part, in list order, starting from the value `total`. -/
def recalc_total_fl (rnd : ℚ → ℚ) (fallback_mode : Nat) : List sched_tunnel_t → ℚ → ℚ
  | [], total => total
  | t :: rest, total =>
    recalc_total_fl rnd fallback_mode rest
      (if recalc_active_fl rnd fallback_mode t then rnd (total + rnd (t.bandwidth_max : ℚ))
       else total)

/-- The local `part` for one tunnel, with the new value of `srtt_reductions`:
`1.0 - (((double)t->sent_loss - lt) / lt)` when `sent_loss >= lt`, floored at
`0.2`, then `part *= (t->srtt_min * 2) / t->srtt` when `srtt > srtt_min * 2`,
floored at `0.2` again. -/
def loss_part_fl (rnd : ℚ → ℚ) (t : sched_tunnel_t) : ℚ × Nat :=
  let lt : ℚ := (LOSS_TOLERENCE : ℚ) / 2
  let p1 : ℚ × Nat :=
    if lt ≤ rnd (t.sent_loss : ℚ) then
      if rnd (1 - rnd (rnd (rnd (t.sent_loss : ℚ) - lt) / lt)) ≤ rnd (1 / 5) then
        (rnd (1 / 5), t.srtt_reductions + 1)
      else (rnd (1 - rnd (rnd (rnd (t.sent_loss : ℚ) - lt) / lt)), t.srtt_reductions)
    else (1, t.srtt_reductions)
  if rnd (t.srtt_min * 2) < t.srtt then
    (if rnd (p1.1 * rnd (rnd (t.srtt_min * 2) / t.srtt)) ≤ rnd (1 / 5) then rnd (1 / 5)
     else rnd (p1.1 * rnd (rnd (t.srtt_min * 2) / t.srtt)),
     p1.2)
  else p1

/-- The second loop, carrying the locals `bwneeded` and `bwavailable`. -/
def recalc_alloc_fl (rnd : ℚ → ℚ) (fallback_mode : Nat) :
    List sched_tunnel_t → ℚ → ℚ → List sched_tunnel_t
  | [], _, _ => []
  | t :: rest, bwneeded, bwavailable =>
    if recalc_active_fl rnd fallback_mode t then
      let part := (loss_part_fl rnd t).1
      let bm : ℚ := rnd (t.bandwidth_max : ℚ)
      let t1 := { t with srtt_reductions := (loss_part_fl rnd t).2 }
      let bw := rnd (bwneeded - bwavailable)
      if 0 < bw then
        if t.quota ≠ 0 ∧ bw < rnd (bm * part) then
          { t1 with weight := rnd (bw * part) }
            :: recalc_alloc_fl rnd fallback_mode rest bwneeded
                (rnd (bwavailable + rnd (bw * part)))
        else if rnd (bm * part) < bw then
          { t1 with weight := rnd (bm * part) }
            :: recalc_alloc_fl rnd fallback_mode rest
                (rnd (bwneeded + rnd (bm * rnd (1 - part))))
                (rnd (bwavailable + rnd (bm * part)))
        else
          { t1 with weight := rnd (bw * part) }
            :: recalc_alloc_fl rnd fallback_mode rest
                (rnd (bwneeded + rnd (bw * rnd (1 - part))))
                (rnd (bwavailable + rnd (bw * part)))
      else t1 :: recalc_alloc_fl rnd fallback_mode rest bwneeded bwavailable
    else t :: recalc_alloc_fl rnd fallback_mode rest bwneeded bwavailable

/-- The third loop, on one tunnel: `t->bytes_per_sec = t->weight * 128.0` when the
weight is positive, `DEFAULT_MTU * 2` otherwise. `mtu` is `DEFAULT_MTU`,
`half_timeout` is the value of `UBOND_IO_TIMEOUT_DEFAULT / 2`. -/
def recalc_rate_fl (rnd : ℚ → ℚ) (mtu : Nat) (half_timeout : ℚ) (t : sched_tunnel_t) :
    sched_tunnel_t :=
  if 0 < t.weight then { t with bytes_per_sec := rnd (t.weight * 128) }
  else { t with bytes_per_sec := ((mtu * 2 : Nat) : ℚ), send_timer_repeat := half_timeout }

/-- The local `bwneeded` before the first loop: `bandwidth * 2`, at least 1000. -/
def recalc_bw0_fl (rnd : ℚ → ℚ) (bandwidth : ℚ) : ℚ :=
  if rnd (bandwidth * 2) < 1000 then 1000 else rnd (bandwidth * 2)

/-- The local `bwneeded` when the second loop starts. `bandwidth` is the global of
that name, `send_len` is `send_buffer.length`. -/
def recalc_demand_fl (rnd : ℚ → ℚ) (bandwidth : ℚ) (st : ubond_status_s) (send_len : Nat)
    (rtuns : List sched_tunnel_t) : ℚ :=
  let bw0 := recalc_bw0_fl rnd bandwidth
  let total := recalc_total_fl rnd st.fallback_mode rtuns 0
  let bw1 := if bw0 < rnd (total / 4) then rnd (total / 4) else bw0
  if rtuns.length * 2 < send_len then total else bw1

/-- Source `ubond_rtun_recalc_weight`, operation by operation. -/
def ubond_rtun_recalc_weight_fl (rnd : ℚ → ℚ) (mtu : Nat) (half_timeout bandwidth : ℚ)
    (st : ubond_status_s) (send_len : Nat) (rtuns : List sched_tunnel_t) :
    List sched_tunnel_t :=
  let l1 := rtuns.map (recalc_reset_fl rnd st.fallback_mode (recalc_bw0_fl rnd bandwidth))
  (recalc_alloc_fl rnd st.fallback_mode l1 (recalc_demand_fl rnd bandwidth st send_len rtuns)
      0).map
    (recalc_rate_fl rnd mtu half_timeout)

/-! ## Definitions used to state the properties -/

/-- Mask made of `n` fields of width `w` bits (`B = 2 ^ w`), each holding `c`. -/
def field_mask (B c : Nat) : Nat → Nat
  | 0 => 0
  | n + 1 => B * field_mask B c n + c

/-- Sum of the `n` low digits of `x` in base `B`. -/
def digit_sum (B : Nat) : Nat → Nat → Nat
  | 0, _ => 0
  | n + 1, x => x % B + digit_sum B n (x / B)

/-- The population count of a 64-bit value: the sum of its 64 binary digits. -/
def popcount (n : Nat) : Nat := digit_sum 2 64 n

/-- Pairwise sums: every base-`B*B` digit `B*h + l` of `x` becomes `h + l`. -/
def pair_sums (B : Nat) : Nat → Nat → Nat
  | 0, _ => 0
  | n + 1, x => (x % (B * B) / B + x % B) + B * B * pair_sums B n (x / (B * B))

/-- Every one of the `n` low base-`B` digits of `y` is at most `c`. -/
def digits_le (B c : Nat) : Nat → Nat → Prop
  | 0, _ => True
  | n + 1, y => y % B ≤ c ∧ digits_le B c n (y / B)

/-- A tunnel with an empty resend ring, used for concrete evaluations. -/
def tun_example (seq_last seq_vect : Nat) : ubond_tunnel_t :=
  { id := 5, status := UBOND_AUTHOK, seq := 0, seq_last := seq_last, seq_vect := seq_vect,
    loss := 0, sent_loss := 0, old_pkts := fun _ => none }

/-- Globals with empty send queues, used for concrete evaluations. -/
def env_example : env_t :=
  { send_buffer := [], send_buffer_max := 1024, hpsend_buffer := [], hpsend_buffer_max := 1024,
    paused := false, moo_num := 20, moo_den := 1, out_resends := 0, now64 := 0,
    fullrtt64 := 250 }

/-- The packet `ubond_rtun_resend` queues for the sequence number `seqn` when
the ring is `ring`: the packet of slot `seqn % R` if it carries `tun_seq = seqn`
and is not a DATA packet with a non-TCP payload (a DATA packet is queued as
DATA_RESEND); nothing otherwise. -/
def resend_hit (R : Nat) (ring : Nat → Option ubond_pkt_t) (seqn : Nat) : Option ubond_pkt_t :=
  match ring (seqn % R) with
  | some old_pkt =>
    if old_pkt.p.tun_seq = seqn ∧ (old_pkt.p.type ≠ UBOND_PKT_DATA ∨ is_tcp old_pkt) then
      some (if old_pkt.p.type = UBOND_PKT_DATA then
              { old_pkt with p := { old_pkt.p with type := UBOND_PKT_DATA_RESEND } }
            else old_pkt)
    else none
  | none => none

/-- The packets queued for the `n` sequence numbers `seqn_base + i`,
`seqn_base + i + 1`, ... (modulo `2 ^ 16`), in request order. -/
def resend_hits (R : Nat) (ring : Nat → Option ubond_pkt_t) (seqn_base : Nat) (i n : Nat) :
    List ubond_pkt_t :=
  (List.range' i n).filterMap (fun j => resend_hit R ring ((seqn_base + j) % 65536))

/-- A keepalive packet that was sent with `tun_seq = 5`. -/
def keepalive_example : ubond_pkt_t :=
  { ubond_pkt_get with p := { ubond_pkt_get.p with type := UBOND_PKT_KEEPALIVE, tun_seq := 5 } }

/-- A tunnel whose resend ring holds `keepalive_example` in slot 5. -/
def tun_ring_example : ubond_tunnel_t :=
  { tun_example 0 0 with old_pkts := fun i => if i = 5 then some keepalive_example else none }

/-- A substream packet with a payload of `len` zero bytes. -/
def tcp_pkt (type : pkt_type) (flow_id data_seq ack_seq len : Nat) : ubond_pkt_t :=
  { ubond_pkt_get with
    p := { type := type, len := len, flow_id := flow_id, data_seq := data_seq, tun_seq := 0,
           ack_seq := ack_seq, data := List.replicate len 0 } }

/-- Whether the loop of `stamp` stops at this packet. -/
def stamp_hit (l : ubond_pkt_t) : Prop :=
  l.p.type = UBOND_PKT_TCP_DATA ∨ l.p.type = UBOND_PKT_TCP_ACK

instance (l : ubond_pkt_t) : Decidable (stamp_hit l) :=
  inferInstanceAs (Decidable (l.p.type = UBOND_PKT_TCP_DATA ∨ l.p.type = UBOND_PKT_TCP_ACK))

/-- The bare TCP_ACK `stamp` hands to `send_pkt_tun` for the stream `s`, as it
is queued. -/
def bare_ack (s : stream_t) : ubond_pkt_t :=
  { ubond_pkt_get with
    stream := some s.preset_flow_id,
    p := { ubond_pkt_get.p with len := 0, data_seq := 0, flow_id := s.flow_id,
                                type := UBOND_PKT_TCP_ACK, ack_seq := s.seq_to_ack },
    sending := true }

/-- The fields of a stream that the receive path of `ubond_stream_write`
maintains, with the wire part of the packets awaiting an ACK. -/
def rx_view (s : stream_t) :
    Nat × Nat × Nat × Nat × List ubond_pkt_t × List ubond_pkt_t × Bool × List ubond_proto_t :=
  (s.flow_id, s.preset_flow_id, s.next_seq, s.seq_to_ack, s.received, s.draining, s.stall,
   s.sent.map (fun x => x.p))

/-- A stream as `on_accept_cb` sets it up: fresh from `ubond_stream_get`, with
its flow id assigned. -/
def stream_example : stream_t := { ubond_stream_get 1 7 with flow_id := 1 }

/-- The stream `stream_example` (flow 1, not stalled) after it has delivered
the peer's packets up to `data_seq = 3`. -/
def stream_acking_example : stream_t := { stream_example with seq_to_ack := 3, next_seq := 4 }

/-- Globals whose `send_buffer` holds, from head to tail, a TCP_DATA packet of
flow 1 (`ack_seq = 0`), a TCP_DATA packet of flow 2 (`ack_seq = 7`) and an
aggregate DATA packet. -/
def env_queued_example : env_t :=
  { env_example with
    send_buffer := [tcp_pkt UBOND_PKT_TCP_DATA 1 0 0 1, tcp_pkt UBOND_PKT_TCP_DATA 2 4 7 1,
                    tcp_pkt UBOND_PKT_DATA 0 9 0 1] }

/-- Globals whose `send_buffer` holds, from head to tail, an aggregate DATA
packet and a TCP_DATA packet of flow 2 (`ack_seq = 7`): nothing of flow 1 is
queued. -/
def env_foreign_example : env_t :=
  { env_example with
    send_buffer := [tcp_pkt UBOND_PKT_DATA 0 9 0 1, tcp_pkt UBOND_PKT_TCP_DATA 2 4 7 1] }

/-- The peer of `stream_example`: it has sent its first data packet
(`data_seq = 0`), which awaits its ACK. -/
def peer_example : stream_t :=
  { ubond_stream_get 1 9 with flow_id := 1, data_seq := 1,
                              sent := [tcp_pkt UBOND_PKT_TCP_DATA 1 0 0 1] }

/-- The distance `(x − b) mod 2 ^ 16` from `b` up to `x` in the 16-bit sequence
space. -/
def seq_off (b x : Nat) : Nat := (x + 65536 - b % 65536) % 65536

/-- A world holding the single stream `s`, with the globals `env_example`. -/
def world_example (s : stream_t) : world_t := { active := [s], env := env_example }

/-- The stream `stream_example` after it has sent data packets that still await
their ACK: `seqs` lists their `data_seq`, `data_seq` is the stream's own
counter. -/
def stream_awaiting (data_seq : Nat) (seqs : List Nat) : stream_t :=
  { stream_example with
    data_seq := data_seq,
    sent := seqs.map (fun q => tcp_pkt UBOND_PKT_TCP_DATA 1 q 0 1) }

/-- Description of a reorder state while the packets `Q 0, ..., Q (k-1)` with
`data_seq = s + j` arrive: the packets below `m` were handed to the TUN device
in order (after the earlier output `out0`), the cursor stands at the slot of
`m`, and the buffer holds exactly the packets with index in `P`. -/
def reorder_desc (s k : Nat) (Q : Nat → ubond_pkt_t) (out0 : List ubond_pkt_t)
    (st : reorder_state) (m : Nat) (P : Finset Nat) : Prop :=
  st.rb.next = (s + m) % 1024
  ∧ (∀ j, j < k → st.rb.buffer ((s + j) % 1024) = if j ∈ P then some (Q j) else none)
  ∧ (∀ x, (∀ j, j < k → x ≠ (s + j) % 1024) → st.rb.buffer x = none)
  ∧ st.rb.size = (P.card : Int)
  ∧ st.tuntap = out0 ++ (List.range m).map Q

/-- The invariant between two calls of `ubond_reorder_insert`, `D` being the
set of indices that have arrived: `m` is the first index that has not. -/
def reorder_inv (s k : Nat) (Q : Nat → ubond_pkt_t) (out0 : List ubond_pkt_t)
    (st : reorder_state) (D : Finset Nat) : Prop :=
  ∃ m, m ≤ k ∧ (∀ j, j < m → j ∈ D) ∧ m ∉ D
    ∧ reorder_desc s k Q out0 st m (D.filter (fun j => m < j))

/-- An aggregate DATA packet with the given `data_seq`. -/
def data_pkt (data_seq : Nat) : ubond_pkt_t := tcp_pkt UBOND_PKT_DATA 0 data_seq 0 1

/-- The arriving packet `pkt` once `ubond_stream_write` has set its owner. -/
def owned (preset : Nat) (pkt : ubond_pkt_t) : ubond_pkt_t :=
  { pkt with stream := some preset }

/-- The packet `pkt` as it sits in `draining`: owner set, write offset zero. -/
def drained_pkt (preset : Nat) (pkt : ubond_pkt_t) : ubond_pkt_t :=
  { pkt with stream := some preset, sent := 0 }

/-- The receive side of a stream while the packets `Q 0, ..., Q (k-1)` with
`data_seq = n + j` arrive, `D` being the set of indices that have arrived: the
packets below `m`, the first index that has not arrived, are in `draining` in
order; the others that have arrived wait in `received`, ascending; no TCP_CLOSE
awaits its ACK. -/
def rx_inv (n k : Nat) (Q : Nat → ubond_pkt_t) (f preset : Nat) (s : stream_t)
    (D : Finset Nat) : Prop :=
  ∃ (m : Nat) (L : List Nat), m ≤ k ∧ (∀ j, j < m → j ∈ D) ∧ m ∉ D
    ∧ L.Sorted (fun a b => a < b) ∧ (∀ x, x ∈ L ↔ x ∈ D ∧ m < x)
    ∧ s.next_seq = (n + m) % 65536
    ∧ s.received = L.map (fun j => owned preset (Q j))
    ∧ s.draining = (List.range m).map (fun j => drained_pkt preset (Q j))
    ∧ s.flow_id = f ∧ s.preset_flow_id = preset
    ∧ ∀ x ∈ s.sent, x.p.type ≠ UBOND_PKT_TCP_CLOSE

/-- The value of the 16-bit pattern `d` read as a signed (two's complement)
number. -/
def signed16 (d : Nat) : Int :=
  if d % 65536 < 32768 then (d % 65536 : Nat) else (d % 65536 : Nat) - 65536

/-- The number of non-empty slots of the reorder buffer. -/
def slot_count (rb : ubond_reorder_buffer) : Nat :=
  ((List.range MAX_REORDERBUF).filter (fun i => (rb.buffer i).isSome)).length

/-- The reorder state right after `ubond_reorder_reset`, nothing delivered yet. -/
def reorder_start : reorder_state := { rb := ubond_reorder_reset, tuntap := [] }

/-- The aggregate DATA packets with `data_seq = first, first + 1, ...`, `n` of
them. -/
def data_run (first n : Nat) : List ubond_pkt_t :=
  (List.range n).map (fun j => data_pkt (first + j))

/-- The stream `stream_example` after it has consumed the packet with
`data_seq = 0`, whose payload of 3 bytes still waits in `draining` for the
socket. -/
def stream_draining_example : stream_t :=
  { stream_example with next_seq := 1, seq_to_ack := 0,
                        draining := [tcp_pkt UBOND_PKT_TCP_DATA 1 0 0 3] }

/-- The queue `L` is ascending as seen from the sequence number `n`: every
`data_seq` is a 16-bit value less than `2 ^ 15` ahead of `n`, and the distances
from `n` grow strictly along the queue. -/
def rx_sorted (n : Nat) (L : List ubond_pkt_t) : Prop :=
  (∀ x ∈ L, x.p.data_seq < 65536 ∧ seq_off n x.p.data_seq < 32768)
  ∧ L.Pairwise (fun a b => seq_off n a.p.data_seq < seq_off n b.p.data_seq)

/-- The invariant of the receive queue of a stream: `received` is ascending as
seen from `next_seq`, within half of the sequence space. -/
def rx_window (s : stream_t) : Prop :=
  s.next_seq < 65536 ∧ rx_sorted s.next_seq s.received

/-- The stream `stream_example` while it waits for the packet `data_seq = 0`:
the packets with `data_seq = 2` and `data_seq = 5` have arrived out of order
and sit in `received`. -/
def stream_waiting_example : stream_t :=
  { stream_example with
    received := [tcp_pkt UBOND_PKT_TCP_DATA 1 2 0 1, tcp_pkt UBOND_PKT_TCP_DATA 1 5 0 1] }

/-- A tunnel in state AUTHOK that serves the fallback mode only, with a packet
waiting in each of its own queues. -/
def fallback_tunnel_example : sched_tunnel_t :=
  { tun_example 0 0 with fallback_only := 1, sbuf := [data_pkt 3], hpsbuf := [keepalive_example] }

/-- A world with one packet in `send_buffer` and one in `hpsend_buffer`. -/
def world_queued_example : world_t :=
  { active := [stream_example],
    env := { env_example with send_buffer := [data_pkt 4], hpsend_buffer := [data_pkt 5] } }

/-- Whether some tunnel of the list is in state AUTHOK and not reserved for the
fallback mode. -/
def has_normal_tunnel (rtuns : List sched_tunnel_t) : Bool :=
  rtuns.any (fun t => decide (t.status = UBOND_AUTHOK) && decide (t.fallback_only = 0))

/-- The locals `bwneeded` and `bwavailable` of `ubond_rtun_recalc_weight` after the second
loop has run over the tunnels of a list. -/
def recalc_locals (fallback_mode : Nat) : List sched_tunnel_t → ℚ × ℚ → ℚ × ℚ
  | [], loc => loc
  | t :: rest, loc =>
    if recalc_active fallback_mode t then
      let part := (loss_part t).1
      let bm : ℚ := (t.bandwidth_max : ℚ)
      let bw := loc.1 - loc.2
      if 0 < bw then
        if t.quota ≠ 0 ∧ bw < bm * part then
          recalc_locals fallback_mode rest (loc.1, loc.2 + bw * part)
        else if bm * part < bw then
          recalc_locals fallback_mode rest (loc.1 + bm * (1 - part), loc.2 + bm * part)
        else recalc_locals fallback_mode rest (loc.1 + bw * (1 - part), loc.2 + bw * part)
      else recalc_locals fallback_mode rest loc
    else recalc_locals fallback_mode rest loc

/-- A tunnel in state AUTHOK, without quota, serving the normal mode, with
`bandwidth_max = 1000`, no loss and a round trip of 40 ms. -/
def sched_tunnel_example : sched_tunnel_t :=
  { tun_example 0 0 with bandwidth_max := 1000, srtt := 40, srtt_min := 40 }

/-- The tunnel `sched_tunnel_example` with a reported loss of 30. -/
def sched_tunnel_lossy : sched_tunnel_t := { sched_tunnel_example with sent_loss := 30 }

/-- The tunnel `sched_tunnel_example` with `bandwidth_max = 0`. -/
def sched_tunnel_zero : sched_tunnel_t := { sched_tunnel_example with bandwidth_max := 0 }

/-- The status "normal mode, one tunnel connected". -/
def status_normal : ubond_status_s := { fallback_mode := 0, connected := 1 }

/-- The condition under which `resend` retransmits the head of `sent`: the list
is longer than twice `max_size_outoforder`, and its head is not being sent and
was last sent more than a full round trip ago. -/
def resend_due (s : stream_t) (e : env_t) : Bool :=
  gt_moo2 e s.sent.length &&
    match s.sent with
    | [] => false
    | l :: _ => !l.sending && decide (e.fullrtt64 < (e.now64 + 2 ^ 64 - l.last_sent) % 2 ^ 64)

/-- The packet `l` as `resend` puts it on `hpsend_buffer`: stamped with the
time, marked as being sent, use count incremented. -/
def resent_pkt (l : ubond_pkt_t) (e : env_t) : ubond_pkt_t :=
  { l with last_sent := e.now64, sending := true, usecnt := l.usecnt + 1 }

/-- The stream `stream_example` with one data packet awaiting its ACK, sent at
time 0 and not being sent now. -/
def stream_one_sent : stream_t := stream_awaiting 1 [0]

/-- The globals `env_example` at time 1000 ms (the full round trip is 250 ms,
`max_size_outoforder` is 20). -/
def env_later : env_t := { env_example with now64 := 1000 }

/-- The stream `stream_example` with 41 data packets awaiting their ACK, more
than twice `max_size_outoforder = 20`. -/
def stream_many_sent : stream_t := stream_awaiting 41 (List.range 41)

/-- The invariant of the reorder buffer: `size` is not negative and not larger
than the number of non-empty slots, and the cursor is a valid index. -/
def reorder_ok (st : reorder_state) : Prop :=
  0 ≤ st.rb.size ∧ st.rb.size ≤ (slot_count st.rb : Int) ∧ st.rb.next < MAX_REORDERBUF

/-- The reorder state once `ubond_reorder_insert` has stored the packet in its slot
and incremented `size`, before `deliver` runs. -/
def reorder_store (st : reorder_state) (pkt : ubond_pkt_t) : reorder_state :=
  { st with rb := { st.rb with
      buffer := Function.update st.rb.buffer (pkt.p.data_seq % MAX_REORDERBUF) (some pkt),
      size := st.rb.size + 1 } }

/-- The reorder state after the packet with `data_seq = 7` was inserted right
after the reset: the packet waits in slot 7, the cursor is at slot 0. -/
def reorder_one_example : reorder_state :=
  (ubond_reorder_insert env_example 3 reorder_start (data_pkt 7)).getD reorder_start

/-- The fields of a stream that a duplicate must leave alone. -/
def rx_fields (s : stream_t) : List ubond_pkt_t × List ubond_pkt_t × Nat × Nat :=
  (s.received, s.draining, s.next_seq, s.seq_to_ack)

/-- The packet is a duplicate for the stream: its `data_seq` is older than
`next_seq`, or a packet with the same `data_seq` waits in `received`. -/
def is_duplicate (s : stream_t) (pkt : ubond_pkt_t) : Prop :=
  aolderb pkt.p.data_seq s.next_seq = true ∨ ∃ y ∈ s.received, y.p.data_seq = pkt.p.data_seq

/-- The stream `stream_example` after it has consumed the packet with
`data_seq = 0` and sent its TCP_CLOSE (`data_seq = 0`), which awaits its ACK;
the packet with `data_seq = 5` waits in `received`. -/
def stream_closing_example : stream_t :=
  { stream_example with next_seq := 1, seq_to_ack := 0, data_seq := 1,
                        sent := [tcp_pkt UBOND_PKT_TCP_CLOSE 1 0 0 0],
                        received := [tcp_pkt UBOND_PKT_TCP_DATA 1 5 0 1] }

/-- The locals `bwneeded` and `bwavailable` of `ubond_rtun_recalc_weight` after the second
loop has run over the tunnels of a list, operation by operation. -/
def recalc_locals_fl (rnd : ℚ → ℚ) (fallback_mode : Nat) :
    List sched_tunnel_t → ℚ × ℚ → ℚ × ℚ
  | [], loc => loc
  | t :: rest, loc =>
    if recalc_active_fl rnd fallback_mode t then
      let part := (loss_part_fl rnd t).1
      let bm : ℚ := rnd (t.bandwidth_max : ℚ)
      let bw := rnd (loc.1 - loc.2)
      if 0 < bw then
        if t.quota ≠ 0 ∧ bw < rnd (bm * part) then
          recalc_locals_fl rnd fallback_mode rest (loc.1, rnd (loc.2 + rnd (bw * part)))
        else if rnd (bm * part) < bw then
          recalc_locals_fl rnd fallback_mode rest
            (rnd (loc.1 + rnd (bm * rnd (1 - part))), rnd (loc.2 + rnd (bm * part)))
        else
          recalc_locals_fl rnd fallback_mode rest
            (rnd (loc.1 + rnd (bw * rnd (1 - part))), rnd (loc.2 + rnd (bw * part)))
      else recalc_locals_fl rnd fallback_mode rest loc
    else recalc_locals_fl rnd fallback_mode rest loc

/-- The demand still unallocated, the local `bw = bwneeded - bwavailable`, when the
second loop of `ubond_rtun_recalc_weight` reaches the tunnel that follows the
tunnels `before` in the list `rtuns`. -/
def recalc_unallocated_fl (rnd : ℚ → ℚ) (bandwidth : ℚ) (st : ubond_status_s) (send_len : Nat)
    (before rtuns : List sched_tunnel_t) : ℚ :=
  rnd ((recalc_locals_fl rnd st.fallback_mode before
          (recalc_demand_fl rnd bandwidth st send_len rtuns, 0)).1
        - (recalc_locals_fl rnd st.fallback_mode before
          (recalc_demand_fl rnd bandwidth st send_len rtuns, 0)).2)

/-- The loss factor of the specification, `1 - max(0, (sent_loss - T/2) / (T/2))`
with `T = LOSS_TOLERENCE`, floored at 0.2, each operation rounded by `rnd`. -/
def spec_part_fl (rnd : ℚ → ℚ) (sent_loss : Nat) : ℚ :=
  max (rnd (1 / 5))
    (rnd (1 - max 0 (rnd (rnd (rnd (sent_loss : ℚ) - (LOSS_TOLERENCE : ℚ) / 2)
      / ((LOSS_TOLERENCE : ℚ) / 2)))))

/-- The tunnel `sched_tunnel_example` with `bandwidth_max = 1251` and a reported
loss of 26. -/
def sched_tunnel_rounding : sched_tunnel_t :=
  { sched_tunnel_example with bandwidth_max := 1251, sent_loss := 26 }

/-- The value of type `double` nearest to 600.48. -/
def bandwidth_rounding : ℚ := 1320469484493865 / 2199023255552

/-! ## Theorems -/

theorem land_split (k a b c d : Nat) (hc : c < 2 ^ k) (hd : d < 2 ^ k) :
    (2 ^ k * a + c) &&& (2 ^ k * b + d) = 2 ^ k * (a &&& b) + (c &&& d) := by
  apply Nat.eq_of_testBit_eq
  intro i
  have hcd : c &&& d < 2 ^ k := Nat.and_lt_two_pow c hd
  rw [Nat.testBit_and, Nat.testBit_mul_pow_two_add a hc, Nat.testBit_mul_pow_two_add b hd,
    Nat.testBit_mul_pow_two_add (a &&& b) hcd]
  by_cases h : i < k
  · simp [h]
  · simp [h]

theorem land_split_4 (a b c d : Nat) (hc : c < 4) (hd : d < 4) :
    (4 * a + c) &&& (4 * b + d) = 4 * (a &&& b) + (c &&& d) := 
  land_split 2 a b c d hc hd

theorem land_split_16 (a b c d : Nat) (hc : c < 16) (hd : d < 16) :
    (16 * a + c) &&& (16 * b + d) = 16 * (a &&& b) + (c &&& d) := 
  land_split 4 a b c d hc hd

theorem land_split_256 (a b c d : Nat) (hc : c < 256) (hd : d < 256) :
    (256 * a + c) &&& (256 * b + d) = 256 * (a &&& b) + (c &&& d) := 
  land_split 8 a b c d hc hd

theorem land_div_4 (x m c : Nat) (hc : c < 4) :
    x &&& (4 * m + c) = 4 * ((x / 4) &&& m) + ((x % 4) &&& c) := by
  have h := land_split_4 (x / 4) m (x % 4) c (Nat.mod_lt x (by norm_num)) hc
  rw [Nat.div_add_mod x 4] at h
  exact h

theorem land_div_16 (x m c : Nat) (hc : c < 16) :
    x &&& (16 * m + c) = 16 * ((x / 16) &&& m) + ((x % 16) &&& c) := by
  have h := land_split_16 (x / 16) m (x % 16) c (Nat.mod_lt x (by norm_num)) hc
  rw [Nat.div_add_mod x 16] at h
  exact h

theorem land_div_256 (x m c : Nat) (hc : c < 256) :
    x &&& (256 * m + c) = 256 * ((x / 256) &&& m) + ((x % 256) &&& c) := by
  have h := land_split_256 (x / 256) m (x % 256) c (Nat.mod_lt x (by norm_num)) hc
  rw [Nat.div_add_mod x 256] at h
  exact h

theorem land_1 (x : Nat) : x &&& 1 = x % 2 := Nat.and_one_is_mod x

theorem land_3 (x : Nat) : x &&& 3 = x % 4 := Nat.and_pow_two_sub_one_eq_mod x 2

theorem land_15 (x : Nat) : x &&& 15 = x % 16 := Nat.and_pow_two_sub_one_eq_mod x 4

theorem shr_1 (x : Nat) : x >>> 1 = x / 2 := by
  simp [Nat.shiftRight_eq_div_pow]

theorem shr_2 (x : Nat) : x >>> 2 = x / 4 := by
  simp [Nat.shiftRight_eq_div_pow]

theorem shr_4 (x : Nat) : x >>> 4 = x / 16 := by
  simp [Nat.shiftRight_eq_div_pow]

theorem swar_step1_le (b m : Nat) : (b / 2) &&& m ≤ b := by
  have h1 : (b / 2) &&& m ≤ b / 2 := Nat.and_le_left
  omega

theorem swar_step1 : ∀ (n b : Nat), b < 4 ^ n →
    b - ((b >>> 1) &&& field_mask 4 1 n) = pair_sums 2 n b := by
  intro n
  induction n with
  | zero =>
    intro b hb
    simp at hb
    subst hb
    simp [pair_sums, field_mask]
  | succ n ih =>
    intro b hb
    have hq : b / 4 < 4 ^ n := by
      rw [pow_succ] at hb
      omega
    have ihq := ih (b / 4) hq
    have hle := swar_step1_le (b / 4) (field_mask 4 1 n)
    rw [shr_1] at ihq
    have e : b / 2 / 4 = b / 4 / 2 := by omega
    rw [shr_1, field_mask, land_div_4 _ _ _ (by norm_num), land_1, e]
    simp only [pair_sums, Nat.reduceMul]
    omega

theorem swar_step2 : ∀ (n x : Nat),
    ((x >>> 2) &&& field_mask 16 3 n) + (x &&& field_mask 16 3 n) = pair_sums 4 n x := by
  intro n
  induction n with
  | zero =>
    intro x
    simp [pair_sums, field_mask]
  | succ n ih =>
    intro x
    have ihq := ih (x / 16)
    rw [shr_2] at ihq
    have e : x / 4 / 16 = x / 16 / 4 := by omega
    rw [shr_2, field_mask, land_div_16 _ _ _ (by norm_num), land_div_16 x _ _ (by norm_num),
      land_3, land_3, e]
    simp only [pair_sums, Nat.reduceMul]
    omega

theorem swar_step3 : ∀ (n y : Nat), digits_le 16 6 (2 * n + 1) y →
    ((y >>> 4) + y) &&& field_mask 256 15 n = pair_sums 16 n y := by
  intro n
  induction n with
  | zero =>
    intro y _
    simp [pair_sums, field_mask]
  | succ n ih =>
    intro y hy
    have e : 2 * (n + 1) + 1 = (2 * n + 1) + 1 + 1 := by ring
    rw [e] at hy
    obtain ⟨h0, h1, h2⟩ := hy
    have e2 : y / 16 / 16 = y / 256 := by omega
    rw [e2] at h2
    have ihq := ih (y / 256) h2
    rw [shr_4] at ihq
    have h3 : y / 256 % 16 ≤ 6 := h2.1
    have e3 : (y / 16 + y) / 256 = y / 256 / 16 + y / 256 := by omega
    rw [shr_4, field_mask, land_div_256 _ _ _ (by norm_num), land_15, e3]
    simp only [pair_sums, Nat.reduceMul]
    omega

theorem digit_sum_pair_2 : ∀ (n x : Nat),
    digit_sum 4 n (pair_sums 2 n x) = digit_sum 2 (2 * n) x := by
  intro n
  induction n with
  | zero => intro x; rfl
  | succ n ih =>
    intro x
    have e : 2 * (n + 1) = 2 * n + 1 + 1 := by ring
    have ihq := ih (x / 4)
    rw [e]
    simp only [pair_sums, digit_sum, Nat.reduceMul]
    have e1 : (x % 4 / 2 + x % 2 + 4 * pair_sums 2 n (x / 4)) / 4 = pair_sums 2 n (x / 4) := by
      omega
    have e2 : x / 2 / 2 = x / 4 := by omega
    rw [e1, e2, ihq]
    omega

theorem digit_sum_pair_4 : ∀ (n x : Nat),
    digit_sum 16 n (pair_sums 4 n x) = digit_sum 4 (2 * n) x := by
  intro n
  induction n with
  | zero => intro x; rfl
  | succ n ih =>
    intro x
    have e : 2 * (n + 1) = 2 * n + 1 + 1 := by ring
    have ihq := ih (x / 16)
    rw [e]
    simp only [pair_sums, digit_sum, Nat.reduceMul]
    have e1 : (x % 16 / 4 + x % 4 + 16 * pair_sums 4 n (x / 16)) / 16
        = pair_sums 4 n (x / 16) := by
      omega
    have e2 : x / 4 / 4 = x / 16 := by omega
    rw [e1, e2, ihq]
    omega

theorem digit_sum_pair_16 : ∀ (n x : Nat),
    digit_sum 256 n (pair_sums 16 n x) = digit_sum 16 (2 * n) x := by
  intro n
  induction n with
  | zero => intro x; rfl
  | succ n ih =>
    intro x
    have e : 2 * (n + 1) = 2 * n + 1 + 1 := by ring
    have ihq := ih (x / 256)
    rw [e]
    simp only [pair_sums, digit_sum, Nat.reduceMul]
    have e1 : (x % 256 / 16 + x % 16 + 256 * pair_sums 16 n (x / 256)) / 256
        = pair_sums 16 n (x / 256) := by
      omega
    have e2 : x / 16 / 16 = x / 256 := by omega
    rw [e1, e2, ihq]
    omega

theorem add_mul_mod_small (p B P : Nat) (h : p < B) : (p + B * P) % B = p := by
  rw [Nat.add_mul_mod_self_left, Nat.mod_eq_of_lt h]

theorem add_mul_div_small (p B P : Nat) (h : p < B) : (p + B * P) / B = P := by
  have hB : 0 < B := by omega
  rw [Nat.add_mul_div_left _ _ hB, Nat.div_eq_of_lt h, Nat.zero_add]

theorem pair_sums_4_digits : ∀ (n x : Nat), digits_le 16 6 (n + 1) (pair_sums 4 n x) := by
  intro n
  induction n with
  | zero => intro x; simp [pair_sums, digits_le]
  | succ n ih =>
    intro x
    have ihq := ih (x / 16)
    simp only [pair_sums, Nat.reduceMul]
    have hp : x % 16 / 4 + x % 4 < 16 := by omega
    show _ % 16 ≤ 6 ∧ digits_le 16 6 (n + 1) (_ / 16)
    rw [add_mul_mod_small _ _ _ hp, add_mul_div_small _ _ _ hp]
    exact ⟨by omega, ihq⟩

theorem pair_sums_4_bound : ∀ (n x : Nat), 15 * pair_sums 4 n x + 6 ≤ 6 * 16 ^ n := by
  intro n
  induction n with
  | zero => intro x; simp [pair_sums]
  | succ n ih =>
    intro x
    have ihq := ih (x / 16)
    simp only [pair_sums, Nat.reduceMul]
    rw [pow_succ]
    omega

theorem pair_sums_16_digits : ∀ (n x : Nat), digits_le 256 30 n (pair_sums 16 n x) := by
  intro n
  induction n with
  | zero => intro x; simp [digits_le]
  | succ n ih =>
    intro x
    have ihq := ih (x / 256)
    simp only [pair_sums, Nat.reduceMul]
    have hp : x % 256 / 16 + x % 16 < 256 := by omega
    show _ % 256 ≤ 30 ∧ digits_le 256 30 n (_ / 256)
    rw [add_mul_mod_small _ _ _ hp, add_mul_div_small _ _ _ hp]
    exact ⟨by omega, ihq⟩

theorem pair_sums_16_bound : ∀ (n x : Nat), pair_sums 16 n x < 256 ^ n := by
  intro n
  induction n with
  | zero => intro x; simp [pair_sums]
  | succ n ih =>
    intro x
    have ihq := ih (x / 256)
    simp only [pair_sums, Nat.reduceMul]
    rw [pow_succ]
    omega

theorem swar_fold_digits (d0 d1 d2 d3 d4 d5 d6 d7 : Nat) (h0 : d0 ≤ 30) (h1 : d1 ≤ 30)
    (h2 : d2 ≤ 30) (h3 : d3 ≤ 30) (h4 : d4 ≤ 30) (h5 : d5 ≤ 30) (h6 : d6 ≤ 30) (h7 : d7 ≤ 30) :
    ((d0 + 256 * d1 + 65536 * d2 + 16777216 * d3 + 4294967296 * d4 + 1099511627776 * d5
        + 281474976710656 * d6 + 72057594037927936 * d7) * 72340172838076673)
      % 18446744073709551616 / 72057594037927936
      = d0 + d1 + d2 + d3 + d4 + d5 + d6 + d7 := by
  have hK : (d0 + 256 * d1 + 65536 * d2 + 16777216 * d3 + 4294967296 * d4 + 1099511627776 * d5
        + 281474976710656 * d6 + 72057594037927936 * d7) * 72340172838076673
      = (d0 + 256 * (d0 + d1) + 65536 * (d0 + d1 + d2) + 16777216 * (d0 + d1 + d2 + d3)
          + 4294967296 * (d0 + d1 + d2 + d3 + d4)
          + 1099511627776 * (d0 + d1 + d2 + d3 + d4 + d5)
          + 281474976710656 * (d0 + d1 + d2 + d3 + d4 + d5 + d6)
          + 72057594037927936 * (d0 + d1 + d2 + d3 + d4 + d5 + d6 + d7))
        + 18446744073709551616 * ((d1 + d2 + d3 + d4 + d5 + d6 + d7)
          + 256 * (d2 + d3 + d4 + d5 + d6 + d7) + 65536 * (d3 + d4 + d5 + d6 + d7)
          + 16777216 * (d4 + d5 + d6 + d7) + 4294967296 * (d5 + d6 + d7)
          + 1099511627776 * (d6 + d7) + 281474976710656 * d7) := by
    ring
  rw [hK, Nat.add_mul_mod_self_left, Nat.mod_eq_of_lt (by omega)]
  omega

theorem swar_fold (z : Nat) (hz : z < 2 ^ 64) (hd : digits_le 256 30 8 z) :
    (z * 0x0101010101010101) % 2 ^ 64 / 2 ^ 56 = digit_sum 256 8 z := by
  simp only [digits_le, digit_sum] at hd ⊢
  obtain ⟨h0, h1, h2, h3, h4, h5, h6, h7, _⟩ := hd
  norm_num at hz ⊢
  have hz1 : z = z % 256 + 256 * (z / 256 % 256) + 65536 * (z / 256 / 256 % 256)
      + 16777216 * (z / 256 / 256 / 256 % 256)
      + 4294967296 * (z / 256 / 256 / 256 / 256 % 256)
      + 1099511627776 * (z / 256 / 256 / 256 / 256 / 256 % 256)
      + 281474976710656 * (z / 256 / 256 / 256 / 256 / 256 / 256 % 256)
      + 72057594037927936 * (z / 256 / 256 / 256 / 256 / 256 / 256 / 256 % 256) := by
    omega
  have hf := swar_fold_digits _ _ _ _ _ _ _ _ h0 h1 h2 h3 h4 h5 h6 h7
  rw [← hz1] at hf
  rw [hf]
  omega

theorem field_mask_55 : field_mask 4 1 32 = 0x5555555555555555 := by decide

theorem field_mask_33 : field_mask 16 3 16 = 0x3333333333333333 := by decide

theorem field_mask_0F : field_mask 256 15 8 = 0x0F0F0F0F0F0F0F0F := by decide

/-- The function `count_1s` computes the population count of every 64-bit value. -/
theorem count_1s_eq_popcount (b : Nat) (hb : b < 2 ^ 64) : count_1s b = popcount b := by
  have hb4 : b < 4 ^ 32 := by norm_num at hb ⊢; exact hb
  have h1 := swar_step1 32 b hb4
  have h1le : (b >>> 1) &&& 0x5555555555555555 ≤ b := by
    rw [shr_1]; exact swar_step1_le b _
  rw [field_mask_55] at h1
  have e1 : (b + 2 ^ 64 - ((b >>> 1) &&& 0x5555555555555555)) % 2 ^ 64 = pair_sums 2 32 b := by
    rw [← h1]
    omega
  have h2 := swar_step2 16 (pair_sums 2 32 b)
  rw [field_mask_33] at h2
  have hb2 := pair_sums_4_bound 16 (pair_sums 2 32 b)
  have hd2 := pair_sums_4_digits 16 (pair_sums 2 32 b)
  have h3 := swar_step3 8 (pair_sums 4 16 (pair_sums 2 32 b)) hd2
  rw [field_mask_0F] at h3
  have hd3 := pair_sums_16_digits 8 (pair_sums 4 16 (pair_sums 2 32 b))
  have hb3 := pair_sums_16_bound 8 (pair_sums 4 16 (pair_sums 2 32 b))
  have hf := swar_fold _ (by norm_num at hb3 ⊢; exact hb3) hd3
  have hP4 : pair_sums 4 16 (pair_sums 2 32 b) < 2 ^ 64 := by
    norm_num at hb2 ⊢; omega
  have e2 : (((pair_sums 2 32 b >>> 2) &&& 0x3333333333333333)
      + (pair_sums 2 32 b &&& 0x3333333333333333)) % 2 ^ 64
      = pair_sums 4 16 (pair_sums 2 32 b) := by
    rw [h2]; exact Nat.mod_eq_of_lt hP4
  have e3 : ((pair_sums 4 16 (pair_sums 2 32 b) >>> 4) + pair_sums 4 16 (pair_sums 2 32 b))
      % 2 ^ 64
      = (pair_sums 4 16 (pair_sums 2 32 b) >>> 4) + pair_sums 4 16 (pair_sums 2 32 b) := by
    apply Nat.mod_eq_of_lt
    rw [shr_4]
    norm_num at hb2 ⊢
    omega
  unfold count_1s popcount
  simp only [e1, e2, e3, h3]
  rw [Nat.shiftRight_eq_div_pow, hf, digit_sum_pair_16, digit_sum_pair_4, digit_sum_pair_2]

theorem digit_sum_2_le : ∀ (n x : Nat), digit_sum 2 n x ≤ n := by
  intro n
  induction n with
  | zero => intro x; simp [digit_sum]
  | succ n ih =>
    intro x
    have := ih (x / 2)
    simp only [digit_sum]
    omega

theorem popcount_le (x : Nat) : popcount x ≤ 64 := digit_sum_2_le 64 x

theorem digit_sum_2_split : ∀ (n m y z : Nat), y < 2 ^ n →
    digit_sum 2 (n + m) (y + 2 ^ n * z) = digit_sum 2 n y + digit_sum 2 m z := by
  intro n
  induction n with
  | zero =>
    intro m y z hy
    simp at hy
    subst hy
    simp [digit_sum]
  | succ n ih =>
    intro m y z hy
    have e : n + 1 + m = (n + m) + 1 := by ring
    have hy2 : y / 2 < 2 ^ n := by
      rw [pow_succ] at hy
      omega
    have e0 : 2 ^ (n + 1) * z = 2 * (2 ^ n * z) := by ring
    have e1 : (y + 2 ^ (n + 1) * z) % 2 = y % 2 := by
      rw [e0]
      omega
    have e2 : (y + 2 ^ (n + 1) * z) / 2 = y / 2 + 2 ^ n * z := by
      rw [e0]
      omega
    rw [e]
    simp only [digit_sum]
    rw [e1, e2, ih m (y / 2) z hy2]
    omega

theorem popcount_sign_fill (y : Nat) (hy : y < 2 ^ 62) :
    popcount (y + 3 * 2 ^ 62) = popcount y + 2 := by
  have h1 := digit_sum_2_split 62 2 y 3 hy
  have h2 := digit_sum_2_split 62 2 y 0 hy
  have e3 : digit_sum 2 2 3 = 2 := by decide
  have e0 : digit_sum 2 2 0 = 0 := by decide
  unfold popcount
  rw [e3] at h1
  rw [e0] at h2
  simp only [Nat.reduceAdd, Nat.mul_zero, Nat.add_zero] at h1 h2
  rw [h2, ← h1, Nat.mul_comm 3]

theorem sar_sign_fill (x : Nat) (h1 : 2 ^ 63 ≤ x) (h2 : x < 2 ^ 64) :
    uint64_t (sar (int64_t x) 2) = x / 4 + 3 * 2 ^ 62 := by
  unfold uint64_t sar int64_t
  norm_num at h1 h2 ⊢
  omega

theorem lor_sign_bounds (x : Nat) (hx : x < 2 ^ 64) :
    2 ^ 63 ≤ x ||| 0x8000000000000000 ∧ x ||| 0x8000000000000000 < 2 ^ 64 := by
  constructor
  · have h : (x ||| 0x8000000000000000).testBit 63 = true := by
      rw [Nat.testBit_or]
      have : Nat.testBit 0x8000000000000000 63 = true := by decide
      simp [this]
    exact Nat.testBit_implies_ge h
  · exact Nat.or_lt_two_pow hx (by norm_num)

/-- The loss computed from a 64-bit vector `vect`: the arithmetic shift of the
signed value brings in two copies of the sign bit, so two more ones are counted
than in the logical shift. -/
theorem loss_of_vect (vect : Nat) (hv : vect < 2 ^ 64) :
    (64 : Int) - (count_1s (uint64_t (sar (int64_t (vect ||| 0x8000000000000000)) 2)) : Int)
      = 62 - (popcount ((vect ||| 0x8000000000000000) >>> 2) : Int) := by
  obtain ⟨h1, h2⟩ := lor_sign_bounds vect hv
  rw [sar_sign_fill _ h1 h2]
  have hy : (vect ||| 0x8000000000000000) / 4 < 2 ^ 62 := by
    norm_num at h2 ⊢
    omega
  rw [count_1s_eq_popcount _ (by norm_num at hy ⊢; omega), popcount_sign_fill _ hy, shr_2]
  push_cast
  ring

theorem loss_update_vect_lt (tun : ubond_tunnel_t) (e : env_t) (seq : Nat) :
    (ubond_loss_update tun e seq).1.seq_vect < 2 ^ 64 := by
  unfold ubond_loss_update
  split
  · norm_num
  · simp only []
    split <;> split <;> exact Nat.mod_lt _ (by norm_num)

theorem loss_update_loss (tun : ubond_tunnel_t) (e : env_t) (seq : Nat) :
    (ubond_loss_update tun e seq).1.loss
      = 62 - (popcount (((ubond_loss_update tun e seq).1.seq_vect ||| 0x8000000000000000) >>> 2)
          : Int) := by
  unfold ubond_loss_update
  split
  · simp only []
    decide
  · simp only []
    split <;> split <;> exact loss_of_vect _ (Nat.mod_lt _ (by norm_num))

/-- Claim C4, as the code has it: after `ubond_loss_update` the updated vector
is a 64-bit value, the loss lies in `[0, 64]`, and it equals
`62 − popcount((seq_vect | 2^63) >> 2)` for `seq_vect` taken as an unsigned
value: the code shifts the signed value, which brings in two copies of the
sign bit, so the loss is 2 less than `64 − popcount((seq_vect | 2^63) >> 2)`. -/
theorem C4_loss_formula (tun : ubond_tunnel_t) (e : env_t) (seq : Nat) :
    (ubond_loss_update tun e seq).1.seq_vect < 2 ^ 64
    ∧ 0 ≤ (ubond_loss_update tun e seq).1.loss
    ∧ (ubond_loss_update tun e seq).1.loss ≤ 64
    ∧ (ubond_loss_update tun e seq).1.loss
        = 62 - (popcount (((ubond_loss_update tun e seq).1.seq_vect ||| 0x8000000000000000) >>> 2)
            : Int) := by
  have hv := loss_update_vect_lt tun e seq
  have hl := loss_update_loss tun e seq
  obtain ⟨h1, h2⟩ := lor_sign_bounds _ hv
  have hy : ((ubond_loss_update tun e seq).1.seq_vect ||| 0x8000000000000000) / 4 < 2 ^ 62 := by
    norm_num at h2 ⊢
    omega
  have hp : popcount (((ubond_loss_update tun e seq).1.seq_vect ||| 0x8000000000000000) >>> 2)
      ≤ 62 := by
    rw [shr_2]
    have h := digit_sum_2_split 62 2 _ 0 hy
    have e0 : digit_sum 2 2 0 = 0 := by decide
    rw [e0] at h
    simp only [Nat.reduceAdd, Nat.mul_zero, Nat.add_zero] at h
    unfold popcount
    rw [h]
    exact digit_sum_2_le 62 _
  refine ⟨hv, ?_, ?_, hl⟩
  · rw [hl]; omega
  · rw [hl]; omega

/-- Claim C4 fails as stated: on a tunnel with `seq_last = 10` and an empty
vector, the packet with `tun_seq = 11` leaves `seq_vect = 1` and `loss = 61`,
while `64 − popcount((seq_vect | 2^63) >> 2)` is 63. -/
theorem C4_counterexample :
    (ubond_loss_update (tun_example 10 0) env_example 11).1.seq_vect = 1
    ∧ (ubond_loss_update (tun_example 10 0) env_example 11).1.loss = 61
    ∧ (64 : Int) - (popcount
        (((ubond_loss_update (tun_example 10 0) env_example 11).1.seq_vect
          ||| 0x8000000000000000) >>> 2) : Int) = 63 := by
  decide

/-- Claim C6, the code at two inputs that do not take the reconnect branch.
With every packet of the window received (all bits set, so bit 3 is set) the
packet `tun_seq = 11` queues a RESEND request of length 1 for `tun_seq = 8`;
with nothing received before (bit 3 zero, packet 8 missing) no request is
queued. The test is the opposite of the one the claim and the comment in the
code describe. -/
theorem C6_request_when_bit3_set :
    (ubond_loss_update (tun_example 10 (2 ^ 64 - 1)) env_example 11).1.seq_vect &&& 8 = 8
    ∧ (ubond_loss_update (tun_example 10 (2 ^ 64 - 1)) env_example 11).2.hpsend_buffer
        = [{ ubond_pkt_get with
             p := { ubond_pkt_get.p with data := resend_payload 8 5 1, len := 8,
                                         type := UBOND_PKT_RESEND } }]
    ∧ (ubond_loss_update (tun_example 10 0) env_example 11).1.seq_vect &&& 8 = 0
    ∧ (ubond_loss_update (tun_example 10 0) env_example 11).2.hpsend_buffer = [] := by
  decide

/-- The ring during the loop, compared with the ring `ring0` at its start:
a slot is unchanged, or it was emptied by an earlier pass that hit it. -/
theorem resend_step_spec (R seqn_base : Nat) (ring0 : Nat → Option ubond_pkt_t) (i : Nat)
    (st : ubond_tunnel_t × env_t) (hi : i < 65536)
    (hinv : ∀ slot, st.1.old_pkts slot = ring0 slot
      ∨ (st.1.old_pkts slot = none
          ∧ ∃ p j, ring0 slot = some p ∧ j < i ∧ p.p.tun_seq = (seqn_base + j) % 65536)) :
    (resend_step R ((seqn_base + i) % 65536) st).2.hpsend_buffer
        = (resend_hit R ring0 ((seqn_base + i) % 65536)).toList ++ st.2.hpsend_buffer
    ∧ ∀ slot, (resend_step R ((seqn_base + i) % 65536) st).1.old_pkts slot = ring0 slot
      ∨ ((resend_step R ((seqn_base + i) % 65536) st).1.old_pkts slot = none
          ∧ ∃ p j, ring0 slot = some p ∧ j < i + 1 ∧ p.p.tun_seq = (seqn_base + j) % 65536) := by
  have hweak : ∀ slot, st.1.old_pkts slot = ring0 slot
      ∨ (st.1.old_pkts slot = none
          ∧ ∃ p j, ring0 slot = some p ∧ j < i + 1 ∧ p.p.tun_seq = (seqn_base + j) % 65536) := by
    intro slot
    rcases hinv slot with h | ⟨h, p, j, hp, hj, hs⟩
    · exact Or.inl h
    · exact Or.inr ⟨h, p, j, hp, by omega, hs⟩
  rcases hinv ((seqn_base + i) % 65536 % R) with hsame | ⟨hnone, p, j, hp, hj, hs⟩
  · -- the slot still holds what it held at the start
    cases hr : ring0 ((seqn_base + i) % 65536 % R) with
    | none =>
      rw [hr] at hsame
      have hst : resend_step R ((seqn_base + i) % 65536) st = st := by
        simp [resend_step, hsame]
      rw [hst]
      exact ⟨by simp [resend_hit, hr], hweak⟩
    | some p =>
      rw [hr] at hsame
      by_cases hseq : p.p.tun_seq = (seqn_base + i) % 65536
      · by_cases hw : p.p.type ≠ UBOND_PKT_DATA ∨ is_tcp p = true
        · simp only [resend_step, resend_hit, hr, hsame, hseq, hw, if_true, and_self,
            ubond_buffer_write, Option.toList, List.singleton_append, true_and]
          intro slot
          by_cases hslot : slot = (seqn_base + i) % 65536 % R
          · right
            subst hslot
            exact ⟨by simp, p, i, hr, by omega, hseq⟩
          · rcases hweak slot with h | h
            · left
              simp [Function.update, hslot, h]
            · right
              refine ⟨?_, h.2⟩
              simp [Function.update, hslot, h.1]
        · have hst : resend_step R ((seqn_base + i) % 65536) st = st := by
            simp only [resend_step, hsame, hseq, if_true, hw, if_false]
          rw [hst]
          exact ⟨by simp only [resend_hit, hr, hseq, hw, and_false, if_false, Option.toList,
            List.nil_append], hweak⟩
      · have hst : resend_step R ((seqn_base + i) % 65536) st = st := by
          simp only [resend_step, hsame, hseq, if_false]
        rw [hst]
        exact ⟨by simp only [resend_hit, hr, hseq, false_and, if_false, Option.toList,
          List.nil_append], hweak⟩
  · -- the slot was emptied by an earlier pass: its packet carried another number
    have hne : p.p.tun_seq ≠ (seqn_base + i) % 65536 := by
      rw [hs]
      omega
    have hst : resend_step R ((seqn_base + i) % 65536) st = st := by
      simp only [resend_step, hnone]
    rw [hst]
    exact ⟨by simp only [resend_hit, hp, hne, false_and, if_false, Option.toList,
      List.nil_append], hweak⟩

theorem resend_loop_spec (R seqn_base : Nat) (ring0 : Nat → Option ubond_pkt_t) :
    ∀ (n i : Nat) (st : ubond_tunnel_t × env_t), i + n ≤ 65536 →
      (∀ slot, st.1.old_pkts slot = ring0 slot
        ∨ (st.1.old_pkts slot = none
            ∧ ∃ p j, ring0 slot = some p ∧ j < i ∧ p.p.tun_seq = (seqn_base + j) % 65536)) →
      (resend_loop R seqn_base n i st).2.hpsend_buffer
        = (resend_hits R ring0 seqn_base i n).reverse ++ st.2.hpsend_buffer := by
  intro n
  induction n with
  | zero =>
    intro i st _ _
    simp [resend_loop, resend_hits]
  | succ n ih =>
    intro i st hi hinv
    obtain ⟨h1, h2⟩ := resend_step_spec R seqn_base ring0 i st (by omega) hinv
    rw [resend_loop, ih (i + 1) _ (by omega) h2, h1]
    simp only [resend_hits, List.range'_succ, List.filterMap_cons]
    cases resend_hit R ring0 ((seqn_base + i) % 65536) <;> simp

/-- Claim C5, as the code has it: for a request naming an existing tunnel,
`ubond_rtun_resend` puts on `hpsend_buffer`, for every `seq` of
`[base, base + len)` modulo `2 ^ 16` in turn, the packet of slot
`seq mod RESENDBUFSIZE` exactly when the slot is occupied, the stored `tun_seq`
is `seq`, and the packet is not a DATA packet with a non-TCP payload (its type
is not DATA, or its IP protocol byte is 6); a DATA packet is queued retyped to
DATA_RESEND. Nothing else is queued. -/
theorem C5_resend_enqueues (R : Nat) (rtuns : List ubond_tunnel_t) (e : env_t) (d : resend_data)
    (i : Nat) (t : ubond_tunnel_t) (hfind : ubond_find_tun rtuns d.tun_id = some i)
    (hget : rtuns.get? i = some t) (hlen : d.len < 65536) :
    (ubond_rtun_resend R rtuns e d).2.hpsend_buffer
      = (resend_hits R t.old_pkts d.seqn 0 d.len).reverse ++ e.hpsend_buffer := by
  unfold ubond_rtun_resend
  simp only [hfind, hget]
  unfold rtun_resend_tun
  rw [resend_loop_spec R d.seqn t.old_pkts d.len 0 _ (by omega)]
  intro slot
  left
  simp only []
  split <;> rfl

/-- Witness for claim C5: the ring of `tun_ring_example` and a
request for the single sequence number 5. -/
theorem C5_resend_enqueues_witness :
    (ubond_rtun_resend 16 [tun_ring_example] env_example { seqn := 5, tun_id := 5, len := 1 }).2.hpsend_buffer
      = (resend_hits 16 tun_ring_example.old_pkts 5 0 1).reverse ++ env_example.hpsend_buffer :=
  C5_resend_enqueues 16 [tun_ring_example] env_example { seqn := 5, tun_id := 5, len := 1 } 0
    tun_ring_example (by decide) rfl (by decide)

/-- Claim C5 fails as stated: a keepalive that was sent with `tun_seq = 5` sits
in slot 5 of the ring; the request `(tun_id 5, base 5, len 1)` is a hit on a
packet that is not TCP data, and the keepalive is queued on `hpsend_buffer`. -/
theorem C5_counterexample :
    tun_ring_example.old_pkts (5 % 16) = some keepalive_example
    ∧ keepalive_example.p.type = UBOND_PKT_KEEPALIVE
    ∧ is_tcp keepalive_example = false
    ∧ (ubond_rtun_resend 16 [tun_ring_example] env_example
        { seqn := 5, tun_id := 5, len := 1 }).2.hpsend_buffer = [keepalive_example] := by
  decide

theorem stamp_scan_none (ack : Nat) :
    ∀ (L : List ubond_pkt_t), (∀ l ∈ L, ¬ stamp_hit l) → stamp_scan ack L = none := by
  intro L
  induction L with
  | nil => intro _; rfl
  | cons x L ih =>
    intro h
    have hx : ¬ (x.p.type = UBOND_PKT_TCP_DATA ∨ x.p.type = UBOND_PKT_TCP_ACK) :=
      h x (List.mem_cons_self _ _)
    have hL := ih (fun l hl => h l (List.mem_cons_of_mem _ hl))
    simp only [stamp_scan, hx, if_false, hL, Option.map_none']

theorem stamp_scan_append (ack : Nat) (x : ubond_pkt_t) (M : List ubond_pkt_t)
    (hx : stamp_hit x) :
    ∀ (L : List ubond_pkt_t), (∀ l ∈ L, ¬ stamp_hit l) →
      stamp_scan ack (L ++ x :: M) = some (L ++ { x with p := { x.p with ack_seq := ack } } :: M) := by
  intro L
  induction L with
  | nil =>
    intro _
    have hx1 : x.p.type = UBOND_PKT_TCP_DATA ∨ x.p.type = UBOND_PKT_TCP_ACK := hx
    simp only [List.nil_append, stamp_scan, hx1, if_true]
  | cons y L ih =>
    intro h
    have hy : ¬ (y.p.type = UBOND_PKT_TCP_DATA ∨ y.p.type = UBOND_PKT_TCP_ACK) :=
      h y (List.mem_cons_self _ _)
    have hL := ih (fun l hl => h l (List.mem_cons_of_mem _ hl))
    rw [List.cons_append, stamp_scan, if_neg hy, hL]
    rfl

theorem resend_head_view (s : stream_t) (e : env_t) :
    rx_view (resend_head s e).1 = rx_view s
    ∧ (resend_head s e).2.send_buffer = e.send_buffer
    ∧ (resend_head s e).2.moo_num = e.moo_num
    ∧ (resend_head s e).2.moo_den = e.moo_den := by
  unfold resend_head
  split
  · split
    · exact ⟨rfl, rfl, rfl, rfl⟩
    · rename_i l rest hl
      split
      · refine ⟨?_, rfl, rfl, rfl⟩
        simp [rx_view, hl]
      · exact ⟨rfl, rfl, rfl, rfl⟩
  · exact ⟨rfl, rfl, rfl, rfl⟩

theorem stamp_scan_some_of_mem (ack : Nat) :
    ∀ (L : List ubond_pkt_t), (∃ x ∈ L, stamp_hit x) → ∃ r, stamp_scan ack L = some r := by
  intro L
  induction L with
  | nil => intro ⟨x, hx, _⟩; cases hx
  | cons y L ih =>
    intro ⟨x, hx, hhit⟩
    by_cases hy : y.p.type = UBOND_PKT_TCP_DATA ∨ y.p.type = UBOND_PKT_TCP_ACK
    · exact ⟨_, by rw [stamp_scan, if_pos hy]⟩
    · have hxL : x ∈ L := by
        rcases List.mem_cons.1 hx with h | h
        · subst h; exact absurd hhit hy
        · exact h
      obtain ⟨r, hr⟩ := ih ⟨x, hxL, hhit⟩
      exact ⟨y :: r, by rw [stamp_scan, if_neg hy, hr]; rfl⟩

theorem stampF_of_hit (k : Nat) (s : stream_t) (e : env_t) (hst : s.stall = false)
    (hhit : ∃ x ∈ e.send_buffer, stamp_hit x) : stampF (k + 1) s e = stampF 1 s e := by
  obtain ⟨r, hr⟩ := stamp_scan_some_of_mem s.seq_to_ack e.send_buffer.reverse
    (by obtain ⟨x, hx, hh⟩ := hhit; exact ⟨x, List.mem_reverse.2 hx, hh⟩)
  simp only [stampF, hst, hr]

theorem resend_with_congr (K1 K2 : stream_t → env_t → stream_t × env_t) (s : stream_t)
    (e : env_t)
    (hK : ∀ s1 e1, rx_view s1 = rx_view s → e1.send_buffer = e.send_buffer → K1 s1 e1 = K2 s1 e1) :
    resend_with K1 s e = resend_with K2 s e := by
  unfold resend_with
  split
  · rfl
  · have hv := resend_head_view s e
    simp only []
    split
    · exact hK _ _ hv.1 hv.2.1
    · rfl

theorem rx_view_stall {s1 s2 : stream_t} (h : rx_view s1 = rx_view s2) : s1.stall = s2.stall := by
  simp only [rx_view, Prod.mk.injEq] at h
  exact h.2.2.2.2.2.2.1

theorem rx_view_seq_to_ack {s1 s2 : stream_t} (h : rx_view s1 = rx_view s2) :
    s1.seq_to_ack = s2.seq_to_ack := by
  simp only [rx_view, Prod.mk.injEq] at h
  exact h.2.2.2.1

/-- Two levels of the recursion `stamp → send_pkt_tun → resend → stamp` are
always enough: more fuel does not change the result. -/
theorem stampF_fuel (k : Nat) (s : stream_t) (e : env_t) : stampF (k + 2) s e = stampF 2 s e := by
  by_cases hst : s.stall = true
  · simp only [stampF, hst, if_true]
  · have hst1 : s.stall = false := by simpa using hst
    cases h : stamp_scan s.seq_to_ack e.send_buffer.reverse with
    | some r => simp only [stampF, hst1, h]
    | none =>
      have e1 : stampF (k + 2) s e = send_pkt_tun_with (stampF (k + 1)) s e
          { ubond_pkt_get with p := { ubond_pkt_get.p with len := 0 } } UBOND_PKT_TCP_ACK := by
        rw [stampF]
        simp only [hst1, h]
        rfl
      have e2 : stampF 2 s e = send_pkt_tun_with (stampF 1) s e
          { ubond_pkt_get with p := { ubond_pkt_get.p with len := 0 } } UBOND_PKT_TCP_ACK := by
        rw [stampF]
        simp only [hst1, h]
        rfl
      rw [e1, e2]
      unfold send_pkt_tun_with
      simp only [if_true]
      rw [resend_with_congr (stampF (k + 1)) (stampF 1)]
      intro s1 e1 hv hsb
      apply stampF_of_hit
      · rw [rx_view_stall hv]; exact hst1
      · rw [hsb]
        exact ⟨_, List.mem_cons_self _ _, Or.inr rfl⟩

theorem resend_with_view (K : stream_t → env_t → stream_t × env_t)
    (hK : ∀ s e, rx_view (K s e).1 = rx_view s) (s : stream_t) (e : env_t) :
    rx_view (resend_with K s e).1 = rx_view s := by
  unfold resend_with
  split
  · rfl
  · simp only []
    split
    · rw [hK]; exact (resend_head_view s e).1
    · exact (resend_head_view s e).1

theorem send_ack_view (K : stream_t → env_t → stream_t × env_t)
    (hK : ∀ s e, rx_view (K s e).1 = rx_view s) (s : stream_t) (e : env_t) (pkt : ubond_pkt_t) :
    rx_view (send_pkt_tun_with K s e pkt UBOND_PKT_TCP_ACK).1 = rx_view s := by
  unfold send_pkt_tun_with
  simp only [if_true]
  show rx_view (resend_with K _ _).1 = _
  rw [resend_with_view K hK]
  rfl

theorem stampF_view : ∀ (k : Nat) (s : stream_t) (e : env_t),
    rx_view (stampF k s e).1 = rx_view s := by
  intro k
  induction k with
  | zero => intro s e; rfl
  | succ k ih =>
    intro s e
    rw [stampF]
    split
    · rfl
    · split
      · rfl
      · exact send_ack_view (stampF k) ih s e _

theorem stamp_view (s : stream_t) (e : env_t) : rx_view (stamp s e).1 = rx_view s :=
  stampF_view 2 s e

theorem resend_view (s : stream_t) (e : env_t) : rx_view (resend s e).1 = rx_view s :=
  resend_with_view stamp stamp_view s e

theorem stampF_one_requeue (s : stream_t) (e : env_t) (x : ubond_pkt_t) (sb : List ubond_pkt_t)
    (hst : s.stall = false) (hsb : e.send_buffer = x :: sb) (hx : stamp_hit x)
    (hack : x.p.ack_seq = s.seq_to_ack) (hno : ∀ l ∈ sb, ¬ stamp_hit l) :
    (stampF 1 s e).2.send_buffer = x :: sb := by
  have h := stamp_scan_append s.seq_to_ack x [] hx sb.reverse
    (fun l hl => hno l (List.mem_reverse.1 hl))
  have hx' : ({ x with p := { x.p with ack_seq := s.seq_to_ack } } : ubond_pkt_t) = x := by
    rw [← hack]
  rw [hx'] at h
  simp only [stampF, hst, hsb, List.reverse_cons, h]
  simp

theorem resend_requeue (s : stream_t) (e : env_t) (x : ubond_pkt_t) (sb : List ubond_pkt_t)
    (hst : s.stall = false) (hsb : e.send_buffer = x :: sb) (hx : stamp_hit x)
    (hack : x.p.ack_seq = s.seq_to_ack) (hno : ∀ l ∈ sb, ¬ stamp_hit l) :
    (resend_with (stampF 1) s e).2.send_buffer = x :: sb := by
  unfold resend_with
  have hv := resend_head_view s e
  split
  · exact hsb
  · simp only []
    split
    · apply stampF_one_requeue
      · rw [rx_view_stall hv.1]; exact hst
      · rw [hv.2.1]; exact hsb
      · exact hx
      · rw [rx_view_seq_to_ack hv.1]; exact hack
      · exact hno
    · rw [hv.2.1]; exact hsb

theorem stamp_stalled (s : stream_t) (e : env_t) (hst : s.stall = true) : stamp s e = (s, e) := by
  simp only [stamp, stampF, hst, if_true]

theorem stamp_bare_ack (s : stream_t) (e : env_t) (hst : s.stall = false)
    (hno : ∀ l ∈ e.send_buffer, ¬ stamp_hit l) :
    (stamp s e).2.send_buffer = bare_ack s :: e.send_buffer := by
  have hscan := stamp_scan_none s.seq_to_ack e.send_buffer.reverse
    (fun l hl => hno l (List.mem_reverse.1 hl))
  have e2 : stamp s e = send_pkt_tun_with (stampF 1) s e
      { ubond_pkt_get with p := { ubond_pkt_get.p with len := 0 } } UBOND_PKT_TCP_ACK := by
    simp only [stamp]
    rw [stampF]
    simp only [hst, hscan]
    rfl
  rw [e2]
  unfold send_pkt_tun_with
  simp only [if_true]
  exact resend_requeue _ _ (bare_ack s) e.send_buffer hst rfl (Or.inr rfl) rfl hno

theorem stamp_nearest_tail (s : stream_t) (e : env_t) (pre post : List ubond_pkt_t)
    (l : ubond_pkt_t) (hst : s.stall = false) (hsb : e.send_buffer = pre ++ l :: post)
    (hl : stamp_hit l) (hpost : ∀ x ∈ post, ¬ stamp_hit x) :
    (stamp s e).2.send_buffer
      = pre ++ { l with p := { l.p with ack_seq := s.seq_to_ack } } :: post := by
  have hscan := stamp_scan_append s.seq_to_ack l pre.reverse hl post.reverse
    (fun x hx => hpost x (List.mem_reverse.1 hx))
  simp only [stamp]
  rw [stampF]
  simp only [hst, hsb, List.reverse_append, List.reverse_cons, List.append_assoc,
    List.singleton_append, hscan]
  simp

/-- Claim C10, the code of `stamp`. The loop over `send_buffer` tests the type
of a packet and never its flow. For every stream `s` that is not stalled and
every `send_buffer` in which `l` is the TCP_DATA or TCP_ACK packet nearest to
the tail, `stamp` writes `s.seq_to_ack` to the `ack_seq` of `l` and returns,
whatever the `flow_id` of `l`: the other queued packets stay as they are and no
packet is added. So when `l` belongs to another flow its `ack_seq` is
overwritten, and no TCP_ACK is emitted for `s` although nothing of the flow of
`s` was stamped. -/
theorem C10_stamp_ignores_flow (s : stream_t) (e : env_t) (pre post : List ubond_pkt_t)
    (l : ubond_pkt_t) (hst : s.stall = false) (hsb : e.send_buffer = pre ++ l :: post)
    (hl : stamp_hit l) (hpost : ∀ x ∈ post, ¬ stamp_hit x) :
    (stamp s e).2.send_buffer
        = pre ++ { l with p := { l.p with ack_seq := s.seq_to_ack } } :: post
    ∧ (stamp s e).2.send_buffer.length = e.send_buffer.length
    ∧ (l.p.flow_id ≠ s.flow_id →
        ∀ x ∈ (stamp s e).2.send_buffer, x.p.flow_id = s.flow_id → x ∈ pre ∨ x ∈ post) := by
  have h := stamp_nearest_tail s e pre post l hst hsb hl hpost
  refine ⟨h, ?_, ?_⟩
  · rw [h, hsb]
    simp
  · intro hflow x hx hxf
    rw [h, List.mem_append, List.mem_cons] at hx
    rcases hx with hx | hx | hx
    · exact Or.inl hx
    · rw [hx] at hxf
      exact absurd hxf hflow
    · exact Or.inr hx

/-- Witness for claim C10: the stream `stream_acking_example` of flow 1
(`seq_to_ack = 3`, not stalled). With the `send_buffer` of
`env_queued_example` the TCP_DATA packet nearest to the tail belongs to flow 2
and carries `ack_seq = 7`, while a packet of flow 1 is queued nearer to the
head: `stamp` overwrites the `ack_seq` of the packet of flow 2 with 3, leaves
the packet of flow 1 as it was and emits nothing. With the `send_buffer` of
`env_foreign_example`, which holds nothing of flow 1, the packet of flow 2 is
overwritten in the same way and no TCP_ACK is emitted for flow 1. -/
theorem C10_stamp_ignores_flow_witness :
    (tcp_pkt UBOND_PKT_TCP_DATA 2 4 7 1).p.flow_id ≠ stream_acking_example.flow_id
    ∧ (stamp stream_acking_example env_queued_example).2.send_buffer
        = [tcp_pkt UBOND_PKT_TCP_DATA 1 0 0 1, tcp_pkt UBOND_PKT_TCP_DATA 2 4 3 1,
           tcp_pkt UBOND_PKT_DATA 0 9 0 1]
    ∧ (stamp stream_acking_example env_queued_example).2.send_buffer.length
        = env_queued_example.send_buffer.length
    ∧ (stamp stream_acking_example env_foreign_example).2.send_buffer
        = [tcp_pkt UBOND_PKT_DATA 0 9 0 1, tcp_pkt UBOND_PKT_TCP_DATA 2 4 3 1]
    ∧ (∀ x ∈ (stamp stream_acking_example env_foreign_example).2.send_buffer,
        x.p.flow_id = stream_acking_example.flow_id →
          x ∈ [tcp_pkt UBOND_PKT_DATA 0 9 0 1] ∨ x ∈ ([] : List ubond_pkt_t)) :=
  ⟨by decide,
   (C10_stamp_ignores_flow stream_acking_example env_queued_example
      [tcp_pkt UBOND_PKT_TCP_DATA 1 0 0 1] [tcp_pkt UBOND_PKT_DATA 0 9 0 1]
      (tcp_pkt UBOND_PKT_TCP_DATA 2 4 7 1) rfl rfl (Or.inl rfl) (by decide)).1,
   (C10_stamp_ignores_flow stream_acking_example env_queued_example
      [tcp_pkt UBOND_PKT_TCP_DATA 1 0 0 1] [tcp_pkt UBOND_PKT_DATA 0 9 0 1]
      (tcp_pkt UBOND_PKT_TCP_DATA 2 4 7 1) rfl rfl (Or.inl rfl) (by decide)).2.1,
   (C10_stamp_ignores_flow stream_acking_example env_foreign_example
      [tcp_pkt UBOND_PKT_DATA 0 9 0 1] [] (tcp_pkt UBOND_PKT_TCP_DATA 2 4 7 1) rfl rfl
      (Or.inl rfl) (by decide)).1,
   (C10_stamp_ignores_flow stream_acking_example env_foreign_example
      [tcp_pkt UBOND_PKT_DATA 0 9 0 1] [] (tcp_pkt UBOND_PKT_TCP_DATA 2 4 7 1) rfl rfl
      (Or.inl rfl) (by decide)).2.2 (by decide)⟩

/-- Claim C8, the code at a TCP_ACK: on an authenticated tunnel (AUTHOK or
LOSSY) the `switch` of `ubond_rtun_read` has no case for TCP_ACK, so the packet
takes the `default` branch and is released, while TCP_DATA and TCP_CLOSE are
handed to `ubond_stream_write`. For the stream `peer_example`, whose packet
`data_seq = 0` awaits its ACK, a TCP_ACK with `ack_seq = 0` leaves `sent` as it
is; handed to `ubond_stream_write` it would have freed the packet. -/
theorem C8_tcp_ack_not_dispatched :
    rtun_dispatch UBOND_AUTHOK UBOND_PKT_TCP_ACK = rtun_action.unknown_release
    ∧ rtun_dispatch UBOND_LOSSY UBOND_PKT_TCP_ACK = rtun_action.unknown_release
    ∧ rtun_dispatch UBOND_AUTHOK UBOND_PKT_TCP_DATA = rtun_action.stream_write
    ∧ rtun_dispatch UBOND_AUTHOK UBOND_PKT_TCP_CLOSE = rtun_action.stream_write
    ∧ rtun_read_streams UBOND_AUTHOK { active := [peer_example], env := env_example }
        (tcp_pkt UBOND_PKT_TCP_ACK 1 0 0 0)
      = { active := [peer_example], env := env_example }
    ∧ (ubond_stream_write { active := [peer_example], env := env_example }
        (tcp_pkt UBOND_PKT_TCP_ACK 1 0 0 0)).active.map (fun s => s.sent) = [[]] := by
  decide

/-- Claim C9, the code on a fresh stream: nothing has been received
(`next_seq = 0`, the peer's packet `data_seq = 0` is still expected), yet the
first data packet that `send_pkt_tun` queues carries `ack_seq = 0`, and so does
the bare TCP_ACK of `stamp`. Received by the peer, whose own packet
`data_seq = 0` awaits its ACK, that packet frees it from the peer's `sent`
list. -/
theorem C9_fresh_stream_acks_zero :
    stream_example.next_seq = 0
    ∧ stream_example.received = []
    ∧ stream_example.draining = []
    ∧ (send_pkt_tun stream_example env_example (tcp_pkt UBOND_PKT_AUTH 0 0 0 3)
        UBOND_PKT_TCP_DATA).2.send_buffer.map (fun x => (x.p.data_seq, x.p.ack_seq)) = [(0, 0)]
    ∧ (stamp stream_example env_example).2.send_buffer.map (fun x => (x.p.type, x.p.ack_seq))
        = [(UBOND_PKT_TCP_ACK, 0)]
    ∧ (ubond_stream_write { active := [peer_example], env := env_example }
        (tcp_pkt UBOND_PKT_TCP_DATA 1 0 0 3)).active.map (fun s => s.sent) = [[]] := by
  decide

theorem aolderb_iff (a b : Nat) :
    aolderb a b = true ↔ 0 < seq_off a b ∧ seq_off a b < 32768 := by
  unfold aolderb int16_t seq_off
  simp only [decide_eq_true_eq]
  omega

theorem aoldereqb_iff (a b : Nat) : aoldereqb a b = true ↔ seq_off a b < 32768 := by
  unfold aoldereqb int16_t seq_off
  simp only [decide_eq_true_eq]
  omega

theorem aolderb_window (b x y : Nat) (hx : seq_off b x < 32768) (hy : seq_off b y < 32768) :
    aolderb x y = true ↔ seq_off b x < seq_off b y := by
  rw [aolderb_iff]
  unfold seq_off at *
  omega

theorem aoldereqb_window (b x y : Nat) (hx : seq_off b x < 32768) (hy : seq_off b y < 32768) :
    aoldereqb x y = true ↔ seq_off b x ≤ seq_off b y := by
  rw [aoldereqb_iff]
  unfold seq_off at *
  omega

theorem seq_off_inj (b x y : Nat) (hx : x < 65536) (hy : y < 65536)
    (h : seq_off b x = seq_off b y) : x = y := by
  unfold seq_off at h
  omega

theorem ack_sent_spec (a b : Nat) (hwa : seq_off b a < 32768) :
    ∀ (sent : List ubond_pkt_t) (acks : Nat),
      sent.Pairwise (fun x y => aolderb x.p.data_seq y.p.data_seq = true) →
      (∀ x ∈ sent, x.p.type ≠ UBOND_PKT_TCP_CLOSE) →
      (∀ x ∈ sent, seq_off b x.p.data_seq < 32768) →
      (ack_sent a sent acks).1 = sent.filter (fun x => aolderb a x.p.data_seq)
      ∧ (ack_sent a sent acks).2.2 ≠ ack_exit.closed := by
  intro sent
  induction sent with
  | nil =>
    intro acks _ _ _
    simp [ack_sent]
  | cons l rest ih =>
    intro acks hasc hnc hwin
    have hl_win := hwin l (List.mem_cons_self _ _)
    have hl_nc := hnc l (List.mem_cons_self _ _)
    rw [List.pairwise_cons] at hasc
    have hrest_newer : ∀ y ∈ rest, seq_off b l.p.data_seq < seq_off b y.p.data_seq := by
      intro y hy
      exact (aolderb_window b _ _ hl_win (hwin y (List.mem_cons_of_mem _ hy))).1 (hasc.1 y hy)
    have ihr := fun k => ih k hasc.2 (fun x hx => hnc x (List.mem_cons_of_mem _ hx))
      (fun x hx => hwin x (List.mem_cons_of_mem _ hx))
    by_cases hle : aoldereqb l.p.data_seq a = true
    · have hle' := (aoldereqb_window b _ _ hl_win hwa).1 hle
      have hnl : aolderb a l.p.data_seq = false := by
        cases h : aolderb a l.p.data_seq with
        | false => rfl
        | true =>
          have := (aolderb_window b _ _ hwa hl_win).1 h
          omega
      by_cases heq : l.p.data_seq = a
      · have hkeep : rest.filter (fun x => aolderb a x.p.data_seq) = rest := by
          rw [List.filter_eq_self]
          intro y hy
          have h1 := hrest_newer y hy
          rw [heq] at h1
          exact (aolderb_window b _ _ hwa (hwin y (List.mem_cons_of_mem _ hy))).2 h1
        rw [ack_sent, if_pos hle, if_neg hl_nc, if_pos heq, List.filter_cons, hnl]
        simp only [Bool.false_eq_true, if_false]
        rw [hkeep]
        exact ⟨rfl, fun h => ack_exit.noConfusion h⟩
      · rw [ack_sent, if_pos hle, if_neg hl_nc, if_neg heq, List.filter_cons, hnl]
        simp only [Bool.false_eq_true, if_false]
        exact ihr (acks + 1)
    · have hgt : seq_off b a < seq_off b l.p.data_seq := by
        by_contra hcon
        exact hle ((aoldereqb_window b _ _ hl_win hwa).2 (by omega))
      have hkeep : (l :: rest).filter (fun x => aolderb a x.p.data_seq) = l :: rest := by
        rw [List.filter_eq_self]
        intro y hy
        rcases List.mem_cons.1 hy with h | h
        · subst h
          exact (aolderb_window b _ _ hwa hl_win).2 hgt
        · have h1 := hrest_newer y h
          exact (aolderb_window b _ _ hwa (hwin y (List.mem_cons_of_mem _ h))).2 (by omega)
      rw [hkeep, ack_sent, if_neg hle]
      exact ⟨rfl, fun h => ack_exit.noConfusion h⟩

theorem drain_keeps : ∀ (L : List ubond_pkt_t) (s : stream_t) (drained : Nat),
    (∀ x ∈ L, x.p.type ≠ UBOND_PKT_TCP_CLOSE) →
    (drain s drained L).2.2 = false
    ∧ (drain s drained L).1.sent = s.sent
    ∧ (drain s drained L).1.flow_id = s.flow_id
    ∧ (drain s drained L).1.preset_flow_id = s.preset_flow_id := by
  intro L
  induction L with
  | nil => intro s d _; exact ⟨rfl, rfl, rfl, rfl⟩
  | cons l rest ih =>
    intro s d hnc
    have hl := hnc l (List.mem_cons_self _ _)
    have hr : ∀ x ∈ rest, x.p.type ≠ UBOND_PKT_TCP_CLOSE :=
      fun x hx => hnc x (List.mem_cons_of_mem _ hx)
    rw [drain]
    split
    · simp only [hl, if_false]
      split
      · exact ih _ _ hr
      · exact ih _ _ hr
    · exact ⟨rfl, rfl, rfl, rfl⟩

theorem received_scan_mem (pkt : ubond_pkt_t) :
    ∀ (rev after q : List ubond_pkt_t), received_scan pkt rev after = some q →
      ∀ x ∈ q, x = pkt ∨ x ∈ rev ∨ x ∈ after := by
  intro rev
  induction rev with
  | nil =>
    intro after q h x hx
    simp only [received_scan, Option.some.injEq] at h
    subst h
    rcases List.mem_append.1 hx with h1 | h1
    · exact Or.inr (Or.inr h1)
    · exact Or.inl (List.mem_singleton.1 h1)
  | cons l rev ih =>
    intro after q h x hx
    rw [received_scan] at h
    split at h
    · cases h
    · split at h
      · simp only [Option.some.injEq] at h
        subst h
        simp only [List.mem_append, List.mem_reverse, List.mem_cons] at hx ⊢
        tauto
      · have := ih _ _ h x hx
        simp only [List.mem_cons] at this ⊢
        tauto

theorem received_insert_mem (next_seq : Nat) (pkt : ubond_pkt_t) (L q : List ubond_pkt_t)
    (h : received_insert next_seq pkt L = some q) : ∀ x ∈ q, x = pkt ∨ x ∈ L := by
  intro x hx
  unfold received_insert at h
  split at h
  · cases h
  · split at h
    · simp only [Option.some.injEq] at h
      subst h
      exact Or.inl (List.mem_singleton.1 hx)
    · rename_i l rest
      split at h
      · cases h
      · split at h
        · have := received_scan_mem pkt _ _ _ h x hx
          simp only [List.mem_reverse, List.not_mem_nil, or_false] at this
          exact this
        · simp only [Option.some.injEq] at h
          subst h
          simp only [List.mem_cons] at hx ⊢
          tauto

theorem rx_view_sent {s1 s2 : stream_t} (h : rx_view s1 = rx_view s2) :
    s1.sent.map (fun x => x.p) = s2.sent.map (fun x => x.p) := by
  simp only [rx_view, Prod.mk.injEq] at h
  exact h.2.2.2.2.2.2.2

theorem rx_view_fields {s1 s2 : stream_t} (h : rx_view s1 = rx_view s2) :
    s1.flow_id = s2.flow_id ∧ s1.preset_flow_id = s2.preset_flow_id
    ∧ s1.next_seq = s2.next_seq ∧ s1.received = s2.received ∧ s1.draining = s2.draining := by
  simp only [rx_view, Prod.mk.injEq] at h
  exact ⟨h.1, h.2.1, h.2.2.1, h.2.2.2.2.1, h.2.2.2.2.2.1⟩

theorem stamp_sent (s : stream_t) (e : env_t) :
    (stamp s e).1.sent.map (fun x => x.p) = s.sent.map (fun x => x.p) :=
  rx_view_sent (stamp_view s e)

theorem stamp_flow_id (s : stream_t) (e : env_t) : (stamp s e).1.flow_id = s.flow_id :=
  (rx_view_fields (stamp_view s e)).1

theorem stamp_preset (s : stream_t) (e : env_t) :
    (stamp s e).1.preset_flow_id = s.preset_flow_id :=
  (rx_view_fields (stamp_view s e)).2.1

theorem stamp_next_seq (s : stream_t) (e : env_t) : (stamp s e).1.next_seq = s.next_seq :=
  (rx_view_fields (stamp_view s e)).2.2.1

theorem stamp_received (s : stream_t) (e : env_t) : (stamp s e).1.received = s.received :=
  (rx_view_fields (stamp_view s e)).2.2.2.1

theorem stamp_draining (s : stream_t) (e : env_t) : (stamp s e).1.draining = s.draining :=
  (rx_view_fields (stamp_view s e)).2.2.2.2

theorem resend_sent (s : stream_t) (e : env_t) :
    (resend s e).1.sent.map (fun x => x.p) = s.sent.map (fun x => x.p) :=
  rx_view_sent (resend_view s e)

theorem resend_flow_id (s : stream_t) (e : env_t) : (resend s e).1.flow_id = s.flow_id :=
  (rx_view_fields (resend_view s e)).1

theorem resend_preset (s : stream_t) (e : env_t) :
    (resend s e).1.preset_flow_id = s.preset_flow_id :=
  (rx_view_fields (resend_view s e)).2.1

theorem resend_next_seq (s : stream_t) (e : env_t) : (resend s e).1.next_seq = s.next_seq :=
  (rx_view_fields (resend_view s e)).2.2.1

theorem resend_received (s : stream_t) (e : env_t) : (resend s e).1.received = s.received :=
  (rx_view_fields (resend_view s e)).2.2.2.1

theorem resend_draining (s : stream_t) (e : env_t) : (resend s e).1.draining = s.draining :=
  (rx_view_fields (resend_view s e)).2.2.2.2

theorem stream_write_drain_sent (s : stream_t) (e : env_t) (closed : Bool)
    (hnc : ∀ x ∈ s.received, x.p.type ≠ UBOND_PKT_TCP_CLOSE) :
    (stream_write_drain s e closed).2.2 = closed
    ∧ (stream_write_drain s e closed).1.sent.map (fun x => x.p) = s.sent.map (fun x => x.p)
    ∧ (stream_write_drain s e closed).1.flow_id = s.flow_id := by
  obtain ⟨h1, h2, h3, _⟩ := drain_keeps s.received s 0 hnc
  unfold stream_write_drain
  generalize drain s 0 s.received = d at h1 h2 h3
  obtain ⟨ds, dn, dc⟩ := d
  simp only at h1 h2 h3
  subst h1
  simp only [Bool.or_false, true_and]
  split_ifs <;> simp [stamp_sent, stamp_flow_id, h2, h3]

theorem ack_sent_no_close (a : Nat) : ∀ (sent : List ubond_pkt_t) (acks : Nat),
    (∀ x ∈ sent, x.p.type ≠ UBOND_PKT_TCP_CLOSE) →
    (ack_sent a sent acks).2.2 ≠ ack_exit.closed
    ∧ ∃ pre, sent = pre ++ (ack_sent a sent acks).1 := by
  intro sent
  induction sent with
  | nil =>
    intro acks _
    exact ⟨fun h => ack_exit.noConfusion h, [], rfl⟩
  | cons l rest ih =>
    intro acks hnc
    have hl := hnc l (List.mem_cons_self _ _)
    have ihr := ih (acks + 1) (fun x hx => hnc x (List.mem_cons_of_mem _ hx))
    by_cases h : aoldereqb l.p.data_seq a = true
    · rw [ack_sent, if_pos h, if_neg hl]
      by_cases heq : l.p.data_seq = a
      · rw [if_pos heq]
        exact ⟨fun h => ack_exit.noConfusion h, [l], rfl⟩
      · rw [if_neg heq]
        obtain ⟨h1, pre, h2⟩ := ihr
        exact ⟨h1, l :: pre, by rw [List.cons_append, ← h2]⟩
    · rw [ack_sent, if_neg h]
      exact ⟨fun h => ack_exit.noConfusion h, [], rfl⟩

theorem stream_write_acks_frame (s : stream_t) (e : env_t) (a : Nat)
    (hnc : ∀ x ∈ s.sent, x.p.type ≠ UBOND_PKT_TCP_CLOSE) :
    (stream_write_acks s e a).2.2 = false
    ∧ (stream_write_acks s e a).1.sent.map (fun x => x.p)
        = (ack_sent a s.sent 0).1.map (fun x => x.p)
    ∧ (stream_write_acks s e a).1.flow_id = s.flow_id
    ∧ (stream_write_acks s e a).1.preset_flow_id = s.preset_flow_id
    ∧ (stream_write_acks s e a).1.next_seq = s.next_seq
    ∧ (stream_write_acks s e a).1.received = s.received
    ∧ (stream_write_acks s e a).1.draining = s.draining := by
  have hex := (ack_sent_no_close a s.sent 0 hnc).1
  unfold stream_write_acks
  generalize ack_sent a s.sent 0 = r at hex
  obtain ⟨sent1, acks, ex⟩ := r
  simp only at hex
  cases ex with
  | closed => exact absurd rfl hex
  | emptied => simp only []; split_ifs <;> simp
  | matched => simp only []; split_ifs <;> simp
  | stopped =>
    simp only []
    split_ifs <;>
      simp [resend_sent, resend_flow_id, resend_preset, resend_next_seq, resend_received,
        resend_draining]

theorem stream_write_body_sent (s : stream_t) (e : env_t) (pkt : ubond_pkt_t)
    (hnc : ∀ x ∈ s.sent, x.p.type ≠ UBOND_PKT_TCP_CLOSE)
    (hpkt : pkt.p.type ≠ UBOND_PKT_TCP_CLOSE)
    (hrecv : ∀ x ∈ s.received, x.p.type ≠ UBOND_PKT_TCP_CLOSE) :
    (stream_write_body s e pkt).2.2 = false
    ∧ (stream_write_body s e pkt).1.sent.map (fun x => x.p)
        = (ack_sent pkt.p.ack_seq s.sent 0).1.map (fun x => x.p)
    ∧ (stream_write_body s e pkt).1.flow_id = s.flow_id := by
  obtain ⟨h1, h2, h3, _, _, h6, _⟩ := stream_write_acks_frame s e pkt.p.ack_seq hnc
  unfold stream_write_body
  simp only []
  generalize stream_write_acks s e pkt.p.ack_seq = r at h1 h2 h3 h6
  obtain ⟨rs, re, rc⟩ := r
  simp only at h1 h2 h3 h6
  subst h1
  split
  · unfold stream_write_rx
    split
    · exact ⟨rfl, by rw [stamp_sent]; exact h2, by rw [stamp_flow_id]; exact h3⟩
    · rename_i q hq
      have hq' : ∀ x ∈ q, x.p.type ≠ UBOND_PKT_TCP_CLOSE := by
        intro x hx
        rcases received_insert_mem _ _ _ _ hq x hx with h | h
        · subst h; exact hpkt
        · rw [h6] at h; exact hrecv x h
      obtain ⟨g1, g2, g3⟩ := stream_write_drain_sent { rs with received := q } re false hq'
      exact ⟨g1, by rw [g2]; exact h2, by rw [g3]; exact h3⟩
  · obtain ⟨g1, g2, g3⟩ := stream_write_drain_sent rs re false (by rw [h6]; exact hrecv)
    exact ⟨g1, by rw [g2]; exact h2, by rw [g3]; exact h3⟩

theorem ubond_stream_write_at (w : world_t) (pkt : ubond_pkt_t) (i : Nat) (s : stream_t)
    (hfind : find w.active pkt = some i) (hget : w.active.get? i = some s)
    (hnc : (stream_write_body s w.env pkt).2.2 = false) :
    ubond_stream_write w pkt
      = { active := w.active.set i (stream_write_body s w.env pkt).1,
          env := (stream_write_body s w.env pkt).2.1 }
    ∧ (ubond_stream_write w pkt).active.get? i = some (stream_write_body s w.env pkt).1 := by
  have hlt : i < w.active.length := by
    rcases Nat.lt_or_ge i w.active.length with h | h
    · exact h
    · rw [List.get?_eq_none.2 h] at hget; cases hget
  have e1 : ubond_stream_write w pkt
      = { active := w.active.set i (stream_write_body s w.env pkt).1,
          env := (stream_write_body s w.env pkt).2.1 } := by
    unfold ubond_stream_write
    simp only [hfind, hget, hnc, Bool.false_eq_true, if_false]
  refine ⟨e1, ?_⟩
  rw [e1]
  simp [List.getElem?_set, hlt]

/-- Claim C7, as the code has it. Take a stream reached by `find` whose `sent`
list is ascending in the wrap-aware order and holds no TCP_CLOSE, and an
incoming packet that is not a TCP_CLOSE while no TCP_CLOSE waits in `received`
(so this call does not close the stream), whose `ack_seq` lies with all queued
`data_seq` in one half of the sequence space (their distances from some base
`b` are below `2 ^ 15`). After `ubond_stream_write` the `sent` list holds
exactly the packets of before whose `data_seq` is newer than `ack_seq`, in
their order; the packets removed are those with `data_seq` older than or equal
to `ack_seq`. The packets are told by their `data_seq`, which is written once,
when the packet is queued: a packet of `sent` may also be linked in
`send_buffer`, where `stamp` rewrites its `ack_seq` at the end of the same
call, so nothing is said on the other header fields. -/
theorem C7_ack_frees_acked (w : world_t) (pkt : ubond_pkt_t) (i : Nat) (s : stream_t) (b : Nat)
    (hfind : find w.active pkt = some i) (hget : w.active.get? i = some s)
    (hasc : s.sent.Pairwise (fun x y => aolderb x.p.data_seq y.p.data_seq = true))
    (hnc : ∀ x ∈ s.sent, x.p.type ≠ UBOND_PKT_TCP_CLOSE)
    (hwa : seq_off b pkt.p.ack_seq < 32768)
    (hwin : ∀ x ∈ s.sent, seq_off b x.p.data_seq < 32768)
    (hpkt : pkt.p.type ≠ UBOND_PKT_TCP_CLOSE)
    (hrecv : ∀ x ∈ s.received, x.p.type ≠ UBOND_PKT_TCP_CLOSE) :
    (∃ s1, (ubond_stream_write w pkt).active.get? i = some s1
      ∧ s1.sent.map (fun x => x.p.data_seq)
          = (s.sent.filter (fun x => aolderb pkt.p.ack_seq x.p.data_seq)).map
              (fun x => x.p.data_seq))
    ∧ (∀ x ∈ s.sent, (aolderb pkt.p.ack_seq x.p.data_seq = false
        ↔ aoldereqb x.p.data_seq pkt.p.ack_seq = true))
    ∧ (s.sent.map (fun x => x.p.data_seq)).Nodup := by
  have hbody := stream_write_body_sent s w.env pkt hnc hpkt hrecv
  have hspec := ack_sent_spec pkt.p.ack_seq b hwa s.sent 0 hasc hnc hwin
  have hat := ubond_stream_write_at w pkt i s hfind hget hbody.1
  refine ⟨⟨_, hat.2, ?_⟩, ?_, ?_⟩
  · have h : (stream_write_body s w.env pkt).1.sent.map (fun x => x.p)
        = (s.sent.filter (fun x => aolderb pkt.p.ack_seq x.p.data_seq)).map (fun x => x.p) := by
      rw [hbody.2.1, hspec.1]
    have h2 := congrArg (List.map (fun q : ubond_proto_t => q.data_seq)) h
    rw [List.map_map, List.map_map] at h2
    exact h2
  · intro x hx
    have h1 := aolderb_window b pkt.p.ack_seq x.p.data_seq hwa (hwin x hx)
    have h2 := aoldereqb_window b x.p.data_seq pkt.p.ack_seq (hwin x hx) hwa
    rw [h2]
    constructor
    · intro h
      by_contra hcon
      have : aolderb pkt.p.ack_seq x.p.data_seq = true := h1.2 (by omega)
      rw [h] at this
      cases this
    · intro h
      cases h3 : aolderb pkt.p.ack_seq x.p.data_seq with
      | false => rfl
      | true =>
        have := h1.1 h3
        omega
  · rw [List.Nodup, List.pairwise_map]
    apply List.Pairwise.imp _ hasc
    intro x y hxy heq
    rw [heq] at hxy
    have := (aolderb_iff y.p.data_seq y.p.data_seq).1 hxy
    unfold seq_off at this
    omega

theorem drain_ack_invariant : ∀ (L : List ubond_pkt_t) (s : stream_t) (drained : Nat),
    (s.seq_to_ack + 1) % 65536 = s.next_seq →
    ((drain s drained L).1.seq_to_ack + 1) % 65536 = (drain s drained L).1.next_seq := by
  intro L
  induction L with
  | nil => intro s d h; exact h
  | cons l rest ih =>
    intro s d h
    rw [drain]
    split
    · split
      · rfl
      · split
        · exact ih _ _ rfl
        · exact ih _ _ rfl
    · exact h

theorem range_shift_map (a n : Nat) :
    (List.range (n + 1)).map (fun i => (a + i) % 65536)
      = (a % 65536) :: (List.range n).map (fun i => ((a + 1) % 65536 + i) % 65536) := by
  rw [List.range_succ_eq_map, List.map_cons, List.map_map]
  congr 1
  apply List.map_congr_left
  intro i _
  simp only [Function.comp, Nat.succ_eq_add_one]
  omega

theorem drain_run_aux : ∀ (L : List ubond_pkt_t) (s : stream_t) (drained : Nat),
    s.next_seq < 65536 →
    ∃ consumed rest, L = consumed ++ rest
      ∧ consumed.map (fun l => l.p.data_seq)
          = (List.range consumed.length).map (fun i => (s.next_seq + i) % 65536)
      ∧ (drain s drained L).1.next_seq = (s.next_seq + consumed.length) % 65536
      ∧ (consumed ≠ [] →
          ((drain s drained L).1.seq_to_ack + 1) % 65536 = (drain s drained L).1.next_seq)
      ∧ ((drain s drained L).2.2 = false →
          (drain s drained L).1.draining
            = s.draining ++ (consumed.filter (fun l => decide (0 < l.p.len))).map
                (fun l => { l with sent := 0 })
          ∧ (drain s drained L).1.received = rest) := by
  intro L
  induction L with
  | nil =>
    intro s d hn
    refine ⟨[], [], rfl, rfl, ?_, fun h => absurd rfl h, fun _ => ⟨by simp [drain], rfl⟩⟩
    simp [drain, Nat.mod_eq_of_lt hn]
  | cons l rest ih =>
    intro s d hn
    by_cases hseq : l.p.data_seq = s.next_seq
    · have hn1 : (l.p.data_seq + 1) % 65536 < 65536 := Nat.mod_lt _ (by norm_num)
      by_cases hclose : l.p.type = UBOND_PKT_TCP_CLOSE
      · refine ⟨[l], rest, rfl, ?_, ?_, ?_, ?_⟩
        · simp [hseq, Nat.mod_eq_of_lt hn, List.range_succ]
        · rw [drain, if_pos hseq, if_pos hclose]
          simp [ubond_stream_close, hseq]
        · intro _
          rw [drain, if_pos hseq, if_pos hclose]
          simp [ubond_stream_close]
        · intro h
          rw [drain, if_pos hseq, if_pos hclose] at h
          cases h
      · by_cases hlen : 0 < l.p.len
        · obtain ⟨c, r, h1, h2, h3, _, h5⟩ := ih
            { s with received := rest, seq_to_ack := l.p.data_seq,
                     next_seq := (l.p.data_seq + 1) % 65536,
                     draining := s.draining ++ [{ l with sent := 0 }] } (d + 1) hn1
          have hinv := drain_ack_invariant rest
            { s with received := rest, seq_to_ack := l.p.data_seq,
                     next_seq := (l.p.data_seq + 1) % 65536,
                     draining := s.draining ++ [{ l with sent := 0 }] } (d + 1) rfl
          refine ⟨l :: c, r, by rw [h1]; rfl, ?_, ?_, ?_, ?_⟩
          · rw [List.length_cons, range_shift_map, List.map_cons, h2, hseq,
              Nat.mod_eq_of_lt hn]
          · rw [drain, if_pos hseq, if_neg hclose, if_pos hlen, h3]
            simp only [List.length_cons, hseq]
            omega
          · intro _
            rw [drain, if_pos hseq, if_neg hclose, if_pos hlen]
            exact hinv
          · intro h
            rw [drain, if_pos hseq, if_neg hclose, if_pos hlen] at h ⊢
            obtain ⟨g1, g2⟩ := h5 h
            refine ⟨?_, g2⟩
            rw [g1]
            simp [List.filter_cons, hlen]
        · obtain ⟨c, r, h1, h2, h3, _, h5⟩ := ih
            { s with received := rest, seq_to_ack := l.p.data_seq,
                     next_seq := (l.p.data_seq + 1) % 65536 } d hn1
          have hinv := drain_ack_invariant rest
            { s with received := rest, seq_to_ack := l.p.data_seq,
                     next_seq := (l.p.data_seq + 1) % 65536 } d rfl
          refine ⟨l :: c, r, by rw [h1]; rfl, ?_, ?_, ?_, ?_⟩
          · rw [List.length_cons, range_shift_map, List.map_cons, h2, hseq,
              Nat.mod_eq_of_lt hn]
          · rw [drain, if_pos hseq, if_neg hclose, if_neg hlen, h3]
            simp only [List.length_cons, hseq]
            omega
          · intro _
            rw [drain, if_pos hseq, if_neg hclose, if_neg hlen]
            exact hinv
          · intro h
            rw [drain, if_pos hseq, if_neg hclose, if_neg hlen] at h ⊢
            obtain ⟨g1, g2⟩ := h5 h
            refine ⟨?_, g2⟩
            rw [g1]
            simp [List.filter_cons, hlen]
    · refine ⟨[], l :: rest, rfl, rfl, ?_, fun h => absurd rfl h, ?_⟩
      · rw [drain, if_neg hseq]
        simp [Nat.mod_eq_of_lt hn]
      · intro _
        rw [drain, if_neg hseq]
        simp

/-- Claim C2, as the code has it. In the drain loop of `ubond_stream_write`
(the only place where packets leave `received` for `draining`) the packets
taken off `received` are a prefix `consumed` of the queue whose `data_seq`
values are `next_seq, next_seq + 1, ...` modulo `2 ^ 16` without a gap: each is
taken only when its `data_seq` equals `next_seq`, which then advances by one,
`seq_to_ack + 1` being equal to `next_seq` once a packet was taken. Of the
packets taken, those with a payload are appended to `draining` in that order
(packets with an empty payload are released), unless a TCP_CLOSE closed the
stream. -/
theorem C2_drain_consumes_run (s : stream_t) (drained : Nat) (L : List ubond_pkt_t)
    (hn : s.next_seq < 65536) :
    ∃ consumed rest, L = consumed ++ rest
      ∧ consumed.map (fun l => l.p.data_seq)
          = (List.range consumed.length).map (fun i => (s.next_seq + i) % 65536)
      ∧ (drain s drained L).1.next_seq = (s.next_seq + consumed.length) % 65536
      ∧ (consumed ≠ [] →
          ((drain s drained L).1.seq_to_ack + 1) % 65536 = (drain s drained L).1.next_seq)
      ∧ ((drain s drained L).2.2 = false →
          (drain s drained L).1.draining
            = s.draining ++ (consumed.filter (fun l => decide (0 < l.p.len))).map
                (fun l => { l with sent := 0 })
          ∧ (drain s drained L).1.received = rest) :=
  drain_run_aux L s drained hn

/-- Witness for claim C2: a fresh stream and a queue holding the
packets 0 and 2. -/
theorem C2_drain_consumes_run_witness :
    stream_example.next_seq < 65536
    ∧ ∃ consumed rest,
      [tcp_pkt UBOND_PKT_TCP_DATA 1 0 0 1, tcp_pkt UBOND_PKT_TCP_DATA 1 2 0 1] = consumed ++ rest
      ∧ consumed.map (fun l => l.p.data_seq)
          = (List.range consumed.length).map (fun i => (stream_example.next_seq + i) % 65536)
      ∧ (drain stream_example 0
            [tcp_pkt UBOND_PKT_TCP_DATA 1 0 0 1, tcp_pkt UBOND_PKT_TCP_DATA 1 2 0 1]).1.next_seq
          = (stream_example.next_seq + consumed.length) % 65536
      ∧ (consumed ≠ [] →
          ((drain stream_example 0
            [tcp_pkt UBOND_PKT_TCP_DATA 1 0 0 1, tcp_pkt UBOND_PKT_TCP_DATA 1 2 0 1]).1.seq_to_ack
              + 1) % 65536
            = (drain stream_example 0
                [tcp_pkt UBOND_PKT_TCP_DATA 1 0 0 1,
                 tcp_pkt UBOND_PKT_TCP_DATA 1 2 0 1]).1.next_seq)
      ∧ ((drain stream_example 0
            [tcp_pkt UBOND_PKT_TCP_DATA 1 0 0 1, tcp_pkt UBOND_PKT_TCP_DATA 1 2 0 1]).2.2 = false →
          (drain stream_example 0
            [tcp_pkt UBOND_PKT_TCP_DATA 1 0 0 1, tcp_pkt UBOND_PKT_TCP_DATA 1 2 0 1]).1.draining
            = stream_example.draining ++ (consumed.filter (fun l => decide (0 < l.p.len))).map
                (fun l => { l with sent := 0 })
          ∧ (drain stream_example 0
              [tcp_pkt UBOND_PKT_TCP_DATA 1 0 0 1, tcp_pkt UBOND_PKT_TCP_DATA 1 2 0 1]).1.received
            = rest) :=
  ⟨by decide,
   C2_drain_consumes_run stream_example 0
     [tcp_pkt UBOND_PKT_TCP_DATA 1 0 0 1, tcp_pkt UBOND_PKT_TCP_DATA 1 2 0 1] (by decide)⟩

/-- Claim C2 fails as stated: a fresh stream of flow 1 receives, in order, the
TCP_DATA packets `data_seq = 0` (one byte), `data_seq = 1` (empty payload) and
`data_seq = 2` (one byte). All three are consumed (`next_seq` ends at 3), but
the packets moved into `draining` carry `data_seq` 0 and 2: the run has a
gap. -/
theorem C2_counterexample :
    (ubond_stream_write
      (ubond_stream_write
        (ubond_stream_write (world_example stream_example) (tcp_pkt UBOND_PKT_TCP_DATA 1 0 0 1))
        (tcp_pkt UBOND_PKT_TCP_DATA 1 1 0 0))
      (tcp_pkt UBOND_PKT_TCP_DATA 1 2 0 1)).active.map
        (fun s => (s.draining.map (fun x => x.p.data_seq), s.next_seq, s.received))
      = [([0, 2], 3, [])] := by
  decide

/-- Witness for claim C7: the packets 0, 1 and 2 await their ACK
and a TCP_DATA packet arrives with `ack_seq = 1`. -/
theorem C7_ack_frees_acked_witness :
    (∃ s1, (ubond_stream_write
        (world_example (stream_awaiting 3 [0, 1, 2]))
        (tcp_pkt UBOND_PKT_TCP_DATA 1 0 1 1)).active.get? 0 = some s1
      ∧ s1.sent.map (fun x => x.p.data_seq)
          = ((stream_awaiting 3 [0, 1, 2]).sent.filter
              (fun x => aolderb (tcp_pkt UBOND_PKT_TCP_DATA 1 0 1 1).p.ack_seq x.p.data_seq)).map
              (fun x => x.p.data_seq))
    ∧ (∀ x ∈ (stream_awaiting 3 [0, 1, 2]).sent,
        (aolderb (tcp_pkt UBOND_PKT_TCP_DATA 1 0 1 1).p.ack_seq x.p.data_seq = false
          ↔ aoldereqb x.p.data_seq (tcp_pkt UBOND_PKT_TCP_DATA 1 0 1 1).p.ack_seq = true))
    ∧ ((stream_awaiting 3 [0, 1, 2]).sent.map (fun x => x.p.data_seq)).Nodup :=
  C7_ack_frees_acked
    (world_example (stream_awaiting 3 [0, 1, 2]))
    (tcp_pkt UBOND_PKT_TCP_DATA 1 0 1 1) 0 _ 0 (by decide) rfl (by decide) (by decide)
    (by decide) (by decide) (by decide) (by decide)

/-- Claim C7 fails as stated, in two ways. A stream that expects `data_seq = 0`
and has the packet `data_seq = 5` awaiting its ACK receives an in-order
TCP_CLOSE carrying `ack_seq = 4`: packet 5 is newer than 4, yet the stream is
closed and its `sent` list released with it. And with the packets 0 and 100
awaiting their ACK, a TCP_ACK carrying `ack_seq = 32800` leaves both in `sent`,
although packet 100 is older than or equal to 32800 in the wrap-aware order:
the loop stops at the head, packet 0, which is not. -/
theorem C7_counterexample :
    aolderb 4 5 = true
    ∧ (ubond_stream_write
        (world_example (stream_awaiting 6 [5]))
        (tcp_pkt UBOND_PKT_TCP_CLOSE 1 0 4 0)).active = []
    ∧ aolderb 0 100 = true
    ∧ aoldereqb 100 32800 = true
    ∧ (ubond_stream_write
        (world_example (stream_awaiting 101 [0, 100]))
        (tcp_pkt UBOND_PKT_TCP_ACK 1 0 32800 0)).active.map
          (fun s => s.sent.map (fun x => x.p.data_seq)) = [[0, 100]] := by
  decide

theorem max_size_ge (e : env_t) (hden : 0 < e.moo_den) : (20 : Int) ≤ max_size e := by
  unfold max_size MIN_REORDERBUF MAX_REORDERBUF
  split
  · norm_num
  · split
    · norm_num
    · rename_i h1 _
      have h2 : 20 * e.moo_den ≤ e.moo_num := by omega
      have h3 : 20 ≤ e.moo_num / e.moo_den := (Nat.le_div_iff_mul_le hden).2 h2
      exact_mod_cast h3

theorem card_le_of_lt (P : Finset Nat) (k : Nat) (h : ∀ j ∈ P, j < k) : P.card ≤ k := by
  have hsub : P ⊆ Finset.range k := fun j hj => Finset.mem_range.2 (h j hj)
  have := Finset.card_le_card hsub
  rwa [Finset.card_range] at this

theorem deliver_loop_run (s k : Nat) (Q : Nat → ubond_pkt_t) (out0 : List ubond_pkt_t)
    (hk : k < 1024) (ms : Int) (hms : (k : Int) < ms) :
    ∀ (r fuel : Nat) (st : reorder_state) (m : Nat) (P : Finset Nat), r ≤ fuel →
      reorder_desc s k Q out0 st m P → (∀ j ∈ P, m ≤ j ∧ j < k) →
      (∀ j, m ≤ j → j < m + r → j ∈ P) → m + r ∉ P → m + r ≤ k →
      reorder_desc s k Q out0 (deliver_loop ms fuel st) (m + r)
        (P.filter (fun j => m + r ≤ j)) := by
  intro r
  induction r with
  | zero =>
    intro fuel st m P _ hdesc hP _ hm hmk
    rw [Nat.add_zero] at hm hmk
    obtain ⟨h1, h2, h3, h4, h5⟩ := hdesc
    have hcard := card_le_of_lt P k (fun j hj => (hP j hj).2)
    have hslot : st.rb.buffer st.rb.next = none := by
      rw [h1]
      rcases Nat.lt_or_ge m k with hlt | hge
      · rw [h2 m hlt, if_neg hm]
      · apply h3
        intro j hj
        omega
    have hcond : deliver_cond ms st.rb = false := by
      unfold deliver_cond
      rw [hslot, h4]
      simp only [Option.isSome_none, Bool.and_false, Bool.false_or, decide_eq_false_iff_not]
      omega
    have hloop : deliver_loop ms fuel st = st := by
      cases fuel with
      | zero => rfl
      | succ f => rw [deliver_loop, hcond]; rfl
    have hfilter : P.filter (fun j => m + 0 ≤ j) = P := by
      apply Finset.filter_true_of_mem
      intro j hj
      have := (hP j hj).1
      omega
    rw [hloop, hfilter, Nat.add_zero]
    exact ⟨h1, h2, h3, h4, h5⟩
  | succ r ih =>
    intro fuel st m P hfuel hdesc hP hrun hm hmk
    obtain ⟨h1, h2, h3, h4, h5⟩ := hdesc
    have hmP : m ∈ P := hrun m (Nat.le_refl m) (by omega)
    have hmk1 : m < k := (hP m hmP).2
    have hslot : st.rb.buffer st.rb.next = some (Q m) := by
      rw [h1, h2 m hmk1, if_pos hmP]
    have hcardpos : 0 < P.card := Finset.card_pos.2 ⟨m, hmP⟩
    have hcond : deliver_cond ms st.rb = true := by
      unfold deliver_cond
      rw [hslot, h4]
      simp only [Option.isSome_some, Bool.and_true, Bool.or_eq_true, decide_eq_true_eq]
      left
      omega
    obtain ⟨f, rfl⟩ : ∃ f, fuel = f + 1 := ⟨fuel - 1, by omega⟩
    rw [deliver_loop, hcond, if_pos rfl]
    have hstep : reorder_desc s k Q out0 (deliver_step st) (m + 1) (P.erase m) := by
      refine ⟨?_, ?_, ?_, ?_, ?_⟩
      · simp only [deliver_step, MAX_REORDERBUF, h1]
        omega
      · intro j hj
        simp only [deliver_step, h1]
        by_cases hjm : j = m
        · subst hjm
          simp
        · have hne : (s + j) % 1024 ≠ (s + m) % 1024 := by omega
          rw [Function.update_noteq hne, h2 j hj]
          simp [Finset.mem_erase, hjm]
      · intro x hx
        simp only [deliver_step, h1]
        have hne : x ≠ (s + m) % 1024 := hx m hmk1
        rw [Function.update_noteq hne]
        exact h3 x hx
      · simp only [deliver_step, h4, Finset.card_erase_of_mem hmP]
        omega
      · simp only [deliver_step, hslot, h5, List.range_succ, List.map_append, List.map_cons,
          List.map_nil, List.append_assoc]
    have hres := ih f (deliver_step st) (m + 1) (P.erase m) (by omega) hstep
      (by
        intro j hj
        have h6 := hP j (Finset.mem_of_mem_erase hj)
        have h7 := Finset.ne_of_mem_erase hj
        omega)
      (by
        intro j hj1 hj2
        exact Finset.mem_erase.2 ⟨by omega, hrun j (by omega) (by omega)⟩)
      (by
        intro hcon
        have := Finset.mem_of_mem_erase hcon
        rw [show m + 1 + r = m + (r + 1) by ring] at this
        exact hm this)
      (by omega)
    have hset : (P.erase m).filter (fun j => m + 1 + r ≤ j) = P.filter (fun j => m + (r + 1) ≤ j) := by
      ext x
      simp only [Finset.mem_filter, Finset.mem_erase]
      constructor
      · rintro ⟨⟨_, hx⟩, hle⟩
        exact ⟨hx, by omega⟩
      · rintro ⟨hx, hle⟩
        exact ⟨⟨by omega, hx⟩, by omega⟩
    rw [hset, show m + 1 + r = m + (r + 1) by ring] at hres
    exact hres

theorem run_exists (P : Finset Nat) (m k : Nat) (hmk : m ≤ k) (hP : ∀ j ∈ P, j < k) :
    ∃ r, (∀ j, m ≤ j → j < m + r → j ∈ P) ∧ m + r ∉ P ∧ m + r ≤ k := by
  have hex : ∃ x, m ≤ x ∧ x ∉ P := ⟨k, hmk, fun h => Nat.lt_irrefl k (hP k h)⟩
  refine ⟨Nat.find hex - m, ?_, ?_, ?_⟩
  · intro j hj1 hj2
    have hlt : j < Nat.find hex := by
      have := (Nat.find_spec hex).1
      omega
    have := Nat.find_min hex hlt
    by_contra hcon
    exact this ⟨hj1, hcon⟩
  · have h := Nat.find_spec hex
    rw [Nat.add_sub_cancel' h.1]
    exact h.2
  · have h := Nat.find_spec hex
    have h2 := Nat.find_min' hex ⟨hmk, fun h => Nat.lt_irrefl k (hP k h)⟩
    omega

theorem reorder_insert_step (e : env_t) (now s k : Nat) (Q : Nat → ubond_pkt_t)
    (out0 : List ubond_pkt_t) (hden : 0 < e.moo_den) (hk : k < 20)
    (hQ : ∀ j, j < k → (Q j).p.flow_id = 0 ∧ (Q j).p.data_seq = (s + j) % 65536
      ∧ (Q j).p.data_seq ≠ 0)
    (st : reorder_state) (D : Finset Nat) (hD : ∀ j ∈ D, j < k)
    (hinv : reorder_inv s k Q out0 st D) (j : Nat) (hj : j < k) (hjD : j ∉ D) :
    ∃ st1, ubond_reorder_insert e now st (Q j) = some st1
      ∧ reorder_inv s k Q out0 st1 (insert j D) := by
  obtain ⟨m, hmk, hlow, hmD, h1, h2, h3, h4, h5⟩ := hinv
  obtain ⟨hf, hseq, hnz⟩ := hQ j hj
  have hms := max_size_ge e hden
  have hjm : m ≤ j := by
    by_contra hcon
    exact hjD (hlow j (by omega))
  have hslot_eq : (Q j).p.data_seq % MAX_REORDERBUF = (s + j) % 1024 := by
    rw [hseq]
    unfold MAX_REORDERBUF
    omega
  have hfree : st.rb.buffer ((s + j) % 1024) = none := by
    rw [h2 j hj, if_neg]
    simp [Finset.mem_filter, hjD]
  -- the state after the packet was stored
  have hP1 : ∀ i ∈ insert j (D.filter (fun i => m < i)), m ≤ i ∧ i < k := by
    intro i hi
    rcases Finset.mem_insert.1 hi with h | h
    · subst h; exact ⟨hjm, hj⟩
    · have := Finset.mem_filter.1 h
      exact ⟨by omega, hD i this.1⟩
  have hjP : j ∉ D.filter (fun i => m < i) := by
    simp [Finset.mem_filter, hjD]
  obtain ⟨st1, hst1⟩ : ∃ st1 : reorder_state, st1 = { st with rb := { st.rb with
      buffer := Function.update st.rb.buffer ((s + j) % 1024) (some (Q j)),
      size := st.rb.size + 1 } } := ⟨_, rfl⟩
  have hdesc1 : reorder_desc s k Q out0 st1 m (insert j (D.filter (fun i => m < i))) := by
    rw [hst1]
    refine ⟨h1, ?_, ?_, ?_, h5⟩
    · intro i hi
      by_cases hij : i = j
      · subst hij
        simp
      · have hne : (s + i) % 1024 ≠ (s + j) % 1024 := by omega
        simp only []
        rw [Function.update_noteq hne, h2 i hi]
        simp [Finset.mem_insert, hij]
    · intro x hx
      have hne : x ≠ (s + j) % 1024 := hx j hj
      simp only []
      rw [Function.update_noteq hne]
      exact h3 x hx
    · simp only [h4, Finset.card_insert_of_not_mem hjP]
      push_cast
      ring
  obtain ⟨r, hr1, hr2, hr3⟩ := run_exists (insert j (D.filter (fun i => m < i))) m k hmk
    (fun i hi => (hP1 i hi).2)
  have hloop := deliver_loop_run s k Q out0 (by omega) (max_size e) (by omega) r
    (deliver_fuel (max_size e) st1.rb) st1 m _
    (by unfold deliver_fuel MAX_REORDERBUF; omega) hdesc1 hP1 hr1 hr2 hr3
  have heq : ubond_reorder_insert e now st (Q j)
      = some { deliver e st1 with rb := { (deliver e st1).rb with
          waiting_since := if (deliver e st1).rb.size ≠ 0 then now else 0 } } := by
    unfold ubond_reorder_insert
    rw [if_neg (by rw [hf]; simp), if_neg hnz, hslot_eq, hfree, hst1]
    simp only [Option.isSome_none, Bool.false_eq_true, if_false]
  refine ⟨_, heq, ?_⟩
  · refine ⟨m + r, hr3, ?_, ?_, ?_⟩
    · intro i hi
      rcases Nat.lt_or_ge i m with h | h
      · exact Finset.mem_insert_of_mem (hlow i h)
      · have := hr1 i h hi
        rcases Finset.mem_insert.1 this with h6 | h6
        · subst h6; exact Finset.mem_insert_self _ _
        · exact Finset.mem_insert_of_mem (Finset.mem_filter.1 h6).1
    · intro hcon
      apply hr2
      rcases Finset.mem_insert.1 hcon with h | h
      · rw [h]; exact Finset.mem_insert_self _ _
      · apply Finset.mem_insert_of_mem
        apply Finset.mem_filter.2
        refine ⟨h, ?_⟩
        rcases Nat.eq_or_lt_of_le (Nat.le_add_right m r) with h7 | h7
        · rw [← h7] at h
          exact absurd h hmD
        · exact h7
    · have hset : (insert j D).filter (fun i => m + r < i)
          = (insert j (D.filter (fun i => m < i))).filter (fun i => m + r ≤ i) := by
        ext x
        simp only [Finset.mem_filter, Finset.mem_insert]
        constructor
        · rintro ⟨hx, hlt⟩
          refine ⟨?_, by omega⟩
          rcases hx with hx | hx
          · exact Or.inl hx
          · exact Or.inr ⟨hx, by omega⟩
        · rintro ⟨hx, hle⟩
          have hne : x ≠ m + r := by
            intro h
            apply hr2
            rw [← h]
            exact Finset.mem_insert.2 (by
              rcases hx with hx | hx
              · exact Or.inl hx
              · exact Or.inr (Finset.mem_filter.2 hx))
          refine ⟨?_, by omega⟩
          rcases hx with hx | hx
          · exact Or.inl hx
          · exact Or.inr hx.1
      rw [hset]
      obtain ⟨g1, g2, g3, g4, g5⟩ := hloop
      exact ⟨g1, g2, g3, g4, g5⟩

/-- Claim C3: from an empty reorder buffer whose cursor stands at
`s mod MAX_REORDERBUF`, for `k < MIN_REORDERBUF` and every arrival order (a
permutation `order` of the indices `0 .. k-1`) of the packets `Q j` with flow
id 0 and `data_seq = s + j` modulo `2 ^ 16`, none of them 0, the calls of
`ubond_reorder_insert` (no timeout tick in between) all return, hand the
packets to the TUN device in ascending `data_seq` order, each exactly once, and
leave the buffer empty with `next = (s + k) mod MAX_REORDERBUF`.
`max_size_outoforder` is any ratio with a non-zero denominator. -/
theorem C3_reorder_delivers_in_order (e : env_t) (now s k : Nat) (Q : Nat → ubond_pkt_t)
    (order : List Nat) (st : reorder_state) (hden : 0 < e.moo_den) (hk : k < MIN_REORDERBUF)
    (hperm : order.Perm (List.range k))
    (hQ : ∀ j, j < k → (Q j).p.flow_id = 0 ∧ (Q j).p.data_seq = (s + j) % 65536
      ∧ (Q j).p.data_seq ≠ 0)
    (hempty : ∀ x, st.rb.buffer x = none) (hsize : st.rb.size = 0)
    (hnext : st.rb.next = s % MAX_REORDERBUF) :
    ∃ st1, reorder_insert_all e now st (order.map Q) = some st1
      ∧ st1.tuntap = st.tuntap ++ (List.range k).map Q
      ∧ (∀ x, st1.rb.buffer x = none)
      ∧ st1.rb.size = 0
      ∧ st1.rb.next = (s + k) % MAX_REORDERBUF := by
  unfold MIN_REORDERBUF at hk
  have hgen : ∀ (l : List Nat) (D : Finset Nat) (st0 : reorder_state),
      (∀ j ∈ D, j < k) → reorder_inv s k Q st.tuntap st0 D → l.Nodup →
      (∀ j ∈ l, j < k ∧ j ∉ D) →
      ∃ st1, reorder_insert_all e now st0 (l.map Q) = some st1
        ∧ reorder_inv s k Q st.tuntap st1 (D ∪ l.toFinset) := by
    intro l
    induction l with
    | nil =>
      intro D st0 _ hinv _ _
      exact ⟨st0, rfl, by simpa using hinv⟩
    | cons j l ih =>
      intro D st0 hD hinv hnd hl
      have hj := hl j (List.mem_cons_self _ _)
      obtain ⟨st1, h1, h2⟩ := reorder_insert_step e now s k Q st.tuntap hden hk hQ st0 D hD hinv
        j hj.1 hj.2
      rw [List.nodup_cons] at hnd
      obtain ⟨st2, h3, h4⟩ := ih (insert j D) st1
        (by
          intro i hi
          rcases Finset.mem_insert.1 hi with h | h
          · rw [h]; exact hj.1
          · exact hD i h)
        h2 hnd.2
        (by
          intro i hi
          have := hl i (List.mem_cons_of_mem _ hi)
          refine ⟨this.1, ?_⟩
          intro hcon
          rcases Finset.mem_insert.1 hcon with h | h
          · rw [h] at hi; exact hnd.1 hi
          · exact this.2 h)
      refine ⟨st2, ?_, ?_⟩
      · rw [List.map_cons, reorder_insert_all, h1]
        exact h3
      · have hset : D ∪ (j :: l).toFinset = insert j D ∪ l.toFinset := by
          ext x
          simp only [Finset.mem_union, Finset.mem_insert, List.mem_toFinset, List.mem_cons]
          tauto
        rw [hset]
        exact h4
  have hinit : reorder_inv s k Q st.tuntap st ∅ := by
    refine ⟨0, Nat.zero_le k, fun j hj => absurd hj (Nat.not_lt_zero j), by simp, ?_, ?_, ?_,
      ?_, ?_⟩
    · rw [hnext]; rfl
    · intro j _
      rw [hempty]
      simp
    · intro x _
      exact hempty x
    · rw [hsize]; simp
    · simp
  obtain ⟨st1, h1, m, hmk, hlow, hmD, g1, g2, g3, g4, g5⟩ := hgen order ∅ st (by simp) hinit
    (hperm.nodup_iff.2 (List.nodup_range k))
    (by
      intro j hj
      exact ⟨List.mem_range.1 (hperm.mem_iff.1 hj), by simp⟩)
  have hm : m = k := by
    rcases Nat.lt_or_ge m k with h | h
    · exfalso
      apply hmD
      simp only [Finset.empty_union, List.mem_toFinset]
      exact hperm.mem_iff.2 (List.mem_range.2 h)
    · omega
  subst hm
  have hP : (∅ ∪ order.toFinset).filter (fun j => m < j) = ∅ := by
    apply Finset.filter_false_of_mem
    intro j hj
    simp only [Finset.empty_union, List.mem_toFinset] at hj
    have := List.mem_range.1 (hperm.mem_iff.1 hj)
    omega
  rw [hP] at g2 g4
  refine ⟨st1, h1, g5, ?_, by simpa using g4, by unfold MAX_REORDERBUF; exact g1⟩
  intro x
  by_cases hx : ∃ j, j < m ∧ x = (s + j) % 1024
  · obtain ⟨j, hj, rfl⟩ := hx
    rw [g2 j hj]
    simp
  · apply g3
    intro j hj hcon
    exact hx ⟨j, hj, hcon⟩

/-- Witness for claim C3: the packets 5, 6, 7 arrive in
the order 7, 5, 6 at an empty buffer whose cursor stands at slot 5. -/
theorem C3_reorder_delivers_in_order_witness :
    ∃ st1, reorder_insert_all env_example 9
        { rb := { ubond_reorder_reset with next := 5 }, tuntap := [] }
        ([2, 0, 1].map (fun j => data_pkt (5 + j))) = some st1
      ∧ st1.tuntap = ([] : List ubond_pkt_t) ++ (List.range 3).map (fun j => data_pkt (5 + j))
      ∧ (∀ x, st1.rb.buffer x = none)
      ∧ st1.rb.size = 0
      ∧ st1.rb.next = (5 + 3) % MAX_REORDERBUF :=
  C3_reorder_delivers_in_order env_example 9 5 3 (fun j => data_pkt (5 + j)) [2, 0, 1]
    { rb := { ubond_reorder_reset with next := 5 }, tuntap := [] }
    (by decide) (by decide) (by decide) (by decide) (fun _ => rfl) rfl rfl

theorem aolderb_index (n i j : Nat) (hi : i ≤ 1024) (hj : j ≤ 1024) :
    aolderb ((n + i) % 65536) ((n + j) % 65536) = true ↔ i < j := by
  rw [aolderb_iff]
  unfold seq_off
  omega

theorem seq_index_inj (n i j : Nat) (hi : i ≤ 1024) (hj : j ≤ 1024)
    (h : (n + i) % 65536 = (n + j) % 65536) : i = j := by
  omega

theorem sorted_insert_mid (A B : List Nat) (j : Nat) (hs : (A ++ B).Sorted (fun a b => a < b))
    (hA : ∀ a ∈ A, a < j) (hB : ∀ b ∈ B, j < b) : (A ++ j :: B).Sorted (fun a b => a < b) := by
  unfold List.Sorted at *
  rw [List.pairwise_append] at hs ⊢
  obtain ⟨h1, h2, h3⟩ := hs
  refine ⟨h1, ?_, ?_⟩
  · rw [List.pairwise_cons]
    exact ⟨hB, h2⟩
  · intro a ha b hb
    rcases List.mem_cons.1 hb with h | h
    · rw [h]; exact hA a ha
    · exact h3 a ha b h

/-- The reverse walk over `received` for a packet that is not queued: the
packet is put right after the last queued packet that is older. -/
theorem received_scan_new (n k : Nat) (Q : Nat → ubond_pkt_t) (preset : Nat) (hk : k ≤ 1024)
    (hQ : ∀ j, j < k → (Q j).p.data_seq = (n + j) % 65536) (j : Nat) (hj : j < k) :
    ∀ (rev after : List Nat), (rev.reverse ++ after).Sorted (fun a b => a < b) →
      (∀ x ∈ rev, x < k) → j ∉ rev → (∃ x ∈ rev, x < j) → (∀ x ∈ after, j < x) →
      ∃ L1 : List Nat, received_scan (owned preset (Q j)) (rev.map (fun i => owned preset (Q i)))
          (after.map (fun i => owned preset (Q i)))
          = some (L1.map (fun i => owned preset (Q i)))
        ∧ L1.Sorted (fun a b => a < b) ∧ ∀ x, x ∈ L1 ↔ x = j ∨ x ∈ rev ∨ x ∈ after := by
  intro rev
  induction rev with
  | nil =>
    intro after _ _ _ hex _
    obtain ⟨x, hx, _⟩ := hex
    cases hx
  | cons l rev ih =>
    intro after hs hlt hjn hex hafter
    have hl := hlt l (List.mem_cons_self _ _)
    have hlj : l ≠ j := fun h => hjn (h ▸ List.mem_cons_self _ _)
    have hne : (owned preset (Q j)).p.data_seq ≠ (owned preset (Q l)).p.data_seq := by
      show (Q j).p.data_seq ≠ (Q l).p.data_seq
      rw [(hQ j hj), (hQ l hl)]
      intro h
      exact hlj (seq_index_inj n j l (by omega) (by omega) h).symm
    have hold : aolderb (owned preset (Q l)).p.data_seq (owned preset (Q j)).p.data_seq = true
        ↔ l < j := by
      show aolderb (Q l).p.data_seq (Q j).p.data_seq = true ↔ l < j
      rw [(hQ j hj), (hQ l hl)]
      exact aolderb_index n l j (by omega) (by omega)
    rw [List.map_cons, received_scan, if_neg hne]
    by_cases hcmp : l < j
    · rw [if_pos (hold.2 hcmp)]
      refine ⟨rev.reverse ++ l :: j :: after, ?_, ?_, ?_⟩
      · simp only [List.map_append, List.map_cons, List.map_reverse]
      · rw [List.reverse_cons, List.append_assoc, List.singleton_append] at hs
        have hs' : ((rev.reverse ++ [l]) ++ after).Sorted (fun a b => a < b) := by
          rw [List.append_assoc, List.singleton_append]; exact hs
        have := sorted_insert_mid (rev.reverse ++ [l]) after j hs'
          (by
            intro a ha
            rcases List.mem_append.1 ha with h | h
            · have h5 : List.Pairwise (fun a b => a < b) (rev.reverse ++ l :: after) := hs
              rw [List.pairwise_append] at h5
              have := h5.2.2 a h l (List.mem_cons_self _ _)
              omega
            · rw [List.mem_singleton.1 h]; exact hcmp)
          hafter
        rw [List.append_assoc, List.singleton_append] at this
        exact this
      · intro x
        simp only [List.mem_append, List.mem_reverse, List.mem_cons]
        tauto
    · rw [if_neg (fun h => hcmp (hold.1 h))]
      have hjl : j < l := by omega
      obtain ⟨L1, h1, h2, h3⟩ := ih (l :: after)
        (by
          rw [List.reverse_cons, List.append_assoc, List.singleton_append] at hs
          exact hs)
        (fun x hx => hlt x (List.mem_cons_of_mem _ hx))
        (fun h => hjn (List.mem_cons_of_mem _ h))
        (by
          obtain ⟨x, hx, hxj⟩ := hex
          rcases List.mem_cons.1 hx with h | h
          · omega
          · exact ⟨x, h, hxj⟩)
        (by
          intro x hx
          rcases List.mem_cons.1 hx with h | h
          · omega
          · exact hafter x h)
      refine ⟨L1, ?_, h2, ?_⟩
      · rw [← h1, List.map_cons]
      · intro x
        rw [h3]
        simp only [List.mem_cons]
        tauto

/-- The reverse walk over `received` for a packet that is queued already ends
at its copy: the packet is dropped. -/
theorem received_scan_dup (n k : Nat) (Q : Nat → ubond_pkt_t) (preset : Nat) (hk : k ≤ 1024)
    (hQ : ∀ j, j < k → (Q j).p.data_seq = (n + j) % 65536) (j : Nat) (hj : j < k) :
    ∀ (rev : List Nat) (after : List ubond_pkt_t), rev.reverse.Sorted (fun a b => a < b) →
      (∀ x ∈ rev, x < k) → j ∈ rev →
      received_scan (owned preset (Q j)) (rev.map (fun i => owned preset (Q i))) after = none := by
  intro rev
  induction rev with
  | nil => intro after _ _ h; cases h
  | cons l rev ih =>
    intro after hs hlt hjin
    have hl := hlt l (List.mem_cons_self _ _)
    rw [List.map_cons, received_scan]
    by_cases hlj : l = j
    · subst hlj
      rw [if_pos rfl]
    · have hjrev : j ∈ rev := by
        rcases List.mem_cons.1 hjin with h | h
        · exact absurd h.symm hlj
        · exact h
      have hne : (owned preset (Q j)).p.data_seq ≠ (owned preset (Q l)).p.data_seq := by
        show (Q j).p.data_seq ≠ (Q l).p.data_seq
        rw [(hQ j hj), (hQ l hl)]
        intro h
        exact hlj (seq_index_inj n j l (by omega) (by omega) h).symm
      have hjl : j < l := by
        have h5 : List.Pairwise (fun a b => a < b) (l :: rev).reverse := hs
        rw [List.reverse_cons, List.pairwise_append] at h5
        exact h5.2.2 j (List.mem_reverse.2 hjrev) l (List.mem_singleton_self l)
      have hnold : ¬ aolderb (owned preset (Q l)).p.data_seq (owned preset (Q j)).p.data_seq
          = true := by
        show ¬ aolderb (Q l).p.data_seq (Q j).p.data_seq = true
        rw [(hQ j hj), (hQ l hl), aolderb_index n l j (by omega) (by omega)]
        omega
      rw [if_neg hne, if_neg hnold]
      apply ih
      · have h5 : List.Pairwise (fun a b => a < b) (l :: rev).reverse := hs
        rw [List.reverse_cons, List.pairwise_append] at h5
        exact h5.1
      · exact fun x hx => hlt x (List.mem_cons_of_mem _ hx)
      · exact hjrev

theorem received_insert_index (n k : Nat) (Q : Nat → ubond_pkt_t) (preset : Nat)
    (hk : k ≤ 1024) (hQ : ∀ j, j < k → (Q j).p.data_seq = (n + j) % 65536) (m j : Nat)
    (hj : j < k) (hm : m ≤ k) (L : List Nat) (hs : L.Sorted (fun a b => a < b))
    (hL : ∀ x ∈ L, m < x ∧ x < k) :
    (j < m ∨ j ∈ L → received_insert ((n + m) % 65536) (owned preset (Q j))
        (L.map (fun i => owned preset (Q i))) = none)
    ∧ (m ≤ j → j ∉ L → ∃ L1 : List Nat,
        received_insert ((n + m) % 65536) (owned preset (Q j))
          (L.map (fun i => owned preset (Q i))) = some (L1.map (fun i => owned preset (Q i)))
        ∧ L1.Sorted (fun a b => a < b) ∧ ∀ x, x ∈ L1 ↔ x = j ∨ x ∈ L) := by
  have hold : aolderb (owned preset (Q j)).p.data_seq ((n + m) % 65536) = true ↔ j < m := by
    show aolderb (Q j).p.data_seq ((n + m) % 65536) = true ↔ j < m
    rw [hQ j hj]
    exact aolderb_index n j m (by omega) (by omega)
  have hcmp : ∀ l, l < k →
      ((owned preset (Q j)).p.data_seq = (owned preset (Q l)).p.data_seq ↔ j = l)
      ∧ (aolderb (owned preset (Q j)).p.data_seq (owned preset (Q l)).p.data_seq = true
          ↔ j < l) := by
    intro l hl
    constructor
    · show (Q j).p.data_seq = (Q l).p.data_seq ↔ j = l
      rw [hQ j hj, hQ l hl]
      exact ⟨seq_index_inj n j l (by omega) (by omega), fun h => by rw [h]⟩
    · show aolderb (Q j).p.data_seq (Q l).p.data_seq = true ↔ j < l
      rw [hQ j hj, hQ l hl]
      exact aolderb_index n j l (by omega) (by omega)
  constructor
  · intro h
    unfold received_insert
    by_cases hjm : j < m
    · rw [if_pos (hold.2 hjm)]
    · rw [if_neg (fun h => hjm (hold.1 h))]
      have hjL : j ∈ L := by
        rcases h with h | h
        · exact absurd h hjm
        · exact h
      cases L with
      | nil => cases hjL
      | cons l rest =>
        have hl := (hL l (List.mem_cons_self _ _)).2
        simp only [List.map_cons]
        by_cases hjl : j = l
        · rw [if_pos ((hcmp l hl).1.2 hjl)]
        · rw [if_neg (fun h => hjl ((hcmp l hl).1.1 h))]
          have hlj : l < j := by
            rcases List.mem_cons.1 hjL with h | h
            · exact absurd h hjl
            · have h5 : List.Pairwise (fun a b => a < b) (l :: rest) := hs
              rw [List.pairwise_cons] at h5
              exact h5.1 j h
          have hnold : ¬ aolderb (owned preset (Q j)).p.data_seq (owned preset (Q l)).p.data_seq
              = true := by
            rw [(hcmp l hl).2]; omega
          simp only [hnold, Bool.not_eq_true, Bool.not_false, if_true]
          have := received_scan_dup n k Q preset hk hQ j hj (l :: rest).reverse []
            (by rw [List.reverse_reverse]; exact hs)
            (fun x hx => (hL x (List.mem_reverse.1 hx)).2)
            (List.mem_reverse.2 hjL)
          rw [List.map_reverse, List.map_cons] at this
          exact this
  · intro hmj hjL
    unfold received_insert
    rw [if_neg (fun h => by have := hold.1 h; omega)]
    cases L with
    | nil =>
      exact ⟨[j], rfl, List.sorted_singleton j, by simp⟩
    | cons l rest =>
      have hl := (hL l (List.mem_cons_self _ _)).2
      have hjl : j ≠ l := fun h => hjL (h ▸ List.mem_cons_self _ _)
      simp only [List.map_cons]
      rw [if_neg (fun h => hjl ((hcmp l hl).1.1 h))]
      by_cases hlt : j < l
      · have hold2 := (hcmp l hl).2.2 hlt
        simp only [hold2, Bool.not_true, Bool.false_eq_true, if_false]
        refine ⟨j :: l :: rest, rfl, ?_, by simp⟩
        have h5 : List.Pairwise (fun a b => a < b) (l :: rest) := hs
        apply List.Pairwise.cons _ h5
        intro x hx
        rcases List.mem_cons.1 hx with h | h
        · rw [h]; exact hlt
        · rw [List.pairwise_cons] at h5
          have := h5.1 x h
          omega
      · have hnold : aolderb (owned preset (Q j)).p.data_seq (owned preset (Q l)).p.data_seq
            = false := by
          cases h : aolderb (owned preset (Q j)).p.data_seq (owned preset (Q l)).p.data_seq with
          | false => rfl
          | true => exact absurd ((hcmp l hl).2.1 h) hlt
        simp only [hnold, Bool.not_false, if_true]
        obtain ⟨L1, h1, h2, h3⟩ := received_scan_new n k Q preset hk hQ j hj (l :: rest).reverse []
          (by rw [List.reverse_reverse, List.append_nil]; exact hs)
          (fun x hx => (hL x (List.mem_reverse.1 hx)).2)
          (fun h => hjL (List.mem_reverse.1 h))
          ⟨l, List.mem_reverse.2 (List.mem_cons_self _ _), by omega⟩
          (fun x hx => by cases hx)
        refine ⟨L1, ?_, h2, ?_⟩
        · rw [List.map_reverse, List.map_cons, List.map_nil] at h1
          exact h1
        · intro x
          rw [h3]
          simp only [List.mem_reverse, List.not_mem_nil, or_false]

theorem drain_indices (n k : Nat) (Q : Nat → ubond_pkt_t) (preset : Nat) (hk : k ≤ 1024)
    (hQ : ∀ j, j < k → (Q j).p.type = UBOND_PKT_TCP_DATA ∧ (Q j).p.data_seq = (n + j) % 65536
      ∧ 0 < (Q j).p.len) :
    ∀ (L : List Nat) (s : stream_t) (d m : Nat), L.Sorted (fun a b => a < b) →
      (∀ x ∈ L, m ≤ x ∧ x < k) → s.next_seq = (n + m) % 65536 →
      ∃ r, (∀ i, m ≤ i → i < m + r → i ∈ L) ∧ m + r ∉ L
        ∧ (drain s d (L.map (fun i => owned preset (Q i)))).2.2 = false
        ∧ (drain s d (L.map (fun i => owned preset (Q i)))).2.1 = d + r
        ∧ (drain s d (L.map (fun i => owned preset (Q i)))).1.next_seq = (n + (m + r)) % 65536
        ∧ (drain s d (L.map (fun i => owned preset (Q i)))).1.received
            = (L.filter (fun x => decide (m + r < x))).map (fun i => owned preset (Q i))
        ∧ (drain s d (L.map (fun i => owned preset (Q i)))).1.draining
            = s.draining ++ (List.range' m r).map (fun i => drained_pkt preset (Q i))
        ∧ (drain s d (L.map (fun i => owned preset (Q i)))).1.flow_id = s.flow_id
        ∧ (drain s d (L.map (fun i => owned preset (Q i)))).1.preset_flow_id = s.preset_flow_id
        ∧ (drain s d (L.map (fun i => owned preset (Q i)))).1.sent = s.sent := by
  intro L
  induction L with
  | nil =>
    intro s d m _ _ hn
    exact ⟨0, fun i h1 h2 => by omega, by simp, rfl, rfl, by simpa [drain] using hn, rfl,
      by simp [drain], rfl, rfl, rfl⟩
  | cons x L ih =>
    intro s d m hs hL hn
    have hx := hL x (List.mem_cons_self _ _)
    obtain ⟨hty, hseq, hlen⟩ := hQ x hx.2
    have h5 : List.Pairwise (fun a b => a < b) (x :: L) := hs
    rw [List.pairwise_cons] at h5
    by_cases hxm : x = m
    · subst hxm
      have hds : (owned preset (Q x)).p.data_seq = s.next_seq := by
        rw [hn]; exact hseq
      have hnc : (owned preset (Q x)).p.type ≠ UBOND_PKT_TCP_CLOSE := by
        show (Q x).p.type ≠ UBOND_PKT_TCP_CLOSE
        rw [hty]; decide
      have hl : 0 < (owned preset (Q x)).p.len := hlen
      obtain ⟨r, g1, g2, g3, g4, g5, g6, g7, g8, g9, g10⟩ := ih
        { s with received := L.map (fun i => owned preset (Q i)),
                 seq_to_ack := (owned preset (Q x)).p.data_seq,
                 next_seq := ((owned preset (Q x)).p.data_seq + 1) % 65536,
                 draining := s.draining ++ [{ owned preset (Q x) with sent := 0 }] }
        (d + 1) (x + 1) h5.2
        (fun y hy => ⟨by have := h5.1 y hy; omega, (hL y (List.mem_cons_of_mem _ hy)).2⟩)
        (by
          show ((Q x).p.data_seq + 1) % 65536 = (n + (x + 1)) % 65536
          rw [hseq]; omega)
      refine ⟨r + 1, ?_, ?_, ?_, ?_, ?_, ?_, ?_, ?_, ?_, ?_⟩
      · intro i h1 h2
        rcases Nat.eq_or_lt_of_le h1 with h | h
        · rw [← h]; exact List.mem_cons_self _ _
        · exact List.mem_cons_of_mem _ (g1 i (by omega) (by omega))
      · intro hcon
        rcases List.mem_cons.1 hcon with h | h
        · omega
        · apply g2
          rw [show x + 1 + r = x + (r + 1) by ring]
          exact h
      · rw [List.map_cons, drain, if_pos hds, if_neg hnc, if_pos hl]
        exact g3
      · rw [List.map_cons, drain, if_pos hds, if_neg hnc, if_pos hl, g4]
        ring
      · rw [List.map_cons, drain, if_pos hds, if_neg hnc, if_pos hl, g5]
        congr 1
        ring
      · rw [List.map_cons, drain, if_pos hds, if_neg hnc, if_pos hl, g6, List.filter_cons]
        have : ¬ (x + (r + 1) < x) := by omega
        simp only [this, decide_False, Bool.false_eq_true, if_false]
        rw [show x + 1 + r = x + (r + 1) by ring]
      · rw [List.map_cons, drain, if_pos hds, if_neg hnc, if_pos hl, g7]
        simp only [List.append_assoc, List.singleton_append, List.range'_succ, List.map_cons]
        rfl
      · rw [List.map_cons, drain, if_pos hds, if_neg hnc, if_pos hl]
        exact g8
      · rw [List.map_cons, drain, if_pos hds, if_neg hnc, if_pos hl]
        exact g9
      · rw [List.map_cons, drain, if_pos hds, if_neg hnc, if_pos hl]
        exact g10
    · have hmx : m < x := by omega
      have hds : (owned preset (Q x)).p.data_seq ≠ s.next_seq := by
        show (Q x).p.data_seq ≠ s.next_seq
        rw [hn, hseq]
        intro h
        exact hxm (seq_index_inj n x m (by omega) (by omega) h)
      refine ⟨0, fun i h1 h2 => by omega, ?_, ?_, ?_, ?_, ?_, ?_, ?_, ?_, ?_⟩
      · intro hcon
        rcases List.mem_cons.1 hcon with h | h
        · omega
        · have := h5.1 _ h
          omega
      · rw [List.map_cons, drain, if_neg hds]
      · rw [List.map_cons, drain, if_neg hds]
        rfl
      · rw [List.map_cons, drain, if_neg hds]
        exact hn
      · rw [List.map_cons, drain, if_neg hds]
        have hall : (x :: L).filter (fun y => decide (m + 0 < y)) = x :: L := by
          rw [List.filter_eq_self]
          intro y hy
          rcases List.mem_cons.1 hy with h | h
          · rw [h]; simpa using hmx
          · have := h5.1 y h
            simp only [decide_eq_true_eq]
            omega
        rw [hall, List.map_cons]
      · rw [List.map_cons, drain, if_neg hds]
        simp
      · rw [List.map_cons, drain, if_neg hds]
      · rw [List.map_cons, drain, if_neg hds]
      · rw [List.map_cons, drain, if_neg hds]

theorem no_close_of_map_eq (A B : List ubond_pkt_t)
    (h : A.map (fun x => x.p) = B.map (fun x => x.p))
    (hB : ∀ x ∈ B, x.p.type ≠ UBOND_PKT_TCP_CLOSE) : ∀ x ∈ A, x.p.type ≠ UBOND_PKT_TCP_CLOSE := by
  intro x hx
  have h1 : x.p ∈ A.map (fun x => x.p) := List.mem_map_of_mem _ hx
  rw [h] at h1
  obtain ⟨y, hy, hyp⟩ := List.mem_map.1 h1
  rw [← hyp]
  exact hB y hy

theorem stream_write_acks_no_close (s : stream_t) (e : env_t) (a : Nat)
    (hnc : ∀ x ∈ s.sent, x.p.type ≠ UBOND_PKT_TCP_CLOSE) :
    ∀ x ∈ (stream_write_acks s e a).1.sent, x.p.type ≠ UBOND_PKT_TCP_CLOSE := by
  obtain ⟨_, h2, _⟩ := stream_write_acks_frame s e a hnc
  obtain ⟨_, pre, hpre⟩ := ack_sent_no_close a s.sent 0 hnc
  apply no_close_of_map_eq _ _ h2
  intro x hx
  apply hnc
  rw [hpre]
  exact List.mem_append_right _ hx

theorem stream_write_drain_rx (n k : Nat) (Q : Nat → ubond_pkt_t) (preset : Nat) (hk : k ≤ 1024)
    (hQ : ∀ j, j < k → (Q j).p.type = UBOND_PKT_TCP_DATA ∧ (Q j).p.data_seq = (n + j) % 65536
      ∧ 0 < (Q j).p.len)
    (s : stream_t) (e : env_t) (closed : Bool) (m : Nat) (L : List Nat)
    (hs : L.Sorted (fun a b => a < b)) (hL : ∀ x ∈ L, m ≤ x ∧ x < k)
    (hn : s.next_seq = (n + m) % 65536)
    (hrecv : s.received = L.map (fun i => owned preset (Q i))) :
    ∃ r, (∀ i, m ≤ i → i < m + r → i ∈ L) ∧ m + r ∉ L
      ∧ (stream_write_drain s e closed).2.2 = closed
      ∧ (stream_write_drain s e closed).1.next_seq = (n + (m + r)) % 65536
      ∧ (stream_write_drain s e closed).1.received
          = (L.filter (fun x => decide (m + r < x))).map (fun i => owned preset (Q i))
      ∧ (stream_write_drain s e closed).1.draining
          = s.draining ++ (List.range' m r).map (fun i => drained_pkt preset (Q i))
      ∧ (stream_write_drain s e closed).1.flow_id = s.flow_id
      ∧ (stream_write_drain s e closed).1.preset_flow_id = s.preset_flow_id
      ∧ (stream_write_drain s e closed).1.sent.map (fun x => x.p) = s.sent.map (fun x => x.p) := by
  obtain ⟨r, g1, g2, g3, _, g5, g6, g7, g8, g9, g10⟩ :=
    drain_indices n k Q preset hk hQ L s 0 m hs hL hn
  refine ⟨r, g1, g2, ?_⟩
  unfold stream_write_drain
  rw [hrecv]
  generalize drain s 0 (L.map (fun i => owned preset (Q i))) = d at g3 g5 g6 g7 g8 g9 g10
  obtain ⟨ds, dn, dc⟩ := d
  simp only at g3 g5 g6 g7 g8 g9 g10
  subst g3
  simp only [Bool.or_false, true_and]
  split_ifs <;>
    simp [stamp_sent, stamp_flow_id, stamp_preset, stamp_next_seq, stamp_received,
      stamp_draining, g5, g6, g7, g8, g9, g10]

theorem range_append_range_from (m r : Nat) :
    List.range m ++ List.range' m r = List.range (m + r) := by
  rw [List.range_eq_range', List.range_eq_range']
  have h := List.range'_append_1 0 m r
  rw [Nat.zero_add] at h
  rw [h, Nat.add_comm]

theorem stream_write_rx_inv (n k : Nat) (Q : Nat → ubond_pkt_t) (f preset : Nat)
    (hk : k ≤ 1024)
    (hQ : ∀ j, j < k → (Q j).p.type = UBOND_PKT_TCP_DATA ∧ (Q j).p.data_seq = (n + j) % 65536
      ∧ 0 < (Q j).p.len)
    (s : stream_t) (e : env_t) (D : Finset Nat) (hD : ∀ i ∈ D, i < k)
    (hinv : rx_inv n k Q f preset s D) (j : Nat) (hj : j < k) :
    (stream_write_rx s e false (owned preset (Q j))).2.2 = false
    ∧ rx_inv n k Q f preset (stream_write_rx s e false (owned preset (Q j))).1 (insert j D) := by
  obtain ⟨m, L, hmk, hlow, hmD, hsorted, hmem, hnext, hrecv, hdrain, hflow, hpre, hnc⟩ := hinv
  have hL : ∀ x ∈ L, m < x ∧ x < k := fun x hx => ⟨((hmem x).1 hx).2, hD x ((hmem x).1 hx).1⟩
  have hQd : ∀ j, j < k → (Q j).p.data_seq = (n + j) % 65536 := fun j hj => (hQ j hj).2.1
  obtain ⟨hdup, hnew⟩ := received_insert_index n k Q preset hk hQd m j hj hmk L hsorted hL
  unfold stream_write_rx
  rw [← hnext, ← hrecv] at hdup hnew
  by_cases hcase : j < m ∨ j ∈ L
  · -- an unnecessary resend: dropped
    rw [hdup hcase]
    show (_, _, false).2.2 = false ∧ rx_inv n k Q f preset (stamp s e).1 (insert j D)
    refine ⟨rfl, m, L, hmk, ?_, ?_, hsorted, ?_, ?_, ?_, ?_, ?_, ?_, ?_⟩
    · exact fun i hi => Finset.mem_insert_of_mem (hlow i hi)
    · intro hcon
      rcases Finset.mem_insert.1 hcon with h | h
      · rcases hcase with h1 | h1
        · omega
        · have := (hL j h1).1
          omega
      · exact hmD h
    · intro x
      rw [hmem x]
      constructor
      · rintro ⟨h1, h2⟩
        exact ⟨Finset.mem_insert_of_mem h1, h2⟩
      · rintro ⟨h1, h2⟩
        refine ⟨?_, h2⟩
        rcases Finset.mem_insert.1 h1 with h | h
        · rcases hcase with h3 | h3
          · omega
          · rw [h]; exact ((hmem j).1 h3).1
        · exact h
    · rw [stamp_next_seq, hnext]
    · rw [stamp_received, hrecv]
    · rw [stamp_draining, hdrain]
    · rw [stamp_flow_id, hflow]
    · rw [stamp_preset, hpre]
    · exact no_close_of_map_eq _ _ (stamp_sent s e) hnc
  · -- a new packet: queued, then the queue is drained
    have hmj : m ≤ j := by
      by_contra hcon
      exact hcase (Or.inl (by omega))
    have hjL : j ∉ L := fun h => hcase (Or.inr h)
    obtain ⟨L1, hins, hsort1, hmem1⟩ := hnew hmj hjL
    rw [hins]
    show (stream_write_drain { s with received := L1.map (fun i => owned preset (Q i)) }
        e false).2.2 = false
      ∧ rx_inv n k Q f preset
          (stream_write_drain { s with received := L1.map (fun i => owned preset (Q i)) }
            e false).1 (insert j D)
    have hL1 : ∀ x ∈ L1, m ≤ x ∧ x < k := by
      intro x hx
      rcases (hmem1 x).1 hx with h | h
      · rw [h]; exact ⟨hmj, hj⟩
      · have := hL x h
        exact ⟨by omega, this.2⟩
    obtain ⟨r, g1, g2, g3, g4, g5, g6, g7, g8, g9⟩ := stream_write_drain_rx n k Q preset hk hQ
      { s with received := L1.map (fun i => owned preset (Q i)) } e false m L1 hsort1 hL1
      hnext rfl
    refine ⟨g3, m + r, L1.filter (fun x => decide (m + r < x)), ?_, ?_, ?_, ?_, ?_, g4, g5, ?_,
      ?_, ?_, ?_⟩
    · by_contra hcon
      have h1 : k ∈ L1 := g1 k hmk (by omega)
      have := (hL1 k h1).2
      omega
    · intro i hi
      rcases Nat.lt_or_ge i m with h | h
      · exact Finset.mem_insert_of_mem (hlow i h)
      · rcases (hmem1 i).1 (g1 i h hi) with h1 | h1
        · rw [h1]; exact Finset.mem_insert_self _ _
        · exact Finset.mem_insert_of_mem ((hmem i).1 h1).1
    · intro hcon
      apply g2
      rw [hmem1]
      rcases Finset.mem_insert.1 hcon with h | h
      · exact Or.inl h
      · right
        rw [hmem]
        refine ⟨h, ?_⟩
        rcases Nat.eq_or_lt_of_le (Nat.le_add_right m r) with h7 | h7
        · rw [← h7] at h
          exact absurd h hmD
        · exact h7
    · exact List.Pairwise.filter _ hsort1
    · intro x
      rw [List.mem_filter, hmem1, hmem]
      simp only [decide_eq_true_eq, Finset.mem_insert]
      constructor
      · rintro ⟨h1 | h1, h2⟩
        · exact ⟨Or.inl h1, h2⟩
        · exact ⟨Or.inr h1.1, h2⟩
      · rintro ⟨h1 | h1, h2⟩
        · exact ⟨Or.inl h1, h2⟩
        · exact ⟨Or.inr ⟨h1, by omega⟩, h2⟩
    · rw [g6]
      simp only []
      rw [hdrain, ← List.map_append, range_append_range_from]
    · rw [g7]; exact hflow
    · rw [g8]; exact hpre
    · exact no_close_of_map_eq _ _ g9 hnc

theorem stream_write_body_rx (n k : Nat) (Q : Nat → ubond_pkt_t) (f preset : Nat)
    (hk : k ≤ 1024)
    (hQ : ∀ j, j < k → (Q j).p.type = UBOND_PKT_TCP_DATA ∧ (Q j).p.data_seq = (n + j) % 65536
      ∧ 0 < (Q j).p.len)
    (s : stream_t) (e : env_t) (D : Finset Nat) (hD : ∀ i ∈ D, i < k)
    (hinv : rx_inv n k Q f preset s D) (j : Nat) (hj : j < k) :
    (stream_write_body s e (Q j)).2.2 = false
    ∧ rx_inv n k Q f preset (stream_write_body s e (Q j)).1 (insert j D) := by
  have hinv0 := hinv
  obtain ⟨m, L, hmk, hlow, hmD, hsorted, hmem, hnext, hrecv, hdrain, hflow, hpre, hnc⟩ := hinv
  obtain ⟨f1, _, f3, f4, f5, f6, f7⟩ := stream_write_acks_frame s e (Q j).p.ack_seq hnc
  have f2 := stream_write_acks_no_close s e (Q j).p.ack_seq hnc
  have hty : (Q j).p.type ≠ UBOND_PKT_TCP_ACK := by
    rw [(hQ j hj).1]; decide
  have hinv1 : rx_inv n k Q f preset (stream_write_acks s e (Q j).p.ack_seq).1 D :=
    ⟨m, L, hmk, hlow, hmD, hsorted, hmem, f5.trans hnext, f6.trans hrecv, f7.trans hdrain,
      f3.trans hflow, f4.trans hpre, f2⟩
  have hrx := stream_write_rx_inv n k Q f preset hk hQ (stream_write_acks s e (Q j).p.ack_seq).1
    (stream_write_acks s e (Q j).p.ack_seq).2.1 D hD hinv1 j hj
  unfold stream_write_body
  simp only []
  rw [if_pos hty, f1, hpre]
  exact hrx

theorem find_flow_set (f : Nat) (s1 : stream_t) (hs1 : s1.flow_id = f) :
    ∀ (active : List stream_t) (i : Nat), find_flow active f = some i →
      find_flow (active.set i s1) f = some i := by
  intro active
  induction active with
  | nil => intro i h; cases h
  | cons l rest ih =>
    intro i h
    rw [find_flow] at h
    by_cases hl : l.flow_id = f
    · rw [if_pos hl] at h
      cases h
      rw [List.set_cons_zero, find_flow, if_pos hs1]
    · rw [if_neg hl] at h
      cases hr : find_flow rest f with
      | none => rw [hr] at h; cases h
      | some i1 =>
        rw [hr] at h
        simp only [Option.map_some', Option.some.injEq] at h
        subst h
        rw [List.set_cons_succ, find_flow, if_neg hl, ih i1 hr]
        rfl

theorem stream_write_world_rx (n k : Nat) (Q : Nat → ubond_pkt_t) (f preset : Nat)
    (hk : k ≤ 1024) (hf : f ≠ 0)
    (hQ : ∀ j, j < k → (Q j).p.type = UBOND_PKT_TCP_DATA ∧ (Q j).p.flow_id = f
      ∧ (Q j).p.data_seq = (n + j) % 65536 ∧ 0 < (Q j).p.len)
    (i : Nat) (w : world_t) (D : Finset Nat) (hD : ∀ x ∈ D, x < k)
    (hfind : find_flow w.active f = some i)
    (hinv : ∃ s, w.active.get? i = some s ∧ rx_inv n k Q f preset s D) (j : Nat) (hj : j < k) :
    find_flow (ubond_stream_write w (Q j)).active f = some i
    ∧ ∃ s, (ubond_stream_write w (Q j)).active.get? i = some s
        ∧ rx_inv n k Q f preset s (insert j D) := by
  obtain ⟨s, hget, hs⟩ := hinv
  have hQ1 : ∀ j, j < k → (Q j).p.type = UBOND_PKT_TCP_DATA ∧ (Q j).p.data_seq = (n + j) % 65536
      ∧ 0 < (Q j).p.len := fun j hj => ⟨(hQ j hj).1, (hQ j hj).2.2.1, (hQ j hj).2.2.2⟩
  obtain ⟨h1, h2⟩ := stream_write_body_rx n k Q f preset hk hQ1 s w.env D hD hs j hj
  have hfind1 : find w.active (Q j) = some i := by
    unfold find
    rw [(hQ j hj).2.1, if_neg hf]
    exact hfind
  obtain ⟨g1, g2⟩ := ubond_stream_write_at w (Q j) i s hfind1 hget h1
  refine ⟨?_, _, g2, h2⟩
  rw [g1]
  apply find_flow_set f _ _ _ _ hfind
  obtain ⟨_, _, _, _, _, _, _, _, _, _, hfl, _⟩ := h2
  exact hfl

/-- Claim C1, as the code has it: take a stream reached by `find` with
`next_seq = n`, empty `received` and `draining` queues and no TCP_CLOSE
awaiting its ACK, `k <= 1024`, and the TCP_DATA packets `Q 0, ..., Q (k-1)` of
its flow with a payload and `data_seq = n + j` modulo `2 ^ 16`. For every
arrival sequence `order` of these packets in which each occurs at least once
(any order, duplicates allowed), after `ubond_stream_write` has processed the
arrivals the stream is still active, `draining` holds exactly the `k` packets,
each once, in ascending `data_seq` order, `received` is empty and `next_seq` is
`n + k` modulo `2 ^ 16`. -/
theorem C1_reassembly (w : world_t) (i : Nat) (s : stream_t) (n k : Nat) (Q : Nat → ubond_pkt_t)
    (order : List Nat) (hflow : s.flow_id ≠ 0)
    (hfind : find_flow w.active s.flow_id = some i) (hget : w.active.get? i = some s)
    (hn : s.next_seq = n) (hn16 : n < 65536) (hrecv : s.received = []) (hdrain : s.draining = [])
    (hsent : ∀ x ∈ s.sent, x.p.type ≠ UBOND_PKT_TCP_CLOSE) (hk : k ≤ 1024)
    (hQ : ∀ j, j < k → (Q j).p.type = UBOND_PKT_TCP_DATA ∧ (Q j).p.flow_id = s.flow_id
      ∧ (Q j).p.data_seq = (n + j) % 65536 ∧ 0 < (Q j).p.len)
    (horder : ∀ j ∈ order, j < k) (hall : ∀ j, j < k → j ∈ order) :
    ∃ s1, (order.foldl (fun w j => ubond_stream_write w (Q j)) w).active.get? i = some s1
      ∧ s1.draining = (List.range k).map (fun j => drained_pkt s.preset_flow_id (Q j))
      ∧ s1.received = []
      ∧ s1.next_seq = (n + k) % 65536 := by
  have hgen : ∀ (l : List Nat) (w0 : world_t) (D : Finset Nat), (∀ x ∈ D, x < k) →
      (∀ j ∈ l, j < k) → find_flow w0.active s.flow_id = some i →
      (∃ s0, w0.active.get? i = some s0 ∧ rx_inv n k Q s.flow_id s.preset_flow_id s0 D) →
      ∃ s1, (l.foldl (fun w j => ubond_stream_write w (Q j)) w0).active.get? i = some s1
        ∧ rx_inv n k Q s.flow_id s.preset_flow_id s1 (D ∪ l.toFinset) := by
    intro l
    induction l with
    | nil =>
      intro w0 D _ _ _ hinv
      simpa using hinv
    | cons j l ih =>
      intro w0 D hD hl hfind0 hinv
      have hj := hl j (List.mem_cons_self _ _)
      obtain ⟨h1, h2⟩ := stream_write_world_rx n k Q s.flow_id s.preset_flow_id hk hflow hQ i w0 D
        hD hfind0 hinv j hj
      obtain ⟨s1, h3, h4⟩ := ih (ubond_stream_write w0 (Q j)) (insert j D)
        (by
          intro x hx
          rcases Finset.mem_insert.1 hx with h | h
          · rw [h]; exact hj
          · exact hD x h)
        (fun x hx => hl x (List.mem_cons_of_mem _ hx)) h1 h2
      refine ⟨s1, ?_, ?_⟩
      · rw [List.foldl_cons]
        exact h3
      · have hset : D ∪ (j :: l).toFinset = insert j D ∪ l.toFinset := by
          ext x
          simp only [Finset.mem_union, Finset.mem_insert, List.mem_toFinset, List.mem_cons]
          tauto
        rw [hset]
        exact h4
  have hinit : rx_inv n k Q s.flow_id s.preset_flow_id s ∅ := by
    refine ⟨0, [], Nat.zero_le k, fun j hj => absurd hj (Nat.not_lt_zero j), by simp,
      List.sorted_nil, by simp, ?_, ?_, ?_, rfl, rfl, hsent⟩
    · rw [hn, Nat.add_zero, Nat.mod_eq_of_lt hn16]
    · rw [hrecv]; rfl
    · rw [hdrain]; rfl
  obtain ⟨s1, h1, m, L, hmk, hlow, hmD, _, hmem, g1, g2, g3, _⟩ :=
    hgen order w ∅ (by simp) horder hfind ⟨s, hget, hinit⟩
  have hm : m = k := by
    rcases Nat.lt_or_ge m k with h | h
    · exfalso
      apply hmD
      simp only [Finset.empty_union, List.mem_toFinset]
      exact hall m h
    · omega
  subst hm
  have hL : L = [] := by
    apply List.eq_nil_iff_forall_not_mem.2
    intro x hx
    have h := (hmem x).1 hx
    simp only [Finset.empty_union, List.mem_toFinset] at h
    have := horder x h.1
    omega
  refine ⟨s1, h1, g3, ?_, g1⟩
  rw [g2, hL]
  rfl

/-- Witness for claim C1: the packets 0, 1, 2 reach a fresh stream in the
order 2, 0, 2, 1. -/
theorem C1_reassembly_witness :
    ∃ s1, ([2, 0, 2, 1].foldl
          (fun w j => ubond_stream_write w (tcp_pkt UBOND_PKT_TCP_DATA 1 j 0 1))
          (world_example stream_example)).active.get? 0 = some s1
      ∧ s1.draining = (List.range 3).map
          (fun j => drained_pkt stream_example.preset_flow_id (tcp_pkt UBOND_PKT_TCP_DATA 1 j 0 1))
      ∧ s1.received = []
      ∧ s1.next_seq = (0 + 3) % 65536 :=
  C1_reassembly (world_example stream_example) 0 stream_example 0 3
    (fun j => tcp_pkt UBOND_PKT_TCP_DATA 1 j 0 1) [2, 0, 2, 1] (by decide) (by decide) rfl rfl
    (by decide) rfl rfl (by decide) (by decide) (by decide) (by decide) (by decide)

/-- Claim C1 fails as stated: a stream with `next_seq = 0` and empty `received`
and `draining` queues has sent a TCP_CLOSE (`data_seq = 0`) that awaits its
ACK. The TCP_DATA packets `data_seq = 0` and `data_seq = 1` arrive in order,
both carrying `ack_seq = 0`. The first one acknowledges the TCP_CLOSE, so the
stream is closed and unlinked from `active`; the second finds no stream and is
released. No stream holds the two payloads in `draining`. -/
theorem C1_counterexample :
    ({ stream_example with sent := [tcp_pkt UBOND_PKT_TCP_CLOSE 1 0 0 0] } : stream_t).next_seq = 0
    ∧ ({ stream_example with sent := [tcp_pkt UBOND_PKT_TCP_CLOSE 1 0 0 0] } : stream_t).received
        = []
    ∧ ({ stream_example with sent := [tcp_pkt UBOND_PKT_TCP_CLOSE 1 0 0 0] } : stream_t).draining
        = []
    ∧ ([0, 1].foldl (fun w j => ubond_stream_write w (tcp_pkt UBOND_PKT_TCP_DATA 1 j 0 1))
        (world_example { stream_example with sent := [tcp_pkt UBOND_PKT_TCP_CLOSE 1 0 0 0] })).active
      = [] := by
  decide

theorem int16_t_eq_signed16 (a b : Nat) (ha : a < 65536) (hb : b < 65536) :
    int16_t ((b : Int) - (a : Int)) = signed16 ((b + 65536 - a) % 65536) := by
  unfold int16_t signed16
  split_ifs <;> omega

/-- Claim C17: for 16-bit `a` and `b`, `aolderb a b` holds exactly when the
difference `b - a`, read as a signed 16-bit number, is positive, that is when
`(b - a) mod 2 ^ 16` lies in `[1, 32767]`; `aoldereqb a b` holds exactly when
`aolderb a b` holds or `a = b`; and across the wrap `aolderb 0xFFFF 0` is true
while `aolderb 0 0xFFFF` is false. -/
theorem C17_wrap_order (a b : Nat) (ha : a < 65536) (hb : b < 65536) :
    (aolderb a b = true ↔ 0 < signed16 ((b + 65536 - a) % 65536))
    ∧ (aolderb a b = true ↔ 1 ≤ (b + 65536 - a) % 65536 ∧ (b + 65536 - a) % 65536 ≤ 32767)
    ∧ (aoldereqb a b = true ↔ (aolderb a b = true ∨ a = b))
    ∧ aolderb 65535 0 = true ∧ aolderb 0 65535 = false := by
  refine ⟨?_, ?_, ?_, by decide, by decide⟩
  · unfold aolderb
    rw [decide_eq_true_eq, int16_t_eq_signed16 a b ha hb]
  · unfold aolderb int16_t
    rw [decide_eq_true_eq]
    omega
  · unfold aoldereqb aolderb int16_t
    rw [decide_eq_true_eq, decide_eq_true_eq]
    omega

/-- Witness for claim C17: the pair `a = 65530`, `b = 4`, ten steps apart
across the wrap. -/
theorem C17_wrap_order_witness :
    (aolderb 65530 4 = true ↔ 0 < signed16 ((4 + 65536 - 65530) % 65536))
    ∧ (aolderb 65530 4 = true ↔ 1 ≤ (4 + 65536 - 65530) % 65536
        ∧ (4 + 65536 - 65530) % 65536 ≤ 32767)
    ∧ (aoldereqb 65530 4 = true ↔ (aolderb 65530 4 = true ∨ 65530 = 4))
    ∧ aolderb 65535 0 = true ∧ aolderb 0 65535 = false :=
  C17_wrap_order 65530 4 (by decide) (by decide)

/-- Claim C16, the code at the wrap. A step of `+1` away from the wrap
(`seq_last = 7`, `seq = 8`) shifts the vector and sets bit 0. At the wrap
(`seq_last = 0xFFFF`, `seq = 0`) `aolderb` calls the packet newer, but the raw
test `seq > seq_last` fails: the vector is not shifted and bit 0 stays clear.
The other way round (`seq_last = 0`, `seq = 0xFFFF`) `aolderb` calls the packet
older, but the raw test `seq >= seq_last + 64` takes it for a reconnect: the
vector is reset to all ones and the loss to 0. -/
theorem C16_raw_comparison :
    (ubond_loss_update (tun_example 7 2) env_example 8).1.seq_vect = 5
    ∧ aolderb 65535 0 = true
    ∧ (ubond_loss_update (tun_example 65535 2) env_example 0).1.seq_vect &&& 1 = 0
    ∧ (ubond_loss_update (tun_example 65535 2) env_example 0).1.seq_vect ≠ 5
    ∧ (ubond_loss_update (tun_example 65535 2) env_example 0).1.seq_last = 0
    ∧ aolderb 0 65535 = false
    ∧ (ubond_loss_update (tun_example 0 5) env_example 65535).1.seq_vect = 2 ^ 64 - 1
    ∧ (ubond_loss_update (tun_example 0 5) env_example 65535).1.seq_last = 65535
    ∧ (ubond_loss_update (tun_example 0 5) env_example 65535).1.loss = 0 := by
  decide

theorem status_down_ring (R : Nat) (t : ubond_tunnel_t) (e : env_t) :
    (ubond_rtun_status_down R t e).1.old_pkts = t.old_pkts
    ∧ (ubond_rtun_status_down R t e).1.seq = t.seq := ⟨rfl, rfl⟩

theorem rtun_send_seq (R seq_bits : Nat) (tun : ubond_tunnel_t) (e : env_t) (pkt : ubond_pkt_t)
    (res : sendto_result) :
    (ubond_rtun_send R seq_bits tun e pkt res).1.seq = (tun.seq + 1) % 2 ^ seq_bits := by
  unfold ubond_rtun_send
  cases res
  · rfl
  · rfl
  · simp only
    split_ifs <;> rfl

theorem rtun_send_ring (R seq_bits : Nat) (tun : ubond_tunnel_t) (e : env_t) (pkt : ubond_pkt_t)
    (res : sendto_result) :
    ∃ q, (ubond_rtun_send R seq_bits tun e pkt res).1.old_pkts
        = Function.update tun.old_pkts (tun.seq % R) (some q)
      ∧ q.p.tun_seq = tun.seq % 65536
      ∧ { q with p := { q.p with tun_seq := pkt.p.tun_seq, sent_loss := pkt.p.sent_loss },
                 sending := pkt.sending } = pkt := by
  unfold ubond_rtun_send
  cases res
  · simp only
    split_ifs
    · exact ⟨_, rfl, rfl, rfl⟩
    · exact ⟨_, rfl, rfl, rfl⟩
  · exact ⟨_, rfl, rfl, rfl⟩
  · simp only
    split_ifs
    · exact ⟨_, rfl, rfl, rfl⟩
    · exact ⟨_, rfl, rfl, rfl⟩

/-- Claim C15: whatever `sendto` returns, `ubond_rtun_send` leaves the packet in the
ring slot `seq mod RESENDBUFSIZE` (the other slots are untouched), stamped
with `tun_seq = seq` truncated to 16 bits and otherwise unchanged in its wire
part, and increments the counter by one (in the counter's own width of
`seq_bits ≥ 16` bits); the packet of the next send on the tunnel therefore
carries the next `tun_seq` modulo `2 ^ 16`. -/
theorem C15_send_stores_and_stamps (R seq_bits : Nat) (tun : ubond_tunnel_t) (e : env_t)
    (pkt pkt2 : ubond_pkt_t) (res res2 : sendto_result) (hbits : 16 ≤ seq_bits) :
    (∃ q, (ubond_rtun_send R seq_bits tun e pkt res).1.old_pkts (tun.seq % R) = some q
      ∧ q.p.tun_seq = tun.seq % 65536
      ∧ { q with p := { q.p with tun_seq := pkt.p.tun_seq, sent_loss := pkt.p.sent_loss },
                 sending := pkt.sending } = pkt)
    ∧ (∀ i, i ≠ tun.seq % R →
        (ubond_rtun_send R seq_bits tun e pkt res).1.old_pkts i = tun.old_pkts i)
    ∧ (ubond_rtun_send R seq_bits tun e pkt res).1.seq = (tun.seq + 1) % 2 ^ seq_bits
    ∧ (∃ q2, (ubond_rtun_send R seq_bits (ubond_rtun_send R seq_bits tun e pkt res).1
          (ubond_rtun_send R seq_bits tun e pkt res).2.1 pkt2 res2).1.old_pkts
            ((ubond_rtun_send R seq_bits tun e pkt res).1.seq % R) = some q2
      ∧ q2.p.tun_seq = (tun.seq % 65536 + 1) % 65536) := by
  obtain ⟨q, hq, hq1, hq2⟩ := rtun_send_ring R seq_bits tun e pkt res
  obtain ⟨q2, hr, hr1, -⟩ := rtun_send_ring R seq_bits (ubond_rtun_send R seq_bits tun e pkt res).1
    (ubond_rtun_send R seq_bits tun e pkt res).2.1 pkt2 res2
  refine ⟨⟨q, ?_, hq1, hq2⟩, ?_, rtun_send_seq R seq_bits tun e pkt res, ⟨q2, ?_, ?_⟩⟩
  · rw [hq, Function.update_same]
  · intro i hi
    rw [hq, Function.update_noteq hi]
  · rw [hr, Function.update_same]
  · rw [hr1, rtun_send_seq]
    have hdvd : 65536 ∣ 2 ^ seq_bits := by
      have h := pow_dvd_pow 2 hbits
      norm_num at h
      exact h
    rw [Nat.mod_mod_of_dvd _ hdvd]
    omega

/-- Witness for claim C15: two keepalives sent on a tunnel with a
64-bit counter standing at 65535, the first write failing. -/
theorem C15_send_stores_and_stamps_witness :
    (∃ q, (ubond_rtun_send 16 64 { tun_example 0 0 with seq := 65535 } env_example
          keepalive_example sendto_result.failed).1.old_pkts (65535 % 16) = some q
      ∧ q.p.tun_seq = 65535 % 65536
      ∧ { q with p := { q.p with tun_seq := keepalive_example.p.tun_seq,
                                 sent_loss := keepalive_example.p.sent_loss },
                 sending := keepalive_example.sending } = keepalive_example)
    ∧ (∀ i, i ≠ 65535 % 16 →
        (ubond_rtun_send 16 64 { tun_example 0 0 with seq := 65535 } env_example
          keepalive_example sendto_result.failed).1.old_pkts i = (tun_example 0 0).old_pkts i)
    ∧ (ubond_rtun_send 16 64 { tun_example 0 0 with seq := 65535 } env_example
          keepalive_example sendto_result.failed).1.seq = (65535 + 1) % 2 ^ 64
    ∧ (∃ q2, (ubond_rtun_send 16 64
          (ubond_rtun_send 16 64 { tun_example 0 0 with seq := 65535 } env_example
            keepalive_example sendto_result.failed).1
          (ubond_rtun_send 16 64 { tun_example 0 0 with seq := 65535 } env_example
            keepalive_example sendto_result.failed).2.1 keepalive_example
          (sendto_result.written 30)).1.old_pkts
            ((ubond_rtun_send 16 64 { tun_example 0 0 with seq := 65535 } env_example
              keepalive_example sendto_result.failed).1.seq % 16) = some q2
      ∧ q2.p.tun_seq = (65535 % 65536 + 1) % 65536) :=
  C15_send_stores_and_stamps 16 64 { tun_example 0 0 with seq := 65535 } env_example
    keepalive_example keepalive_example sendto_result.failed (sendto_result.written 30)
    (by decide)

/-- Claim C19, the code at a packet that fails validation. A packet whose
declared payload length exceeds the data area is refused by
`ubond_protocol_read` (return value -1, loss vector untouched), and yet
`ubond_rtun_read` goes on to the dispatch with it: a DATA packet on a tunnel in
state AUTHOK is handed to the reorder buffer, a TCP_DATA packet to the stream
code. -/
theorem C19_invalid_still_dispatched (R hdr pkt_size data_size : Nat) (tun : ubond_tunnel_t)
    (e : env_t) (wire_len : Nat) (pkt : ubond_pkt_t) (type : pkt_type) :
    (ubond_protocol_read hdr pkt_size data_size { tun with status := UBOND_AUTHOK } e wire_len
        { pkt with p := { pkt.p with type := type, len := data_size + 1 } }).1 = -1
    ∧ (ubond_rtun_read_pkt R hdr pkt_size data_size true true { tun with status := UBOND_AUTHOK }
        e wire_len { pkt with p := { pkt.p with type := type, len := data_size + 1 } })
      = ({ tun with status := UBOND_AUTHOK }, e,
         rtun_read_exit.dispatched (rtun_dispatch UBOND_AUTHOK type))
    ∧ rtun_dispatch UBOND_AUTHOK UBOND_PKT_DATA = rtun_action.reorder_insert
    ∧ rtun_dispatch UBOND_AUTHOK UBOND_PKT_TCP_DATA = rtun_action.stream_write := by
  have hv : ubond_protocol_read hdr pkt_size data_size { tun with status := UBOND_AUTHOK } e
      wire_len { pkt with p := { pkt.p with type := type, len := data_size + 1 } }
      = (-1, { tun with status := UBOND_AUTHOK }, e) := by
    unfold ubond_protocol_read
    split_ifs with h1 h2
    · rfl
    · rfl
    · exact absurd (Nat.lt_succ_self data_size) h2
  refine ⟨by rw [hv], ?_, rfl, rfl⟩
  unfold ubond_rtun_read_pkt
  rw [hv]
  simp

theorem max_size_le (e : env_t) : max_size e ≤ 1024 := by
  unfold max_size MIN_REORDERBUF MAX_REORDERBUF
  split
  · norm_num
  · split
    · norm_num
    · rename_i _ h2
      have h3 : e.moo_num ≤ 1024 * e.moo_den := by omega
      have h4 : e.moo_num / e.moo_den ≤ 1024 := by
        apply Nat.div_le_of_le_mul
        rw [Nat.mul_comm]
        exact h3
      exact_mod_cast h4

theorem deliver_loop_exits (ms : Int) (hms : 0 < ms) :
    ∀ (fuel : Nat) (st : reorder_state), 0 ≤ st.rb.size → st.rb.size ≤ fuel →
      deliver_cond ms (deliver_loop ms fuel st).rb = false
        ∧ 0 ≤ (deliver_loop ms fuel st).rb.size := by
  intro fuel
  induction fuel with
  | zero =>
    intro st h0 h1
    have hz : st.rb.size = 0 := by
      have : st.rb.size ≤ 0 := by exact_mod_cast h1
      omega
    refine ⟨?_, h0⟩
    show deliver_cond ms st.rb = false
    unfold deliver_cond
    rw [hz]
    simp
    exact hms
  | succ n ih =>
    intro st h0 h1
    rw [deliver_loop]
    by_cases hc : deliver_cond ms st.rb = true
    · rw [if_pos hc]
      have hpos : 1 ≤ st.rb.size := by
        unfold deliver_cond at hc
        simp only [Bool.or_eq_true, Bool.and_eq_true, decide_eq_true_eq] at hc
        rcases hc with ⟨h, _⟩ | h
        · omega
        · omega
      apply ih
      · show 0 ≤ st.rb.size - 1
        omega
      · show st.rb.size - 1 ≤ (n : Int)
        push_cast at h1
        omega
    · rw [if_neg hc]
      exact ⟨by simpa using hc, h0⟩

theorem deliver_exits (e : env_t) (hden : 0 < e.moo_den) (st : reorder_state)
    (h0 : 0 ≤ st.rb.size) :
    deliver_cond (max_size e) (deliver e st).rb = false ∧ 0 ≤ (deliver e st).rb.size := by
  unfold deliver
  have h20 := max_size_ge e hden
  have h1024 := max_size_le e
  apply deliver_loop_exits (max_size e) (by omega) _ st h0
  unfold deliver_fuel MAX_REORDERBUF
  push_cast
  omega

set_option maxRecDepth 100000 in
/-- Claim C12, the code on 20 inserts. From `ubond_reorder_reset` (cursor at
slot 0, `max_size_outoforder` at its initial value 20) the first 19 of the
packets with `data_seq = 2, ..., 21` leave `size = 19` with 19 slots in use;
the 20th makes `size` reach `max_size()`, so `deliver` runs one pass on the
empty slot 0 and decrements `size` although it removed nothing: `size` is 19
while 20 slots hold a packet. -/
theorem C12_size_undercounts :
    (reorder_insert_all env_example 0 reorder_start (data_run 2 19)).map
        (fun st => (st.rb.size, slot_count st.rb, st.rb.next)) = some (19, 19, 0)
    ∧ (reorder_insert_all env_example 0 reorder_start (data_run 2 20)).map
        (fun st => (st.rb.size, slot_count st.rb, st.rb.next)) = some (19, 20, 1) := by
  decide

set_option maxRecDepth 100000 in
/-- Claim C13, the code on 20 inserts. From `ubond_reorder_reset` the packets
with `data_seq = 1, ..., 20` arrive in order. The 20th insert makes `deliver`
skip the empty slot 0 (one decrement of `size` for no packet), hand packets
1 to 19 to the TUN device and return with `size = 0`, while the slot at the
cursor, slot 20, still holds packet 20. -/
theorem C13_packet_left_at_cursor :
    (reorder_insert_all env_example 0 reorder_start (data_run 1 20)).map
        (fun st => (st.rb.size, st.rb.next, st.rb.buffer st.rb.next, st.tuntap))
      = some (0, 20, some (data_pkt 20), data_run 1 19) := by
  decide

theorem reorder_insert_returns (e : env_t) (now : Nat) (st : reorder_state) (pkt : ubond_pkt_t)
    (hden : 0 < e.moo_den) (hsize : 0 ≤ st.rb.size) (hflow : pkt.p.flow_id = 0) :
    ∃ st1, ubond_reorder_insert e now st pkt = some st1
      ∧ 0 ≤ st1.rb.size
      ∧ (st1 = { st with tuntap := st.tuntap ++ [pkt] }
          ∨ deliver_cond (max_size e) st1.rb = false) := by
  unfold ubond_reorder_insert
  rw [if_neg (by simp [hflow])]
  by_cases h0 : pkt.p.data_seq = 0
  · rw [if_pos h0]
    exact ⟨_, rfl, hsize, Or.inl rfl⟩
  · rw [if_neg h0]
    by_cases h1 : (st.rb.buffer (pkt.p.data_seq % MAX_REORDERBUF)).isSome = true
    · rw [if_pos h1]
      exact ⟨_, rfl, hsize, Or.inl rfl⟩
    · rw [if_neg h1]
      have hex := deliver_exits e hden
        { st with rb := { st.rb with
            buffer := Function.update st.rb.buffer (pkt.p.data_seq % MAX_REORDERBUF) (some pkt),
            size := st.rb.size + 1 } } (by show 0 ≤ st.rb.size + 1; omega)
      exact ⟨_, rfl, hex.2, Or.inr hex.1⟩

theorem reorder_insert_flow (e : env_t) (now : Nat) (st : reorder_state) (pkt : ubond_pkt_t)
    (hflow : pkt.p.flow_id ≠ 0) : ubond_reorder_insert e now st pkt = none := by
  unfold ubond_reorder_insert
  rw [if_pos hflow]

theorem loss_update_frame (tun : ubond_tunnel_t) (e : env_t) (seq : Nat) :
    (ubond_loss_update tun e seq).1.status = tun.status
    ∧ (ubond_loss_update tun e seq).2.moo_num = e.moo_num
    ∧ (ubond_loss_update tun e seq).2.moo_den = e.moo_den := by
  unfold ubond_loss_update
  simp only []
  split_ifs <;> exact ⟨rfl, rfl, rfl⟩

theorem protocol_read_frame (hdr pkt_size data_size : Nat) (tun : ubond_tunnel_t) (e : env_t)
    (wire_len : Nat) (pkt : ubond_pkt_t) :
    (ubond_protocol_read hdr pkt_size data_size tun e wire_len pkt).2.1.status = tun.status
    ∧ (ubond_protocol_read hdr pkt_size data_size tun e wire_len pkt).2.2.moo_num = e.moo_num
    ∧ (ubond_protocol_read hdr pkt_size data_size tun e wire_len pkt).2.2.moo_den = e.moo_den := by
  unfold ubond_protocol_read
  split
  · exact ⟨rfl, rfl, rfl⟩
  · split
    · exact ⟨rfl, rfl, rfl⟩
    · exact loss_update_frame tun e pkt.p.tun_seq

theorem max_size_congr (e1 e2 : env_t) (hn : e1.moo_num = e2.moo_num)
    (hd : e1.moo_den = e2.moo_den) : max_size e1 = max_size e2 := by
  unfold max_size
  rw [hn, hd]

theorem reorder_insert_congr (e1 e2 : env_t) (now : Nat) (st : reorder_state) (pkt : ubond_pkt_t)
    (hn : e1.moo_num = e2.moo_num) (hd : e1.moo_den = e2.moo_den) :
    ubond_reorder_insert e1 now st pkt = ubond_reorder_insert e2 now st pkt := by
  unfold ubond_reorder_insert deliver
  rw [max_size_congr e1 e2 hn hd]

theorem rtun_read_data_spec (R hdr pkt_size data_size : Nat) (addrinfo addr_match : Bool)
    (tun : ubond_tunnel_t) (e : env_t) (wire_len : Nat) (pkt : ubond_pkt_t) (now : Nat)
    (st : reorder_state) (hauth : status_ge_authok tun.status = true)
    (htype : pkt.p.type = UBOND_PKT_DATA ∨ pkt.p.type = UBOND_PKT_DATA_RESEND) :
    (addrinfo = false →
      (ubond_rtun_read_data R hdr pkt_size data_size addrinfo addr_match tun e wire_len pkt now
        st).2.2 = rtun_read_end.fatal_addrinfo)
    ∧ (addrinfo = true → addr_match = false →
      (ubond_rtun_read_data R hdr pkt_size data_size addrinfo addr_match tun e wire_len pkt now
        st).2.2 = rtun_read_end.rejected)
    ∧ (addrinfo = true → addr_match = true →
      (ubond_rtun_read_data R hdr pkt_size data_size addrinfo addr_match tun e wire_len pkt now
        st).2.2
        = match ubond_reorder_insert e now st pkt with
          | none => rtun_read_end.fatal_reorder
          | some st1 => rtun_read_end.inserted st1) := by
  obtain ⟨hs, hn, hd⟩ := protocol_read_frame hdr pkt_size data_size tun e wire_len pkt
  have hauth1 : status_ge_authok
      (ubond_protocol_read hdr pkt_size data_size tun e wire_len pkt).2.1.status = true := by
    rw [hs]; exact hauth
  have hdisp : rtun_dispatch
      (ubond_protocol_read hdr pkt_size data_size tun e wire_len pkt).2.1.status pkt.p.type
      = rtun_action.reorder_insert := by
    unfold rtun_dispatch
    rw [if_pos hauth1]
    rcases htype with h | h <;> rw [h]
  have hins := reorder_insert_congr
    (ubond_protocol_read hdr pkt_size data_size tun e wire_len pkt).2.2 e now st pkt hn hd
  refine ⟨?_, ?_, ?_⟩
  · intro ha
    subst ha
    simp [ubond_rtun_read_data, ubond_rtun_read_pkt]
  · intro ha hm
    subst ha
    subst hm
    simp [ubond_rtun_read_data, ubond_rtun_read_pkt, hauth1]
  · intro ha hm
    subst ha
    subst hm
    simp only [ubond_rtun_read_data, ubond_rtun_read_pkt, Bool.not_true, Bool.false_eq_true,
      if_false, false_and, hdisp, hins]
    cases ubond_reorder_insert e now st pkt <;> rfl

theorem rtun_read_data_down (R hdr pkt_size data_size : Nat) (tun : ubond_tunnel_t) (e : env_t)
    (wire_len : Nat) (pkt : ubond_pkt_t) (now : Nat) (st : reorder_state)
    (hauth : status_ge_authok tun.status = true) :
    (ubond_rtun_read_data R hdr pkt_size data_size true false tun e wire_len pkt now st).1.status
      = UBOND_DISCONNECTED := by
  have hs := (protocol_read_frame hdr pkt_size data_size tun e wire_len pkt).1
  have hauth1 : status_ge_authok
      (ubond_protocol_read hdr pkt_size data_size tun e wire_len pkt).2.1.status = true := by
    rw [hs]; exact hauth
  simp [ubond_rtun_read_data, ubond_rtun_read_pkt, hauth1, ubond_rtun_status_down]

/-- Claim C20, as the code has it. A DATA or DATA_RESEND packet is read by
`ubond_rtun_read` on an authenticated tunnel (AUTHOK or LOSSY), whether it
passes `ubond_protocol_read` or not. With `tun->addrinfo` NULL the pass ends in
`fatalx`. With a sender address that is not the tunnel's, the tunnel is taken
down and the function returns, the packet never reaching the reorder buffer.
Otherwise the packet is handed to `ubond_reorder_insert`: with a non-zero
`flow_id` the call ends in `fatalx`; with `flow_id` zero it returns (the buffer
having a non-negative `size`, as every state reached from
`ubond_reorder_reset` has), and either the packet went straight to the TUN
device and the buffer is untouched, or it was stored and the loop of `deliver`
ran until its condition was false. -/
theorem C20_rtun_read_data (R hdr pkt_size data_size : Nat) (addrinfo addr_match : Bool)
    (tun : ubond_tunnel_t) (e : env_t) (wire_len : Nat) (pkt : ubond_pkt_t) (now : Nat)
    (st : reorder_state) (hden : 0 < e.moo_den) (hsize : 0 ≤ st.rb.size)
    (hauth : status_ge_authok tun.status = true)
    (htype : pkt.p.type = UBOND_PKT_DATA ∨ pkt.p.type = UBOND_PKT_DATA_RESEND) :
    (addrinfo = false →
      (ubond_rtun_read_data R hdr pkt_size data_size addrinfo addr_match tun e wire_len pkt now
        st).2.2 = rtun_read_end.fatal_addrinfo)
    ∧ (addrinfo = true → addr_match = false →
      (ubond_rtun_read_data R hdr pkt_size data_size addrinfo addr_match tun e wire_len pkt now
        st).2.2 = rtun_read_end.rejected
      ∧ (ubond_rtun_read_data R hdr pkt_size data_size addrinfo addr_match tun e wire_len pkt
          now st).1.status = UBOND_DISCONNECTED)
    ∧ (addrinfo = true → addr_match = true → pkt.p.flow_id ≠ 0 →
      ubond_reorder_insert e now st pkt = none
      ∧ (ubond_rtun_read_data R hdr pkt_size data_size addrinfo addr_match tun e wire_len pkt now
          st).2.2 = rtun_read_end.fatal_reorder)
    ∧ (addrinfo = true → addr_match = true → pkt.p.flow_id = 0 →
      ∃ st1, ubond_reorder_insert e now st pkt = some st1
        ∧ (ubond_rtun_read_data R hdr pkt_size data_size addrinfo addr_match tun e wire_len pkt
            now st).2.2 = rtun_read_end.inserted st1
        ∧ 0 ≤ st1.rb.size
        ∧ (st1 = { st with tuntap := st.tuntap ++ [pkt] }
            ∨ deliver_cond (max_size e) st1.rb = false)) := by
  obtain ⟨h1, h2, h3⟩ := rtun_read_data_spec R hdr pkt_size data_size addrinfo addr_match tun e
    wire_len pkt now st hauth htype
  refine ⟨h1, ?_, ?_, ?_⟩
  · intro ha hm
    refine ⟨h2 ha hm, ?_⟩
    subst ha
    subst hm
    exact rtun_read_data_down R hdr pkt_size data_size tun e wire_len pkt now st hauth
  · intro ha hm hflow
    have hi := reorder_insert_flow e now st pkt hflow
    refine ⟨hi, ?_⟩
    rw [h3 ha hm, hi]
  · intro ha hm hflow
    obtain ⟨st1, hi, hs, hc⟩ := reorder_insert_returns e now st pkt hden hsize hflow
    refine ⟨st1, hi, ?_, hs, hc⟩
    rw [h3 ha hm, hi]

/-- Witness for claim C20: the DATA packet with `data_seq = 7` and flow
id 0, read on the tunnel `tun_example 0 0` (state AUTHOK, address set) at the
buffer right after the reset. Coming from the tunnel's own peer it is stored in
the reorder buffer; coming from another address it takes the tunnel down and
does not reach the buffer. -/
theorem C20_rtun_read_data_witness :
    (∃ st1, ubond_reorder_insert env_example 3 reorder_start (data_pkt 7) = some st1
      ∧ (ubond_rtun_read_data 1024 20 1600 1500 true true (tun_example 0 0) env_example 21
          (data_pkt 7) 3 reorder_start).2.2 = rtun_read_end.inserted st1
      ∧ 0 ≤ st1.rb.size
      ∧ (st1 = { reorder_start with tuntap := reorder_start.tuntap ++ [data_pkt 7] }
          ∨ deliver_cond (max_size env_example) st1.rb = false))
    ∧ (ubond_rtun_read_data 1024 20 1600 1500 true false (tun_example 0 0) env_example 21
          (data_pkt 7) 3 reorder_start).2.2 = rtun_read_end.rejected
    ∧ (ubond_rtun_read_data 1024 20 1600 1500 true false (tun_example 0 0) env_example 21
          (data_pkt 7) 3 reorder_start).1.status = UBOND_DISCONNECTED :=
  ⟨(C20_rtun_read_data 1024 20 1600 1500 true true (tun_example 0 0) env_example 21 (data_pkt 7)
      3 reorder_start (by decide) (by decide) rfl (Or.inl rfl)).2.2.2 rfl rfl rfl,
   ((C20_rtun_read_data 1024 20 1600 1500 true false (tun_example 0 0) env_example 21
      (data_pkt 7) 3 reorder_start (by decide) (by decide) rfl (Or.inl rfl)).2.1 rfl rfl).1,
   ((C20_rtun_read_data 1024 20 1600 1500 true false (tun_example 0 0) env_example 21
      (data_pkt 7) 3 reorder_start (by decide) (by decide) rfl (Or.inl rfl)).2.1 rfl rfl).2⟩

/-- Claim C20 fails as stated: a DATA packet with flow id 1, read on the
tunnel `tun_example 0 0` (state AUTHOK, address set) from the tunnel's own
peer, is handed to `ubond_reorder_insert`, which ends in `fatalx`
("Can not re-order TCP stream"); and the same packet read while
`tun->addrinfo` is NULL ends in `fatalx` ("tun->addrinfo is NULL!"). -/
theorem C20_counterexample :
    status_ge_authok (tun_example 0 0).status = true
    ∧ (tcp_pkt UBOND_PKT_DATA 1 7 0 1).p.flow_id = 1
    ∧ (ubond_rtun_read_data 1024 20 1600 1500 true true (tun_example 0 0) env_example 21
        (tcp_pkt UBOND_PKT_DATA 1 7 0 1) 3 reorder_start).2.2 = rtun_read_end.fatal_reorder
    ∧ (ubond_rtun_read_data 1024 20 1600 1500 false true (tun_example 0 0) env_example 21
        (tcp_pkt UBOND_PKT_DATA 1 7 0 1) 3 reorder_start).2.2 = rtun_read_end.fatal_addrinfo := by
  obtain ⟨h1, -, h3⟩ := rtun_read_data_spec 1024 20 1600 1500 true true (tun_example 0 0)
    env_example 21 (tcp_pkt UBOND_PKT_DATA 1 7 0 1) 3 reorder_start rfl (Or.inl rfl)
  obtain ⟨h1', -, -⟩ := rtun_read_data_spec 1024 20 1600 1500 false true (tun_example 0 0)
    env_example 21 (tcp_pkt UBOND_PKT_DATA 1 7 0 1) 3 reorder_start rfl (Or.inl rfl)
  refine ⟨rfl, rfl, ?_, h1' rfl⟩
  rw [h3 rfl rfl, reorder_insert_flow _ _ _ _ (by decide)]

theorem drain_draining : ∀ (L : List ubond_pkt_t) (s : stream_t) (drained : Nat),
    (drain s drained L).2.2 = false →
    ∃ X, (drain s drained L).1.draining = s.draining ++ X := by
  intro L
  induction L with
  | nil => intro s d _; exact ⟨[], by simp [drain]⟩
  | cons l rest ih =>
    intro s d
    rw [drain]
    by_cases h1 : l.p.data_seq = s.next_seq
    · rw [if_pos h1]
      by_cases h2 : l.p.type = UBOND_PKT_TCP_CLOSE
      · rw [if_pos h2]
        intro h
        cases h
      · rw [if_neg h2]
        by_cases h3 : 0 < l.p.len
        · rw [if_pos h3]
          intro h
          obtain ⟨X, hX⟩ := ih _ _ h
          exact ⟨{ l with sent := 0 } :: X, by rw [hX]; simp⟩
        · rw [if_neg h3]
          intro h
          obtain ⟨X, hX⟩ := ih _ _ h
          exact ⟨X, by rw [hX]⟩
    · rw [if_neg h1]
      intro _
      exact ⟨[], by simp⟩

theorem stream_write_drain_draining (s : stream_t) (e : env_t) (closed : Bool)
    (h : (stream_write_drain s e closed).2.2 = false) :
    closed = false ∧ ∃ X, (stream_write_drain s e closed).1.draining = s.draining ++ X := by
  unfold stream_write_drain at h ⊢
  simp only [Bool.or_eq_false_iff] at h
  obtain ⟨X, hX⟩ := drain_draining s.received s 0 h.2
  refine ⟨h.1, X, ?_⟩
  generalize drain s 0 s.received = d at hX
  obtain ⟨ds, dn, dc⟩ := d
  simp only at hX
  simp only []
  split_ifs <;> simp [stamp_draining, hX]

theorem stream_write_rx_draining (s : stream_t) (e : env_t) (closed : Bool) (pkt : ubond_pkt_t)
    (h : (stream_write_rx s e closed pkt).2.2 = false) :
    closed = false ∧ ∃ X, (stream_write_rx s e closed pkt).1.draining = s.draining ++ X := by
  unfold stream_write_rx at h ⊢
  split at h
  · exact ⟨h, [], by simp [stamp_draining]⟩
  · exact stream_write_drain_draining _ e closed h

theorem stream_write_acks_draining (s : stream_t) (e : env_t) (a : Nat)
    (h : (stream_write_acks s e a).2.2 = false) :
    (stream_write_acks s e a).1.draining = s.draining := by
  unfold stream_write_acks at h ⊢
  generalize ack_sent a s.sent 0 = r at h
  obtain ⟨sent1, acks, ex⟩ := r
  cases ex with
  | closed => simp at h
  | emptied => simp only []; split_ifs <;> rfl
  | matched => simp only []; split_ifs <;> rfl
  | stopped => simp only []; split_ifs <;> simp [resend_draining]

theorem stream_write_body_draining (s : stream_t) (e : env_t) (pkt : ubond_pkt_t)
    (h : (stream_write_body s e pkt).2.2 = false) :
    ∃ X, (stream_write_body s e pkt).1.draining = s.draining ++ X := by
  unfold stream_write_body at h ⊢
  simp only [] at h ⊢
  split at h
  · rename_i ht
    rw [if_pos ht]
    obtain ⟨hc, X, hX⟩ := stream_write_rx_draining _ _ _ _ h
    exact ⟨X, by rw [hX, stream_write_acks_draining s e _ hc]⟩
  · rename_i ht
    rw [if_neg ht]
    obtain ⟨hc, X, hX⟩ := stream_write_drain_draining _ _ _ h
    exact ⟨X, by rw [hX, stream_write_acks_draining s e _ hc]⟩

/-- Claim C11, as the code has it. Take a packet whose stream `s` is found at
position `i` of `active`. If the call of `ubond_stream_write` does not close the
stream, every packet that was in `draining` is still there, in its place, with
the newly drained payloads behind it, and no other stream is touched. If the
call closes the stream (an in-order TCP_CLOSE is consumed, or a TCP_CLOSE of
`sent` is acknowledged), `ubond_stream_close` unlinks it from `active` with all
its queues released. The call does not close the stream when neither the
packet nor anything in `sent` or `received` is a TCP_CLOSE. -/
theorem C11_draining_kept (w : world_t) (pkt : ubond_pkt_t) (i : Nat) (s : stream_t)
    (hfind : find w.active pkt = some i) (hget : w.active.get? i = some s) :
    ((stream_write_body s w.env pkt).2.2 = false →
      (∃ s1 X, (ubond_stream_write w pkt).active.get? i = some s1
        ∧ s1.draining = s.draining ++ X)
      ∧ ∀ j, j ≠ i → (ubond_stream_write w pkt).active.get? j = w.active.get? j)
    ∧ ((stream_write_body s w.env pkt).2.2 = true →
      (ubond_stream_write w pkt).active = w.active.eraseIdx i)
    ∧ ((∀ x ∈ s.sent, x.p.type ≠ UBOND_PKT_TCP_CLOSE) → pkt.p.type ≠ UBOND_PKT_TCP_CLOSE →
        (∀ x ∈ s.received, x.p.type ≠ UBOND_PKT_TCP_CLOSE) →
        (stream_write_body s w.env pkt).2.2 = false) := by
  refine ⟨?_, ?_, ?_⟩
  · intro h
    obtain ⟨e1, e2⟩ := ubond_stream_write_at w pkt i s hfind hget h
    obtain ⟨X, hX⟩ := stream_write_body_draining s w.env pkt h
    refine ⟨⟨_, X, e2, hX⟩, ?_⟩
    intro j hj
    rw [e1]
    simp [List.getElem?_set, Ne.symm hj]
  · intro h
    unfold ubond_stream_write
    simp only [hfind, hget, h, if_true]
  · intro h1 h2 h3
    exact (stream_write_body_sent s w.env pkt h1 h2 h3).1

/-- Witness for claim C11: the stream `stream_draining_example`
receives the next data packet; the payload waiting in `draining` stays in
front of the new one. -/
theorem C11_draining_kept_witness :
    (∃ s1 X, (ubond_stream_write (world_example stream_draining_example)
          (tcp_pkt UBOND_PKT_TCP_DATA 1 1 0 2)).active.get? 0 = some s1
        ∧ s1.draining = stream_draining_example.draining ++ X)
      ∧ ∀ j, j ≠ 0 → (ubond_stream_write (world_example stream_draining_example)
          (tcp_pkt UBOND_PKT_TCP_DATA 1 1 0 2)).active.get? j
            = (world_example stream_draining_example).active.get? j :=
  (C11_draining_kept (world_example stream_draining_example)
    (tcp_pkt UBOND_PKT_TCP_DATA 1 1 0 2) 0 stream_draining_example rfl rfl).1 (by decide)

/-- Claim C11 fails as stated: the stream `stream_draining_example` holds a
payload in `draining` that the socket has not taken yet; the in-order
TCP_CLOSE (`data_seq = 1`) makes `ubond_stream_write` close the stream, which
releases the payload and leaves no active stream. -/
theorem C11_counterexample :
    stream_draining_example.draining = [tcp_pkt UBOND_PKT_TCP_DATA 1 0 0 3]
    ∧ (ubond_stream_write (world_example stream_draining_example)
        (tcp_pkt UBOND_PKT_TCP_CLOSE 1 1 0 0)).active = [] := by
  decide

theorem rx_sorted_nil (n : Nat) : rx_sorted n [] :=
  ⟨fun _ h => absurd h (List.not_mem_nil _), List.Pairwise.nil⟩

theorem rx_sorted_ascending (n : Nat) (L : List ubond_pkt_t) (h : rx_sorted n L) :
    List.Chain' (fun a b => aolderb a.p.data_seq b.p.data_seq = true) L
    ∧ (L.map (fun x => x.p.data_seq)).Nodup := by
  obtain ⟨hw, hp⟩ := h
  constructor
  · apply List.Pairwise.chain'
    apply List.Pairwise.imp_of_mem _ hp
    intro a b ha hb hab
    exact (aolderb_window n _ _ (hw a ha).2 (hw b hb).2).2 hab
  · rw [List.Nodup, List.pairwise_map]
    apply List.Pairwise.imp _ hp
    intro a b hab heq
    rw [heq] at hab
    exact absurd hab (Nat.lt_irrefl _)

theorem received_scan_sorted (n : Nat) (pkt : ubond_pkt_t) (hx : pkt.p.data_seq < 65536)
    (hxw : seq_off n pkt.p.data_seq < 32768) :
    ∀ (rev after q : List ubond_pkt_t),
      rx_sorted n (rev.reverse ++ after) →
      (∀ y ∈ after, seq_off n pkt.p.data_seq < seq_off n y.p.data_seq) →
      (∃ y ∈ rev, seq_off n y.p.data_seq < seq_off n pkt.p.data_seq) →
      received_scan pkt rev after = some q → rx_sorted n q := by
  intro rev
  induction rev with
  | nil =>
    intro after q _ _ hex _
    obtain ⟨y, hy, _⟩ := hex
    exact absurd hy (List.not_mem_nil _)
  | cons l rev ih =>
    intro after q hs hafter hex hq
    have hl : l.p.data_seq < 65536 ∧ seq_off n l.p.data_seq < 32768 :=
      hs.1 l (by simp)
    rw [received_scan] at hq
    by_cases h1 : pkt.p.data_seq = l.p.data_seq
    · rw [if_pos h1] at hq
      cases hq
    · rw [if_neg h1] at hq
      by_cases h2 : aolderb l.p.data_seq pkt.p.data_seq = true
      · rw [if_pos h2] at hq
        have hlt : seq_off n l.p.data_seq < seq_off n pkt.p.data_seq :=
          (aolderb_window n _ _ hl.2 hxw).1 h2
        injection hq with hq
        subst hq
        have hs2 : rx_sorted n (rev.reverse ++ l :: after) := by
          have : (l :: rev).reverse ++ after = rev.reverse ++ l :: after := by simp
          rw [this] at hs
          exact hs
        obtain ⟨hw, hp⟩ := hs2
        constructor
        · intro y hy
          simp only [List.mem_append, List.mem_reverse, List.mem_cons] at hy
          rcases hy with hy | hy | hy | hy
          · exact hw y (by simp [hy])
          · subst hy; exact hl
          · subst hy; exact ⟨hx, hxw⟩
          · exact hw y (by simp [hy])
        · rw [List.pairwise_append] at hp ⊢
          obtain ⟨hp1, hp2, hp3⟩ := hp
          rw [List.pairwise_cons] at hp2
          refine ⟨hp1, ?_, ?_⟩
          · rw [List.pairwise_cons, List.pairwise_cons]
            refine ⟨?_, ?_, hp2.2⟩
            · intro y hy
              rw [List.mem_cons] at hy
              rcases hy with hy | hy
              · subst hy; exact hlt
              · exact hp2.1 y hy
            · exact hafter
          · intro a ha b hb
            rw [List.mem_cons, List.mem_cons] at hb
            rcases hb with hb | hb | hb
            · rw [hb]; exact hp3 a ha l (by simp)
            · rw [hb]
              exact Nat.lt_trans (hp3 a ha l (by simp)) hlt
            · exact hp3 a ha b (by simp [hb])
      · rw [if_neg h2] at hq
        have hgt : seq_off n pkt.p.data_seq < seq_off n l.p.data_seq := by
          have hnlt : ¬ seq_off n l.p.data_seq < seq_off n pkt.p.data_seq :=
            fun h => h2 ((aolderb_window n _ _ hl.2 hxw).2 h)
          have hne : seq_off n pkt.p.data_seq ≠ seq_off n l.p.data_seq :=
            fun h => h1 (seq_off_inj n _ _ hx hl.1 h)
          omega
        apply ih (l :: after) q
        · have : (l :: rev).reverse ++ after = rev.reverse ++ l :: after := by simp
          rw [this] at hs
          exact hs
        · intro y hy
          rw [List.mem_cons] at hy
          rcases hy with hy | hy
          · subst hy; exact hgt
          · exact hafter y hy
        · obtain ⟨y, hy, hylt⟩ := hex
          rw [List.mem_cons] at hy
          rcases hy with hy | hy
          · subst hy; omega
          · exact ⟨y, hy, hylt⟩
        · exact hq

theorem received_insert_sorted (n : Nat) (pkt : ubond_pkt_t) (L q : List ubond_pkt_t)
    (hx : pkt.p.data_seq < 65536) (hhalf : seq_off n pkt.p.data_seq ≠ 32768)
    (hs : rx_sorted n L) (hq : received_insert n pkt L = some q) : rx_sorted n q := by
  unfold received_insert at hq
  by_cases h0 : aolderb pkt.p.data_seq n = true
  · rw [if_pos h0] at hq
    cases hq
  · rw [if_neg h0] at hq
    have hxw : seq_off n pkt.p.data_seq < 32768 := by
      rw [aolderb_iff] at h0
      unfold seq_off at h0 hhalf ⊢
      omega
    cases L with
    | nil =>
      injection hq with hq
      subst hq
      exact ⟨fun y hy => by rw [List.mem_singleton] at hy; subst hy; exact ⟨hx, hxw⟩,
        List.pairwise_singleton _ _⟩
    | cons l rest =>
      simp only [] at hq
      have hl : l.p.data_seq < 65536 ∧ seq_off n l.p.data_seq < 32768 := hs.1 l (by simp)
      by_cases h1 : pkt.p.data_seq = l.p.data_seq
      · rw [if_pos h1] at hq
        cases hq
      · rw [if_neg h1] at hq
        by_cases h2 : aolderb pkt.p.data_seq l.p.data_seq = true
        · rw [if_neg (by simp [h2])] at hq
          injection hq with hq
          subst hq
          have hlt : seq_off n pkt.p.data_seq < seq_off n l.p.data_seq :=
            (aolderb_window n _ _ hxw hl.2).1 h2
          obtain ⟨hw, hp⟩ := hs
          constructor
          · intro y hy
            rw [List.mem_cons] at hy
            rcases hy with hy | hy
            · subst hy; exact ⟨hx, hxw⟩
            · exact hw y hy
          · rw [List.pairwise_cons]
            refine ⟨?_, hp⟩
            intro y hy
            rw [List.mem_cons] at hy
            rcases hy with hy | hy
            · subst hy; exact hlt
            · rw [List.pairwise_cons] at hp
              exact Nat.lt_trans hlt (hp.1 y hy)
        · rw [if_pos (by simp [h2])] at hq
          have hgt : seq_off n l.p.data_seq < seq_off n pkt.p.data_seq := by
            have hnlt : ¬ seq_off n pkt.p.data_seq < seq_off n l.p.data_seq :=
              fun h => h2 ((aolderb_window n _ _ hxw hl.2).2 h)
            have hne : seq_off n pkt.p.data_seq ≠ seq_off n l.p.data_seq :=
              fun h => h1 (seq_off_inj n _ _ hx hl.1 h)
            omega
          apply received_scan_sorted n pkt hx hxw (l :: rest).reverse [] q
          · simpa using hs
          · intro y hy
            exact absurd hy (List.not_mem_nil _)
          · exact ⟨l, by simp, hgt⟩
          · exact hq

theorem rx_sorted_advance (n : Nat) (hn : n < 65536) (l : ubond_pkt_t) (rest : List ubond_pkt_t)
    (hl : l.p.data_seq = n) (hs : rx_sorted n (l :: rest)) :
    rx_sorted ((l.p.data_seq + 1) % 65536) rest := by
  obtain ⟨hw, hp⟩ := hs
  rw [List.pairwise_cons] at hp
  have h0 : seq_off n l.p.data_seq = 0 := by
    rw [hl]
    unfold seq_off
    omega
  have hshift : ∀ y ∈ rest, seq_off ((l.p.data_seq + 1) % 65536) y.p.data_seq + 1
      = seq_off n y.p.data_seq := by
    intro y hy
    have h1 := hp.1 y hy
    have h2 := hw y (List.mem_cons_of_mem _ hy)
    rw [h0] at h1
    rw [hl]
    unfold seq_off at h1 h2 ⊢
    omega
  constructor
  · intro y hy
    have h2 := hw y (List.mem_cons_of_mem _ hy)
    have h3 := hshift y hy
    exact ⟨h2.1, by omega⟩
  · apply List.Pairwise.imp_of_mem _ hp.2
    intro a b ha hb hab
    have h3 := hshift a ha
    have h4 := hshift b hb
    omega

theorem drain_sorted : ∀ (L : List ubond_pkt_t) (s : stream_t) (drained : Nat),
    s.next_seq < 65536 → rx_sorted s.next_seq L → rx_window (drain s drained L).1 := by
  intro L
  induction L with
  | nil =>
    intro s d hn _
    rw [drain]
    exact ⟨hn, rx_sorted_nil _⟩
  | cons l rest ih =>
    intro s d hn hs
    rw [drain]
    by_cases h1 : l.p.data_seq = s.next_seq
    · rw [if_pos h1]
      have hadv := rx_sorted_advance s.next_seq hn l rest h1 hs
      have hn1 : (l.p.data_seq + 1) % 65536 < 65536 := Nat.mod_lt _ (by norm_num)
      by_cases h2 : l.p.type = UBOND_PKT_TCP_CLOSE
      · rw [if_pos h2]
        exact ⟨hn1, rx_sorted_nil _⟩
      · rw [if_neg h2]
        by_cases h3 : 0 < l.p.len
        · rw [if_pos h3]
          exact ih _ _ hn1 hadv
        · rw [if_neg h3]
          exact ih _ _ hn1 hadv
    · rw [if_neg h1]
      exact ⟨hn, hs⟩

theorem rx_window_of_fields (s t : stream_t) (h1 : t.next_seq = s.next_seq)
    (h2 : t.received = s.received) (h : rx_window s) : rx_window t := by
  unfold rx_window at h ⊢
  rw [h1, h2]
  exact h

theorem stream_write_drain_window (s : stream_t) (e : env_t) (closed : Bool)
    (h : rx_window s) : rx_window (stream_write_drain s e closed).1 := by
  have hd := drain_sorted s.received s 0 h.1 h.2
  unfold stream_write_drain
  generalize drain s 0 s.received = d at hd
  obtain ⟨ds, dn, dc⟩ := d
  simp only at hd
  simp only []
  split_ifs <;>
    first
    | exact hd
    | exact rx_window_of_fields ds _ (by simp [stamp_next_seq]) (by simp [stamp_received]) hd

theorem stream_write_rx_window (s : stream_t) (e : env_t) (closed : Bool) (pkt : ubond_pkt_t)
    (hx : pkt.p.data_seq < 65536) (hhalf : seq_off s.next_seq pkt.p.data_seq ≠ 32768)
    (h : rx_window s) : rx_window (stream_write_rx s e closed pkt).1 := by
  unfold stream_write_rx
  split
  · exact rx_window_of_fields s _ (stamp_next_seq s e) (stamp_received s e) h
  · rename_i q hq
    apply stream_write_drain_window
    exact ⟨h.1, received_insert_sorted s.next_seq pkt s.received q hx hhalf h.2 hq⟩

theorem stream_write_acks_window (s : stream_t) (e : env_t) (a : Nat) (h : rx_window s) :
    rx_window (stream_write_acks s e a).1
    ∧ (stream_write_acks s e a).1.next_seq = s.next_seq := by
  unfold stream_write_acks
  generalize ack_sent a s.sent 0 = r
  obtain ⟨sent1, acks, ex⟩ := r
  have hclosed : rx_window (ubond_stream_close { s with sent := sent1 }) :=
    ⟨h.1, rx_sorted_nil _⟩
  cases ex with
  | closed =>
    simp only []
    split_ifs
    · exact ⟨hclosed, rfl⟩
    · exact ⟨hclosed, rfl⟩
  | emptied => simp only []; split_ifs <;> exact ⟨h, rfl⟩
  | matched => simp only []; split_ifs <;> exact ⟨h, rfl⟩
  | stopped =>
    simp only []
    split_ifs <;>
      first
      | exact ⟨h, rfl⟩
      | exact ⟨rx_window_of_fields s _ (by simp [resend_next_seq]) (by simp [resend_received]) h,
          by simp [resend_next_seq]⟩

theorem stream_write_body_window (s : stream_t) (e : env_t) (pkt : ubond_pkt_t)
    (hx : pkt.p.data_seq < 65536)
    (hhalf : pkt.p.type ≠ UBOND_PKT_TCP_ACK → seq_off s.next_seq pkt.p.data_seq ≠ 32768)
    (h : rx_window s) : rx_window (stream_write_body s e pkt).1 := by
  obtain ⟨ha, hn⟩ := stream_write_acks_window s e pkt.p.ack_seq h
  unfold stream_write_body
  simp only []
  split
  · rename_i ht
    refine stream_write_rx_window _ _ _ { pkt with stream := some s.preset_flow_id } hx ?_ ha
    show seq_off (stream_write_acks s e pkt.p.ack_seq).1.next_seq pkt.p.data_seq ≠ 32768
    rw [hn]
    exact hhalf ht
  · exact stream_write_drain_window _ _ _ ha

/-- Claim C14, as the code has it. A fresh stream satisfies the invariant
`rx_window`, and `ubond_stream_write` keeps it for every stream, provided the
packet carries a 16-bit `data_seq` that is not exactly `2 ^ 15` ahead of the
`next_seq` of its stream; under the invariant `received` is strictly ascending
in the wrap-aware order (each element older than its successor per `aolderb`)
and holds no two packets with the same `data_seq`. -/
theorem C14_received_ascending (w : world_t) (pkt : ubond_pkt_t) (preset fd : Nat)
    (hinv : ∀ s ∈ w.active, rx_window s) (hseq : pkt.p.data_seq < 65536)
    (hhalf : ∀ i s, find w.active pkt = some i → w.active.get? i = some s →
      pkt.p.type ≠ UBOND_PKT_TCP_ACK → seq_off s.next_seq pkt.p.data_seq ≠ 32768) :
    rx_window (ubond_stream_get preset fd)
    ∧ ∀ s ∈ (ubond_stream_write w pkt).active,
        rx_window s
        ∧ List.Chain' (fun a b => aolderb a.p.data_seq b.p.data_seq = true) s.received
        ∧ (s.received.map (fun x => x.p.data_seq)).Nodup := by
  refine ⟨⟨Nat.zero_lt_succ _, rx_sorted_nil _⟩, ?_⟩
  have hall : ∀ s ∈ (ubond_stream_write w pkt).active, rx_window s := by
    cases hf : find w.active pkt with
    | none =>
      have e : ubond_stream_write w pkt = w := by
        unfold ubond_stream_write
        rw [hf]
      rw [e]
      exact hinv
    | some i =>
      cases hg : w.active.get? i with
      | none =>
        have e : ubond_stream_write w pkt = w := by
          unfold ubond_stream_write
          rw [hf]
          simp only [hg]
        rw [e]
        exact hinv
      | some s0 =>
        have hs0 : rx_window s0 := hinv s0 (List.get?_mem hg)
        have hb := stream_write_body_window s0 w.env pkt hseq (hhalf i s0 hf hg) hs0
        have e : (ubond_stream_write w pkt).active
            = if (stream_write_body s0 w.env pkt).2.2 = true then w.active.eraseIdx i
              else w.active.set i (stream_write_body s0 w.env pkt).1 := by
          unfold ubond_stream_write
          rw [hf]
          simp only [hg]
        intro s hs
        rw [e] at hs
        split_ifs at hs
        · exact hinv s (List.mem_of_mem_eraseIdx hs)
        · rcases List.mem_or_eq_of_mem_set hs with h | h
          · exact hinv s h
          · rw [h]; exact hb
  intro s hs
  have h := hall s hs
  exact ⟨h, rx_sorted_ascending s.next_seq s.received h.2⟩

/-- Witness for claim C14: the stream `stream_waiting_example` expects the
packet `data_seq = 0` and holds the packets 2 and 5 in `received`; the packet
with `data_seq = 3` arrives. The loop over `received` passes packet 5 and stops
at packet 2, the new packet is linked between the two, and the queue holds the
packets 2, 3, 5. -/
theorem C14_received_ascending_witness :
    (∀ s ∈ (world_example stream_waiting_example).active, rx_window s)
    ∧ (rx_window (ubond_stream_get 1 7)
      ∧ ∀ s ∈ (ubond_stream_write (world_example stream_waiting_example)
            (tcp_pkt UBOND_PKT_TCP_DATA 1 3 0 1)).active,
          rx_window s
          ∧ List.Chain' (fun a b => aolderb a.p.data_seq b.p.data_seq = true) s.received
          ∧ (s.received.map (fun x => x.p.data_seq)).Nodup)
    ∧ (ubond_stream_write (world_example stream_waiting_example)
          (tcp_pkt UBOND_PKT_TCP_DATA 1 3 0 1)).active.map
        (fun s => (s.next_seq, s.received.map (fun x => x.p.data_seq))) = [(0, [2, 3, 5])] :=
  have hinv : ∀ s ∈ (world_example stream_waiting_example).active, rx_window s := by
    intro s hs
    rw [show (world_example stream_waiting_example).active = [stream_waiting_example] from rfl,
      List.mem_singleton] at hs
    rw [hs]
    unfold rx_window rx_sorted
    decide
  ⟨hinv,
   C14_received_ascending (world_example stream_waiting_example)
    (tcp_pkt UBOND_PKT_TCP_DATA 1 3 0 1) 1 7 hinv (by decide)
    (fun i s hf hg _ => by
      have hi : i = 0 := by
        have : find (world_example stream_waiting_example).active
            (tcp_pkt UBOND_PKT_TCP_DATA 1 3 0 1) = some 0 := by decide
        rw [this] at hf
        injection hf with hf
        exact hf.symm
      subst hi
      have hs : s = stream_waiting_example := by
        have : (world_example stream_waiting_example).active.get? 0
            = some stream_waiting_example := rfl
        rw [this] at hg
        injection hg with hg
        exact hg.symm
      subst hs
      decide),
   by decide⟩

/-- Claim C14 fails as stated: a fresh stream of flow 1 (`next_seq = 0`) gets
the packet with `data_seq = 32768`, which is exactly `2 ^ 15` ahead and is
queued, and then the packet with `data_seq = 0`. Neither is older than the
other per `aolderb`, the second is appended behind the first, `received` is
not ascending, and the packet with `data_seq = 0` is not drained. -/
theorem C14_counterexample :
    ((ubond_stream_write
        (ubond_stream_write (world_example stream_example)
          (tcp_pkt UBOND_PKT_TCP_DATA 1 32768 0 1))
        (tcp_pkt UBOND_PKT_TCP_DATA 1 0 0 1)).active.map
      (fun s => (s.next_seq, s.received.map (fun x => x.p.data_seq)))) = [(0, [32768, 0])]
    ∧ aolderb 32768 0 = false := by
  decide

theorem loss_update_shift_spec (tun : ubond_tunnel_t) (e : env_t) (seq : Nat)
    (h : ¬ tun.seq_last + 64 ≤ seq) :
    ∃ k, loss_shift_count tun seq = some k
      ∧ (ubond_loss_update tun e seq).1.seq_vect
          = if tun.seq_last < seq then (shl64 tun.seq_vect k ||| 1) % 2 ^ 64
            else (tun.seq_vect ||| shl64 1 k) % 2 ^ 64 := by
  by_cases h1 : tun.seq_last < seq
  · refine ⟨seq - tun.seq_last, by unfold loss_shift_count; rw [if_neg h, if_pos h1], ?_⟩
    unfold ubond_loss_update
    rw [if_neg h, if_pos h1]
    simp only [if_pos h1]
    split <;> rfl
  · refine ⟨tun.seq_last - seq, by unfold loss_shift_count; rw [if_neg h, if_neg h1], ?_⟩
    unfold ubond_loss_update
    rw [if_neg h, if_neg h1]
    simp only [if_neg h1]
    split <;> rfl

theorem loss_update_seq_last (tun : ubond_tunnel_t) (e : env_t) (seq : Nat) :
    (ubond_loss_update tun e seq).1.seq_last = seq := by
  unfold ubond_loss_update
  split
  · rfl
  · simp only []
    split <;> split <;> rfl

theorem shl_one_lt (k : Nat) (hk : k < 64) : 1 <<< k < 2 ^ 64 := by
  rw [Nat.shiftLeft_eq, Nat.one_mul]
  exact Nat.pow_lt_pow_right (by norm_num) hk

/-- Claim C24: `ubond_loss_update` follows the three-case rule on the 64-bit
vector. If `seq >= seq_last + 64` the vector becomes all ones and the loss 0;
if `seq_last < seq < seq_last + 64` the vector becomes
`(seq_vect << (seq - seq_last)) | 1` (the shift truncated to 64 bits); if
`0 <= seq_last - seq < 64` it becomes `seq_vect | (1 << (seq_last - seq))`; in
all three cases `seq_last` becomes `seq`. -/
theorem C24_three_case_rule (tun : ubond_tunnel_t) (e : env_t) (seq : Nat)
    (hv : tun.seq_vect < 2 ^ 64) :
    (tun.seq_last + 64 ≤ seq →
      (ubond_loss_update tun e seq).1.seq_vect = 2 ^ 64 - 1
      ∧ (ubond_loss_update tun e seq).1.loss = 0)
    ∧ (tun.seq_last < seq → seq < tun.seq_last + 64 →
      (ubond_loss_update tun e seq).1.seq_vect
        = (tun.seq_vect <<< (seq - tun.seq_last)) % 2 ^ 64 ||| 1)
    ∧ (seq ≤ tun.seq_last → tun.seq_last - seq < 64 →
      (ubond_loss_update tun e seq).1.seq_vect
        = tun.seq_vect ||| 1 <<< (tun.seq_last - seq))
    ∧ (ubond_loss_update tun e seq).1.seq_last = seq := by
  refine ⟨?_, ?_, ?_, loss_update_seq_last tun e seq⟩
  · intro h
    unfold ubond_loss_update
    rw [if_pos h]
    exact ⟨rfl, rfl⟩
  · intro h1 h2
    obtain ⟨k, hk, hvect⟩ := loss_update_shift_spec tun e seq (by omega)
    rw [hvect, if_pos h1]
    unfold loss_shift_count at hk
    rw [if_neg (by omega), if_pos h1] at hk
    injection hk with hk
    subst hk
    unfold shl64
    exact Nat.mod_eq_of_lt (Nat.or_lt_two_pow (Nat.mod_lt _ (by norm_num)) (by norm_num))
  · intro h1 h2
    obtain ⟨k, hk, hvect⟩ := loss_update_shift_spec tun e seq (by omega)
    rw [hvect, if_neg (by omega)]
    unfold loss_shift_count at hk
    rw [if_neg (by omega), if_neg (by omega)] at hk
    injection hk with hk
    subst hk
    unfold shl64
    rw [Nat.mod_eq_of_lt (shl_one_lt _ h2)]
    exact Nat.mod_eq_of_lt (Nat.or_lt_two_pow hv (shl_one_lt _ h2))

/-- Witness for claim C24: the tunnel with `seq_last = 10` and the
vector `0b101`. -/
theorem C24_three_case_rule_witness :
    (10 + 64 ≤ 12 →
      (ubond_loss_update (tun_example 10 5) env_example 12).1.seq_vect = 2 ^ 64 - 1
      ∧ (ubond_loss_update (tun_example 10 5) env_example 12).1.loss = 0)
    ∧ (10 < 12 → 12 < 10 + 64 →
      (ubond_loss_update (tun_example 10 5) env_example 12).1.seq_vect
        = (5 <<< (12 - 10)) % 2 ^ 64 ||| 1)
    ∧ (12 ≤ 10 → 10 - 12 < 64 →
      (ubond_loss_update (tun_example 10 5) env_example 12).1.seq_vect
        = 5 ||| 1 <<< (10 - 12))
    ∧ (ubond_loss_update (tun_example 10 5) env_example 12).1.seq_last = 12 :=
  C24_three_case_rule (tun_example 10 5) env_example 12 (by decide)

/-- Claim C30, the code at an old packet and at the wrap. With `seq_last = 100`
the packet `seq = 10` is 90 positions older: the code takes the branch
`seq_vect |= 1ull << (seq_last - seq)` with the shift count 90. With
`seq_last = 0xFFFF` the packet `seq = 0`, sent right after the counter
wrapped, takes the same branch with the shift count 65535. Neither count is
below 64. -/
theorem C30_shift_count_out_of_range :
    loss_shift_count (tun_example 100 0) 10 = some 90
    ∧ ¬ (90 < 64)
    ∧ loss_shift_count (tun_example 65535 0) 0 = some 65535
    ∧ ¬ (65535 < 64)
    ∧ loss_shift_count (tun_example 100 0) 101 = some 1 := by
  decide

/-- Claim C21: for a tunnel whose `fallback_only` differs from
`ubond_status.fallback_mode`, `ubond_rtun_choose` returns before it takes a packet:
the tunnel list (with the queues `sbuf` and `hpsbuf` of every tunnel) and the
world (with `send_buffer` and `hpsend_buffer`) are unchanged. -/
theorem C21_choose_other_mode (mtu : Nat) (watermark : List ubond_pkt_t → Bool)
    (filters : ubond_pkt_t → Option Nat) (st : ubond_status_s) (rtuns : List sched_tunnel_t)
    (i : Nat) (w : world_t) (rtun : sched_tunnel_t) (hget : rtuns.get? i = some rtun)
    (hmode : st.fallback_mode ≠ rtun.fallback_only) :
    ubond_rtun_choose mtu watermark filters st rtuns i w = (rtuns, w) := by
  unfold ubond_rtun_choose
  rw [hget]
  simp only []
  split_ifs <;> rfl

/-- Witness for claim C21: the system is in normal mode and the tunnel
is reserved for the fallback mode, with packets waiting in all four queues. -/
theorem C21_choose_other_mode_witness :
    ubond_rtun_choose 1500 (fun _ => false) (fun _ => none)
        { fallback_mode := 0, connected := 1 } [fallback_tunnel_example] 0 world_queued_example
      = ([fallback_tunnel_example], world_queued_example) :=
  C21_choose_other_mode 1500 (fun _ => false) (fun _ => none)
    { fallback_mode := 0, connected := 1 } [fallback_tunnel_example] 0 world_queued_example
    fallback_tunnel_example rfl (by decide)

theorem update_status_scan_fb (rtuns : List sched_tunnel_t) :
    ∀ acc : Nat × Nat,
      (update_status_scan rtuns acc).1 = if has_normal_tunnel rtuns = true then 0 else acc.1 := by
  induction rtuns with
  | nil => intro acc; simp [update_status_scan, has_normal_tunnel]
  | cons t rest ih =>
    intro acc
    rw [update_status_scan]
    have hany : has_normal_tunnel (t :: rest)
        = ((decide (t.status = UBOND_AUTHOK) && decide (t.fallback_only = 0))
            || has_normal_tunnel rest) := by
      simp [has_normal_tunnel]
    rw [hany]
    by_cases h1 : t.status = UBOND_AUTHOK
    · rw [if_pos h1, ih]
      by_cases h2 : t.fallback_only = 0
      · simp [h1, h2]
      · simp [h1, h2]
    · rw [if_neg h1, ih]
      simp [h1]

theorem update_status_mode (fallback_available : Nat) (rtuns : List sched_tunnel_t)
    (st : ubond_status_s) :
    (ubond_update_status fallback_available rtuns st).fallback_mode
      = if has_normal_tunnel rtuns = true then 0 else fallback_available := by
  have h : (update_status_scan rtuns (fallback_available, 0)).1
      = if has_normal_tunnel rtuns = true then 0 else fallback_available :=
    update_status_scan_fb rtuns (fallback_available, 0)
  unfold ubond_update_status
  simp only []
  by_cases h1 : st.fallback_mode ≠ (update_status_scan rtuns (fallback_available, 0)).1
      ∨ st.connected ≠ (update_status_scan rtuns (fallback_available, 0)).2
  · rw [if_pos h1]
    exact h
  · rw [if_neg h1]
    have h2 : st.fallback_mode = (update_status_scan rtuns (fallback_available, 0)).1 := by
      by_contra hne
      exact h1 (Or.inl hne)
    rw [h2]
    exact h

/-- Claim C22, as the code has it: after `ubond_update_status` the mode is 0 (normal)
when some tunnel in state AUTHOK has `fallback_only = 0`, and is the option
`fallback_available` otherwise. So the system is in normal mode if and only if
some AUTHOK tunnel has `fallback_only = 0` or no fallback is available. -/
theorem C22_update_status_mode (fallback_available : Nat) (rtuns : List sched_tunnel_t)
    (st : ubond_status_s) :
    (ubond_update_status fallback_available rtuns st).fallback_mode
        = (if has_normal_tunnel rtuns = true then 0 else fallback_available)
    ∧ ((ubond_update_status fallback_available rtuns st).fallback_mode = 0
        ↔ (has_normal_tunnel rtuns = true ∨ fallback_available = 0)) := by
  have h := update_status_mode fallback_available rtuns st
  refine ⟨h, ?_⟩
  rw [h]
  by_cases hn : has_normal_tunnel rtuns = true
  · simp [hn]
  · simp [hn]

/-- Claim C22 fails as stated: with no fallback available
(`fallback_available = 0`) and a tunnel list whose only tunnel is down, the
system that was in fallback mode is put in normal mode by `ubond_update_status`
although no AUTHOK tunnel has `fallback_only = 0`. -/
theorem C22_counterexample :
    has_normal_tunnel [{ tun_example 0 0 with status := UBOND_DISCONNECTED }] = false
    ∧ (ubond_update_status 0 [{ tun_example 0 0 with status := UBOND_DISCONNECTED }]
        { fallback_mode := 1, connected := 0 }).fallback_mode = 0 := by
  decide

theorem recalc_active_reset (fm : Nat) (b : ℚ) (t : sched_tunnel_t) :
    recalc_active fm (recalc_reset fm b t) = recalc_active fm t := by
  unfold recalc_reset
  split <;> rfl

theorem loss_part_reset (fm : Nat) (b : ℚ) (t : sched_tunnel_t) :
    loss_part (recalc_reset fm b t) = loss_part t := by
  unfold recalc_reset
  split <;> rfl

theorem recalc_reset_fields (fm : Nat) (b : ℚ) (t : sched_tunnel_t) :
    (recalc_reset fm b t).bandwidth_max = t.bandwidth_max
    ∧ (recalc_reset fm b t).quota = t.quota := by
  unfold recalc_reset
  split <;> exact ⟨rfl, rfl⟩

theorem recalc_locals_reset (fm : Nat) (b : ℚ) (L : List sched_tunnel_t) :
    ∀ loc, recalc_locals fm (L.map (recalc_reset fm b)) loc = recalc_locals fm L loc := by
  induction L with
  | nil => intro loc; rfl
  | cons t rest ih =>
    intro loc
    rw [List.map_cons, recalc_locals, recalc_locals, recalc_active_reset, loss_part_reset,
      (recalc_reset_fields fm b t).1, (recalc_reset_fields fm b t).2]
    simp only [ih]

theorem recalc_alloc_append (fm : Nat) (A B : List sched_tunnel_t) :
    ∀ n a, recalc_alloc fm (A ++ B) n a
      = recalc_alloc fm A n a
        ++ recalc_alloc fm B (recalc_locals fm A (n, a)).1 (recalc_locals fm A (n, a)).2 := by
  induction A with
  | nil => intro n a; rfl
  | cons t rest ih =>
    intro n a
    rw [List.cons_append, recalc_alloc, recalc_alloc, recalc_locals]
    simp only []
    split_ifs <;> simp only [ih, List.cons_append]

theorem recalc_alloc_length (fm : Nat) (A : List sched_tunnel_t) :
    ∀ n a, (recalc_alloc fm A n a).length = A.length := by
  induction A with
  | nil => intro n a; rfl
  | cons t rest ih =>
    intro n a
    rw [recalc_alloc]
    simp only []
    split_ifs <;> simp [ih]

theorem resend_head_idle (s : stream_t) (e : env_t) (h : resend_due s e = false) :
    resend_head s e = (s, e) := by
  unfold resend_head
  unfold resend_due at h
  by_cases hg : gt_moo2 e s.sent.length = true
  · rw [if_pos hg]
    rw [hg, Bool.true_and] at h
    cases hs : s.sent with
    | nil => rfl
    | cons l rest =>
      rw [hs] at h
      simp only [] at h ⊢
      rw [if_neg]
      intro hc
      rw [hc.1] at h
      simp only [Bool.true_and, decide_eq_false_iff_not] at h
      exact h hc.2
  · rw [if_neg hg]

theorem resend_head_due (s : stream_t) (e : env_t) (l : ubond_pkt_t) (rest : List ubond_pkt_t)
    (hs : s.sent = l :: rest) (h : resend_due s e = true) :
    resend_head s e
      = ({ s with sent := resent_pkt l e :: rest, sending := s.sending + 1 },
         { e with hpsend_buffer := ubond_buffer_write e.hpsend_buffer (resent_pkt l e) }) := by
  unfold resend_head
  unfold resend_due at h
  rw [hs] at h
  simp only [Bool.and_eq_true, Bool.not_eq_true', decide_eq_true_eq] at h
  rw [if_pos (by rw [hs]; exact h.1), hs]
  simp only []
  rw [if_pos ⟨by rw [h.2.1]; rfl, h.2.2⟩]
  rfl

theorem resend_due_congr (s1 s2 : stream_t) (e1 e2 : env_t) (hs : s1.sent = s2.sent)
    (h1 : e1.moo_num = e2.moo_num) (h2 : e1.moo_den = e2.moo_den) (h3 : e1.now64 = e2.now64)
    (h4 : e1.fullrtt64 = e2.fullrtt64) : resend_due s1 e1 = resend_due s2 e2 := by
  unfold resend_due gt_moo2
  rw [hs, h1, h2, h3, h4]

theorem stampF_hpsend : ∀ (fuel : Nat) (s : stream_t) (e : env_t), resend_due s e = false →
    (stampF fuel s e).2.hpsend_buffer = e.hpsend_buffer := by
  intro fuel
  induction fuel with
  | zero => intro s e _; rfl
  | succ n ih =>
    intro s e h
    rw [stampF]
    split
    · rfl
    · split
      · rfl
      · unfold send_pkt_tun_with
        simp only [if_true]
        unfold resend_with
        simp only []
        split
        · rfl
        · rw [resend_head_idle _ _ (by rw [← h]; exact resend_due_congr _ _ _ _ rfl rfl rfl rfl rfl)]
          simp only []
          split
          · rw [ih _ _ (by rw [← h]; exact resend_due_congr _ _ _ _ rfl rfl rfl rfl rfl)]
          · rfl

theorem resend_hpsend (s : stream_t) (e : env_t)
    (hfull : ubond_pkt_list_is_full e.hpsend_buffer e.hpsend_buffer_max = false) :
    (resend s e).2.hpsend_buffer = (resend_head s e).2.hpsend_buffer := by
  unfold resend resend_with
  rw [if_neg (by rw [hfull]; exact Bool.false_ne_true)]
  simp only []
  split
  · apply stampF_hpsend
    by_cases hd : resend_due s e = true
    · cases hs : s.sent with
      | nil =>
        unfold resend_due at hd
        rw [hs] at hd
        simp at hd
      | cons l rest =>
        rw [resend_head_due s e l rest hs hd]
        unfold resend_due
        simp [resent_pkt]
    · have hd2 : resend_due s e = false := by simpa using hd
      rw [resend_head_idle s e hd2]
      exact hd2
  · rfl

theorem resend_timer_hpsend (s : stream_t) (e : env_t) (l : ubond_pkt_t)
    (rest : List ubond_pkt_t) (hs : s.sent = l :: rest)
    (hfull : ubond_pkt_list_is_full e.hpsend_buffer e.hpsend_buffer_max = false) :
    (resend_timer s e).2.hpsend_buffer
      = if gt_moo2 e s.sent.length = true ∧ l.sending = false
            ∧ e.fullrtt64 < (e.now64 + 2 ^ 64 - l.last_sent) % 2 ^ 64 then
          resent_pkt l e :: e.hpsend_buffer
        else e.hpsend_buffer := by
  unfold resend_timer
  rw [if_neg (by rw [hs]; simp)]
  rw [resend_hpsend s e hfull]
  have hd : resend_due s e = true ↔ (gt_moo2 e s.sent.length = true ∧ l.sending = false
      ∧ e.fullrtt64 < (e.now64 + 2 ^ 64 - l.last_sent) % 2 ^ 64) := by
    unfold resend_due
    rw [hs]
    simp only [Bool.and_eq_true, Bool.not_eq_true', decide_eq_true_eq]
  by_cases h : resend_due s e = true
  · rw [if_pos (hd.1 h), resend_head_due s e l rest hs h]
    rfl
  · rw [if_neg (fun hc => h (hd.2 hc)), resend_head_idle s e (by simpa using h)]

/-- Claim C25, as the code has it: when the resend timer of a stream with a
non-empty `sent` list fires and `hpsend_buffer` is not full, the head of `sent`
is put on `hpsend_buffer` (stamped with the time, marked as being sent, use
count incremented) if and only if `sent` is longer than twice
`max_size_outoforder`, the head is not being sent already and it was last sent
more than a full round trip ago; otherwise `hpsend_buffer` is unchanged. -/
theorem C25_resend_timer_head (s : stream_t) (e : env_t) (l : ubond_pkt_t)
    (rest : List ubond_pkt_t) (hs : s.sent = l :: rest)
    (hfull : ubond_pkt_list_is_full e.hpsend_buffer e.hpsend_buffer_max = false) :
    (resend_timer s e).2.hpsend_buffer
      = if gt_moo2 e s.sent.length = true ∧ l.sending = false
            ∧ e.fullrtt64 < (e.now64 + 2 ^ 64 - l.last_sent) % 2 ^ 64 then
          resent_pkt l e :: e.hpsend_buffer
        else e.hpsend_buffer :=
  resend_timer_hpsend s e l rest hs hfull

/-- Witness for claim C25: the stream `stream_many_sent` at time
1000 ms. -/
theorem C25_resend_timer_head_witness :
    (resend_timer stream_many_sent env_later).2.hpsend_buffer
      = if gt_moo2 env_later stream_many_sent.sent.length = true
            ∧ (tcp_pkt UBOND_PKT_TCP_DATA 1 0 0 1).sending = false
            ∧ env_later.fullrtt64
                < (env_later.now64 + 2 ^ 64 - (tcp_pkt UBOND_PKT_TCP_DATA 1 0 0 1).last_sent)
                    % 2 ^ 64 then
          resent_pkt (tcp_pkt UBOND_PKT_TCP_DATA 1 0 0 1) env_later :: env_later.hpsend_buffer
        else env_later.hpsend_buffer :=
  C25_resend_timer_head stream_many_sent env_later (tcp_pkt UBOND_PKT_TCP_DATA 1 0 0 1)
    ((List.range' 1 40).map (fun q => tcp_pkt UBOND_PKT_TCP_DATA 1 q 0 1)) (by decide)
    (by decide)

/-- Claim C25 fails as stated: the stream `stream_one_sent` has one packet in
`sent`, last sent at time 0 and not being sent; at time 1000 ms, with a full
round trip of 250 ms and an empty `hpsend_buffer`, the resend timer fires and
nothing is put on `hpsend_buffer`, because `sent` is not longer than twice
`max_size_outoforder` (40). -/
theorem C25_counterexample :
    stream_one_sent.sent = [tcp_pkt UBOND_PKT_TCP_DATA 1 0 0 1]
    ∧ (tcp_pkt UBOND_PKT_TCP_DATA 1 0 0 1).last_sent = 0
    ∧ env_later.fullrtt64 < env_later.now64 - 0
    ∧ ubond_pkt_list_is_full env_later.hpsend_buffer env_later.hpsend_buffer_max = false
    ∧ (resend_timer stream_one_sent env_later).2.hpsend_buffer = [] := by
  decide

theorem filter_range_card (f : Nat → Bool) (N : Nat) :
    ((List.range N).filter f).length
      = ((Finset.range N).filter (fun i => f i = true)).card := by
  rw [Finset.card_def, Finset.filter_val, Finset.range_val, Multiset.range,
    Multiset.filter_coe, Multiset.coe_card]
  congr 1
  apply List.filter_congr
  intro x _
  simp

theorem slot_count_eq_card (rb : ubond_reorder_buffer) :
    slot_count rb
      = ((Finset.range MAX_REORDERBUF).filter (fun i => (rb.buffer i).isSome = true)).card :=
  filter_range_card (fun i => (rb.buffer i).isSome) MAX_REORDERBUF

theorem slot_count_store (rb rb1 : ubond_reorder_buffer) (i : Nat) (p : ubond_pkt_t)
    (hi : i < MAX_REORDERBUF) (hnone : (rb.buffer i).isSome = false)
    (hb : rb1.buffer = Function.update rb.buffer i (some p)) :
    slot_count rb1 = slot_count rb + 1 := by
  rw [slot_count_eq_card, slot_count_eq_card, hb]
  have hset : (Finset.range MAX_REORDERBUF).filter
        (fun j => (Function.update rb.buffer i (some p) j).isSome = true)
      = insert i ((Finset.range MAX_REORDERBUF).filter (fun j => (rb.buffer j).isSome = true)) := by
    ext j
    simp only [Finset.mem_filter, Finset.mem_range, Finset.mem_insert, Function.update_apply]
    by_cases hj : j = i
    · subst hj
      simp [hi]
    · simp [hj]
  rw [hset, Finset.card_insert_of_not_mem]
  simp [hnone]

theorem slot_count_clear_some (rb rb1 : ubond_reorder_buffer) (i : Nat)
    (hi : i < MAX_REORDERBUF) (hsome : (rb.buffer i).isSome = true)
    (hb : rb1.buffer = Function.update rb.buffer i none) :
    slot_count rb1 + 1 = slot_count rb := by
  rw [slot_count_eq_card, slot_count_eq_card, hb]
  have hset : (Finset.range MAX_REORDERBUF).filter
        (fun j => (Function.update rb.buffer i none j).isSome = true)
      = ((Finset.range MAX_REORDERBUF).filter
          (fun j => (rb.buffer j).isSome = true)).erase i := by
    ext j
    simp only [Finset.mem_filter, Finset.mem_range, Finset.mem_erase, Function.update_apply]
    by_cases hj : j = i
    · subst hj
      simp
    · simp [hj]
  have hmem : i ∈ (Finset.range MAX_REORDERBUF).filter
      (fun j => (rb.buffer j).isSome = true) := by
    simp [hi, hsome]
  rw [hset, Finset.card_erase_of_mem hmem]
  have hpos : 0 < ((Finset.range MAX_REORDERBUF).filter
      (fun j => (rb.buffer j).isSome = true)).card :=
    Finset.card_pos.2 ⟨i, hmem⟩
  omega

theorem slot_count_clear_none (rb rb1 : ubond_reorder_buffer) (i : Nat)
    (hnone : rb.buffer i = none) (hb : rb1.buffer = Function.update rb.buffer i none) :
    slot_count rb1 = slot_count rb := by
  have h : Function.update rb.buffer i none = rb.buffer := by
    rw [← hnone]
    exact Function.update_eq_self i rb.buffer
  unfold slot_count
  rw [hb, h]

theorem slot_count_pos (rb : ubond_reorder_buffer) (h : 0 < slot_count rb) :
    ∃ i, i < MAX_REORDERBUF ∧ (rb.buffer i).isSome = true := by
  rw [slot_count_eq_card] at h
  obtain ⟨i, hi⟩ := Finset.card_pos.1 h
  rw [Finset.mem_filter, Finset.mem_range] at hi
  exact ⟨i, hi.1, hi.2⟩

theorem max_reorderbuf_pos : 0 < MAX_REORDERBUF := by
  unfold MAX_REORDERBUF
  norm_num

theorem deliver_step_ok (ms : Int) (hms : 0 < ms) (st : reorder_state) (h : reorder_ok st)
    (hc : deliver_cond ms st.rb = true) : reorder_ok (deliver_step st) := by
  obtain ⟨h0, h1, h2⟩ := h
  have hpos : 1 ≤ st.rb.size := by
    unfold deliver_cond at hc
    simp only [Bool.or_eq_true, Bool.and_eq_true, decide_eq_true_eq] at hc
    rcases hc with ⟨h, _⟩ | h <;> omega
  refine ⟨by show 0 ≤ st.rb.size - 1; omega, ?_, Nat.mod_lt _ max_reorderbuf_pos⟩
  show st.rb.size - 1 ≤ (slot_count (deliver_step st).rb : Int)
  cases hb : st.rb.buffer st.rb.next with
  | none =>
    rw [slot_count_clear_none st.rb (deliver_step st).rb st.rb.next hb rfl]
    omega
  | some p =>
    have := slot_count_clear_some st.rb (deliver_step st).rb st.rb.next h2 (by rw [hb]; rfl) rfl
    omega

theorem deliver_loop_ok (ms : Int) (hms : 0 < ms) :
    ∀ (fuel : Nat) (st : reorder_state), reorder_ok st → reorder_ok (deliver_loop ms fuel st) := by
  intro fuel
  induction fuel with
  | zero => intro st h; exact h
  | succ n ih =>
    intro st h
    rw [deliver_loop]
    split
    · rename_i hc
      exact ih _ (deliver_step_ok ms hms st h hc)
    · exact h

theorem deliver_ok (e : env_t) (hden : 0 < e.moo_den) (st : reorder_state)
    (h : reorder_ok st) : reorder_ok (deliver e st) := by
  unfold deliver
  have h20 := max_size_ge e hden
  exact deliver_loop_ok (max_size e) (by omega) _ st h

theorem reorder_store_ok (st : reorder_state) (pkt : ubond_pkt_t) (h : reorder_ok st)
    (hslot : (st.rb.buffer (pkt.p.data_seq % MAX_REORDERBUF)).isSome = false) :
    reorder_ok (reorder_store st pkt) := by
  obtain ⟨h0, h1, h2⟩ := h
  refine ⟨by show 0 ≤ st.rb.size + 1; omega, ?_, h2⟩
  show st.rb.size + 1 ≤ (slot_count (reorder_store st pkt).rb : Int)
  rw [slot_count_store st.rb (reorder_store st pkt).rb _ pkt (Nat.mod_lt _ max_reorderbuf_pos)
    hslot rfl]
  push_cast
  omega

theorem reorder_insert_ok (e : env_t) (hden : 0 < e.moo_den) (now : Nat)
    (st st1 : reorder_state) (pkt : ubond_pkt_t) (h : reorder_ok st)
    (hins : ubond_reorder_insert e now st pkt = some st1) : reorder_ok st1 := by
  unfold ubond_reorder_insert at hins
  split at hins
  · cases hins
  · split at hins
    · injection hins with hins
      subst hins
      exact h
    · split at hins
      · injection hins with hins
        subst hins
        exact h
      · rename_i hslot
        injection hins with hins
        subst hins
        have hd := deliver_ok e hden _ (reorder_store_ok st pkt h (by simpa using hslot))
        exact ⟨hd.1, hd.2.1, hd.2.2⟩

theorem tick_skip_some : ∀ (fuel : Nat) (rb rb1 : ubond_reorder_buffer),
    tick_skip fuel rb = some rb1 → rb.next < MAX_REORDERBUF →
    rb1.buffer = rb.buffer ∧ rb1.size = rb.size ∧ rb1.next < MAX_REORDERBUF := by
  intro fuel
  induction fuel with
  | zero =>
    intro rb rb1 h _
    rw [tick_skip] at h
    cases h
  | succ n ih =>
    intro rb rb1 h hn
    rw [tick_skip] at h
    split at h
    · have hi := ih { rb with next := (rb.next + 1) % MAX_REORDERBUF } rb1 h
        (Nat.mod_lt _ max_reorderbuf_pos)
      exact hi
    · injection h with h
      subst h
      exact ⟨rfl, rfl, hn⟩

theorem tick_skip_run : ∀ (k fuel : Nat) (rb : ubond_reorder_buffer),
    k < fuel → rb.next < MAX_REORDERBUF →
    (rb.buffer ((rb.next + k) % MAX_REORDERBUF)).isSome = true →
    (∀ j, j < k → rb.buffer ((rb.next + j) % MAX_REORDERBUF) = none) →
    tick_skip fuel rb = some { rb with next := (rb.next + k) % MAX_REORDERBUF } := by
  intro k
  induction k with
  | zero =>
    intro fuel rb hf hn hsome _
    obtain ⟨f, rfl⟩ : ∃ f, fuel = f + 1 := ⟨fuel - 1, by omega⟩
    have e0 : (rb.next + 0) % MAX_REORDERBUF = rb.next := by
      rw [Nat.add_zero, Nat.mod_eq_of_lt hn]
    rw [e0] at hsome ⊢
    rw [tick_skip,
      if_neg (by rw [Option.isNone_iff_eq_none]; intro h; rw [h] at hsome; cases hsome)]
  | succ k ih =>
    intro fuel rb hf hn hsome hnone
    obtain ⟨f, rfl⟩ : ∃ f, fuel = f + 1 := ⟨fuel - 1, by omega⟩
    have h0 : rb.buffer rb.next = none := by
      have := hnone 0 (Nat.succ_pos _)
      rw [Nat.add_zero, Nat.mod_eq_of_lt hn] at this
      exact this
    have harith : ∀ j, ((rb.next + 1) % MAX_REORDERBUF + j) % MAX_REORDERBUF
        = (rb.next + (j + 1)) % MAX_REORDERBUF := by
      intro j
      unfold MAX_REORDERBUF
      omega
    rw [tick_skip, if_pos (by rw [h0]; rfl)]
    rw [ih f { rb with next := (rb.next + 1) % MAX_REORDERBUF } (by omega)
      (Nat.mod_lt _ max_reorderbuf_pos)
      (by show (rb.buffer (((rb.next + 1) % MAX_REORDERBUF + k) % MAX_REORDERBUF)).isSome = true
          rw [harith]; exact hsome)
      (by intro j hj
          show rb.buffer (((rb.next + 1) % MAX_REORDERBUF + j) % MAX_REORDERBUF) = none
          rw [harith]; exact hnone (j + 1) (by omega))]
    show some { rb with next := ((rb.next + 1) % MAX_REORDERBUF + k) % MAX_REORDERBUF } = _
    rw [harith]

theorem tick_skip_ends (st : reorder_state) (h : reorder_ok st) (hsize : st.rb.size ≠ 0) :
    ∃ k, k < MAX_REORDERBUF
      ∧ (st.rb.buffer ((st.rb.next + k) % MAX_REORDERBUF)).isSome = true
      ∧ (∀ j, j < k → st.rb.buffer ((st.rb.next + j) % MAX_REORDERBUF) = none)
      ∧ tick_skip MAX_REORDERBUF st.rb
          = some { st.rb with next := (st.rb.next + k) % MAX_REORDERBUF } := by
  obtain ⟨h0, h1, h2⟩ := h
  have hcnt : 0 < slot_count st.rb := by omega
  obtain ⟨i, hi, hsome⟩ := slot_count_pos st.rb hcnt
  have hex : ∃ k, k < MAX_REORDERBUF
      ∧ (st.rb.buffer ((st.rb.next + k) % MAX_REORDERBUF)).isSome = true := by
    refine ⟨(i + MAX_REORDERBUF - st.rb.next) % MAX_REORDERBUF, Nat.mod_lt _ max_reorderbuf_pos, ?_⟩
    have : (st.rb.next + (i + MAX_REORDERBUF - st.rb.next) % MAX_REORDERBUF) % MAX_REORDERBUF
        = i := by
      unfold MAX_REORDERBUF at hi h2 ⊢
      omega
    rw [this]
    exact hsome
  classical
  have hk := Nat.find_spec hex
  have hmin : ∀ j, j < Nat.find hex →
      st.rb.buffer ((st.rb.next + j) % MAX_REORDERBUF) = none := by
    intro j hj
    have hnot := Nat.find_min hex hj
    have hjlt : j < MAX_REORDERBUF := Nat.lt_trans hj hk.1
    cases hb : st.rb.buffer ((st.rb.next + j) % MAX_REORDERBUF) with
    | none => rfl
    | some p =>
      exfalso
      apply hnot
      exact ⟨hjlt, by rw [hb]; rfl⟩
  exact ⟨Nat.find hex, hk.1, hk.2, hmin,
    tick_skip_run (Nat.find hex) MAX_REORDERBUF st.rb hk.1 h2 hk.2 hmin⟩

theorem reorder_tick_ok (e : env_t) (hden : 0 < e.moo_den) (now : Nat)
    (st st1 : reorder_state) (h : reorder_ok st)
    (htick : ubond_reorder_tick e now st = some st1) : reorder_ok st1 := by
  unfold ubond_reorder_tick at htick
  split at htick
  · split at htick
    · cases htick
    · rename_i rb1 hskip
      injection htick with htick
      subst htick
      obtain ⟨g1, g2, g3⟩ := tick_skip_some _ _ _ hskip h.2.2
      apply deliver_ok e hden
      refine ⟨by show 0 ≤ rb1.size; rw [g2]; exact h.1, ?_, g3⟩
      show rb1.size ≤ (slot_count rb1 : Int)
      have hc : slot_count rb1 = slot_count st.rb := by
        unfold slot_count
        rw [g1]
      rw [g2, hc]
      exact h.2.1
  · injection htick with htick
    subst htick
    exact h

theorem reorder_tick_returns (e : env_t) (now : Nat) (st : reorder_state) (h : reorder_ok st) :
    ∃ st1, ubond_reorder_tick e now st = some st1 := by
  unfold ubond_reorder_tick
  split
  · rename_i hg
    obtain ⟨k, _, _, _, hk⟩ := tick_skip_ends st h hg.1
    rw [hk]
    exact ⟨_, rfl⟩
  · exact ⟨_, rfl⟩

theorem reorder_reachable_ok (st : reorder_state) (h : reorder_reachable st) : reorder_ok st := by
  induction h with
  | reset out =>
    refine ⟨le_refl _, ?_, max_reorderbuf_pos⟩
    show (0 : Int) ≤ (slot_count ubond_reorder_reset : Int)
    exact Int.natCast_nonneg _
  | insert e now st st1 pkt _ hden hins ih => exact reorder_insert_ok e hden now st st1 pkt ih hins
  | tick e now st st1 _ hden htick ih => exact reorder_tick_ok e hden now st st1 ih htick

/-- Claim C28: in every state reachable from `ubond_reorder_reset` by calls of
`ubond_reorder_insert` and `ubond_reorder_tick`, `size` is not negative and does not
exceed the number of non-empty slots. -/
theorem C28_size_bounds (st : reorder_state) (h : reorder_reachable st) :
    0 ≤ st.rb.size ∧ st.rb.size ≤ (slot_count st.rb : Int) :=
  ⟨(reorder_reachable_ok st h).1, (reorder_reachable_ok st h).2.1⟩

/-- Witness for claim C28: the state `reorder_one_example`, reached
from the reset by one insert. -/
theorem C28_size_bounds_witness :
    0 ≤ reorder_one_example.rb.size
    ∧ reorder_one_example.rb.size ≤ (slot_count reorder_one_example.rb : Int) :=
  C28_size_bounds reorder_one_example
    (reorder_reachable.insert env_example 3 reorder_start reorder_one_example (data_pkt 7)
      (reorder_reachable.reset []) (by decide) rfl)

/-- Claim C29: in every state reachable from `ubond_reorder_reset` by calls of
`ubond_reorder_insert` and `ubond_reorder_tick`, when `size` is not 0 (as the guard of
the tick requires) some slot is non-empty, and the skip loop ends after `k`
advances of the cursor, `k < MAX_REORDERBUF`, on the first non-empty slot from
the cursor on; so every call of `ubond_reorder_tick` returns. -/
theorem C29_tick_skip_terminates (st : reorder_state) (h : reorder_reachable st) :
    (st.rb.size ≠ 0 →
      (∃ i, i < MAX_REORDERBUF ∧ (st.rb.buffer i).isSome = true)
      ∧ ∃ k, k < MAX_REORDERBUF
        ∧ (st.rb.buffer ((st.rb.next + k) % MAX_REORDERBUF)).isSome = true
        ∧ (∀ j, j < k → st.rb.buffer ((st.rb.next + j) % MAX_REORDERBUF) = none)
        ∧ tick_skip MAX_REORDERBUF st.rb
            = some { st.rb with next := (st.rb.next + k) % MAX_REORDERBUF })
    ∧ ∀ (e : env_t) (now : Nat), ∃ st1, ubond_reorder_tick e now st = some st1 := by
  have hok := reorder_reachable_ok st h
  refine ⟨fun hsize => ?_, fun e now => reorder_tick_returns e now st hok⟩
  obtain ⟨k, hk1, hk2, hk3, hk4⟩ := tick_skip_ends st hok hsize
  exact ⟨⟨_, Nat.mod_lt _ max_reorderbuf_pos, hk2⟩, k, hk1, hk2, hk3, hk4⟩

/-- Witness for claim C29: the state `reorder_one_example`, in which
the cursor is at slot 0 and the only packet waits in slot 7. -/
theorem C29_tick_skip_terminates_witness :
    (reorder_one_example.rb.size ≠ 0 →
      (∃ i, i < MAX_REORDERBUF ∧ (reorder_one_example.rb.buffer i).isSome = true)
      ∧ ∃ k, k < MAX_REORDERBUF
        ∧ (reorder_one_example.rb.buffer
            ((reorder_one_example.rb.next + k) % MAX_REORDERBUF)).isSome = true
        ∧ (∀ j, j < k → reorder_one_example.rb.buffer
            ((reorder_one_example.rb.next + j) % MAX_REORDERBUF) = none)
        ∧ tick_skip MAX_REORDERBUF reorder_one_example.rb
            = some { reorder_one_example.rb with
                next := (reorder_one_example.rb.next + k) % MAX_REORDERBUF })
    ∧ ∀ (e : env_t) (now : Nat), ∃ st1, ubond_reorder_tick e now reorder_one_example = some st1 :=
  C29_tick_skip_terminates reorder_one_example
    (reorder_reachable.insert env_example 3 reorder_start reorder_one_example (data_pkt 7)
      (reorder_reachable.reset []) (by decide) rfl)

theorem rx_fields_of_view {s1 s2 : stream_t} (h : rx_view s1 = rx_view s2) :
    rx_fields s1 = rx_fields s2 := by
  obtain ⟨_, _, h3, h4, h5⟩ := rx_view_fields h
  unfold rx_fields
  rw [h3, h4, h5, rx_view_seq_to_ack h]

theorem received_scan_dup_sorted (n : Nat) (pkt : ubond_pkt_t)
    (hxw : seq_off n pkt.p.data_seq < 32768) :
    ∀ (rev after : List ubond_pkt_t),
      (∀ l ∈ rev, seq_off n l.p.data_seq < 32768) →
      rev.Pairwise (fun a b => seq_off n b.p.data_seq < seq_off n a.p.data_seq) →
      (∃ y ∈ rev, y.p.data_seq = pkt.p.data_seq) →
      received_scan pkt rev after = none := by
  intro rev
  induction rev with
  | nil =>
    intro after _ _ hex
    obtain ⟨y, hy, _⟩ := hex
    exact absurd hy (List.not_mem_nil _)
  | cons l rest ih =>
    intro after hw hp hex
    rw [received_scan]
    by_cases h1 : pkt.p.data_seq = l.p.data_seq
    · rw [if_pos h1]
    · rw [if_neg h1]
      obtain ⟨y, hy, hyx⟩ := hex
      rw [List.pairwise_cons] at hp
      have hyrest : y ∈ rest := by
        rw [List.mem_cons] at hy
        rcases hy with hy | hy
        · exfalso
          apply h1
          rw [← hyx, hy]
        · exact hy
      have hlt : seq_off n pkt.p.data_seq < seq_off n l.p.data_seq := by
        rw [← hyx]
        exact hp.1 y hyrest
      have h2 : ¬ aolderb l.p.data_seq pkt.p.data_seq = true := by
        intro h
        have := (aolderb_window n _ _ (hw l (List.mem_cons_self _ _)) hxw).1 h
        omega
      rw [if_neg h2]
      exact ih _ (fun x hx => hw x (List.mem_cons_of_mem _ hx)) hp.2 ⟨y, hyrest, hyx⟩

theorem received_insert_dup (n : Nat) (pkt : ubond_pkt_t) (L : List ubond_pkt_t)
    (hs : rx_sorted n L) (hdup : ∃ y ∈ L, y.p.data_seq = pkt.p.data_seq) :
    received_insert n pkt L = none := by
  obtain ⟨y, hy, hyx⟩ := hdup
  have hxw : seq_off n pkt.p.data_seq < 32768 := by
    rw [← hyx]
    exact (hs.1 y hy).2
  unfold received_insert
  by_cases h0 : aolderb pkt.p.data_seq n = true
  · rw [if_pos h0]
  · rw [if_neg h0]
    cases L with
    | nil => exact absurd hy (List.not_mem_nil _)
    | cons l rest =>
      simp only []
      by_cases h1 : pkt.p.data_seq = l.p.data_seq
      · rw [if_pos h1]
      · rw [if_neg h1]
        have hl := hs.1 l (List.mem_cons_self _ _)
        by_cases h2 : aolderb pkt.p.data_seq l.p.data_seq = true
        · exfalso
          have hlt := (aolderb_window n _ _ hxw hl.2).1 h2
          have hp := hs.2
          rw [List.pairwise_cons] at hp
          rw [List.mem_cons] at hy
          rcases hy with hy | hy
          · apply h1
            rw [← hyx, hy]
          · have := hp.1 y hy
            rw [hyx] at this
            omega
        · rw [if_pos (by simp [h2])]
          apply received_scan_dup_sorted n pkt hxw
          · intro x hx
            exact (hs.1 x (List.mem_reverse.1 hx)).2
          · exact List.pairwise_reverse.2 hs.2
          · exact ⟨y, List.mem_reverse.2 hy, hyx⟩

theorem received_scan_none (pkt : ubond_pkt_t) :
    ∀ (rev after : List ubond_pkt_t), received_scan pkt rev after = none →
      ∃ y ∈ rev, y.p.data_seq = pkt.p.data_seq := by
  intro rev
  induction rev with
  | nil =>
    intro after h
    rw [received_scan] at h
    cases h
  | cons l rest ih =>
    intro after h
    rw [received_scan] at h
    by_cases h1 : pkt.p.data_seq = l.p.data_seq
    · exact ⟨l, List.mem_cons_self _ _, h1.symm⟩
    · rw [if_neg h1] at h
      by_cases h2 : aolderb l.p.data_seq pkt.p.data_seq = true
      · rw [if_pos h2] at h
        cases h
      · rw [if_neg h2] at h
        obtain ⟨y, hy, hyx⟩ := ih _ h
        exact ⟨y, List.mem_cons_of_mem _ hy, hyx⟩

theorem received_insert_none (n : Nat) (pkt : ubond_pkt_t) (L : List ubond_pkt_t)
    (h : received_insert n pkt L = none) :
    aolderb pkt.p.data_seq n = true ∨ ∃ y ∈ L, y.p.data_seq = pkt.p.data_seq := by
  unfold received_insert at h
  by_cases h0 : aolderb pkt.p.data_seq n = true
  · exact Or.inl h0
  · rw [if_neg h0] at h
    right
    cases L with
    | nil => cases h
    | cons l rest =>
      simp only [] at h
      by_cases h1 : pkt.p.data_seq = l.p.data_seq
      · exact ⟨l, List.mem_cons_self _ _, h1.symm⟩
      · rw [if_neg h1] at h
        by_cases h2 : aolderb pkt.p.data_seq l.p.data_seq = true
        · rw [if_neg (by simp [h2])] at h
          cases h
        · rw [if_pos (by simp [h2])] at h
          obtain ⟨y, hy, hyx⟩ := received_scan_none pkt _ _ h
          exact ⟨y, List.mem_reverse.1 hy, hyx⟩

theorem received_scan_has (pkt : ubond_pkt_t) :
    ∀ (rev after q : List ubond_pkt_t), received_scan pkt rev after = some q →
      pkt ∈ q ∧ q.length = rev.length + after.length + 1 := by
  intro rev
  induction rev with
  | nil =>
    intro after q h
    rw [received_scan] at h
    injection h with h
    subst h
    exact ⟨by simp, by simp⟩
  | cons l rest ih =>
    intro after q h
    rw [received_scan] at h
    by_cases h1 : pkt.p.data_seq = l.p.data_seq
    · rw [if_pos h1] at h
      cases h
    · rw [if_neg h1] at h
      by_cases h2 : aolderb l.p.data_seq pkt.p.data_seq = true
      · rw [if_pos h2] at h
        injection h with h
        subst h
        exact ⟨by simp, by simp; omega⟩
      · rw [if_neg h2] at h
        obtain ⟨g1, g2⟩ := ih _ q h
        exact ⟨g1, by rw [g2]; simp; omega⟩

theorem received_insert_has (n : Nat) (pkt : ubond_pkt_t) (L q : List ubond_pkt_t)
    (h : received_insert n pkt L = some q) : pkt ∈ q ∧ q.length = L.length + 1 := by
  unfold received_insert at h
  by_cases h0 : aolderb pkt.p.data_seq n = true
  · rw [if_pos h0] at h
    cases h
  · rw [if_neg h0] at h
    cases L with
    | nil =>
      injection h with h
      subst h
      exact ⟨by simp, rfl⟩
    | cons l rest =>
      simp only [] at h
      by_cases h1 : pkt.p.data_seq = l.p.data_seq
      · rw [if_pos h1] at h
        cases h
      · rw [if_neg h1] at h
        by_cases h2 : aolderb pkt.p.data_seq l.p.data_seq = true
        · rw [if_neg (by simp [h2])] at h
          injection h with h
          subst h
          exact ⟨by simp, rfl⟩
        · rw [if_pos (by simp [h2])] at h
          obtain ⟨g1, g2⟩ := received_scan_has pkt _ _ q h
          exact ⟨g1, by rw [g2]; simp⟩

theorem drain_kept_or_older : ∀ (L : List ubond_pkt_t) (s : stream_t) (drained : Nat),
    s.next_seq < 65536 → rx_sorted s.next_seq L →
    (∀ x ∈ L, x.p.type ≠ UBOND_PKT_TCP_CLOSE) → L.length ≤ 32767 →
    seq_off s.next_seq (drain s drained L).1.next_seq ≤ L.length
    ∧ ∀ y ∈ L, y ∈ (drain s drained L).1.received
        ∨ aolderb y.p.data_seq (drain s drained L).1.next_seq = true := by
  intro L
  induction L with
  | nil =>
    intro s d hn _ _ _
    rw [drain]
    refine ⟨?_, fun y hy => absurd hy (List.not_mem_nil _)⟩
    show seq_off s.next_seq s.next_seq ≤ 0
    unfold seq_off
    omega
  | cons l rest ih =>
    intro s d hn hs hnc hlen
    rw [drain]
    by_cases h1 : l.p.data_seq = s.next_seq
    · rw [if_pos h1, if_neg (hnc l (List.mem_cons_self _ _))]
      have hadv := rx_sorted_advance s.next_seq hn l rest h1 hs
      have hn1 : (l.p.data_seq + 1) % 65536 < 65536 := Nat.mod_lt _ (by norm_num)
      have hnc1 : ∀ x ∈ rest, x.p.type ≠ UBOND_PKT_TCP_CLOSE :=
        fun x hx => hnc x (List.mem_cons_of_mem _ hx)
      have hlen1 : rest.length ≤ 32767 := by
        rw [List.length_cons] at hlen
        omega
      have key : ∀ (s1 : stream_t) (d1 : Nat), s1.next_seq = (l.p.data_seq + 1) % 65536 →
          seq_off s.next_seq (drain s1 d1 rest).1.next_seq ≤ (l :: rest).length
          ∧ ∀ y ∈ l :: rest, y ∈ (drain s1 d1 rest).1.received
              ∨ aolderb y.p.data_seq (drain s1 d1 rest).1.next_seq = true := by
        intro s1 d1 hs1
        obtain ⟨g1, g2⟩ := ih s1 d1 (by rw [hs1]; exact hn1) (by rw [hs1]; exact hadv) hnc1 hlen1
        rw [hs1] at g1
        rw [List.length_cons] at hlen ⊢
        have hstep : seq_off s.next_seq (drain s1 d1 rest).1.next_seq
            = seq_off ((l.p.data_seq + 1) % 65536) (drain s1 d1 rest).1.next_seq + 1 := by
          rw [h1] at g1 ⊢
          unfold seq_off at g1 ⊢
          omega
        refine ⟨by omega, ?_⟩
        intro y hy
        rw [List.mem_cons] at hy
        rcases hy with hy | hy
        · right
          rw [hy, aolderb_iff, h1]
          omega
        · exact g2 y hy
      by_cases h3 : 0 < l.p.len
      · rw [if_pos h3]
        exact key _ _ rfl
      · rw [if_neg h3]
        exact key _ _ rfl
    · rw [if_neg h1]
      refine ⟨?_, fun y hy => Or.inl hy⟩
      show seq_off s.next_seq s.next_seq ≤ _
      unfold seq_off
      omega

theorem stream_write_drain_fields (s : stream_t) (e : env_t) (closed : Bool) :
    (stream_write_drain s e closed).1.received = (drain s 0 s.received).1.received
    ∧ (stream_write_drain s e closed).1.next_seq = (drain s 0 s.received).1.next_seq := by
  unfold stream_write_drain
  generalize drain s 0 s.received = d
  obtain ⟨ds, dn, dc⟩ := d
  simp only []
  split_ifs <;> simp [stamp_received, stamp_next_seq]

theorem stream_write_acks_fields (s : stream_t) (e : env_t) (a : Nat)
    (hnc : ∀ x ∈ s.sent, x.p.type ≠ UBOND_PKT_TCP_CLOSE) :
    rx_fields (stream_write_acks s e a).1 = rx_fields s := by
  have hex := (ack_sent_no_close a s.sent 0 hnc).1
  unfold stream_write_acks
  generalize ack_sent a s.sent 0 = r at hex
  obtain ⟨sent1, acks, ex⟩ := r
  simp only at hex
  have hres : ∀ s0 : stream_t, rx_fields s0 = rx_fields s →
      rx_fields (resend s0 e).1 = rx_fields s := by
    intro s0 h0
    rw [rx_fields_of_view (resend_view s0 e), h0]
  cases ex with
  | closed => exact absurd rfl hex
  | emptied => simp only []; split_ifs <;> rfl
  | matched => simp only []; split_ifs <;> rfl
  | stopped =>
    simp only []
    split_ifs <;> first | rfl | exact hres _ rfl

theorem received_insert_of_dup (s : stream_t) (pkt : ubond_pkt_t) (hwin : rx_window s)
    (hdup : is_duplicate s pkt) : received_insert s.next_seq pkt s.received = none := by
  rcases hdup with h | h
  · unfold received_insert
    rw [if_pos h]
  · exact received_insert_dup s.next_seq pkt s.received hwin.2 h

theorem stream_write_body_dup (s : stream_t) (e : env_t) (pkt : ubond_pkt_t)
    (hnc : ∀ x ∈ s.sent, x.p.type ≠ UBOND_PKT_TCP_CLOSE)
    (htype : pkt.p.type = UBOND_PKT_TCP_DATA) (hwin : rx_window s)
    (hdup : is_duplicate s pkt) :
    (stream_write_body s e pkt).2.2 = false
    ∧ rx_fields (stream_write_body s e pkt).1 = rx_fields s := by
  obtain ⟨f1, _, _, _, f5, f6, _⟩ := stream_write_acks_frame s e pkt.p.ack_seq hnc
  have f8 := stream_write_acks_fields s e pkt.p.ack_seq hnc
  unfold stream_write_body
  simp only []
  rw [if_pos (by rw [htype]; decide)]
  unfold stream_write_rx
  have hins : received_insert (stream_write_acks s e pkt.p.ack_seq).1.next_seq
      { pkt with stream := some s.preset_flow_id }
      (stream_write_acks s e pkt.p.ack_seq).1.received = none := by
    rw [f5, f6]
    exact received_insert_of_dup s _ hwin hdup
  rw [hins]
  exact ⟨f1, by rw [rx_fields_of_view (stamp_view _ _), f8]⟩

theorem stream_write_body_again (s : stream_t) (e : env_t) (pkt : ubond_pkt_t)
    (hnc : ∀ x ∈ s.sent, x.p.type ≠ UBOND_PKT_TCP_CLOSE)
    (hrecv : ∀ x ∈ s.received, x.p.type ≠ UBOND_PKT_TCP_CLOSE)
    (htype : pkt.p.type = UBOND_PKT_TCP_DATA) (hseq : pkt.p.data_seq < 65536)
    (hhalf : seq_off s.next_seq pkt.p.data_seq ≠ 32768) (hwin : rx_window s)
    (hlen : s.received.length < 32767) :
    (stream_write_body s e pkt).2.2 = false
    ∧ is_duplicate (stream_write_body s e pkt).1 pkt
    ∧ rx_window (stream_write_body s e pkt).1
    ∧ (∀ x ∈ (stream_write_body s e pkt).1.sent, x.p.type ≠ UBOND_PKT_TCP_CLOSE)
    ∧ (stream_write_body s e pkt).1.flow_id = s.flow_id := by
  have hpc : pkt.p.type ≠ UBOND_PKT_TCP_CLOSE := by rw [htype]; decide
  obtain ⟨b1, b2, b3⟩ := stream_write_body_sent s e pkt hnc hpc hrecv
  have hw := stream_write_body_window s e pkt hseq (fun _ => hhalf) hwin
  have hsent1 : ∀ x ∈ (stream_write_body s e pkt).1.sent, x.p.type ≠ UBOND_PKT_TCP_CLOSE := by
    apply no_close_of_map_eq _ _ b2
    intro x hx
    obtain ⟨pre, hpre⟩ := (ack_sent_no_close pkt.p.ack_seq s.sent 0 hnc).2
    apply hnc x
    rw [hpre]
    exact List.mem_append_right _ hx
  refine ⟨b1, ?_, hw, hsent1, b3⟩
  obtain ⟨_, _, _, _, f5, f6, _⟩ := stream_write_acks_frame s e pkt.p.ack_seq hnc
  unfold stream_write_body
  simp only []
  rw [if_pos (by rw [htype]; decide)]
  unfold stream_write_rx
  cases hins : received_insert (stream_write_acks s e pkt.p.ack_seq).1.next_seq
      { pkt with stream := some s.preset_flow_id }
      (stream_write_acks s e pkt.p.ack_seq).1.received with
  | none =>
    simp only []
    rw [f5, f6] at hins
    have hd := received_insert_none _ _ _ hins
    unfold is_duplicate
    rw [stamp_next_seq, stamp_received, f5, f6]
    exact hd
  | some q =>
    simp only []
    rw [f5, f6] at hins
    obtain ⟨hmem, hqlen⟩ := received_insert_has _ _ _ _ hins
    have hqs := received_insert_sorted s.next_seq { pkt with stream := some s.preset_flow_id }
      s.received q hseq hhalf hwin.2 hins
    have hqnc : ∀ x ∈ q, x.p.type ≠ UBOND_PKT_TCP_CLOSE := by
      intro x hx
      rcases received_insert_mem _ _ _ _ hins x hx with h | h
      · rw [h]; exact hpc
      · exact hrecv x h
    obtain ⟨g1, g2⟩ := stream_write_drain_fields
      { (stream_write_acks s e pkt.p.ack_seq).1 with received := q }
      (stream_write_acks s e pkt.p.ack_seq).2.1 (stream_write_acks s e pkt.p.ack_seq).2.2
    obtain ⟨_, k2⟩ := drain_kept_or_older q
      { (stream_write_acks s e pkt.p.ack_seq).1 with received := q } 0
      (by show (stream_write_acks s e pkt.p.ack_seq).1.next_seq < 65536; rw [f5]; exact hwin.1)
      (by show rx_sorted (stream_write_acks s e pkt.p.ack_seq).1.next_seq q; rw [f5]; exact hqs)
      hqnc (by rw [hqlen]; omega)
    unfold is_duplicate
    rw [g1, g2]
    rcases k2 _ hmem with h | h
    · exact Or.inr ⟨_, h, rfl⟩
    · exact Or.inl h

theorem find_flow_spec (f : Nat) : ∀ (active : List stream_t) (i : Nat) (s : stream_t),
    find_flow active f = some i → active.get? i = some s → s.flow_id = f := by
  intro active
  induction active with
  | nil => intro i s h _; cases h
  | cons l rest ih =>
    intro i s h hg
    rw [find_flow] at h
    by_cases hl : l.flow_id = f
    · rw [if_pos hl] at h
      injection h with h
      subst h
      injection hg with hg
      rw [← hg]
      exact hl
    · rw [if_neg hl] at h
      cases hr : find_flow rest f with
      | none => rw [hr] at h; cases h
      | some i1 =>
        rw [hr] at h
        simp only [Option.map_some', Option.some.injEq] at h
        subst h
        exact ih i1 s hr hg

theorem stream_write_world_dup (w : world_t) (pkt : ubond_pkt_t) (i : Nat) (s : stream_t)
    (hfind : find w.active pkt = some i) (hget : w.active.get? i = some s)
    (hnc : ∀ x ∈ s.sent, x.p.type ≠ UBOND_PKT_TCP_CLOSE)
    (htype : pkt.p.type = UBOND_PKT_TCP_DATA) (hwin : rx_window s)
    (hdup : is_duplicate s pkt) :
    ∃ s1, (ubond_stream_write w pkt).active.get? i = some s1 ∧ rx_fields s1 = rx_fields s := by
  obtain ⟨h1, h2⟩ := stream_write_body_dup s w.env pkt hnc htype hwin hdup
  exact ⟨_, (ubond_stream_write_at w pkt i s hfind hget h1).2, h2⟩

theorem stream_write_world_twice (w : world_t) (pkt : ubond_pkt_t) (i : Nat) (s : stream_t)
    (hfind : find w.active pkt = some i) (hget : w.active.get? i = some s)
    (hnc : ∀ x ∈ s.sent, x.p.type ≠ UBOND_PKT_TCP_CLOSE)
    (hrecv : ∀ x ∈ s.received, x.p.type ≠ UBOND_PKT_TCP_CLOSE)
    (htype : pkt.p.type = UBOND_PKT_TCP_DATA) (hseq : pkt.p.data_seq < 65536)
    (hhalf : seq_off s.next_seq pkt.p.data_seq ≠ 32768) (hwin : rx_window s)
    (hlen : s.received.length < 32767) :
    ∃ s1 s2, (ubond_stream_write w pkt).active.get? i = some s1
      ∧ (ubond_stream_write (ubond_stream_write w pkt) pkt).active.get? i = some s2
      ∧ rx_fields s2 = rx_fields s1 := by
  obtain ⟨b1, b2, b3, b4, b5⟩ :=
    stream_write_body_again s w.env pkt hnc hrecv htype hseq hhalf hwin hlen
  obtain ⟨e1, e2⟩ := ubond_stream_write_at w pkt i s hfind hget b1
  have hflow0 : pkt.p.flow_id ≠ 0 := by
    intro h0
    unfold find at hfind
    rw [if_pos h0] at hfind
    cases hfind
  have hff : find_flow w.active pkt.p.flow_id = some i := by
    unfold find at hfind
    rw [if_neg hflow0] at hfind
    exact hfind
  have hsf : s.flow_id = pkt.p.flow_id := find_flow_spec _ _ _ _ hff hget
  have hfind1 : find (ubond_stream_write w pkt).active pkt = some i := by
    rw [e1]
    unfold find
    rw [if_neg hflow0]
    exact find_flow_set pkt.p.flow_id _ (by rw [b5]; exact hsf) w.active i hff
  obtain ⟨s2, g1, g2⟩ := stream_write_world_dup (ubond_stream_write w pkt) pkt i
    (stream_write_body s w.env pkt).1 hfind1 e2 b4 htype b3 b2
  exact ⟨_, s2, e2, g1, g2⟩

/-- Claim C27, as the code has it. Take a TCP_DATA packet whose stream `s` is
found at position `i` of `active`, with `received` ascending within half of the
sequence space (`rx_window`) and no TCP_CLOSE awaiting its ACK in `sent`. If
the packet is a duplicate (its `data_seq` is older than `next_seq`, or a packet
with the same `data_seq` waits in `received`), `ubond_stream_write` leaves
`received`, `draining`, `next_seq` and `seq_to_ack` unchanged. And if no
TCP_CLOSE waits in `received`, the packet is not exactly `2 ^ 15` ahead of
`next_seq` and `received` holds fewer than 32767 packets, delivering the packet
a second time leaves these fields as the first delivery left them. -/
theorem C27_duplicate_dropped (w : world_t) (pkt : ubond_pkt_t) (i : Nat) (s : stream_t)
    (hfind : find w.active pkt = some i) (hget : w.active.get? i = some s)
    (hnc : ∀ x ∈ s.sent, x.p.type ≠ UBOND_PKT_TCP_CLOSE)
    (htype : pkt.p.type = UBOND_PKT_TCP_DATA) (hseq : pkt.p.data_seq < 65536)
    (hwin : rx_window s) :
    (is_duplicate s pkt →
      ∃ s1, (ubond_stream_write w pkt).active.get? i = some s1 ∧ rx_fields s1 = rx_fields s)
    ∧ ((∀ x ∈ s.received, x.p.type ≠ UBOND_PKT_TCP_CLOSE) →
        seq_off s.next_seq pkt.p.data_seq ≠ 32768 → s.received.length < 32767 →
        ∃ s1 s2, (ubond_stream_write w pkt).active.get? i = some s1
          ∧ (ubond_stream_write (ubond_stream_write w pkt) pkt).active.get? i = some s2
          ∧ rx_fields s2 = rx_fields s1) :=
  ⟨fun hdup => stream_write_world_dup w pkt i s hfind hget hnc htype hwin hdup,
   fun hrecv hhalf hlen =>
     stream_write_world_twice w pkt i s hfind hget hnc hrecv htype hseq hhalf hwin hlen⟩

/-- Witness for claim C27: the stream `stream_draining_example` has
consumed the packet with `data_seq = 0` and gets it again. -/
theorem C27_duplicate_dropped_witness :
    ∃ s1, (ubond_stream_write (world_example stream_draining_example)
        (tcp_pkt UBOND_PKT_TCP_DATA 1 0 0 3)).active.get? 0 = some s1
      ∧ rx_fields s1 = rx_fields stream_draining_example :=
  (C27_duplicate_dropped (world_example stream_draining_example)
    (tcp_pkt UBOND_PKT_TCP_DATA 1 0 0 3) 0 stream_draining_example rfl rfl
    (fun x hx => absurd hx (List.not_mem_nil _)) rfl (by decide)
    ⟨by decide, rx_sorted_nil _⟩).1 (Or.inl (by decide))

/-- Claim C27 fails as stated: the stream `stream_closing_example` expects
`data_seq = 1`, holds packet 5 in `received` and has its TCP_CLOSE
(`data_seq = 0`) awaiting its ACK. The packet with `data_seq = 0` is a
duplicate (older than `next_seq`); it carries `ack_seq = 0`, which
acknowledges the TCP_CLOSE, so `ubond_stream_write` closes the stream: `received`
is released and no active stream is left. -/
theorem C27_counterexample :
    aolderb (tcp_pkt UBOND_PKT_TCP_DATA 1 0 0 1).p.data_seq stream_closing_example.next_seq = true
    ∧ stream_closing_example.received = [tcp_pkt UBOND_PKT_TCP_DATA 1 5 0 1]
    ∧ (ubond_stream_write (world_example stream_closing_example)
        (tcp_pkt UBOND_PKT_TCP_DATA 1 0 0 1)).active = [] := by
  decide

theorem to_double_abs_nonneg (n d : Nat) : 0 ≤ to_double_abs n d := by
  unfold to_double_abs
  simp only []
  split
  · exact div_nonneg (Nat.cast_nonneg _) (Nat.cast_nonneg _)
  · exact mul_nonneg (Nat.cast_nonneg _) (Nat.cast_nonneg _)

theorem log2_steps_spec : ∀ (fuel n : Nat), 0 < n → n ≤ fuel →
    2 ^ log2_steps fuel n ≤ n ∧ n < 2 ^ (log2_steps fuel n + 1) := by
  intro fuel
  induction fuel with
  | zero => intro n h0 h1; omega
  | succ f ih =>
    intro n h0 h1
    unfold log2_steps
    by_cases h2 : 2 ≤ n
    · rw [if_pos h2]
      obtain ⟨ha, hb⟩ := ih (n / 2) (by omega) (by omega)
      rw [pow_succ] at hb ⊢
      constructor
      · omega
      · rw [pow_succ]
        omega
    · rw [if_neg h2]
      constructor
      · simp; omega
      · simp; omega

theorem floor_log2_spec (n : Nat) (h : 0 < n) :
    2 ^ floor_log2 n ≤ n ∧ n < 2 ^ (floor_log2 n + 1) :=
  log2_steps_spec n n h (le_refl n)

theorem floor_log2_cast (n : Nat) (h : 0 < n) :
    (2 : ℚ) ^ (floor_log2 n : ℤ) ≤ (n : ℚ) ∧ (n : ℚ) < 2 * (2 : ℚ) ^ (floor_log2 n : ℤ) := by
  obtain ⟨ha, hb⟩ := floor_log2_spec n h
  rw [zpow_natCast]
  constructor
  · exact_mod_cast ha
  · have : (n : ℚ) < ((2 ^ (floor_log2 n + 1) : ℕ) : ℚ) := by exact_mod_cast hb
    rw [pow_succ, Nat.cast_mul, Nat.cast_pow] at this
    push_cast at this
    linarith

theorem bin_exp_spec (n d : Nat) (hn : 0 < n) (hd : 0 < d) :
    (2 : ℚ) ^ (bin_exp n d) ≤ (n : ℚ) / d ∧ (n : ℚ) / d < (2 : ℚ) ^ (bin_exp n d + 1) := by
  obtain ⟨hA1, hA2⟩ := floor_log2_cast n hn
  obtain ⟨hB1, hB2⟩ := floor_log2_cast d hd
  have hdq : (0 : ℚ) < d := by exact_mod_cast hd
  have hnq : (0 : ℚ) < n := by exact_mod_cast hn
  have hApos : (0 : ℚ) < (2 : ℚ) ^ (floor_log2 n : ℤ) := zpow_pos (by norm_num) _
  have hBpos : (0 : ℚ) < (2 : ℚ) ^ (floor_log2 d : ℤ) := zpow_pos (by norm_num) _
  have hk : (2 : ℚ) ^ ((floor_log2 n : ℤ) - (floor_log2 d : ℤ))
      = (2 : ℚ) ^ (floor_log2 n : ℤ) / (2 : ℚ) ^ (floor_log2 d : ℤ) :=
    zpow_sub₀ (by norm_num) _ _
  have hkp : (2 : ℚ) ^ ((floor_log2 n : ℤ) - (floor_log2 d : ℤ) + 1)
      = 2 * ((2 : ℚ) ^ (floor_log2 n : ℤ) / (2 : ℚ) ^ (floor_log2 d : ℤ)) := by
    rw [zpow_add_one₀ (by norm_num), hk]; ring
  have hkm : (2 : ℚ) ^ ((floor_log2 n : ℤ) - (floor_log2 d : ℤ) - 1)
      = ((2 : ℚ) ^ (floor_log2 n : ℤ) / (2 : ℚ) ^ (floor_log2 d : ℤ)) / 2 := by
    rw [zpow_sub_one₀ (by norm_num), hk]; ring
  -- the two outer bounds
  have hup : (n : ℚ) / d < 2 * ((2 : ℚ) ^ (floor_log2 n : ℤ) / (2 : ℚ) ^ (floor_log2 d : ℤ)) := by
    rw [div_lt_iff₀ hdq]
    calc (n : ℚ) < 2 * (2 : ℚ) ^ (floor_log2 n : ℤ) := hA2
      _ = 2 * ((2 : ℚ) ^ (floor_log2 n : ℤ) / (2 : ℚ) ^ (floor_log2 d : ℤ))
            * (2 : ℚ) ^ (floor_log2 d : ℤ) := by field_simp
      _ ≤ 2 * ((2 : ℚ) ^ (floor_log2 n : ℤ) / (2 : ℚ) ^ (floor_log2 d : ℤ)) * d := by
          apply mul_le_mul_of_nonneg_left hB1
          positivity
  have hlo : ((2 : ℚ) ^ (floor_log2 n : ℤ) / (2 : ℚ) ^ (floor_log2 d : ℤ)) / 2 ≤ (n : ℚ) / d := by
    rw [le_div_iff₀ hdq]
    calc ((2 : ℚ) ^ (floor_log2 n : ℤ) / (2 : ℚ) ^ (floor_log2 d : ℤ)) / 2 * d
        ≤ ((2 : ℚ) ^ (floor_log2 n : ℤ) / (2 : ℚ) ^ (floor_log2 d : ℤ)) / 2
            * (2 * (2 : ℚ) ^ (floor_log2 d : ℤ)) := by
          apply mul_le_mul_of_nonneg_left (le_of_lt hB2)
          positivity
      _ = (2 : ℚ) ^ (floor_log2 n : ℤ) := by field_simp; ring
      _ ≤ n := hA1
  unfold bin_exp
  simp only []
  by_cases h0 : (0 : ℤ) ≤ (floor_log2 n : ℤ) - (floor_log2 d : ℤ)
  · rw [if_pos h0]
    have hc : ((2 ^ ((floor_log2 n : ℤ) - (floor_log2 d : ℤ)).toNat : ℕ) : ℚ)
        = (2 : ℚ) ^ ((floor_log2 n : ℤ) - (floor_log2 d : ℤ)) := by
      rw [Nat.cast_pow, ← zpow_natCast, Int.toNat_of_nonneg h0]
      norm_num
    by_cases ht : d * 2 ^ ((floor_log2 n : ℤ) - (floor_log2 d : ℤ)).toNat ≤ n
    · rw [if_pos ht]
      have ht' : (d : ℚ) * (2 : ℚ) ^ ((floor_log2 n : ℤ) - (floor_log2 d : ℤ)) ≤ n := by
        rw [← hc]; exact_mod_cast ht
      refine ⟨?_, by rw [hkp]; exact hup⟩
      rw [le_div_iff₀ hdq]
      linarith
    · rw [if_neg ht]
      have ht' : (n : ℚ) < (d : ℚ) * (2 : ℚ) ^ ((floor_log2 n : ℤ) - (floor_log2 d : ℤ)) := by
        rw [← hc]; exact_mod_cast (not_le.1 ht)
      refine ⟨by rw [hkm]; exact hlo, ?_⟩
      rw [sub_add_cancel, div_lt_iff₀ hdq]
      linarith
  · rw [if_neg h0]
    have h0' : (0 : ℤ) ≤ -((floor_log2 n : ℤ) - (floor_log2 d : ℤ)) := by omega
    have hc : ((2 ^ (-((floor_log2 n : ℤ) - (floor_log2 d : ℤ))).toNat : ℕ) : ℚ)
        = ((2 : ℚ) ^ ((floor_log2 n : ℤ) - (floor_log2 d : ℤ)))⁻¹ := by
      rw [Nat.cast_pow, ← zpow_natCast, Int.toNat_of_nonneg h0', zpow_neg]
      norm_num
    have hkpos : (0 : ℚ) < (2 : ℚ) ^ ((floor_log2 n : ℤ) - (floor_log2 d : ℤ)) :=
      zpow_pos (by norm_num) _
    by_cases ht : d ≤ n * 2 ^ (-((floor_log2 n : ℤ) - (floor_log2 d : ℤ))).toNat
    · rw [if_pos ht]
      have ht' : (d : ℚ) ≤ n * ((2 : ℚ) ^ ((floor_log2 n : ℤ) - (floor_log2 d : ℤ)))⁻¹ := by
        rw [← hc]; exact_mod_cast ht
      refine ⟨?_, by rw [hkp]; exact hup⟩
      rw [le_div_iff₀ hdq]
      have := mul_le_mul_of_nonneg_right ht' (le_of_lt hkpos)
      rw [mul_assoc, inv_mul_cancel₀ (ne_of_gt hkpos), mul_one] at this
      linarith
    · rw [if_neg ht]
      have ht' : (n : ℚ) * ((2 : ℚ) ^ ((floor_log2 n : ℤ) - (floor_log2 d : ℤ)))⁻¹ < d := by
        rw [← hc]; exact_mod_cast (not_le.1 ht)
      refine ⟨by rw [hkm]; exact hlo, ?_⟩
      rw [sub_add_cancel, div_lt_iff₀ hdq]
      have := mul_lt_mul_of_pos_right ht' hkpos
      rw [mul_assoc, inv_mul_cancel₀ (ne_of_gt hkpos), mul_one] at this
      linarith

theorem div_nearest_even_mul (k D : Nat) (hD : 0 < D) : div_nearest_even (k * D) D = k := by
  unfold div_nearest_even
  rw [Nat.mul_mod_left, Nat.mul_div_cancel _ hD, if_pos (by omega)]

theorem div_nearest_even_ge (N D : Nat) : N / D ≤ div_nearest_even N D := by
  unfold div_nearest_even
  split_ifs <;> omega

theorem div_nearest_even_le (N D : Nat) : div_nearest_even N D ≤ N / D + 1 := by
  unfold div_nearest_even
  split_ifs <;> omega

/-- The value of `to_double_abs`, in one formula. -/
theorem to_double_abs_eq (n d : Nat) :
    ∃ M : Nat, to_double_abs n d = (M : ℚ) * (2 : ℚ) ^ (max (bin_exp n d) (-1022) - 52)
      ∧ (0 ≤ 52 - max (bin_exp n d) (-1022) →
          M = div_nearest_even (n * 2 ^ (52 - max (bin_exp n d) (-1022)).toNat) d)
      ∧ (¬ 0 ≤ 52 - max (bin_exp n d) (-1022) →
          M = div_nearest_even n (d * 2 ^ (-(52 - max (bin_exp n d) (-1022))).toNat)) := by
  unfold to_double_abs
  simp only []
  by_cases hs : 0 ≤ 52 - max (bin_exp n d) (-1022)
  · rw [if_pos hs]
    refine ⟨_, ?_, fun _ => rfl, fun h => absurd hs h⟩
    rw [Nat.cast_pow, ← zpow_natCast, Int.toNat_of_nonneg hs, div_eq_mul_inv, ← zpow_neg]
    norm_num
  · rw [if_neg hs]
    refine ⟨_, ?_, fun h => absurd h hs, fun _ => rfl⟩
    have hs' : 0 ≤ -(52 - max (bin_exp n d) (-1022)) := by omega
    rw [Nat.cast_pow, ← zpow_natCast, Int.toNat_of_nonneg hs']
    norm_num

theorem zpow_two_pos (k : ℤ) : (0 : ℚ) < (2 : ℚ) ^ k := zpow_pos (by norm_num) k

theorem to_double_abs_exact (n d m : Nat) (j : ℤ) (hn : 0 < n) (hd : 0 < d) (hm : m < 2 ^ 53)
    (hj : -1074 ≤ j) (h : (n : ℚ) / d = m * (2 : ℚ) ^ j) : to_double_abs n d = (n : ℚ) / d := by
  obtain ⟨hlo, _⟩ := bin_exp_spec n d hn hd
  have hdq : (0 : ℚ) < d := by exact_mod_cast hd
  have hs : 0 ≤ j + (52 - max (bin_exp n d) (-1022)) := by
    by_cases he : -1022 ≤ bin_exp n d
    · rw [max_eq_left he]
      have h1 : (2 : ℚ) ^ (bin_exp n d) < (2 : ℚ) ^ (53 + j) := by
        calc (2 : ℚ) ^ (bin_exp n d) ≤ (n : ℚ) / d := hlo
          _ = m * (2 : ℚ) ^ j := h
          _ < (2 : ℚ) ^ (53 : ℤ) * (2 : ℚ) ^ j := by
              apply mul_lt_mul_of_pos_right _ (zpow_two_pos j)
              have : (m : ℚ) < ((2 ^ 53 : ℕ) : ℚ) := by exact_mod_cast hm
              calc (m : ℚ) < ((2 ^ 53 : ℕ) : ℚ) := this
                _ = (2 : ℚ) ^ (53 : ℤ) := by norm_num
          _ = (2 : ℚ) ^ (53 + j) := by rw [zpow_add₀ (by norm_num)]
      have := (zpow_lt_zpow_iff_right₀ (by norm_num : (1 : ℚ) < 2)).1 h1
      omega
    · rw [max_eq_right (by omega)]
      omega
  have hn' : (n : ℚ) = m * (2 : ℚ) ^ j * d := by
    rw [← h]; field_simp
  obtain ⟨M, hM, hM1, hM2⟩ := to_double_abs_eq n d
  rw [hM]
  have ht : (((j + (52 - max (bin_exp n d) (-1022))).toNat : ℕ) : ℤ)
      = j + (52 - max (bin_exp n d) (-1022)) := Int.toNat_of_nonneg hs
  have hpow : ((2 ^ (j + (52 - max (bin_exp n d) (-1022))).toNat : ℕ) : ℚ)
      = (2 : ℚ) ^ j * (2 : ℚ) ^ (52 - max (bin_exp n d) (-1022)) := by
    rw [Nat.cast_pow, ← zpow_natCast, ht, zpow_add₀ (by norm_num)]
    norm_num
  have hMv : M = m * 2 ^ (j + (52 - max (bin_exp n d) (-1022))).toNat := by
    by_cases hs0 : 0 ≤ 52 - max (bin_exp n d) (-1022)
    · rw [hM1 hs0]
      have key : n * 2 ^ (52 - max (bin_exp n d) (-1022)).toNat
          = (m * 2 ^ (j + (52 - max (bin_exp n d) (-1022))).toNat) * d := by
        apply Nat.cast_injective (R := ℚ)
        rw [Nat.cast_mul, Nat.cast_mul, Nat.cast_mul, hpow, hn', Nat.cast_pow, ← zpow_natCast,
          Int.toNat_of_nonneg hs0]
        norm_num
        ring
      rw [key, div_nearest_even_mul _ _ hd]
    · rw [hM2 hs0]
      have hs0' : 0 ≤ -(52 - max (bin_exp n d) (-1022)) := by omega
      have key : n = (m * 2 ^ (j + (52 - max (bin_exp n d) (-1022))).toNat)
          * (d * 2 ^ (-(52 - max (bin_exp n d) (-1022))).toNat) := by
        apply Nat.cast_injective (R := ℚ)
        rw [Nat.cast_mul, Nat.cast_mul, Nat.cast_mul, hpow, hn', Nat.cast_pow, ← zpow_natCast,
          Int.toNat_of_nonneg hs0', zpow_neg]
        have := zpow_two_pos (52 - max (bin_exp n d) (-1022))
        norm_num
        field_simp
        ring
      have hdp : 0 < d * 2 ^ (-(52 - max (bin_exp n d) (-1022))).toNat :=
        Nat.mul_pos hd (pow_pos (by norm_num) _)
      exact (congrArg (fun x => div_nearest_even x
        (d * 2 ^ (-(52 - max (bin_exp n d) (-1022))).toNat)) key).trans
        (div_nearest_even_mul _ _ hdp)
  rw [hMv, Nat.cast_mul, hpow, h]
  have e1 : (2 : ℚ) ^ (52 - max (bin_exp n d) (-1022))
      * (2 : ℚ) ^ (max (bin_exp n d) (-1022) - 52) = 1 := by
    rw [← zpow_add₀ (by norm_num)]
    have : 52 - max (bin_exp n d) (-1022) + (max (bin_exp n d) (-1022) - 52) = 0 := by ring
    rw [this, zpow_zero]
  calc (m : ℚ) * ((2 : ℚ) ^ j * (2 : ℚ) ^ (52 - max (bin_exp n d) (-1022)))
        * (2 : ℚ) ^ (max (bin_exp n d) (-1022) - 52)
      = (m : ℚ) * (2 : ℚ) ^ j * ((2 : ℚ) ^ (52 - max (bin_exp n d) (-1022))
        * (2 : ℚ) ^ (max (bin_exp n d) (-1022) - 52)) := by ring
    _ = (m : ℚ) * (2 : ℚ) ^ j := by rw [e1, mul_one]

theorem cast_two_pow_toNat (z : ℤ) (hz : 0 ≤ z) : ((2 ^ z.toNat : ℕ) : ℚ) = (2 : ℚ) ^ z := by
  rw [Nat.cast_pow, Nat.cast_ofNat, ← zpow_natCast, Int.toNat_of_nonneg hz]

/-- The significand of `to_double_abs` has at most 53 bits, one more when the
rounding carries into the next binade. -/
theorem to_double_abs_signif (n d : Nat) (hn : 0 < n) (hd : 0 < d) :
    ∃ M : Nat, M ≤ 2 ^ 53
      ∧ to_double_abs n d = (M : ℚ) * (2 : ℚ) ^ (max (bin_exp n d) (-1022) - 52)
      ∧ (-1022 ≤ bin_exp n d → 2 ^ 52 ≤ M) := by
  obtain ⟨hlo, hhi⟩ := bin_exp_spec n d hn hd
  have hdq : (0 : ℚ) < d := by exact_mod_cast hd
  obtain ⟨M, hM, hM1, hM2⟩ := to_double_abs_eq n d
  have hn1 : (n : ℚ) < (2 : ℚ) ^ (max (bin_exp n d) (-1022) + 1) * d := by
    have h1 : (n : ℚ) < (2 : ℚ) ^ (bin_exp n d + 1) * d := (div_lt_iff₀ hdq).1 hhi
    have h2 : (2 : ℚ) ^ (bin_exp n d + 1) ≤ (2 : ℚ) ^ (max (bin_exp n d) (-1022) + 1) :=
      zpow_le_zpow_right₀ (by norm_num) (by have := le_max_left (bin_exp n d) (-1022); omega)
    calc (n : ℚ) < (2 : ℚ) ^ (bin_exp n d + 1) * d := h1
      _ ≤ (2 : ℚ) ^ (max (bin_exp n d) (-1022) + 1) * d :=
          mul_le_mul_of_nonneg_right h2 (le_of_lt hdq)
  have hn2 : (2 : ℚ) ^ (bin_exp n d) * d ≤ n := (le_div_iff₀ hdq).1 hlo
  refine ⟨M, ?_, hM, ?_⟩
  · by_cases hs0 : 0 ≤ 52 - max (bin_exp n d) (-1022)
    · rw [hM1 hs0]
      have hlt : n * 2 ^ (52 - max (bin_exp n d) (-1022)).toNat < 2 ^ 53 * d := by
        have hq : (n : ℚ) * (2 : ℚ) ^ (52 - max (bin_exp n d) (-1022)) < (2 : ℚ) ^ (53 : ℤ) * d := by
          have := mul_lt_mul_of_pos_right hn1 (zpow_two_pos (52 - max (bin_exp n d) (-1022)))
          have e : (2 : ℚ) ^ (max (bin_exp n d) (-1022) + 1)
              * (2 : ℚ) ^ (52 - max (bin_exp n d) (-1022)) = (2 : ℚ) ^ (53 : ℤ) := by
            rw [← zpow_add₀ (by norm_num)]
            congr 1
            ring
          calc (n : ℚ) * (2 : ℚ) ^ (52 - max (bin_exp n d) (-1022))
              < (2 : ℚ) ^ (max (bin_exp n d) (-1022) + 1) * d
                  * (2 : ℚ) ^ (52 - max (bin_exp n d) (-1022)) := this
            _ = (2 : ℚ) ^ (max (bin_exp n d) (-1022) + 1)
                  * (2 : ℚ) ^ (52 - max (bin_exp n d) (-1022)) * d := by ring
            _ = (2 : ℚ) ^ (53 : ℤ) * d := by rw [e]
        have hc : ((n * 2 ^ (52 - max (bin_exp n d) (-1022)).toNat : ℕ) : ℚ)
            < ((2 ^ 53 * d : ℕ) : ℚ) := by
          rw [Nat.cast_mul, cast_two_pow_toNat _ hs0, Nat.cast_mul]
          norm_num at hq ⊢
          exact hq
        exact_mod_cast hc
      have := (Nat.div_lt_iff_lt_mul hd).2 hlt
      have := div_nearest_even_le (n * 2 ^ (52 - max (bin_exp n d) (-1022)).toNat) d
      omega
    · rw [hM2 hs0]
      have hs0' : 0 ≤ -(52 - max (bin_exp n d) (-1022)) := by omega
      have hlt : n < 2 ^ 53 * (d * 2 ^ (-(52 - max (bin_exp n d) (-1022))).toNat) := by
        have e : (2 : ℚ) ^ (max (bin_exp n d) (-1022) + 1)
            = (2 : ℚ) ^ (53 : ℤ) * (2 : ℚ) ^ (-(52 - max (bin_exp n d) (-1022))) := by
          rw [← zpow_add₀ (by norm_num)]
          congr 1
          ring
        have hc : ((n : ℕ) : ℚ)
            < ((2 ^ 53 * (d * 2 ^ (-(52 - max (bin_exp n d) (-1022))).toNat) : ℕ) : ℚ) := by
          rw [Nat.cast_mul, Nat.cast_mul, cast_two_pow_toNat _ hs0']
          rw [e] at hn1
          norm_num at hn1 ⊢
          linarith
        exact_mod_cast hc
      have hdp : 0 < d * 2 ^ (-(52 - max (bin_exp n d) (-1022))).toNat :=
        Nat.mul_pos hd (pow_pos (by norm_num) _)
      have := (Nat.div_lt_iff_lt_mul hdp).2 hlt
      have := div_nearest_even_le n (d * 2 ^ (-(52 - max (bin_exp n d) (-1022))).toNat)
      omega
  · intro he
    have hmx : max (bin_exp n d) (-1022) = bin_exp n d := max_eq_left he
    by_cases hs0 : 0 ≤ 52 - max (bin_exp n d) (-1022)
    · rw [hM1 hs0]
      have hle : 2 ^ 52 * d ≤ n * 2 ^ (52 - max (bin_exp n d) (-1022)).toNat := by
        have hc : ((2 ^ 52 * d : ℕ) : ℚ)
            ≤ ((n * 2 ^ (52 - max (bin_exp n d) (-1022)).toNat : ℕ) : ℚ) := by
          rw [Nat.cast_mul, Nat.cast_mul, cast_two_pow_toNat _ hs0, hmx]
          have := mul_le_mul_of_nonneg_right hn2 (le_of_lt (zpow_two_pos (52 - bin_exp n d)))
          have e : (2 : ℚ) ^ (bin_exp n d) * (2 : ℚ) ^ (52 - bin_exp n d) = (2 : ℚ) ^ (52 : ℤ) := by
            rw [← zpow_add₀ (by norm_num)]
            congr 1
            ring
          have e2 : (2 : ℚ) ^ (bin_exp n d) * d * (2 : ℚ) ^ (52 - bin_exp n d)
              = (2 : ℚ) ^ (52 : ℤ) * d := by
            rw [← e]; ring
          rw [e2] at this
          norm_num at this ⊢
          exact this
        exact_mod_cast hc
      have := (Nat.le_div_iff_mul_le hd).2 hle
      have := div_nearest_even_ge (n * 2 ^ (52 - max (bin_exp n d) (-1022)).toNat) d
      omega
    · rw [hM2 hs0]
      have hs0' : 0 ≤ -(52 - max (bin_exp n d) (-1022)) := by omega
      have hdp : 0 < d * 2 ^ (-(52 - max (bin_exp n d) (-1022))).toNat :=
        Nat.mul_pos hd (pow_pos (by norm_num) _)
      have hle : 2 ^ 52 * (d * 2 ^ (-(52 - max (bin_exp n d) (-1022))).toNat) ≤ n := by
        have hc : ((2 ^ 52 * (d * 2 ^ (-(52 - max (bin_exp n d) (-1022))).toNat) : ℕ) : ℚ)
            ≤ ((n : ℕ) : ℚ) := by
          rw [Nat.cast_mul, Nat.cast_mul, cast_two_pow_toNat _ hs0', hmx]
          have e : (2 : ℚ) ^ (bin_exp n d)
              = (2 : ℚ) ^ (52 : ℤ) * (2 : ℚ) ^ (-(52 - bin_exp n d)) := by
            rw [← zpow_add₀ (by norm_num)]
            congr 1
            ring
          rw [e] at hn2
          norm_num at hn2 ⊢
          linarith
        exact_mod_cast hc
      have := (Nat.le_div_iff_mul_le hdp).2 hle
      have := div_nearest_even_ge n (d * 2 ^ (-(52 - max (bin_exp n d) (-1022))).toNat)
      omega

theorem to_double_abs_repr (n d : Nat) (hn : 0 < n) (hd : 0 < d) :
    ∃ (m : Nat) (j : ℤ), m < 2 ^ 53 ∧ -1074 ≤ j ∧ to_double_abs n d = (m : ℚ) * (2 : ℚ) ^ j := by
  obtain ⟨M, hM1, hM2, _⟩ := to_double_abs_signif n d hn hd
  have hj : -1074 ≤ max (bin_exp n d) (-1022) - 52 := by
    have := le_max_right (bin_exp n d) (-1022)
    omega
  by_cases h : M < 2 ^ 53
  · exact ⟨M, _, h, hj, hM2⟩
  · have hM : M = 2 ^ 53 := by omega
    refine ⟨2 ^ 52, max (bin_exp n d) (-1022) - 52 + 1, by norm_num, by omega, ?_⟩
    rw [hM2, hM, zpow_add_one₀ (by norm_num)]
    norm_num
    ring

theorem to_double_abs_lower (n d : Nat) (hn : 0 < n) (hd : 0 < d) (he : -1022 ≤ bin_exp n d) :
    (2 : ℚ) ^ (bin_exp n d) ≤ to_double_abs n d := by
  obtain ⟨M, _, hM2, hM3⟩ := to_double_abs_signif n d hn hd
  rw [hM2, max_eq_left he]
  have h52 : ((2 ^ 52 : ℕ) : ℚ) ≤ (M : ℚ) := by exact_mod_cast hM3 he
  have e : (2 : ℚ) ^ (bin_exp n d) = ((2 ^ 52 : ℕ) : ℚ) * (2 : ℚ) ^ (bin_exp n d - 52) := by
    have : ((2 ^ 52 : ℕ) : ℚ) = (2 : ℚ) ^ (52 : ℤ) := by norm_num
    rw [this, ← zpow_add₀ (by norm_num)]
    congr 1
    ring
  rw [e]
  exact mul_le_mul_of_nonneg_right h52 (le_of_lt (zpow_two_pos _))

theorem rat_pos_frac (q : ℚ) (h : 0 < q) :
    0 < q.num.natAbs ∧ 0 < q.den ∧ ((q.num.natAbs : ℕ) : ℚ) / (q.den : ℚ) = q := by
  have hnum : 0 < q.num := Rat.num_pos.2 h
  refine ⟨Int.natAbs_pos.2 (ne_of_gt hnum), q.den_pos, ?_⟩
  have e : ((q.num.natAbs : ℕ) : ℚ) = (q.num : ℚ) := by
    rw [Nat.cast_natAbs, abs_of_pos hnum]
  rw [e]
  exact Rat.num_div_den q

theorem rat_neg_frac (q : ℚ) (h : q < 0) :
    0 < q.num.natAbs ∧ 0 < q.den ∧ ((q.num.natAbs : ℕ) : ℚ) / (q.den : ℚ) = -q := by
  have h' := rat_pos_frac (-q) (neg_pos.2 h)
  simpa using h'

theorem to_double_of_pos (q : ℚ) (h : 0 < q) : to_double q = to_double_abs q.num.natAbs q.den := by
  unfold to_double
  rw [if_neg (ne_of_gt h), if_pos h]

theorem to_double_of_neg (q : ℚ) (h : q < 0) :
    to_double q = - to_double_abs q.num.natAbs q.den := by
  unfold to_double
  rw [if_neg (ne_of_lt h), if_neg (not_lt.2 (le_of_lt h))]

theorem to_double_neg (q : ℚ) : to_double (-q) = - to_double q := by
  rcases lt_trichotomy q 0 with h | h | h
  · rw [to_double_of_pos (-q) (neg_pos.2 h), to_double_of_neg q h]
    simp
  · rw [h]
    simp [to_double]
  · rw [to_double_of_neg (-q) (neg_neg_of_pos h), to_double_of_pos q h]
    simp

/-- Every value of `to_double` is a value of the type: a significand below
`2 ^ 53` times a power of two not below `2 ^ (-1074)`. -/
theorem to_double_repr (q : ℚ) :
    ∃ (m : Nat) (j : ℤ), m < 2 ^ 53 ∧ -1074 ≤ j ∧ |to_double q| = (m : ℚ) * (2 : ℚ) ^ j := by
  rcases lt_trichotomy q 0 with h | h | h
  · obtain ⟨hn, hd, _⟩ := rat_neg_frac q h
    obtain ⟨m, j, hm, hj, e⟩ := to_double_abs_repr _ _ hn hd
    refine ⟨m, j, hm, hj, ?_⟩
    rw [to_double_of_neg q h, abs_neg, abs_of_nonneg (to_double_abs_nonneg _ _), e]
  · refine ⟨0, 0, by norm_num, by norm_num, ?_⟩
    rw [h]
    simp [to_double]
  · obtain ⟨hn, hd, _⟩ := rat_pos_frac q h
    obtain ⟨m, j, hm, hj, e⟩ := to_double_abs_repr _ _ hn hd
    refine ⟨m, j, hm, hj, ?_⟩
    rw [to_double_of_pos q h, abs_of_nonneg (to_double_abs_nonneg _ _), e]

/-- A value of the type is not changed by `to_double`. -/
theorem to_double_exact (q : ℚ) (m : Nat) (j : ℤ) (hm : m < 2 ^ 53) (hj : -1074 ≤ j)
    (h : |q| = (m : ℚ) * (2 : ℚ) ^ j) : to_double q = q := by
  rcases lt_trichotomy q 0 with h0 | h0 | h0
  · obtain ⟨hn, hd, e⟩ := rat_neg_frac q h0
    rw [abs_of_neg h0] at h
    rw [to_double_of_neg q h0, to_double_abs_exact _ _ m j hn hd hm hj (by rw [e, h]), e]
    simp
  · rw [h0]
    simp [to_double]
  · obtain ⟨hn, hd, e⟩ := rat_pos_frac q h0
    rw [abs_of_pos h0] at h
    rw [to_double_of_pos q h0, to_double_abs_exact _ _ m j hn hd hm hj (by rw [e, h]), e]

theorem to_double_idem (q : ℚ) : to_double (to_double q) = to_double q := by
  obtain ⟨m, j, hm, hj, e⟩ := to_double_repr q
  exact to_double_exact _ m j hm hj e

/-- A value of the type times a power of two is a value of the type (the
exponent has no upper bound here). -/
theorem to_double_mul_pow (q : ℚ) (k : Nat) :
    to_double (to_double q * 2 ^ k) = to_double q * 2 ^ k := by
  obtain ⟨m, j, hm, hj, e⟩ := to_double_repr q
  apply to_double_exact _ m (j + k) hm (by omega)
  rw [abs_mul, e, abs_of_pos (pow_pos (by norm_num : (0 : ℚ) < 2) k), zpow_add₀ (by norm_num),
    zpow_natCast]
  ring

theorem to_double_natCast (n : Nat) (h : n < 2 ^ 53) : to_double (n : ℚ) = (n : ℚ) := by
  apply to_double_exact _ n 0 h (by norm_num)
  rw [abs_of_nonneg (Nat.cast_nonneg n)]
  simp

/-- From `2 ^ (-1022)` on, rounding does not cross a power of two downwards. -/
theorem to_double_lower (q : ℚ) (k : ℤ) (hk : -1022 ≤ k) (h : (2 : ℚ) ^ k ≤ q) :
    (2 : ℚ) ^ k ≤ to_double q := by
  have hq : 0 < q := lt_of_lt_of_le (zpow_two_pos k) h
  obtain ⟨hn, hd, e⟩ := rat_pos_frac q hq
  obtain ⟨_, hhi⟩ := bin_exp_spec _ _ hn hd
  rw [e] at hhi
  have hke : k ≤ bin_exp q.num.natAbs q.den := by
    have := (zpow_lt_zpow_iff_right₀ (by norm_num : (1 : ℚ) < 2)).1 (lt_of_le_of_lt h hhi)
    omega
  rw [to_double_of_pos q hq]
  exact le_trans (zpow_le_zpow_right₀ (by norm_num) hke)
    (to_double_abs_lower _ _ hn hd (by omega))

theorem to_double_pos (q : ℚ) (h : (2 : ℚ) ^ (-1022 : ℤ) ≤ q) : 0 < to_double q :=
  lt_of_lt_of_le (zpow_two_pos _) (to_double_lower q (-1022) (le_refl _) h)

theorem div_nearest_even_half (N D : Nat) (hD : 0 < D) :
    |((div_nearest_even N D : ℕ) : ℚ) - (N : ℚ) / D| ≤ 1 / 2 := by
  have hDq : (0 : ℚ) < D := by exact_mod_cast hD
  have hN : (N : ℚ) = (D : ℚ) * ((N / D : ℕ) : ℚ) + ((N % D : ℕ) : ℚ) := by
    exact_mod_cast (Nat.div_add_mod N D).symm
  have hr : ((N % D : ℕ) : ℚ) < D := by exact_mod_cast Nat.mod_lt N hD
  have hr0 : (0 : ℚ) ≤ ((N % D : ℕ) : ℚ) := Nat.cast_nonneg _
  have hdiv : (N : ℚ) / D = ((N / D : ℕ) : ℚ) + ((N % D : ℕ) : ℚ) / D := by
    rw [hN]
    field_simp
    ring
  rw [abs_le]
  unfold div_nearest_even
  split_ifs with h1 h2 h3
  · have h1' : 2 * ((N % D : ℕ) : ℚ) < D := by exact_mod_cast h1
    have : ((N % D : ℕ) : ℚ) / D < 1 / 2 := by
      rw [div_lt_iff₀ hDq]; linarith
    have : 0 ≤ ((N % D : ℕ) : ℚ) / D := div_nonneg hr0 (le_of_lt hDq)
    rw [hdiv]
    constructor <;> linarith
  · have h2' : (D : ℚ) < 2 * ((N % D : ℕ) : ℚ) := by exact_mod_cast h2
    have : 1 / 2 < ((N % D : ℕ) : ℚ) / D := by
      rw [lt_div_iff₀ hDq]; linarith
    have : ((N % D : ℕ) : ℚ) / D < 1 := by
      rw [div_lt_iff₀ hDq]; linarith
    rw [hdiv]
    push_cast
    constructor <;> linarith
  · have h3' : 2 * ((N % D : ℕ) : ℚ) = D := by
      have : 2 * (N % D) = D := by omega
      exact_mod_cast this
    have : ((N % D : ℕ) : ℚ) / D = 1 / 2 := by
      rw [div_eq_iff (ne_of_gt hDq)]; linarith
    rw [hdiv]
    constructor <;> linarith
  · have h3' : 2 * ((N % D : ℕ) : ℚ) = D := by
      have : 2 * (N % D) = D := by omega
      exact_mod_cast this
    have : ((N % D : ℕ) : ℚ) / D = 1 / 2 := by
      rw [div_eq_iff (ne_of_gt hDq)]; linarith
    rw [hdiv]
    push_cast
    constructor <;> linarith

/-- The rounding error of `to_double_abs` is at most half a unit in the last
place. -/
theorem to_double_abs_error (n d : Nat) (hd : 0 < d) :
    |to_double_abs n d - (n : ℚ) / d|
      ≤ (2 : ℚ) ^ (max (bin_exp n d) (-1022) - 53) := by
  have hdq : (0 : ℚ) < d := by exact_mod_cast hd
  obtain ⟨M, hM, hM1, hM2⟩ := to_double_abs_eq n d
  rw [hM]
  have hu : (2 : ℚ) ^ (max (bin_exp n d) (-1022) - 53)
      = 1 / 2 * (2 : ℚ) ^ (max (bin_exp n d) (-1022) - 52) := by
    rw [show max (bin_exp n d) (-1022) - 53 = max (bin_exp n d) (-1022) - 52 - 1 by ring,
      zpow_sub_one₀ (by norm_num)]
    ring
  have hpos := zpow_two_pos (max (bin_exp n d) (-1022) - 52)
  have hinv : (2 : ℚ) ^ (52 - max (bin_exp n d) (-1022))
      * (2 : ℚ) ^ (max (bin_exp n d) (-1022) - 52) = 1 := by
    rw [← zpow_add₀ (by norm_num)]
    have : 52 - max (bin_exp n d) (-1022) + (max (bin_exp n d) (-1022) - 52) = 0 := by ring
    rw [this, zpow_zero]
  have key : |(M : ℚ) - (n : ℚ) / d * (2 : ℚ) ^ (52 - max (bin_exp n d) (-1022))| ≤ 1 / 2 := by
    by_cases hs0 : 0 ≤ 52 - max (bin_exp n d) (-1022)
    · rw [hM1 hs0]
      have := div_nearest_even_half (n * 2 ^ (52 - max (bin_exp n d) (-1022)).toNat) d hd
      rw [Nat.cast_mul, cast_two_pow_toNat _ hs0] at this
      rw [div_mul_eq_mul_div]
      exact this
    · rw [hM2 hs0]
      have hs0' : 0 ≤ -(52 - max (bin_exp n d) (-1022)) := by omega
      have hdp : 0 < d * 2 ^ (-(52 - max (bin_exp n d) (-1022))).toNat :=
        Nat.mul_pos hd (pow_pos (by norm_num) _)
      have := div_nearest_even_half n (d * 2 ^ (-(52 - max (bin_exp n d) (-1022))).toNat) hdp
      rw [Nat.cast_mul, cast_two_pow_toNat _ hs0', zpow_neg] at this
      have e : (n : ℚ) / ((d : ℚ) * ((2 : ℚ) ^ (52 - max (bin_exp n d) (-1022)))⁻¹)
          = (n : ℚ) / d * (2 : ℚ) ^ (52 - max (bin_exp n d) (-1022)) := by
        have := zpow_two_pos (52 - max (bin_exp n d) (-1022))
        field_simp
      rw [e] at this
      exact this
  have e2 : (M : ℚ) * (2 : ℚ) ^ (max (bin_exp n d) (-1022) - 52) - (n : ℚ) / d
      = ((M : ℚ) - (n : ℚ) / d * (2 : ℚ) ^ (52 - max (bin_exp n d) (-1022)))
        * (2 : ℚ) ^ (max (bin_exp n d) (-1022) - 52) := by
    rw [sub_mul, mul_assoc, hinv, mul_one]
  rw [e2, abs_mul, abs_of_pos hpos, hu]
  exact mul_le_mul_of_nonneg_right key (le_of_lt hpos)

/-- In the normal range the rounding error of `to_double` is at most `2 ^ (-53)`
times the magnitude of the exact value. -/
theorem to_double_error (q : ℚ) (h : (2 : ℚ) ^ (-1022 : ℤ) ≤ |q|) :
    |to_double q - q| ≤ (2 : ℚ) ^ (-53 : ℤ) * |q| := by
  have key : ∀ x : ℚ, (2 : ℚ) ^ (-1022 : ℤ) ≤ x →
      |to_double x - x| ≤ (2 : ℚ) ^ (-53 : ℤ) * x := by
    intro x hx
    have hx0 : 0 < x := lt_of_lt_of_le (zpow_two_pos _) hx
    obtain ⟨hn, hd, e⟩ := rat_pos_frac x hx0
    obtain ⟨hlo, hhi⟩ := bin_exp_spec _ _ hn hd
    rw [e] at hlo hhi
    have he : -1022 ≤ bin_exp x.num.natAbs x.den := by
      have := (zpow_lt_zpow_iff_right₀ (by norm_num : (1 : ℚ) < 2)).1 (lt_of_le_of_lt hx hhi)
      omega
    have herr := to_double_abs_error x.num.natAbs x.den hd
    rw [e, max_eq_left he] at herr
    rw [to_double_of_pos x hx0]
    refine le_trans herr ?_
    have e2 : (2 : ℚ) ^ (bin_exp x.num.natAbs x.den - 53)
        = (2 : ℚ) ^ (-53 : ℤ) * (2 : ℚ) ^ (bin_exp x.num.natAbs x.den) := by
      rw [← zpow_add₀ (by norm_num)]
      congr 1
      ring
    rw [e2]
    exact mul_le_mul_of_nonneg_left hlo (le_of_lt (zpow_two_pos _))
  rcases le_or_lt 0 q with h0 | h0
  · rw [abs_of_nonneg h0] at h ⊢
    exact key q h
  · rw [abs_of_neg h0] at h ⊢
    have := key (-q) h
    rw [to_double_neg] at this
    have e3 : -to_double q - -q = -(to_double q - q) := by ring
    rw [e3, abs_neg] at this
    exact this

theorem to_double_nonneg (q : ℚ) (h : 0 ≤ q) : 0 ≤ to_double q := by
  unfold to_double
  split
  · exact le_refl _
  · split
    · exact to_double_abs_nonneg _ _
    · rename_i h0 h1
      exact absurd (lt_of_le_of_ne h (Ne.symm h0)) h1

theorem to_double_nonpos (q : ℚ) (h : q ≤ 0) : to_double q ≤ 0 := by
  unfold to_double
  split
  · exact le_refl _
  · split
    · rename_i h1
      exact absurd h (not_le.2 h1)
    · exact neg_nonpos.2 (to_double_abs_nonneg _ _)

theorem to_double_zero : to_double 0 = 0 := by
  unfold to_double
  rw [if_pos rfl]

theorem to_double_one : to_double 1 = 1 := by decide!

theorem to_double_fifth : to_double (1 / 5) = 3602879701896397 / 18014398509481984 := by
  decide!

theorem to_double_fifth_le : to_double (1 / 5) ≤ 1 := by
  rw [to_double_fifth]
  norm_num

theorem recalc_active_fl_reset (rnd : ℚ → ℚ) (fm : Nat) (b : ℚ) (t : sched_tunnel_t) :
    recalc_active_fl rnd fm (recalc_reset_fl rnd fm b t) = recalc_active_fl rnd fm t := by
  unfold recalc_reset_fl
  split <;> rfl

theorem loss_part_fl_reset (rnd : ℚ → ℚ) (fm : Nat) (b : ℚ) (t : sched_tunnel_t) :
    loss_part_fl rnd (recalc_reset_fl rnd fm b t) = loss_part_fl rnd t := by
  unfold recalc_reset_fl
  split <;> rfl

theorem recalc_reset_fl_fields (rnd : ℚ → ℚ) (fm : Nat) (b : ℚ) (t : sched_tunnel_t) :
    (recalc_reset_fl rnd fm b t).bandwidth_max = t.bandwidth_max
    ∧ (recalc_reset_fl rnd fm b t).quota = t.quota := by
  unfold recalc_reset_fl
  split <;> exact ⟨rfl, rfl⟩

theorem recalc_locals_fl_reset (rnd : ℚ → ℚ) (fm : Nat) (b : ℚ) (L : List sched_tunnel_t) :
    ∀ loc, recalc_locals_fl rnd fm (L.map (recalc_reset_fl rnd fm b)) loc
      = recalc_locals_fl rnd fm L loc := by
  induction L with
  | nil => intro loc; rfl
  | cons t rest ih =>
    intro loc
    rw [List.map_cons, recalc_locals_fl, recalc_locals_fl, recalc_active_fl_reset,
      loss_part_fl_reset, (recalc_reset_fl_fields rnd fm b t).1,
      (recalc_reset_fl_fields rnd fm b t).2]
    simp only [ih]

theorem recalc_alloc_fl_append (rnd : ℚ → ℚ) (fm : Nat) (A B : List sched_tunnel_t) :
    ∀ n a, recalc_alloc_fl rnd fm (A ++ B) n a
      = recalc_alloc_fl rnd fm A n a
        ++ recalc_alloc_fl rnd fm B (recalc_locals_fl rnd fm A (n, a)).1
            (recalc_locals_fl rnd fm A (n, a)).2 := by
  induction A with
  | nil => intro n a; rfl
  | cons t rest ih =>
    intro n a
    rw [List.cons_append, recalc_alloc_fl, recalc_alloc_fl, recalc_locals_fl]
    simp only []
    split_ifs <;> simp only [ih, List.cons_append]

theorem recalc_alloc_fl_length (rnd : ℚ → ℚ) (fm : Nat) (A : List sched_tunnel_t) :
    ∀ n a, (recalc_alloc_fl rnd fm A n a).length = A.length := by
  induction A with
  | nil => intro n a; rfl
  | cons t rest ih =>
    intro n a
    rw [recalc_alloc_fl]
    simp only []
    split_ifs <;> simp [ih]

theorem recalc_active_fl_of (rnd : ℚ → ℚ) (fm : Nat) (t : sched_tunnel_t)
    (hst : t.status = UBOND_AUTHOK) (hfm : fm = t.fallback_only) (hq : t.quota = 0) :
    recalc_active_fl rnd fm t = true := by
  unfold recalc_active_fl recalc_quota_ok_fl
  simp [hst, hfm, hq]

theorem loss_part_fl_nonneg (rnd : ℚ → ℚ) (hnn : ∀ x, 0 ≤ x → 0 ≤ rnd x) (t : sched_tunnel_t) :
    0 ≤ (loss_part_fl rnd t).1 := by
  have h02 : 0 ≤ rnd (1 / 5) := hnn _ (by norm_num)
  unfold loss_part_fl
  simp only []
  split_ifs <;>
    first
    | exact h02
    | exact le_trans h02 (le_of_lt (not_le.1 (by assumption)))
    | norm_num

theorem loss_part_fl_spec (rnd : ℚ → ℚ) (hnn : ∀ x, 0 ≤ x → 0 ≤ rnd x)
    (hnp : ∀ x, x ≤ 0 → rnd x ≤ 0) (h1 : rnd 1 = 1) (h5 : rnd (1 / 5) ≤ 1) (t : sched_tunnel_t)
    (hsrtt : t.srtt ≤ rnd (t.srtt_min * 2)) :
    (loss_part_fl rnd t).1 = spec_part_fl rnd t.sent_loss := by
  unfold loss_part_fl spec_part_fl LOSS_TOLERENCE
  have h0 : ¬ rnd (t.srtt_min * 2) < t.srtt := not_lt.2 hsrtt
  simp only [if_neg h0]
  push_cast
  by_cases ha : (50 : ℚ) / 2 ≤ rnd (t.sent_loss : ℚ)
  · rw [if_pos ha]
    have hx : 0 ≤ rnd (rnd (rnd (t.sent_loss : ℚ) - 50 / 2) / (50 / 2)) := by
      apply hnn
      apply div_nonneg
      · apply hnn
        linarith
      · norm_num
    rw [max_eq_right hx]
    by_cases hb : rnd (1 - rnd (rnd (rnd (t.sent_loss : ℚ) - 50 / 2) / (50 / 2))) ≤ rnd (1 / 5)
    · rw [if_pos hb, max_eq_left hb]
    · rw [if_neg hb, max_eq_right (le_of_lt (not_le.1 hb))]
  · rw [if_neg ha]
    have hx : rnd (rnd (rnd (t.sent_loss : ℚ) - 50 / 2) / (50 / 2)) ≤ 0 := by
      apply hnp
      apply div_nonpos_of_nonpos_of_nonneg
      · apply hnp
        linarith
      · norm_num
    rw [max_eq_left hx, sub_zero, h1, max_eq_right h5]

theorem recalc_alloc_fl_cons_max (rnd : ℚ → ℚ) (fm : Nat) (t : sched_tunnel_t)
    (rest : List sched_tunnel_t) (n a : ℚ) (hact : recalc_active_fl rnd fm t = true)
    (hq : t.quota = 0)
    (hlt : rnd (rnd (t.bandwidth_max : ℚ) * (loss_part_fl rnd t).1) < rnd (n - a))
    (hnn : 0 ≤ rnd (rnd (t.bandwidth_max : ℚ) * (loss_part_fl rnd t).1)) :
    recalc_alloc_fl rnd fm (t :: rest) n a
      = { t with srtt_reductions := (loss_part_fl rnd t).2,
                 weight := rnd (rnd (t.bandwidth_max : ℚ) * (loss_part_fl rnd t).1) }
        :: recalc_alloc_fl rnd fm rest
            (rnd (n + rnd (rnd (t.bandwidth_max : ℚ) * rnd (1 - (loss_part_fl rnd t).1))))
            (rnd (a + rnd (rnd (t.bandwidth_max : ℚ) * (loss_part_fl rnd t).1))) := by
  rw [recalc_alloc_fl, if_pos hact]
  simp only []
  rw [if_pos (lt_of_le_of_lt hnn hlt), if_neg (by simp [hq]), if_pos hlt]

theorem recalc_weight_fl_at (rnd : ℚ → ℚ) (hnn : ∀ x, 0 ≤ x → 0 ≤ rnd x) (mtu : Nat)
    (half_timeout bandwidth : ℚ) (st : ubond_status_s) (send_len : Nat)
    (before after : List sched_tunnel_t) (t : sched_tunnel_t)
    (hst : t.status = UBOND_AUTHOK) (hfm : st.fallback_mode = t.fallback_only)
    (hq : t.quota = 0)
    (hbw : rnd (rnd (t.bandwidth_max : ℚ) * (loss_part_fl rnd t).1)
      < recalc_unallocated_fl rnd bandwidth st send_len before (before ++ t :: after)) :
    ∃ r, (ubond_rtun_recalc_weight_fl rnd mtu half_timeout bandwidth st send_len
          (before ++ t :: after)).get? before.length = some r
      ∧ r.weight = rnd (rnd (t.bandwidth_max : ℚ) * (loss_part_fl rnd t).1)
      ∧ r.bytes_per_sec
          = (if 0 < r.weight then rnd (r.weight * 128) else ((mtu * 2 : Nat) : ℚ))
      ∧ r.srtt_reductions = (loss_part_fl rnd t).2 := by
  unfold ubond_rtun_recalc_weight_fl
  simp only []
  generalize recalc_bw0_fl rnd bandwidth = bw0
  rw [List.map_append, List.map_cons, recalc_alloc_fl_append, recalc_locals_fl_reset]
  unfold recalc_unallocated_fl at hbw
  generalize recalc_locals_fl rnd st.fallback_mode before
    (recalc_demand_fl rnd bandwidth st send_len (before ++ t :: after), 0) = loc at hbw
  have hact : recalc_active_fl rnd st.fallback_mode (recalc_reset_fl rnd st.fallback_mode bw0 t)
      = true := by
    rw [recalc_active_fl_reset]
    exact recalc_active_fl_of rnd _ t hst hfm hq
  have hpart := loss_part_fl_reset rnd st.fallback_mode bw0 t
  have hbm := (recalc_reset_fl_fields rnd st.fallback_mode bw0 t).1
  have hqr := (recalc_reset_fl_fields rnd st.fallback_mode bw0 t).2
  have hpos : 0 ≤ rnd (rnd (t.bandwidth_max : ℚ) * (loss_part_fl rnd t).1) :=
    hnn _ (mul_nonneg (hnn _ (Nat.cast_nonneg _)) (loss_part_fl_nonneg rnd hnn t))
  rw [recalc_alloc_fl_cons_max rnd _ _ _ _ _ hact (by rw [hqr]; exact hq)
    (by rw [hbm, hpart]; exact hbw) (by rw [hbm, hpart]; exact hpos)]
  rw [List.map_append, List.map_cons]
  have hlen : (List.map (recalc_rate_fl rnd mtu half_timeout)
      (recalc_alloc_fl rnd st.fallback_mode
        (List.map (recalc_reset_fl rnd st.fallback_mode bw0) before)
        (recalc_demand_fl rnd bandwidth st send_len (before ++ t :: after)) 0)).length
      = before.length := by
    rw [List.length_map, recalc_alloc_fl_length, List.length_map]
  rw [List.get?_eq_getElem?, List.getElem?_append_right (by rw [hlen]), hlen, Nat.sub_self,
    List.getElem?_cons_zero]
  refine ⟨_, rfl, ?_, ?_, ?_⟩
  · unfold recalc_rate_fl
    rw [hbm, hpart]
    split_ifs <;> rfl
  · unfold recalc_rate_fl
    rw [hbm, hpart]
    simp only []
    split_ifs with hw
    · simp only [hw, if_true]
    · simp only [hw, if_false]
  · unfold recalc_rate_fl
    rw [hpart]
    split_ifs <;> rfl

theorem recalc_total_fl_exact (fm : Nat) (L : List sched_tunnel_t) :
    ∀ total, recalc_total_fl id fm L total = total + recalc_total fm L := by
  induction L with
  | nil => intro total; simp [recalc_total_fl, recalc_total]
  | cons t rest ih =>
    intro total
    have ha : recalc_active_fl id fm t = recalc_active fm t := by
      unfold recalc_active_fl recalc_active recalc_quota_ok_fl recalc_quota_ok
      simp only [id, Nat.cast_mul, Nat.cast_ofNat]
    rw [recalc_total_fl, recalc_total, ih, ha]
    split_ifs
    · simp only [id]; ring
    · ring

theorem recalc_active_fl_exact (fm : Nat) (t : sched_tunnel_t) :
    recalc_active_fl id fm t = recalc_active fm t := by
  unfold recalc_active_fl recalc_active recalc_quota_ok_fl recalc_quota_ok
  simp only [id, Nat.cast_mul, Nat.cast_ofNat]

theorem loss_part_fl_exact (t : sched_tunnel_t) : loss_part_fl id t = loss_part t := by
  unfold loss_part_fl loss_part
  simp only [id]

theorem recalc_alloc_fl_exact (fm : Nat) (L : List sched_tunnel_t) :
    ∀ n a, recalc_alloc_fl id fm L n a = recalc_alloc fm L n a := by
  induction L with
  | nil => intro n a; rfl
  | cons t rest ih =>
    intro n a
    rw [recalc_alloc_fl, recalc_alloc, recalc_active_fl_exact, loss_part_fl_exact]
    simp only [id, ih]

/-- With the identity for the rounding, the functions that follow the code one
operation at a time are the functions in exact arithmetic. -/
theorem recalc_weight_fl_exact (mtu : Nat) (half_timeout bandwidth : ℚ) (st : ubond_status_s)
    (send_len : Nat) (rtuns : List sched_tunnel_t) :
    ubond_rtun_recalc_weight_fl id mtu half_timeout bandwidth st send_len rtuns
      = ubond_rtun_recalc_weight mtu half_timeout bandwidth st send_len rtuns := by
  have hr : recalc_reset_fl id st.fallback_mode (recalc_bw0_fl id bandwidth)
      = recalc_reset st.fallback_mode (if bandwidth * 2 < 1000 then 1000 else bandwidth * 2) := by
    funext t
    unfold recalc_reset_fl recalc_reset recalc_bw0_fl
    rw [recalc_active_fl_exact]
    simp only [id]
  have hd : recalc_demand_fl id bandwidth st send_len rtuns
      = recalc_demand bandwidth st send_len rtuns := by
    unfold recalc_demand_fl recalc_demand recalc_bw0_fl
    simp only [id, recalc_total_fl_exact, zero_add]
  have hrate : recalc_rate_fl id mtu half_timeout = recalc_rate mtu half_timeout := by
    funext t
    unfold recalc_rate_fl recalc_rate
    simp only [id]
  unfold ubond_rtun_recalc_weight_fl ubond_rtun_recalc_weight
  simp only []
  rw [hr, hd, hrate, recalc_alloc_fl_exact]

/-- The two readings of `ubond_rtun_recalc_weight` differ at a tie. One tunnel with
`bandwidth_max = 1251` and a reported loss of 26, the global `bandwidth` being
the `double` nearest to 600.48. In exact arithmetic `bandwidth_max * part =
1200.96` is below the demand `bandwidth * 2`, and the tunnel gets the weight
1200.96. On the machine the product and the demand round to the same `double`,
the test `bandwidth_max * part < bw` fails, and the tunnel gets `bw * part`,
the `double` nearest to 1152.9216. -/
theorem recalc_weight_rounding :
    (ubond_rtun_recalc_weight 1500 5 bandwidth_rounding status_normal 0
        [sched_tunnel_rounding]).map (fun r => r.weight) = [30024 / 25]
    ∧ (ubond_rtun_recalc_weight_fl to_double 1500 5 bandwidth_rounding status_normal 0
        [sched_tunnel_rounding]).map (fun r => r.weight)
      = [5070602820456441 / 4398046511104]
    ∧ to_double (to_double ((1251 : Nat) : ℚ) * spec_part_fl to_double 26)
        = to_double (bandwidth_rounding * 2) := by
  decide!

theorem spec_part_fl_ge (sent_loss : Nat) : (1 : ℚ) / 8 ≤ spec_part_fl to_double sent_loss := by
  unfold spec_part_fl
  refine le_trans ?_ (le_max_left _ _)
  rw [to_double_fifth]
  norm_num

/-- The weight `bandwidth_max * part` on the machine is positive exactly when
`bandwidth_max` is. -/
theorem weight_pos_iff (bm sent_loss : Nat) :
    0 < to_double (to_double (bm : ℚ) * spec_part_fl to_double sent_loss) ↔ 0 < bm := by
  constructor
  · intro h
    by_contra h0
    have hz : bm = 0 := by omega
    rw [hz, Nat.cast_zero, to_double_zero, zero_mul, to_double_zero] at h
    exact absurd h (lt_irrefl _)
  · intro h
    have h1 : (1 : ℚ) ≤ to_double (bm : ℚ) := by
      have := to_double_lower (bm : ℚ) 0 (by norm_num) (by
        rw [zpow_zero]
        exact_mod_cast h)
      rwa [zpow_zero] at this
    have h2 := spec_part_fl_ge sent_loss
    have h3 : (2 : ℚ) ^ (-3 : ℤ) ≤ to_double (bm : ℚ) * spec_part_fl to_double sent_loss := by
      have e : (2 : ℚ) ^ (-3 : ℤ) = 1 * (1 / 8) := by norm_num
      rw [e]
      exact mul_le_mul h1 h2 (by norm_num) (by linarith)
    exact lt_of_lt_of_le (zpow_two_pos _) (to_double_lower _ (-3) (by norm_num) h3)

/-- Claim C26, as the code has it, every operation being an operation on values
of type `double`. For a tunnel in state AUTHOK that matches the fallback mode,
has no quota and a round trip `srtt <= srtt_min * 2`, the factor `part` of
`ubond_rtun_recalc_weight` is the loss factor of the specification, floored at
0.2. When the product `bandwidth_max * part` is below the demand still
unallocated at the tunnel's turn (the local `bw`), the tunnel gets
`weight = bandwidth_max * part`, which is positive exactly when
`bandwidth_max` is; its `bytes_per_sec` is then `weight * 128` (a product that
needs no rounding) if `bandwidth_max` is positive, and `DEFAULT_MTU * 2` if
`bandwidth_max`, hence the weight, is 0. -/
theorem C26_weight_of_loss (mtu : Nat) (half_timeout bandwidth : ℚ) (st : ubond_status_s)
    (send_len : Nat) (before after : List sched_tunnel_t) (t : sched_tunnel_t)
    (hst : t.status = UBOND_AUTHOK) (hfm : st.fallback_mode = t.fallback_only)
    (hq : t.quota = 0) (hsrtt : t.srtt ≤ to_double (t.srtt_min * 2))
    (hbw : to_double (to_double (t.bandwidth_max : ℚ) * spec_part_fl to_double t.sent_loss)
      < recalc_unallocated_fl to_double bandwidth st send_len before (before ++ t :: after)) :
    (loss_part_fl to_double t).1 = spec_part_fl to_double t.sent_loss
    ∧ ∃ r, (ubond_rtun_recalc_weight_fl to_double mtu half_timeout bandwidth st send_len
          (before ++ t :: after)).get? before.length = some r
      ∧ r.weight
          = to_double (to_double (t.bandwidth_max : ℚ) * spec_part_fl to_double t.sent_loss)
      ∧ (0 < r.weight ↔ 0 < t.bandwidth_max)
      ∧ r.bytes_per_sec
          = (if 0 < t.bandwidth_max then r.weight * 128 else ((mtu * 2 : Nat) : ℚ)) := by
  have hp := loss_part_fl_spec to_double to_double_nonneg to_double_nonpos to_double_one
    to_double_fifth_le t hsrtt
  refine ⟨hp, ?_⟩
  obtain ⟨r, h1, h2, h3, _⟩ := recalc_weight_fl_at to_double to_double_nonneg mtu half_timeout
    bandwidth st send_len before after t hst hfm hq (by rw [hp]; exact hbw)
  rw [hp] at h2
  have hw : 0 < r.weight ↔ 0 < t.bandwidth_max := by
    rw [h2]
    exact weight_pos_iff _ _
  refine ⟨r, h1, h2, hw, ?_⟩
  rw [h3]
  by_cases hb : 0 < t.bandwidth_max
  · rw [if_pos (hw.2 hb), if_pos hb, h2]
    have := to_double_mul_pow
      (to_double (t.bandwidth_max : ℚ) * spec_part_fl to_double t.sent_loss) 7
    norm_num at this ⊢
    exact this
  · rw [if_neg (fun h => hb (hw.1 h)), if_neg hb]

/-- Witness for claim C26: the tunnel `sched_tunnel_rounding`
(`bandwidth_max = 1251`, reported loss 26) comes second in the list, after
`sched_tunnel_example` (`bandwidth_max = 1000`, no loss), with the global
`bandwidth` at 1500. The first tunnel takes 1000 of the demand of 3000; the
product `1251 * part` is the `double` nearest to 1200.96 and is below the 2000
that are left. -/
theorem C26_weight_of_loss_witness :
    to_double (to_double ((1251 : Nat) : ℚ) * spec_part_fl to_double 26)
        = 1320469484493865 / 1099511627776
    ∧ recalc_unallocated_fl to_double 1500 status_normal 0 [sched_tunnel_example]
        ([sched_tunnel_example] ++ sched_tunnel_rounding :: []) = 2000
    ∧ ((loss_part_fl to_double sched_tunnel_rounding).1
        = spec_part_fl to_double sched_tunnel_rounding.sent_loss
      ∧ ∃ r, (ubond_rtun_recalc_weight_fl to_double 1500 5 1500 status_normal 0
            ([sched_tunnel_example] ++ sched_tunnel_rounding :: [])).get?
              [sched_tunnel_example].length = some r
        ∧ r.weight
            = to_double (to_double (sched_tunnel_rounding.bandwidth_max : ℚ)
                * spec_part_fl to_double sched_tunnel_rounding.sent_loss)
        ∧ (0 < r.weight ↔ 0 < sched_tunnel_rounding.bandwidth_max)
        ∧ r.bytes_per_sec
            = (if 0 < sched_tunnel_rounding.bandwidth_max then r.weight * 128
               else ((1500 * 2 : Nat) : ℚ))) :=
  ⟨by decide!, by decide!,
   C26_weight_of_loss 1500 5 1500 status_normal 0 [sched_tunnel_example] []
     sched_tunnel_rounding rfl rfl rfl (by decide!) (by decide!)⟩

/-- Claim C26 fails as stated: the tunnel `sched_tunnel_zero` is eligible
(AUTHOK, normal mode, no quota, `srtt <= srtt_min * 2`) and
`bandwidth_max * part = 0` is below the demand of 1000, so it gets
`weight = bandwidth_max * part = 0`; its `bytes_per_sec` is then
`DEFAULT_MTU * 2` (3000 for an MTU of 1500), not `weight * 128 = 0`. -/
theorem C26_counterexample :
    sched_tunnel_zero.status = UBOND_AUTHOK
    ∧ status_normal.fallback_mode = sched_tunnel_zero.fallback_only
    ∧ sched_tunnel_zero.quota = 0
    ∧ sched_tunnel_zero.srtt ≤ to_double (sched_tunnel_zero.srtt_min * 2)
    ∧ to_double (to_double (sched_tunnel_zero.bandwidth_max : ℚ)
          * (loss_part_fl to_double sched_tunnel_zero).1)
        < recalc_unallocated_fl to_double 0 status_normal 0 [] [sched_tunnel_zero]
    ∧ (ubond_rtun_recalc_weight_fl to_double 1500 5 0 status_normal 0 [sched_tunnel_zero]).map
        (fun r => (r.weight, r.bytes_per_sec, to_double (r.weight * 128))) = [(0, 3000, 0)] := by
  decide!

end Ubond
